import Mathlib

/-! Customisation framework: a shallow embedding.

The C++ sources embedded here are `src/src/io.cpp`, `src/src/component.cpp`,
`src/src/entity.cpp`, `src/src/parameter.tpl.hpp`, `src/src/translator.tpl.hpp`,
`src/src/checker.tpl.hpp`, `src/src/storage.tpl.hpp` and the headers
`traits.hpp` and `error.hpp`.

Conventions of the embedding.

* `std::string` is a list of characters (`Str`).
* An `Error &error` out-parameter is an `Error` argument threaded through the
  function and returned next to its result.
* The build modelled is the release build (`NDEBUG`): `ASSERT`, `LOGD` and
  `LOGD_IF_NOT` expand to `((void)0)` in `log.hpp`, so they have no effect.
* The `int` counters `min` and `max` of the tokenizer are unbounded integers:
  they decrease by one per token, so they stay in range on every line shorter
  than `2^31` characters.
* A `Trait` is the natural number of its 32-bit pattern, with the bitwise
  operations of `Nat`; the complement is the exclusive or with `0xFFFFFFFF`.
* The objects reachable from an entity form a tree (`Node`), because a component
  is bound to one owner at most; references into the tree are lists of positions.
* The hooks `setup()` and `terminate()` are user code: a hook is embedded by the
  error it returns and by the event it leaves in the trace of the lifecycle call.
* The checkers `Bounded` and `Saturating` are embedded over the comparisons of
  their value type alone. An integer type brings a linear order; `float` and
  `double` bring the comparisons of `FloatingPoint`, where not-a-number compares
  false with everything.
-/

namespace Customisation

/-- The type of `std::string` values. -/
abbrev Str := List Char

/-- Customisation error codes (`error.hpp`). -/
inductive Error where
  | NONE
  | TYPE_MISMATCH
  | INVALID_REQUEST
  | INVALID_VALUE
  | INVALID_RANGE
  | NOT_EXISTING
  | UNDEFINED
  | UNKNOWN
  deriving DecidableEq, Repr, Inhabited

/-- The double quote character. -/
abbrev DQUOTE : Char := Char.ofNat 34

/-- The single quote character. -/
abbrev SQUOTE : Char := Char.ofNat 39

/-- The backslash character. -/
abbrev BACKSLASH : Char := Char.ofNat 92

/-- The horizontal tabulation character. -/
abbrev TAB : Char := Char.ofNat 9

/-- The line feed character. -/
abbrev NEWLINE : Char := Char.ofNat 10

/-! ## Tokenizer and composer (`io.cpp`, the C++ namespace `Customisation::IO`) -/

namespace Io

/-- The test `(c == ' ') || (c == '\t')` of `io.cpp`. -/
def blank (c : Char) : Bool := c = ' ' ∨ c = TAB

/-- The loop `while (!token.empty() && (token.back() == ' ' || token.back() == '\t'))
token.pop_back();` of `io.cpp`. -/
def rstrip (token : Str) : Str := token.rdropWhile blank

/-- The loop `while (pos < end && (line[pos] == ' ' || line[pos] == '\t')) ++pos;`
followed by `line.substr(pos, end-pos)`, on the text from `pos` to `end`. -/
def lstrip (rest : Str) : Str := rest.dropWhile blank

/-- The local variables of the tokenizer loop in the static `parse` of
`io.cpp`. -/
structure Scan where
  token : Str := []
  token_started : Bool := false
  inside_quotes : Bool := false
  inside_squotes : Bool := false
  had_backslash : Bool := false
  deriving DecidableEq, Repr

/-- The branch `if (max == 1)` of the static `parse`: the rest of the line,
trimmed on both sides, becomes the last token. -/
def collapse (tokens : List Str) (rest : Str) : Error × List Str :=
  let token := rstrip (lstrip rest)
  if token ≠ [] then (Error.NONE, tokens ++ [token]) else (Error.NONE, tokens)

/-- The code that follows the `for` loop of the static `parse`. -/
def finish (tokens : List Str) (min : Int) (s : Scan) : Error × List Str :=
  if s.inside_quotes ∨ s.inside_squotes ∨ (min > 1 ∧ tokens ≠ []) then
    (Error.INVALID_VALUE, tokens)
  else if s.token_started then
    let token := rstrip s.token
    if token ≠ [] then (Error.NONE, tokens ++ [token]) else (Error.NONE, tokens)
  else (Error.NONE, tokens)

/-- The four structural one-character tokens `, ( = )`. -/
def separator (c : Char) : Bool := c = ',' ∨ c = '(' ∨ c = '=' ∨ c = ')'

/-- The `for` loop of the static `parse` of `io.cpp`, on the text from index `i`
to `end`, with the local variables in `s`.

The loop leaves through `return parse(line, tokens, min-1, max-1, j, end)`, which
starts again with fresh local variables. Where the source re-enters at `i+1`
the recursion is on the tail. Where it re-enters at `i` itself (a separator
that closes a started token) the first step of the re-entered call is written
out: it either is the `max == 1` branch, or it meets the separator with no
token started, emits it and re-enters at `i+1` with `min-2` and `max-2`.
`scan_separator_started` states that this is the call of the source. -/
def scan (tokens : List Str) (min max : Int) (s : Scan) : Str → Error × List Str
  | [] => finish tokens min s
  | c :: rest =>
    if s.had_backslash then
      scan tokens min max { s with had_backslash := false, token := s.token ++ [c] } rest
    else if s.inside_quotes ∨ s.inside_squotes then
      let q := if c = DQUOTE ∧ s.inside_quotes then false else s.inside_quotes
      let sq := if c = SQUOTE ∧ s.inside_squotes then false else s.inside_squotes
      if c = BACKSLASH then
        scan tokens min max
          { s with inside_quotes := q, inside_squotes := sq, had_backslash := true } rest
      else
        scan tokens min max
          { s with inside_quotes := q, inside_squotes := sq, had_backslash := false,
                   token := s.token ++ [c] } rest
    else if separator c then
      if s.token_started then
        if max - 1 = 1 then collapse (tokens ++ [s.token]) (c :: rest)
        else if max - 2 = 1 then collapse (tokens ++ [s.token] ++ [[c]]) rest
        else scan (tokens ++ [s.token] ++ [[c]]) (min - 2) (max - 2) {} rest
      else
        if max - 1 = 1 then collapse (tokens ++ [s.token ++ [c]]) rest
        else scan (tokens ++ [s.token ++ [c]]) (min - 1) (max - 1) {} rest
    else if blank c then
      if s.token_started then
        if max - 1 = 1 then collapse (tokens ++ [s.token]) rest
        else scan (tokens ++ [s.token]) (min - 1) (max - 1) {} rest
      else scan tokens min max s rest
    else if c = '#' then finish tokens min s
    else if c = BACKSLASH then
      scan tokens min max { s with had_backslash := true, token_started := true } rest
    else if c = SQUOTE ∨ c = DQUOTE then
      scan tokens min max
        { s with inside_squotes := c = SQUOTE, inside_quotes := c = DQUOTE,
                 token_started := true, token := s.token ++ [c] } rest
    else
      scan tokens min max { s with token_started := true, token := s.token ++ [c] } rest

/-- The static `parse(line, tokens, min, max, pos, end)` of `io.cpp`, on the text
`rest` from `pos` to `end`. It returns the error and the token list. -/
def parseFrom (tokens : List Str) (min max : Int) (rest : Str) : Error × List Str :=
  if max = 1 then collapse tokens rest else scan tokens min max {} rest

/-- The `parse(line, tokens, min, max)` of `io.cpp`. -/
def parse (line : Str) (tokens : List Str) (min max : Int) : Error × List Str :=
  parseFrom tokens min max line

/-- The `parse(line, tokens, max)` of `io.cpp`. -/
def parseMax (line : Str) (tokens : List Str) (max : Int) : Error × List Str :=
  parse line tokens (-1) max

/-- The `parse(line, tokens)` of `io.cpp`. -/
def parseAll (line : Str) (tokens : List Str) : Error × List Str :=
  parseMax line tokens (-1)

end Io

/-! ## Value policies (`translator.tpl.hpp`, `checker.tpl.hpp`, `storage.tpl.hpp`) -/

/-- The interface of a Translator policy for the value type `t`. -/
structure TranslatorPolicy (t : Type) where
  /-- The overload `from_str(std::list<std::string> &tokens, Error &error)`. -/
  from_str_tokens : List Str → Error → t × Error
  /-- The overload `from_str(std::string &token, Error &error)`. -/
  from_str : Str → Error → t × Error
  /-- The method `to_str(const T &val)`. -/
  to_str : t → Str

/-- The interface of a Checker policy for the value type `t`. -/
structure CheckerPolicy (t : Type) where
  /-- The method `check(T val, Error &error)`. -/
  check : t → Error → t × Error

/-- The interface of a Storage policy with the data members `σ` for the value
type `t`. -/
structure StoragePolicy (σ t : Type) where
  /-- The method `store_value(T val)`. -/
  store_value : σ → t → Error × σ
  /-- The method `retrieve_value()`. -/
  retrieve_value : σ → t

namespace Translator

/-- The helper `too_many_tokens_in` of `translator.tpl.hpp`. -/
def too_many_tokens_in (_tokens : List Str) : Error := Error.INVALID_VALUE

/-- The helper `too_few_tokens` of `translator.tpl.hpp`. -/
def too_few_tokens : Error := Error.INVALID_VALUE

/-- The difference `a - b` of two `size_t` values (64 bits, both below `2^64`):
it wraps around when `a < b`. -/
def size_t_sub (a b : Nat) : Nat := if b ≤ a then a - b else a + 2 ^ 64 - b

/-- The call `s.substr(pos, count)` for `pos <= s.size()`. -/
def substr (s : Str) (pos count : Nat) : Str := (s.drop pos).take count

/-- The test `std::isspace(c)` in the C locale: space, `\t`, `\n`, `\v`, `\f`
and `\r`. -/
def isspace (c : Char) : Bool := c = ' ' ∨ (9 ≤ c.toNat ∧ c.toNat ≤ 13)

namespace DirectString

/-- The method `Direct<T, when_string(T)>::from_str(std::list<std::string> &, Error &)`. -/
def from_str_tokens (tokens : List Str) (_error : Error) : Str × Error :=
  ([], too_many_tokens_in tokens)

/-- The method `Direct<T, when_string(T)>::from_str(std::string &token, Error &error)`.

The condition `(f != '"') || (f != '\'')` of the source holds for every
character. `front()` and `back()` of an
empty string are undefined in C++: the branch for the empty token reads them as
the terminating null character, as `operator[]` does, and `substr(1, ...)` is then
out of range, which is rendered as the empty result. -/
def from_str (token : Str) (error : Error) : Str × Error :=
  let f := token.head?.getD (Char.ofNat 0)
  let b := token.getLast?.getD (Char.ofNat 0)
  if f = b ∧ (f ≠ DQUOTE ∨ f ≠ SQUOTE) then
    (substr token 1 (size_t_sub token.length 2), error)
  else if token.any isspace then ([], Error.INVALID_VALUE)
  else (token, error)

/-- The body of the loop of `to_str`: a backslash goes before each double quote
and each backslash. -/
def escape : Str → Str
  | [] => []
  | c :: cs => if c = DQUOTE ∨ c = BACKSLASH then BACKSLASH :: c :: escape cs
               else c :: escape cs

/-- The method `Direct<T, when_string(T)>::to_str(const T &val)`. -/
def to_str (val : Str) : Str := [DQUOTE] ++ escape val ++ [DQUOTE]

end DirectString

/-- The translator `Direct<std::string>`. -/
def DirectStr : TranslatorPolicy Str where
  from_str_tokens := DirectString.from_str_tokens
  from_str := DirectString.from_str
  to_str := DirectString.to_str

end Translator

namespace Checker

/-- The method `None<T, Default>::check(T val, Error &)`. -/
def None.check {t : Type} (val : t) (error : Error) : t × Error := (val, error)

/-- The checker `None<T>`. -/
def NoneChecker (t : Type) : CheckerPolicy t where
  check := None.check

end Checker

namespace Storage

/-- The data member `_current_value` of `Immediate<T>`. -/
structure Immediate (t : Type) where
  _current_value : t
  deriving DecidableEq, Repr

/-- The method `Immediate<T, Default>::store_value(T val)`. -/
def Immediate.store_value {t : Type} (_self : Immediate t) (val : t) :
    Error × Immediate t :=
  (Error.NONE, { _current_value := val })

/-- The method `Immediate<T, Default>::retrieve_value()`. -/
def Immediate.retrieve_value {t : Type} (self : Immediate t) : t := self._current_value

/-- The storage `Immediate<T>`. -/
def ImmediateStorage (t : Type) : StoragePolicy (Immediate t) t where
  store_value := Immediate.store_value
  retrieve_value := Immediate.retrieve_value

end Storage

/-! ## Parameter (`parameter.tpl.hpp`) -/

namespace Parameter

variable {σ t : Type}

/-- The method `Parameter<T, C, S, t>::string_to_value(const std::string &val)`:
tokenize, translate, check, store. -/
def string_to_value (T : TranslatorPolicy t) (C : CheckerPolicy t)
    (S : StoragePolicy σ t) (self : σ) (val : Str) : Error × σ :=
  let parsed := Io.parseAll val []
  if parsed.1 ≠ Error.NONE then (parsed.1, self)
  else
    let tokens := parsed.2
    let translated :=
      match tokens with
      | [token] => T.from_str token Error.NONE
      | _ => T.from_str_tokens tokens Error.NONE
    if translated.2 ≠ Error.NONE then (translated.2, self)
    else
      let checked := C.check translated.1 translated.2
      if checked.2 ≠ Error.NONE then (checked.2, self)
      else S.store_value self checked.1

/-- The method `Parameter<T, C, S, t>::value_to_string()`. -/
def value_to_string (T : TranslatorPolicy t) (S : StoragePolicy σ t) (self : σ) : Str :=
  T.to_str (S.retrieve_value self)

/-- The method `Parameter<T, C, S, t>::operator = (Type val)`. -/
def assign (C : CheckerPolicy t) (S : StoragePolicy σ t) (self : σ) (val : t) : σ :=
  let checked := C.check val Error.NONE
  if checked.2 = Error.NONE then (S.store_value self checked.1).2 else self

end Parameter

/-! ## Traits (`traits.hpp`) -/

/-- The enumeration `Trait` over `uint32_t`: a trait is the number of its bit
pattern. -/
abbrev Trait := Nat

namespace Trait

/-- The value `Trait::NONE`. -/
def NONE : Trait := 0x00000000

/-- The value `Trait::CONFIGURABLE`. -/
def CONFIGURABLE : Trait := 0x00000001

/-- The value `Trait::SETTABLE`. -/
def SETTABLE : Trait := 0x00000003

/-- The value `Trait::LOCKED`. -/
def LOCKED : Trait := 0x10000000

/-- The value `Trait::ENTITY`. -/
def ENTITY : Trait := 0x40000000

/-- The value `Trait::UNDEFINED`. -/
def UNDEFINED : Trait := 0x80000000

/-- The operator `~` of `traits.hpp`: the complement of a 32-bit pattern. -/
def not (t : Trait) : Trait := t ^^^ 0xFFFFFFFF

end Trait

/-! ## Component (`component.cpp`) -/

/-- The data members of a `Component`, with `addr` for the address of the object
(the value of `this`), which is what `_owner` and the comparisons with
`&Component::INVALID` refer to. -/
structure Component where
  addr : Nat
  _name : Str
  _description : Str
  _type : Str
  _traits : Trait
  _mask : Trait
  _owner : Option Nat
  deriving DecidableEq, Repr

/-- The three virtual methods of `Component`, for a derived class whose own data
members are `σ`. -/
structure Virtuals (σ : Type) where
  /-- The method `value_to_string()`. -/
  value_to_string : σ → Str
  /-- The method `values_to_string()`. -/
  values_to_string : σ → Str
  /-- The method `string_to_value(const std::string &val)`. -/
  string_to_value : σ → Str → Error × σ

namespace Component

/-- The string `invalid` of `component.cpp`. -/
def invalid : Str := "Invalid".toList

/-- The constructor `Component::Component(type, base, mask)` for the object at
`addr`. -/
def new (addr : Nat) (type : Str) (base mask : Trait) : Component :=
  { addr := addr, _name := [], _description := [], _type := type,
    _traits := Trait.UNDEFINED ||| base,
    _mask := mask &&& Trait.not Trait.UNDEFINED,
    _owner := none }

/-- The address of the sentinel `Component::INVALID`. -/
def INVALID_ADDR : Nat := 0

/-- The sentinel `Component::INVALID`. -/
def INVALID : Component := new INVALID_ADDR invalid Trait.NONE Trait.NONE

/-- The virtual methods of the base class `Component`. -/
def baseVirtuals (σ : Type) : Virtuals σ where
  value_to_string := fun _ => invalid
  values_to_string := fun _ => invalid
  string_to_value := fun s _ => (Error.UNDEFINED, s)

/-- The method `Component::denominate(name)`. -/
def denominate (c : Component) (name : Str) : Component := { c with _name := name }

/-- The method `Component::describe(desc)`. -/
def describe (c : Component) (desc : Str) : Component := { c with _description := desc }

/-- The method `Component::characterise(traits)`. -/
def characterise (c : Component) (traits : Trait) : Component :=
  { c with _traits :=
      (c._traits &&& Trait.not (c._mask ||| Trait.UNDEFINED)) ||| (traits &&& c._mask) }

/-- The method `Component::bind(owner)`, with the address of the owner. -/
def bind (c : Component) (owner : Nat) : Component := { c with _owner := some owner }

/-- The method `Component::lock()`. -/
def lock (c : Component) : Component := { c with _traits := c._traits ||| Trait.LOCKED }

/-- The method `Component::unlock()`. -/
def unlock (c : Component) : Component :=
  { c with _traits := c._traits &&& Trait.not Trait.LOCKED }

/-- The method `Component::locked()`. -/
def locked (c : Component) : Bool := c._traits &&& Trait.LOCKED = Trait.LOCKED

/-- The method `Component::unlocked()`. -/
def unlocked (c : Component) : Bool := c._traits &&& Trait.LOCKED = Trait.NONE

variable {σ : Type}

/-- The method `Component::set(val)` on an object whose derived part is `s`. -/
def set (V : Virtuals σ) (c : Component) (s : σ) (val : Str) : Error × σ :=
  if c._traits &&& (Trait.UNDEFINED ||| Trait.SETTABLE) = Trait.SETTABLE then
    V.string_to_value s val
  else (Error.INVALID_REQUEST, s)

/-- The method `Component::configure(val)` on an object whose derived part is
`s`. -/
def configure (V : Virtuals σ) (c : Component) (s : σ) (val : Str) : Error × σ :=
  if c._traits &&& (Trait.UNDEFINED ||| Trait.CONFIGURABLE ||| Trait.LOCKED)
      = Trait.CONFIGURABLE then
    V.string_to_value s val
  else (Error.INVALID_REQUEST, s)

/-- The method `Component::get(into)`: the error and the buffer `into` after the
call. -/
def get (V : Virtuals σ) (c : Component) (s : σ) (into : Str) : Error × Str :=
  if c._traits &&& Trait.UNDEFINED = Trait.NONE then
    (Error.NONE, into ++ V.value_to_string s)
  else (Error.INVALID_REQUEST, into)

/-- The method `Component::value()`. -/
def value (V : Virtuals σ) (c : Component) (s : σ) : Str :=
  if c._traits &&& Trait.UNDEFINED = Trait.NONE then V.value_to_string s else []

/-- The method `Component::values()`. -/
def values (V : Virtuals σ) (c : Component) (s : σ) : Str :=
  if c._traits &&& Trait.UNDEFINED = Trait.NONE then V.values_to_string s else []

/-- The calls that write `_traits` after construction. -/
inductive TraitOp where
  | characterise (traits : Trait)
  | lock
  | unlock
  deriving DecidableEq, Repr

/-- One call that writes `_traits`. -/
def applyOp (c : Component) : TraitOp → Component
  | TraitOp.characterise traits => c.characterise traits
  | TraitOp.lock => c.lock
  | TraitOp.unlock => c.unlock

/-- A sequence of calls that write `_traits`, first call first. -/
def applyOps (c : Component) (ops : List TraitOp) : Component := ops.foldl applyOp c

end Component

namespace Entity

/-- The string that `type_of<Entity>()` returns (`types.cpp`). -/
def type : Str := "Entity".toList

/-- The base-class part built by the constructor `Entity::Entity(kind)`:
`Component(type_of<Entity>(), Trait::ENTITY, Trait::NONE)` followed by
`characterise(Trait::NONE)`. -/
def newComponent (addr : Nat) : Component :=
  (Component.new addr type Trait.ENTITY Trait.NONE).characterise Trait.NONE

end Entity

namespace Parameter

/-- The base-class part built by the constructors `Parameter<T, C, S, t>::Parameter`:
`Component(type, Trait::NONE, ~Trait::ENTITY)`. -/
def newComponent (addr : Nat) (type : Str) : Component :=
  Component.new addr type Trait.NONE (Trait.not Trait.ENTITY)

/-- The virtual methods that `Parameter<T, C, S, t>` overrides. The method
`values_to_string` depends on the validity set of the checker and is supplied by
the instance. -/
def virtuals {σ t : Type} (T : TranslatorPolicy t) (C : CheckerPolicy t)
    (S : StoragePolicy σ t) (values_to_string : σ → Str) : Virtuals σ where
  value_to_string := value_to_string T S
  values_to_string := values_to_string
  string_to_value := string_to_value T C S

/-- The virtual methods of `PARAMETER(Direct, None, Immediate, std::string)`. Its
`values_to_string` is the signature `type_of<std::string>()`, the checker being of
kind `NONE`. -/
def directString : Virtuals (Storage.Immediate Str) :=
  virtuals Translator.DirectStr (Checker.NoneChecker Str) (Storage.ImmediateStorage Str)
    (fun _ => "string".toList)

end Parameter

/-! ## Entity (`entity.cpp`)

An `Entity` refers to its components by reference, and a component is bound to
at most one owner (`Component::bind`). The objects reachable from an entity are
embedded as a tree: a node holds its components by value in `_components`, in
the order of exposure, and `_map` associates a name with the position in
`_components` of the component it refers to. A reference to a component
reachable from an entity is the list of positions that leads to it. -/

/-- An object of the tree: a component that is not an `Entity` (a `Parameter`, or
a plain `Component`) with derived part `p`, or an `Entity` with its data
members. -/
inductive Node (P : Type) where
  | Parameter (base : Component) (p : P)
  | Entity (base : Component) (_enabled : Bool) (_components : List (Node P))
      (_map : List (Str × Nat)) (_kind : Str)

/-- The events that the lifecycle calls leave, in the order in which they
happen: `lock caller target` for a `lock()` of `target` executed in the body of
`initialise()` of `caller`, likewise `unlock`, and the calls of the hooks
`setup()` and `terminate()` of an entity. -/
inductive Event where
  | lock (caller target : Nat)
  | unlock (caller target : Nat)
  | setup (entity : Nat)
  | terminate (entity : Nat)
  deriving DecidableEq, Repr

/-- The hook `setup()` that a class derived from `Entity` overrides: it is user
code, embedded by the error it returns for the entity in its current state. The
base implementation returns `NONE`. -/
structure Hooks (P : Type) where
  setup : Node P → Error

namespace Entity

/-- The virtual methods that `Entity` overrides (all three `final`), on the data
member `_kind`. -/
def virtuals : Virtuals Str where
  value_to_string := fun kind => kind
  values_to_string := fun kind => kind
  string_to_value := fun kind _ => (Error.INVALID_REQUEST, kind)

/-- The call `_map.emplace(key, value)` on a `std::map`, kept in the order of its
keys: nothing changes when the key is present. -/
def emplace : List (Str × Nat) → Str → Nat → List (Str × Nat)
  | [], key, value => [(key, value)]
  | (k, v) :: rest, key, value =>
    if key < k then (key, value) :: (k, v) :: rest
    else if k = key then (k, v) :: rest
    else (k, v) :: emplace rest key value

/-- The call `_map.find(key)`: `none` is `_map.end()`. -/
def find (map : List (Str × Nat)) (key : Str) : Option Nat := map.lookup key

end Entity

namespace Node

variable {P : Type}

/-- The `Component` part of an object. -/
def base : Node P → Component
  | Parameter b _ => b
  | Entity b _ _ _ _ => b

/-- The method `Component::name()`. -/
def name (n : Node P) : Str := n.base._name

/-- The object is an `Entity` object. -/
def isEntityObject : Node P → Bool
  | Parameter _ _ => false
  | Entity _ _ _ _ _ => true

/-- The method `Component::entity()`: `true` when the result is not
`Entity::INVALID`. The source tests the traits and then casts `this` to
`Entity *`; the cast is defined only for an object that is an `Entity`, and a
`Parameter` never carries the ENTITY bit. -/
def entity (n : Node P) : Bool :=
  (n.base._traits &&& (Trait.UNDEFINED ||| Trait.ENTITY) = Trait.ENTITY) && n.isEntityObject

/-- The method `Entity::enabled()`. -/
def enabled : Node P → Bool
  | Parameter _ _ => false
  | Entity _ en _ _ _ => en

/-- The data member `_components`. -/
def components : Node P → List (Node P)
  | Parameter _ _ => []
  | Entity _ _ comps _ _ => comps

/-- The data member `_map`. -/
def map : Node P → List (Str × Nat)
  | Parameter _ _ => []
  | Entity _ _ _ m _ => m

/-- The object with another `Component` part. -/
def withBase : Node P → Component → Node P
  | Parameter _ p, b => Parameter b p
  | Entity _ en comps m kind, b => Entity b en comps m kind

/-- The method `Component::lock()` on an object. -/
def lock (n : Node P) : Node P := n.withBase n.base.lock

/-- The method `Component::unlock()` on an object. -/
def unlock (n : Node P) : Node P := n.withBase n.base.unlock

/-- The method `Component::bind(owner)` on an object. -/
def bind (n : Node P) (owner : Nat) : Node P := n.withBase (n.base.bind owner)

/-- The method `Component::characterise(traits)` on an object. -/
def characterise (n : Node P) (traits : Trait) : Node P :=
  n.withBase (n.base.characterise traits)

/-- The method `Component::set(val)` on an object: the virtual call goes to the
`Parameter` or to the `Entity`. -/
def set (V : Virtuals P) : Node P → Str → Error × Node P
  | Parameter b p, val =>
    let r := Component.set V b p val
    (r.1, Parameter b r.2)
  | Entity b en comps m kind, val =>
    let r := Component.set Entity.virtuals b kind val
    (r.1, Entity b en comps m r.2)

/-- The method `Component::configure(val)` on an object. -/
def configure (V : Virtuals P) : Node P → Str → Error × Node P
  | Parameter b p, val =>
    let r := Component.configure V b p val
    (r.1, Parameter b r.2)
  | Entity b en comps m kind, val =>
    let r := Component.configure Entity.virtuals b kind val
    (r.1, Entity b en comps m r.2)

/-- The method `Component::get(into)` on an object. -/
def get (V : Virtuals P) : Node P → Str → Error × Str
  | Parameter b p, into => Component.get V b p into
  | Entity b _ _ _ kind, into => Component.get Entity.virtuals b kind into

/-- The first text that `std::getline(spath, key, '.')` reads from `path`. -/
def firstKey (path : Str) : Str := path.takeWhile (fun c => c ≠ '.')

/-- The value of `spath.eof()` after `std::getline(spath, key, '.')`: the end of
the stream is reached when no dot was found. -/
def eof (path : Str) : Bool := (firstKey path).length = path.length

/-- The text that `std::getline(spath, key)` reads after the first key and its
dot: the rest of the path up to the first line feed. -/
def restKey (path : Str) : Str :=
  (path.drop ((firstKey path).length + 1)).takeWhile (fun c => c ≠ NEWLINE)

mutual
/-- The method `Entity::component(path)`: the reference to the component, or
`none` for `Component::INVALID`. It is a method of `Entity`: the source reaches
it through `entity()` only, so the equation for an object that is no `Entity` is
never used. -/
def component : Node P → Str → Option (List Nat)
  | Parameter _ _, _ => none
  | Entity _ _ comps m _, path =>
    if path = ['*'] then some []
    else
      match Entity.find m (firstKey path) with
      | none => none
      | some idx => componentAt comps idx idx (eof path) (restKey path)
/-- The part of `Entity::component` that follows `found != _map.end()`, for the
component `found->second` at position `k` of the list. -/
def componentAt : List (Node P) → Nat → Nat → Bool → Str → Option (List Nat)
  | [], _, _, _, _ => none
  | compo :: _, idx, 0, eof, key =>
    if eof then some [idx]
    else if ¬ compo.entity then none
    else (component compo key).map (fun r => idx :: r)
  | _ :: rest, idx, k + 1, eof, key => componentAt rest idx k eof key
end

/-- The method `Entity::has(path)`. -/
def has (e : Node P) (path : Str) : Bool := (e.component path).isSome

mutual
/-- The object that a reference designates. -/
def getAt : Node P → List Nat → Option (Node P)
  | n, [] => some n
  | Parameter _ _, _ :: _ => none
  | Entity _ _ comps _ _, i :: r => getAtList comps i r
/-- The object that a reference designates below position `i` of a list. -/
def getAtList : List (Node P) → Nat → List Nat → Option (Node P)
  | [], _, _ => none
  | n :: _, 0, r => getAt n r
  | _ :: rest, i + 1, r => getAtList rest i r
end

mutual
/-- The tree in which the object that a reference designates is replaced. -/
def setAt : Node P → List Nat → Node P → Node P
  | _, [], new => new
  | Parameter b p, _ :: _, _ => Parameter b p
  | Entity b en comps m kind, i :: r, new => Entity b en (setAtList comps i r new) m kind
/-- The list in which the object designated below position `i` is replaced. -/
def setAtList : List (Node P) → Nat → List Nat → Node P → List (Node P)
  | [], _, _, _ => []
  | n :: rest, 0, r, new => setAt n r new :: rest
  | n :: rest, i + 1, r, new => n :: setAtList rest i r new
end

/-- The method `Entity::set(path, val)`. -/
def setPath (V : Virtuals P) (e : Node P) (path val : Str) : Error × Node P :=
  match e.component path with
  | none => (Error.NOT_EXISTING, e)
  | some ref =>
    match e.getAt ref with
    | none => (Error.NOT_EXISTING, e)
    | some compo =>
      let r := compo.set V val
      (r.1, e.setAt ref r.2)

/-- The method `Entity::configure(path, val)`. -/
def configurePath (V : Virtuals P) (e : Node P) (path val : Str) : Error × Node P :=
  match e.component path with
  | none => (Error.NOT_EXISTING, e)
  | some ref =>
    match e.getAt ref with
    | none => (Error.NOT_EXISTING, e)
    | some compo =>
      let r := compo.configure V val
      (r.1, e.setAt ref r.2)

/-- The method `Entity::get(path, into)`. -/
def getPath (V : Virtuals P) (e : Node P) (path into : Str) : Error × Str :=
  match e.component path with
  | none => (Error.NOT_EXISTING, into)
  | some ref =>
    match e.getAt ref with
    | none => (Error.NOT_EXISTING, into)
    | some compo => compo.get V into

/-- The constructor `Entity::Entity(kind)` for the object at `addr`. -/
def newEntity (addr : Nat) (kind : Str) : Node P :=
  Entity (Customisation.Entity.newComponent addr) true [] [] kind

/-- The outcome of `Entity::expose(comp)`: the position in `_components` of the
component that the returned reference designates (`none` for
`Component::INVALID`), the entity after the call and the component after the
call. -/
structure Exposed (P : Type) where
  result : Option Nat
  entity : Node P
  comp : Node P

/-- The method `Entity::expose(comp)`, a protected method of `Entity`: the
equation for an object that is no `Entity` is never used. The component stored
in `_components` is the component after `bind`, since the entity holds a
reference to it. -/
def expose : Node P → Node P → Exposed P
  | Parameter b p, comp => { result := none, entity := Parameter b p, comp := comp }
  | Entity b en comps m kind, comp =>
    if comp.base.addr ≠ Component.INVALID_ADDR ∧ comp.name ≠ [] ∧
        Customisation.Entity.find m comp.name = none ∧ comp.base._owner = none then
      { result := some comps.length,
        entity := Entity b en (comps ++ [comp.bind b.addr])
          (Customisation.Entity.emplace m comp.name comps.length) kind,
        comp := comp.bind b.addr }
    else { result := none, entity := Entity b en comps m kind, comp := comp }

/-- A sequence of `expose` calls on the same entity, first call first. -/
def exposeAll (e : Node P) (comps : List (Node P)) : Node P :=
  comps.foldl (fun acc comp => (acc.expose comp).entity) e

/-- The events of the loop `for (auto & entry : _components) entry.get().lock();`
executed by the entity at `caller`. -/
def lockEvents (caller : Nat) (comps : List (Node P)) : List Event :=
  comps.map (fun n => Event.lock caller n.base.addr)

mutual
/-- The method `Entity::initialise()`: the error, the entity after the call and
the events of the call. The first loop calls it on the entries that pass the
test of `entity()`, so the equation for an object that is no `Entity` is never
used. -/
def initialise (H : Hooks P) : Node P → Error × Node P × List Event
  | Parameter b p => (Error.NONE, Parameter b p, [])
  | Entity b en comps m kind =>
    let r := initialiseEach H comps
    if r.1 ≠ Error.NONE then (r.1, Entity b en r.2.1 m kind, r.2.2)
    else
      let self := Entity b.lock en (r.2.1.map lock) m kind
      (H.setup self, self,
        r.2.2 ++ lockEvents b.addr r.2.1 ++ [Event.lock b.addr b.addr, Event.setup b.addr])
/-- The first loop of `Entity::initialise()` from one entry on: the first error
met (or `NONE`), the components after the loop and the events. -/
def initialiseEach (H : Hooks P) : List (Node P) → Error × List (Node P) × List Event
  | [] => (Error.NONE, [], [])
  | entry :: rest =>
    if entry.entity ∧ entry.enabled then
      let r := initialise H entry
      if r.1 ≠ Error.NONE then (r.1, r.2.1 :: rest, r.2.2)
      else
        let rs := initialiseEach H rest
        (rs.1, r.2.1 :: rs.2.1, r.2.2 ++ rs.2.2)
    else
      let rs := initialiseEach H rest
      (rs.1, entry :: rs.2.1, rs.2.2)
end

/-- What the first loop of `Entity::initialise()` does with one entry: an enabled
entity is initialised, any other entry is left alone. -/
def initialiseEntry (H : Hooks P) (entry : Node P) : Error × Node P × List Event :=
  if entry.entity ∧ entry.enabled then initialise H entry else (Error.NONE, entry, [])

/-- The first object of a list that has the given name, with its position
counted from `i`. -/
def childFrom : List (Node P) → Nat → Str → Option (Nat × Node P)
  | [], _, _ => none
  | n :: rest, i, name => if n.name = name then some (i, n) else childFrom rest (i + 1) name

/-- The component of the entity that has the given name (the first one in the
order of exposure), with its position in `_components`. -/
def child (e : Node P) (name : Str) : Option (Nat × Node P) :=
  childFrom e.components 0 name

/-- The child list and the name map of one entity agree: each entry of the map
designates a component of that name, each component is found under its name at
its own position, no component is anonymous, and the map holds each key once (it
is a `std::map`). -/
def agrees (e : Node P) : Bool :=
  e.map.all (fun kv => (e.components[kv.2]?).map name = some kv.1) &&
  (List.range e.components.length).all
    (fun i => (e.components[i]?).map (fun n => Customisation.Entity.find e.map n.name)
                = some (some i)) &&
  e.components.all (fun n => n.name ≠ []) &&
  decide (e.map.map Prod.fst).Nodup

mutual
/-- The tree is well formed: each `Entity` object carries the ENTITY bit and not
the UNDEFINED bit (its constructor sets the one and clears the other), no
`Parameter` carries the ENTITY bit, and the child list and the name map of each
entity agree. -/
def wellFormed : Node P → Bool
  | Parameter b _ => b._traits &&& Trait.ENTITY = Trait.NONE
  | Entity b en comps m kind =>
    (b._traits &&& (Trait.UNDEFINED ||| Trait.ENTITY) = Trait.ENTITY) &&
    (Entity b en comps m kind).agrees && wellFormedList comps
/-- Each object of the list is well formed. -/
def wellFormedList : List (Node P) → Bool
  | [] => true
  | n :: rest => wellFormed n && wellFormedList rest
end

end Node

/-! ## Entity lifecycle: `enable`, `disable`, `finalise` (`entity.cpp`) -/

namespace Node

variable {P : Type}

/-- The method `Entity::enable(bool yes)`; `Entity::enable()` is `enable true`. -/
def enable : Node P → Bool → Node P
  | Parameter b p, _ => Parameter b p
  | Entity b _ comps m kind, yes => Entity b yes comps m kind

/-- The method `Entity::disable(bool yes)`, which is `enable(!yes)`;
`Entity::disable()` is `enable false`. -/
def disable (n : Node P) (yes : Bool) : Node P := n.enable (!yes)

/-- The method `Entity::disabled()`. -/
def disabled (n : Node P) : Bool := !n.enabled

/-- The events of the loop `for (auto & entry : _components) entry.get().unlock();`
executed by the entity at `caller`. -/
def unlockEvents (caller : Nat) (comps : List (Node P)) : List Event :=
  comps.map (fun n => Event.unlock caller n.base.addr)

mutual
/-- The method `Entity::finalise()` on the object whose `Component` part is `b`
and whose other members are those of the node: the entity after the call and
the events of the call. The source unlocks every component in a first loop and
then, in a second loop, finalises the enabled entities among them; the second
loop therefore meets each component with its unlocked `Component` part, which is
passed here next to the component as it was. `finaliseAs_eq` states that this is
`finalise` of the unlocked component. -/
def finaliseAs (b : Component) : Node P → Node P × List Event
  | Parameter _ p => (Parameter b p, [])
  | Entity _ en comps m kind =>
    let r := finaliseEach comps
    (Entity b.unlock en r.1 m kind,
      unlockEvents b.addr comps
        ++ [Event.unlock b.addr b.addr, Event.terminate b.addr] ++ r.2)
/-- The two loops of `Entity::finalise()` on the components from one entry on:
each is unlocked, and the enabled entities are finalised from the last one to
the first one, so the events of an entry come after those of the later
entries. -/
def finaliseEach : List (Node P) → List (Node P) × List Event
  | [] => ([], [])
  | entry :: rest =>
    let rs := finaliseEach rest
    if entry.unlock.entity ∧ entry.unlock.enabled then
      let r := finaliseAs entry.unlock.base entry
      (r.1 :: rs.1, rs.2 ++ r.2)
    else (entry.unlock :: rs.1, rs.2)
end

/-- The method `Entity::finalise()`: the entity after the call and the events of
the call. The hook `terminate()` returns nothing; it leaves its event. -/
def finalise (n : Node P) : Node P × List Event := finaliseAs n.base n

/-- What the second loop of `Entity::finalise()` does with one entry, already
unlocked by the first loop: an enabled entity is finalised, any other entry is
left alone. -/
def finaliseEntry (entry : Node P) : Node P × List Event :=
  if entry.entity ∧ entry.enabled then finalise entry else (entry, [])

mutual
/-- Every object of the tree, the root included, has a `Component` part that
satisfies `p`. -/
def every (p : Component → Bool) : Node P → Bool
  | Parameter b _ => p b
  | Entity b _ comps _ _ => p b && everyList p comps
/-- Every object of the trees of a list has a `Component` part that satisfies
`p`. -/
def everyList (p : Component → Bool) : List (Node P) → Bool
  | [] => true
  | n :: rest => every p n && everyList p rest
end

mutual
/-- Every `Entity` below the root of the tree is enabled. -/
def allEnabled : Node P → Bool
  | Parameter _ _ => true
  | Entity _ _ comps _ _ => allEnabledList comps
/-- Every `Entity` of the trees of a list is enabled. -/
def allEnabledList : List (Node P) → Bool
  | [] => true
  | n :: rest => (!n.isEntityObject || n.enabled) && allEnabled n && allEnabledList rest
end

end Node

/-! ## Containers of the standard library

A `std::vector<T>` is a list. A `std::set<T>` is a list kept in strictly
increasing order, and a `std::map<K, T>` a list of entries kept in strictly
increasing order of the keys. -/

namespace StdSet

variable {α : Type} [LT α] [DecidableRel (fun a b : α => a < b)] [DecidableEq α]

/-- The call `s.emplace(x)` (also `s.emplace_hint(it, x)`): nothing changes when
`x` is present. -/
def emplace : List α → α → List α
  | [], x => [x]
  | y :: rest, x =>
    if x < y then x :: y :: rest
    else if y = x then y :: rest
    else y :: emplace rest x

/-- The test `s.find(x) != s.end()`. -/
def find (s : List α) (x : α) : Bool := decide (x ∈ s)

/-- The call `s.erase(x)`. -/
def erase (s : List α) (x : α) : List α := s.filter (fun y => y ≠ x)

/-- The set built from an initializer list. -/
def ofList (l : List α) : List α := l.foldl emplace []

end StdSet

/-! ## Checkers (`checker.tpl.hpp`) -/

/-! ## Floating-point values

The checkers are instantiated for `float` and `double` as well as for the
integer types (`checker.cpp`). The values of a floating-point type are embedded
with their comparisons `<`, `<=`, `>`, `>=`: a comparison with not-a-number is
false, and the infinities lie beyond every finite value. -/

/-- The values of `float` and `double`: not-a-number, minus infinity, the finite
values, each given by the rational number it stands for, and plus infinity. -/
inductive FloatingPoint where
  | nan
  | ninf
  | finite (v : Rat)
  | pinf
  deriving DecidableEq, Repr

namespace FloatingPoint

/-- The comparison `a < b` of two floating-point values. -/
def lt : FloatingPoint → FloatingPoint → Bool
  | nan, _ => false
  | _, nan => false
  | _, ninf => false
  | ninf, _ => true
  | pinf, _ => false
  | finite _, pinf => true
  | finite a, finite b => decide (a < b)

/-- The comparison `a <= b` of two floating-point values. -/
def le : FloatingPoint → FloatingPoint → Bool
  | nan, _ => false
  | _, nan => false
  | ninf, _ => true
  | _, ninf => false
  | _, pinf => true
  | pinf, _ => false
  | finite a, finite b => decide (a ≤ b)

instance : LT FloatingPoint := ⟨fun a b => lt a b = true⟩

instance : LE FloatingPoint := ⟨fun a b => le a b = true⟩

instance decidableLT : DecidableRel (fun a b : FloatingPoint => a < b) :=
  fun a b => inferInstanceAs (Decidable (lt a b = true))

instance decidableLE : DecidableRel (fun a b : FloatingPoint => a ≤ b) :=
  fun a b => inferInstanceAs (Decidable (le a b = true))

/-- The value `std::numeric_limits<double>::max()`, which is `(2^53 - 1) * 2^971`. -/
def double_max : FloatingPoint := finite (Rat.ofInt (9007199254740991 * 2 ^ 971))

/-- The value `std::numeric_limits<double>::lowest()`, the opposite of
`std::numeric_limits<double>::max()`. -/
def double_lowest : FloatingPoint := finite (Rat.ofInt (-(9007199254740991 * 2 ^ 971)))

end FloatingPoint

namespace Checker

/-- The enumeration `Checker::Kind`. -/
inductive Kind where
  | NONE
  | RANGE
  | WHITE_LIST
  | BLACK_LIST
  deriving DecidableEq, Repr

/-- The method `None<T, Default>::validity(Kind &kind)`: the kind and the set
returned. -/
def None.validity {t : Type} : Kind × List t := (Kind.NONE, [])

/-- The data member `_allowed` of `WhiteListed<T>`. -/
structure WhiteListed (α : Type) where
  _allowed : List α
  deriving DecidableEq, Repr

namespace WhiteListed

variable {α : Type} [LT α] [DecidableRel (fun a b : α => a < b)] [DecidableEq α]

/-- The method `WhiteListed<T, Default>::allow()`, which clears the list. -/
def allowAll (_w : WhiteListed α) : WhiteListed α := { _allowed := [] }

/-- The method `WhiteListed<T, Default>::allow(T value)`. -/
def allow (w : WhiteListed α) (value : α) : WhiteListed α :=
  { _allowed := StdSet.emplace w._allowed value }

/-- The method `WhiteListed<T, Default>::allow(std::set<T> values)`. -/
def allowSet (w : WhiteListed α) (values : List α) : WhiteListed α :=
  if values ≠ [] then values.foldl allow w else w.allowAll

/-- The method `WhiteListed<T, Default>::forbid(const T &value)`. -/
def forbid (w : WhiteListed α) (value : α) : WhiteListed α :=
  if StdSet.find w._allowed value then { _allowed := StdSet.erase w._allowed value } else w

/-- The method `WhiteListed<T, Default>::forbid(const std::set<T> &values)`. -/
def forbidSet (w : WhiteListed α) (values : List α) : WhiteListed α :=
  values.foldl forbid w

/-- The method `WhiteListed<T, Default>::check(T value, Error &error)`. -/
def check (w : WhiteListed α) (value : α) (error : Error) : α × Error :=
  if w._allowed ≠ [] ∧ StdSet.find w._allowed value = false then (value, Error.INVALID_VALUE)
  else (value, error)

/-- The method `WhiteListed<T, Default>::validity(Kind &kind)`. -/
def validity (w : WhiteListed α) : Kind × List α :=
  if w._allowed ≠ [] then (Kind.WHITE_LIST, w._allowed) else (Kind.NONE, [])

/-- The method `WhiteListed<T, when_container(T)>::check(T values, Error &error)`:
the loop that erases the elements that `_allowed.find` does not find, on a
`std::vector` (`associative` false) or a `std::set` (`associative` true, the value
of `type::is_associative_container<T>::value`). -/
def checkContainer (associative : Bool) (w : WhiteListed α) :
    List α → Error → List α × Error
  | [], error => ([], error)
  | x :: rest, error =>
    if StdSet.find w._allowed x = false then
      checkContainer associative w rest (if ¬ associative then Error.INVALID_VALUE else error)
    else
      let r := checkContainer associative w rest error
      (x :: r.1, r.2)

end WhiteListed

/-- The data members of `Bounded<T>`. -/
structure Bounded (α : Type) where
  _min : α
  _max : α
  _range : List α
  deriving DecidableEq, Repr

namespace Bounded

variable {α : Type}

/-- The constructor `Bounded<T, when_arithmetic(T)>::Bounded()`, with
`std::numeric_limits<T>::lowest()` and `std::numeric_limits<T>::max()`. The
comparisons of `T` are those of the instances: a linear order for an integer
type, the comparisons of `FloatingPoint` for `float` and `double`. -/
def new [LT α] [DecidableRel (fun a b : α => a < b)] [DecidableEq α] (lowest max : α) :
    Bounded α :=
  { _min := lowest, _max := max, _range := StdSet.ofList [lowest, max] }

/-- The method `Bounded<T, when_arithmetic(T)>::range(T min, T max)`: the error
and the checker after the call. The test `min >= max` is the comparison of `T`,
which is false on a floating-point type when one of the two is not-a-number. -/
def range [LT α] [LE α] [DecidableRel (fun a b : α => a < b)]
    [DecidableRel (fun a b : α => a ≤ b)] [DecidableEq α]
    (b : Bounded α) (min max : α) : Error × Bounded α :=
  if min ≥ max then (Error.INVALID_RANGE, b)
  else (Error.NONE, { _min := min, _max := max, _range := StdSet.ofList [min, max] })

/-- The method `Bounded<T, when_arithmetic(T)>::min()`. -/
def min (b : Bounded α) : α := b._min

/-- The method `Bounded<T, when_arithmetic(T)>::max()`. -/
def max (b : Bounded α) : α := b._max

/-- The method `Bounded<T, when_arithmetic(T)>::check(T value, Error &error)`. -/
def check [LT α] [DecidableRel (fun a b : α => a < b)] (b : Bounded α) (value : α)
    (error : Error) : α × Error :=
  if value < b._min ∨ value > b._max then (value, Error.INVALID_VALUE) else (value, error)

/-- The method `Bounded<T, when_arithmetic(T)>::validity(Kind &kind)`. -/
def validity (b : Bounded α) : Kind × List α := (Kind.RANGE, b._range)

/-- A sequence of `range(min, max)` calls, first call first, whatever each
returns. -/
def ranges [LT α] [LE α] [DecidableRel (fun a b : α => a < b)]
    [DecidableRel (fun a b : α => a ≤ b)] [DecidableEq α]
    (b : Bounded α) (calls : List (α × α)) : Bounded α :=
  calls.foldl (fun acc call => (acc.range call.1 call.2).2) b

end Bounded

namespace Saturating

variable {α : Type}

/-- The method `Saturating<T, when_arithmetic(T)>::check(T value, Error &)`, on
the data members of its base class `Bounded<T>`. The two tests are the
comparisons of `T`: on a floating-point type both are false for not-a-number,
which is returned as it is. -/
def check [LT α] [DecidableRel (fun a b : α => a < b)] (b : Bounded α) (value : α)
    (error : Error) : α × Error :=
  if value < b._min then (b._min, error)
  else if value > b._max then (b._max, error)
  else (value, error)

end Saturating

end Checker


/-! ## Integer types and the stream library

The integer translator goes through `std::istringstream` and
`std::ostringstream`. What the stream library does with an integer is embedded
here for the flags that the translator sets (`showbase`, `uppercase`, one of
`dec`, `hex`, `oct`, and `skipws` that a stream has from the start), in the
classic locale, for a platform where `long` has 64 bits; where the standard
leaves a detail open the GNU implementation is followed. -/

/-- An integer type: its width in bits and whether it is signed. -/
structure IntType where
  bits : Nat
  signed : Bool
  deriving DecidableEq, Repr

namespace IntType

/-- The value `std::numeric_limits<T>::min()` (also `lowest()`). -/
def min (T : IntType) : Int := if T.signed then -(2 ^ (T.bits - 1)) else 0

/-- The value `std::numeric_limits<T>::max()`. -/
def max (T : IntType) : Int := if T.signed then 2 ^ (T.bits - 1) - 1 else 2 ^ T.bits - 1

/-- The values of the type. -/
def holds (T : IntType) (v : Int) : Prop := T.min ≤ v ∧ v ≤ T.max

instance (T : IntType) (v : Int) : Decidable (T.holds v) := by
  unfold holds
  infer_instance

/-- The type `int8_t`. -/
def int8_t : IntType := { bits := 8, signed := true }

/-- The type `int16_t`. -/
def int16_t : IntType := { bits := 16, signed := true }

/-- The type `int32_t`. -/
def int32_t : IntType := { bits := 32, signed := true }

/-- The type `int64_t`. -/
def int64_t : IntType := { bits := 64, signed := true }

/-- The type `uint8_t`. -/
def uint8_t : IntType := { bits := 8, signed := false }

/-- The type `uint16_t`. -/
def uint16_t : IntType := { bits := 16, signed := false }

/-- The type `uint32_t`. -/
def uint32_t : IntType := { bits := 32, signed := false }

/-- The type `uint64_t`. -/
def uint64_t : IntType := { bits := 64, signed := false }

end IntType

namespace Stream

/-- The character of a digit, in upper case from ten on. -/
def digitChar (d : Nat) : Char := if d < 10 then Char.ofNat (48 + d) else Char.ofNat (55 + d)

/-- The loop `do { *--buf = lit[v % base]; v /= base; } while (v != 0)` that
writes the digits of `n` in front of `acc`; `fuel` bounds the number of turns. -/
def digitsAux (base : Nat) : Nat → Nat → Str → Str
  | 0, _, acc => acc
  | fuel + 1, n, acc =>
    if n < base then digitChar n :: acc
    else digitsAux base fuel (n / base) (digitChar (n % base) :: acc)

/-- The digits of `n` in a base. -/
def digits (base n : Nat) : Str := digitsAux base (n + 1) n []

/-- The insertion `os << v` of an integer whose type has `width` bits: in decimal
a minus sign and the digits of the magnitude; in hexadecimal and in octal the
digits of the value taken as unsigned on `width` bits, after `0X` or `0` unless it
is zero. -/
def insert (base width : Nat) (v : Int) : Str :=
  if base = 10 then
    if v < 0 then '-' :: digits 10 v.natAbs else digits 10 v.toNat
  else
    let u := (v % 2 ^ width).toNat
    if u = 0 then ['0']
    else if base = 8 then '0' :: digits 8 u
    else '0' :: 'X' :: digits 16 u

/-- The value of a character as a digit of a base. -/
def digitValue (base : Nat) (c : Char) : Option Nat :=
  let d : Option Nat :=
    if '0' ≤ c ∧ c ≤ '9' then some (c.toNat - 48)
    else if 'a' ≤ c ∧ c ≤ 'f' then some (c.toNat - 87)
    else if 'A' ≤ c ∧ c ≤ 'F' then some (c.toNat - 55)
    else none
  d.bind (fun n => if n < base then some n else none)

/-- The loop of `num_get` over the leading zeros and the base prefix: whether a
zero was found that counts as a digit, and the text left. -/
def leading (base : Nat) : Str → Bool × Str
  | [] => (false, [])
  | c :: rest =>
    if c = '0' then
      if base = 10 then (true, rest.dropWhile (fun x => x = '0'))
      else if base = 16 then
        match rest with
        | x :: rest2 => if x = 'x' ∨ x = 'X' then (false, rest2) else (true, rest)
        | [] => (true, rest)
      else (true, rest)
    else (false, c :: rest)

/-- The loop of `num_get` over the digits: the number read, how many digits it
had, and the text left. -/
def accumulate (base : Nat) : Str → Nat → Nat → Nat × Nat × Str
  | [], acc, count => (acc, count, [])
  | c :: rest, acc, count =>
    match digitValue base c with
    | some d => accumulate base rest (acc * base + d) (count + 1)
    | none => (acc, count, c :: rest)

/-- What an extraction leaves: the value, `failbit` and `eofbit`. -/
structure State where
  value : Int
  failbit : Bool
  eofbit : Bool
  deriving DecidableEq, Repr

/-- The facet call `num_get::get` for a type of `bits` bits, on a text that does
not start with white space: no digit gives zero with `failbit`, a number out of
the range of the type gives the limit on its side with `failbit`, and `eofbit`
tells that the text was read to its end. -/
def num_get (signed : Bool) (bits base : Nat) (s : Str) : State :=
  let negative : Bool := s.head? = some '-'
  let s1 := if negative ∨ s.head? = some '+' then s.tail else s
  let zero := leading base s1
  let read := accumulate base zero.2 0 0
  let limit : Nat :=
    if signed then (if negative then 2 ^ (bits - 1) else 2 ^ (bits - 1) - 1) else 2 ^ bits - 1
  let eof : Bool := read.2.2 = []
  if read.2.1 = 0 ∧ zero.1 = false then { value := 0, failbit := true, eofbit := eof }
  else if read.1 > limit then
    { value := if signed ∧ negative then -(limit : Int) else limit, failbit := true,
      eofbit := eof }
  else
    { value := if negative then (if signed then -(read.1 : Int) else (-(read.1 : Int)) % 2 ^ bits)
               else read.1,
      failbit := false, eofbit := eof }

/-- The extraction `is >> value` into an integer of type `T` that holds `old`.
Leading white space is skipped; a text with nothing else sets `failbit` and
`eofbit` and leaves the value. A signed type narrower than `long` is read as a
`long` and brought into its range, with `failbit`. -/
def extract (T : IntType) (base : Nat) (s : Str) (old : Int) : State :=
  let s1 := s.dropWhile Translator.isspace
  if s1 = [] then { value := old, failbit := true, eofbit := true }
  else if T.signed ∧ T.bits < 64 then
    let r := num_get true 64 base s1
    if r.value < T.min then { value := T.min, failbit := true, eofbit := r.eofbit }
    else if r.value > T.max then { value := T.max, failbit := true, eofbit := r.eofbit }
    else r
  else num_get T.signed T.bits base s1

end Stream

namespace Translator

/-- The enumeration `NumberFormat`. -/
inductive NumberFormat where
  | DECIMAL
  | HEXADECIMAL
  | OCTAL
  deriving DecidableEq, Repr

/-- The `static_cast<unsigned int>` of a `NumberFormat`. -/
def NumberFormat.toNat : NumberFormat → Nat
  | DECIMAL => 0
  | HEXADECIMAL => 1
  | OCTAL => 2

/-- The base of the entries of `integral_flags`, which are `std::ios::dec`,
`std::ios::hex` and `std::ios::oct`. -/
def integral_flags (fmt : Nat) : Nat :=
  if fmt = 1 then 16 else if fmt = 2 then 8 else 10

namespace DirectInt

/-- The constructor `Direct<T, when_integral(T)>::Direct()`: the data member `fmt`. -/
def new : Nat := 0

/-- The method `Direct<T, when_integral(T)>::use(NumberFormat format)`: the data
member `fmt` after the call. -/
def use (format : NumberFormat) : Nat :=
  let id := format.toNat
  if id ≥ 3 then 0 else id

/-- The method `Direct<T, when_integral(T)>::from_str(std::list<std::string> &, Error &)`. -/
def from_str_tokens (tokens : List Str) (_error : Error) : Int × Error :=
  (0, too_many_tokens_in tokens)

/-- The method `Direct<T, when_integral(T)>::from_str(std::string &token, Error &error)`
for the type `T` and the data member `fmt`. When `sizeof(T) == 1` and the
extraction leaves `wider_value` as it was, the source reads a variable that was
never written; it is read as zero here. -/
def from_str (T : IntType) (fmt : Nat) (token : Str) (error : Error) : Int × Error :=
  let base := integral_flags fmt
  if T.bits = 8 then
    let data := Stream.extract IntType.int16_t base token 0
    let wider_value := data.value
    let r : Int × Error :=
      if wider_value < T.min then (T.min, Error.INVALID_VALUE)
      else if wider_value > T.max then (T.max, Error.INVALID_VALUE)
      else (wider_value, error)
    if ¬ (data.failbit = false ∧ data.eofbit = true) then (r.1, Error.INVALID_VALUE) else r
  else
    let data := Stream.extract T base token 0
    if ¬ (data.failbit = false ∧ data.eofbit = true) then (data.value, Error.INVALID_VALUE)
    else (data.value, error)

/-- The method `Direct<T, when_integral(T)>::to_str(const T &val)` for the type `T`
and the data member `fmt`: a type with `sizeof(T) == 1` is inserted as an
`int16_t`. -/
def to_str (T : IntType) (fmt : Nat) (val : Int) : Str :=
  Stream.insert (integral_flags fmt) (if T.bits = 8 then 16 else T.bits) val

end DirectInt

/-- The translator `Direct<T>` of an integer type `T` with the data member `fmt`. -/
def DirectInteger (T : IntType) (fmt : Nat) : TranslatorPolicy Int where
  from_str_tokens := DirectInt.from_str_tokens
  from_str := DirectInt.from_str T fmt
  to_str := DirectInt.to_str T fmt

end Translator

/-! ## Container translators (`translator.tpl.hpp`) -/

namespace Translator

namespace DirectVector

variable {t : Type}

/-- The `for` loop of `Direct<T, when_vector(T)>::from_str` over the tokens left,
with the vector built so far. -/
def from_str_loop (T : TranslatorPolicy t) : List Str → List t → Error → List t × Error
  | [], vector, error => (vector, error)
  | token :: rest, vector, error =>
    let r := T.from_str token error
    if r.2 ≠ Error.NONE then (vector ++ [r.1], r.2)
    else from_str_loop T rest (vector ++ [r.1]) r.2

/-- The method `Direct<T, when_vector(T)>::from_str(std::list<std::string> &tokens, Error &)`
for the element translator `T`. `front()` and `back()` of an empty list are
undefined in C++; an empty list is taken not to have the parentheses. -/
def from_str_tokens (T : TranslatorPolicy t) (tokens : List Str) (error : Error) :
    List t × Error :=
  if tokens.head? ≠ some ['('] ∨ tokens.getLast? ≠ some [')'] then ([], Error.INVALID_VALUE)
  else from_str_loop T tokens.tail.dropLast [] error

/-- The method `Direct<T, when_vector(T)>::from_str(std::string &, Error &)`. -/
def from_str (_token : Str) (_error : Error) : List t × Error := ([], too_few_tokens)

/-- The `for` loop of `Direct<T, when_vector(T)>::to_str(const T &cont)` over the
values left: what it appends to `values`. -/
def to_str_loop (T : TranslatorPolicy t) : Bool → List t → Str
  | _, [] => []
  | first, value :: rest =>
    (if ¬ first then [' '] else []) ++ T.to_str value ++ to_str_loop T false rest

/-- The method `Direct<T, when_vector(T)>::to_str(const T &cont)`. -/
def to_str (T : TranslatorPolicy t) (cont : List t) : Str :=
  ['('] ++ to_str_loop T true cont ++ [')']

end DirectVector

/-- The translator `Direct<std::vector<Type>>` for the element translator `T`. -/
def DirectVec {t : Type} (T : TranslatorPolicy t) : TranslatorPolicy (List t) where
  from_str_tokens := DirectVector.from_str_tokens T
  from_str := DirectVector.from_str
  to_str := DirectVector.to_str T

namespace DirectSet

variable {t : Type} [LT t] [DecidableRel (fun a b : t => a < b)] [DecidableEq t]

/-- The `while` loop of `Direct<T, when_associative_container(T)>::from_str` over
the tokens left, with the container built so far, for a `std::set`, where
`type::is_pair<Type>::value` is false. -/
def from_str_loop (T : TranslatorPolicy t) : List Str → List t → Error → List t × Error
  | [], cont, error => (cont, error)
  | [token], cont, error =>
    let r := T.from_str token error
    (StdSet.emplace cont r.1, r.2)
  | token :: front :: rest, cont, error =>
    let r := T.from_str token error
    let error2 := if front ≠ [','] then Error.INVALID_VALUE else r.2
    if error2 ≠ Error.NONE then (StdSet.emplace cont r.1, error2)
    else from_str_loop T rest (StdSet.emplace cont r.1) error2

/-- The method
`Direct<T, when_associative_container(T)>::from_str(std::list<std::string> &tokens, Error &)`
for a `std::set` with the element translator `T`. `front()` and `back()` of an
empty list are undefined in C++; an empty list is taken not to have the braces. -/
def from_str_tokens (T : TranslatorPolicy t) (tokens : List Str) (error : Error) :
    List t × Error :=
  if tokens.head? ≠ some ['{'] ∨ tokens.getLast? ≠ some ['}'] then ([], Error.INVALID_VALUE)
  else from_str_loop T tokens.tail.dropLast [] error

/-- The method `Direct<T, when_associative_container(T)>::from_str(std::string &, Error &)`. -/
def from_str (_token : Str) (_error : Error) : List t × Error := ([], too_few_tokens)

/-- The `for` loop of `Direct<T, when_associative_container(T)>::to_str(const T &cont)`
over the values left: what it appends to `values`. -/
def to_str_loop (T : TranslatorPolicy t) : Bool → List t → Str
  | _, [] => []
  | first, value :: rest =>
    (if ¬ first then [',', ' '] else []) ++ T.to_str value ++ to_str_loop T false rest

/-- The method `Direct<T, when_associative_container(T)>::to_str(const T &cont)`. -/
def to_str (T : TranslatorPolicy t) (cont : List t) : Str :=
  ['{', ' '] ++ to_str_loop T true cont ++ [' ', '}']

end DirectSet

/-- The translator `Direct<std::set<Type>>` for the element translator `T`. -/
def DirectSetOf {t : Type} [LT t] [DecidableRel (fun a b : t => a < b)] [DecidableEq t]
    (T : TranslatorPolicy t) : TranslatorPolicy (List t) where
  from_str_tokens := DirectSet.from_str_tokens T
  from_str := DirectSet.from_str
  to_str := DirectSet.to_str T

/-- The translator of `PARAMETER(Direct, None, Immediate, std::vector<int32_t>)`,
in the decimal format of construction. -/
def vectorOfInt32 : TranslatorPolicy (List Int) :=
  DirectVec (DirectInteger IntType.int32_t DirectInt.new)

/-- The translator of `PARAMETER(Direct, None, Immediate, std::set<int32_t>)`, in
the decimal format of construction. -/
def setOfInt32 : TranslatorPolicy (List Int) :=
  DirectSetOf (DirectInteger IntType.int32_t DirectInt.new)

end Translator

namespace Io

/-- A character that the tokenizer adds to the token it is reading: no blank, no
separator, no comment sign, no backslash and no quote. -/
def plain (c : Char) : Bool :=
  !separator c && !blank c && !(c = '#') && !(c = BACKSLASH) && !(c = SQUOTE) && !(c = DQUOTE)

/-- A text that the tokenizer reads as one token, whatever comes before and
after it. -/
def word (w : Str) : Prop := w ≠ [] ∧ ∀ c ∈ w, plain c = true

end Io

namespace StdMap

variable {κ β : Type} [LT κ] [DecidableRel (fun a b : κ => a < b)] [DecidableEq κ]

/-- The call `m.find(key)`: the mapped value of the entry found, `none` for
`m.end()`. -/
def find : List (κ × β) → κ → Option β
  | [], _ => none
  | (k, v) :: rest, key => if k = key then some v else find rest key

/-- The calls `m.erase(key)` and `m.erase(it)` for `it = m.find(key)`. -/
def erase (m : List (κ × β)) (key : κ) : List (κ × β) := m.filter (fun p => p.1 ≠ key)

/-- The call `m.emplace(key, value)` (also `m.emplace_hint(it, key, value)`, where
the hint can only change the cost): nothing changes when the key is present. -/
def emplace : List (κ × β) → κ → β → List (κ × β)
  | [], key, value => [(key, value)]
  | (k, v) :: rest, key, value =>
    if key < k then (key, value) :: (k, v) :: rest
    else if k = key then (k, v) :: rest
    else (k, v) :: emplace rest key value

end StdMap

namespace Translator

/-- The data member `translator` of `Mapped<T, when_not_container(T)>`, a
`std::map<std::string, T>`: its entries in the order of iteration. -/
structure Mapped (β : Type) where
  translator : List (Str × β)

namespace Mapped

variable {β : Type}

/-- The constructor `Mapped<T, when_not_container(T)>::Mapped()`. -/
def new : Mapped β := { translator := [] }

/-- The method `Mapped<T, when_not_container(T)>::undefine(const std::string &key)`. -/
def undefine (m : Mapped β) (key : Str) : Mapped β :=
  { translator := StdMap.erase m.translator key }

/-- The method `Mapped<T, when_not_container(T)>::from_str(std::list<std::string> &, Error &)`,
where `default` is `T()`. -/
def from_str_tokens [Inhabited β] (_m : Mapped β) (tokens : List Str) (_error : Error) :
    β × Error :=
  (default, too_many_tokens_in tokens)

/-- The method `Mapped<T, when_not_container(T)>::from_str(std::string &key, Error &error)`,
where `default` is `T()`. -/
def from_str [Inhabited β] (m : Mapped β) (key : Str) (error : Error) : β × Error :=
  match StdMap.find m.translator key with
  | some value => (value, error)
  | none => (default, Error.INVALID_VALUE)

/-- The loop of `to_str` over the entries from a given one on. -/
def to_str_from [DecidableEq β] : List (Str × β) → β → Str
  | [], _ => "????".toList
  | pair :: rest, val => if pair.2 = val then pair.1 else to_str_from rest val

/-- The method `Mapped<T, when_not_container(T)>::to_str(const T &val)`. -/
def to_str [DecidableEq β] (m : Mapped β) (val : β) : Str := to_str_from m.translator val

end Mapped

/-- The translator `Mapped<T>` with a given table. -/
def MappedTranslator {β : Type} [Inhabited β] [DecidableEq β] (m : Mapped β) :
    TranslatorPolicy β where
  from_str_tokens := m.from_str_tokens
  from_str := m.from_str
  to_str := m.to_str

end Translator

/-! ## Storage policies (`storage.tpl.hpp`)

The macro `ASSERT` of `log.hpp` expands to nothing when `NDEBUG` is defined; the
storage classes are embedded for such a build, in which every method
returns. -/

namespace Storage

/-- The data members of `Callable<T>`: `_current_value` of its base class
`Immediate<T>` and the callback `_on_update`, which is user code embedded by the
error it returns for the value it is called with; `none` is `nullptr`. -/
structure Callable (t : Type) where
  _current_value : t
  _on_update : Option (t → Error)

namespace Callable

variable {t : Type}

/-- The constructor `Callable<T, Default>::Callable(T val)`. -/
def new (val : t) : Callable t := { _current_value := val, _on_update := none }

/-- The method `Callable<T, Default>::trigger(Callbackable on_update)`. -/
def trigger (self : Callable t) (on_update : Option (t → Error)) : Callable t :=
  { self with _on_update := on_update }

/-- The method `Callable<T, Default>::store_value(T val)`: the call of
`Immediate<T, Default>::store_value` on the base class, then the callback on
`_current_value`. -/
def store_value (self : Callable t) (val : t) : Error × Callable t :=
  let stored := Immediate.store_value { _current_value := self._current_value } val
  let self1 : Callable t := { self with _current_value := stored.2._current_value }
  if stored.1 ≠ Error.NONE then (stored.1, self1)
  else
    match self1._on_update with
    | some on_update => (on_update self1._current_value, self1)
    | none => (stored.1, self1)

/-- The method `Immediate<T, Default>::retrieve_value()`, which `Callable`
inherits. -/
def retrieve_value (self : Callable t) : t := self._current_value

end Callable

/-- The storage `Callable<T>`. -/
def CallableStorage (t : Type) : StoragePolicy (Callable t) t where
  store_value := Callable.store_value
  retrieve_value := Callable.retrieve_value

/-- The data member `_current_value` of `ReadOnly<T>`. -/
structure ReadOnly (t : Type) where
  _current_value : t
  deriving DecidableEq, Repr

namespace ReadOnly

variable {t : Type}

/-- The constructor `ReadOnly<T, Default>::ReadOnly(T val)`. -/
def new (val : t) : ReadOnly t := { _current_value := val }

/-- The method `ReadOnly<T, Default>::update(T val)`. -/
def update (_self : ReadOnly t) (val : t) : ReadOnly t := { _current_value := val }

/-- The method `ReadOnly<T, Default>::store_value(T)`. -/
def store_value (self : ReadOnly t) (_val : t) : Error × ReadOnly t :=
  (Error.INVALID_REQUEST, self)

/-- The method `ReadOnly<T, Default>::retrieve_value()`. -/
def retrieve_value (self : ReadOnly t) : t := self._current_value

end ReadOnly

/-- The storage `ReadOnly<T>`. -/
def ReadOnlyStorage (t : Type) : StoragePolicy (ReadOnly t) t where
  store_value := ReadOnly.store_value
  retrieve_value := ReadOnly.retrieve_value

/-- The data members of `Deferred<T>`. -/
structure Deferred (t : Type) where
  _current_value : t
  _next_value : t
  deriving DecidableEq, Repr

namespace Deferred

variable {t : Type}

/-- The constructor `Deferred<T, Default>::Deferred(T val)`. -/
def new (val : t) : Deferred t := { _current_value := val, _next_value := val }

/-- The method `Deferred<T, Default>::update()`. -/
def update (self : Deferred t) : Deferred t := { self with _current_value := self._next_value }

/-- The method `Deferred<T, Default>::store_value(T val)`. -/
def store_value (self : Deferred t) (val : t) : Error × Deferred t :=
  (Error.NONE, { self with _next_value := val })

/-- The method `Deferred<T, Default>::retrieve_value()`. -/
def retrieve_value (self : Deferred t) : t := self._current_value

/-- The calls that write a `Deferred<T>` after construction. -/
inductive Call (t : Type) where
  | store (val : t)
  | update

/-- One call on a `Deferred<T>`. -/
def call (self : Deferred t) : Call t → Deferred t
  | Call.store val => (self.store_value val).2
  | Call.update => self.update

/-- A sequence of calls on a `Deferred<T>`, first call first. -/
def calls (self : Deferred t) (cs : List (Call t)) : Deferred t := cs.foldl call self

/-- The value of the last `store_value` call of a sequence, `none` when it has
no such call. -/
def lastStored : List (Call t) → Option t
  | [] => none
  | Call.store val :: rest => (lastStored rest).orElse (fun _ => some val)
  | Call.update :: rest => lastStored rest

end Deferred

/-- The storage `Deferred<T>`. -/
def DeferredStorage (t : Type) : StoragePolicy (Deferred t) t where
  store_value := Deferred.store_value
  retrieve_value := Deferred.retrieve_value

end Storage

/-! ## Checkers on containers (`checker.tpl.hpp`)

A container is the list of its elements in the order of iteration: a
`std::vector` any list, a `std::set` and a `std::map` a list in strictly
increasing order (of the keys, for a map, whose elements are pairs). The loops
below erase through the iterator, which leaves the other elements in place. -/

namespace Checker

/-- The data member `_forbidden` of `BlackListed<T>`. -/
structure BlackListed (α : Type) where
  _forbidden : List α
  deriving DecidableEq, Repr

namespace BlackListed

variable {α : Type} [LT α] [DecidableRel (fun a b : α => a < b)] [DecidableEq α]

/-- The method `BlackListed<T, Default>::allow(const T &value)`. -/
def allow (b : BlackListed α) (value : α) : BlackListed α :=
  if StdSet.find b._forbidden value then { _forbidden := StdSet.erase b._forbidden value }
  else b

/-- The method `BlackListed<T, Default>::forbid()`, which clears the list. -/
def forbidAll (_b : BlackListed α) : BlackListed α := { _forbidden := [] }

/-- The method `BlackListed<T, Default>::forbid(T value)`. -/
def forbid (b : BlackListed α) (value : α) : BlackListed α :=
  { _forbidden := StdSet.emplace b._forbidden value }

/-- The method `BlackListed<T, Default>::forbid(std::set<T> values)`. -/
def forbidSet (b : BlackListed α) (values : List α) : BlackListed α :=
  if values ≠ [] then values.foldl forbid b else b.forbidAll

/-- The method `BlackListed<T, Default>::check(T value, Error &error)`. -/
def check (b : BlackListed α) (value : α) (error : Error) : α × Error :=
  if StdSet.find b._forbidden value then (value, Error.INVALID_VALUE) else (value, error)

/-- The method `BlackListed<T, Default>::validity(Kind &kind)`. -/
def validity (b : BlackListed α) : Kind × List α := (Kind.BLACK_LIST, b._forbidden)

/-- The method `BlackListed<T, when_container(T)>::check(T values, Error &error)`:
the loop that erases the elements that `_forbidden.find` finds, where
`associative` is the value of `type::is_associative_container<T>::value`. -/
def checkContainer (associative : Bool) (b : BlackListed α) :
    List α → Error → List α × Error
  | [], error => ([], error)
  | x :: rest, error =>
    if StdSet.find b._forbidden x then
      checkContainer associative b rest (if ¬ associative then Error.INVALID_VALUE else error)
    else
      let r := checkContainer associative b rest error
      (x :: r.1, r.2)

end BlackListed

namespace Bounded

variable {α : Type}

/-- The method `Bounded<T, when_arithmetic_container(T)>::check(T values, Error &error)`:
the loop that erases the elements out of the bounds, where `associative` is the
value of `type::is_associative_container<T>::value`. -/
def checkContainer [LT α] [DecidableRel (fun a b : α => a < b)] (associative : Bool)
    (b : Bounded α) : List α → Error → List α × Error
  | [], error => ([], error)
  | x :: rest, error =>
    if x < b._min ∨ x > b._max then
      checkContainer associative b rest (if ¬ associative then Error.INVALID_VALUE else error)
    else
      let r := checkContainer associative b rest error
      (x :: r.1, r.2)

end Bounded

namespace Saturating

/-- The method `Saturating<T, when_vector(T)>::check(T values, Error &error)`: the
loop that writes the saturated value over each element. -/
def checkVector {α : Type} [LT α] [DecidableRel (fun a b : α => a < b)] (b : Bounded α) :
    List α → Error → List α × Error
  | [], error => ([], error)
  | v :: rest, error =>
    let saturated := Saturating.check b v error
    let r := checkVector b rest saturated.2
    (saturated.1 :: r.1, r.2)

variable {α : Type} [LinearOrder α]

/-- The element that follows `x` in a `std::set`: where an iterator on `x` is
after `++it`, and what `erase(it)` returns for an iterator on `x`; `none` is
`end()`. The order of a `std::set<T>` has to be a strict weak order on its
elements, so the set is taken over a linear order. -/
def next (values : List α) (x : α) : Option α := values.find? (fun y => x < y)

/-- The loop of `Saturating<T, when_set(T)>::check(T values, Error &error)` from
an iterator `it` on, `none` being `values.end()`; `fuel` bounds the number of
turns, and the result is `none` when it does not suffice. -/
def checkSetFrom (b : Bounded α) : Nat → List α → Option α → Error → Option (List α × Error)
  | 0, _, _, _ => none
  | _ + 1, values, none, error => some (values, error)
  | fuel + 1, values, some x, error =>
    let saturated := Saturating.check b x error
    if saturated.1 ≠ x then
      let values1 := StdSet.emplace values saturated.1
      let values2 := StdSet.erase values1 x
      checkSetFrom b fuel values2 (next values2 x) saturated.2
    else checkSetFrom b fuel values (next values x) saturated.2

/-- The method `Saturating<T, when_set(T)>::check(T values, Error &error)`, the
iterator starting on `values.begin()`. -/
def checkSet (b : Bounded α) (fuel : Nat) (values : List α) (error : Error) :
    Option (List α × Error) :=
  checkSetFrom b fuel values values.head? error

end Saturating

end Checker

/-! ## Files and composition (`io.cpp`) -/

namespace Io

/-- The call `output.emplace_back(s)` on a `std::vector<std::string>`. -/
def emplace_back (output : List Str) (s : Str) : List Str := output ++ [s]

/-- The call `output.back().append(s)`. `back()` of an empty vector is undefined in
C++; an empty vector is left as it is. -/
def append_back (output : List Str) (s : Str) : List Str :=
  match output.getLast? with
  | some last => output.dropLast ++ [last ++ s]
  | none => output

/-- The `for` loop of `loaded` over the lines that `std::getline` still has to
read, with the local variable `append` and the vector `lines`. -/
def loadedFrom : Bool → List Str → List Str → List Str
  | _, lines, [] => lines
  | append, lines, line :: rest =>
    if line = [] then loadedFrom false lines rest
    else
      let append_next : Bool := line ≠ [] ∧ line.getLast? = some BACKSLASH
      let line1 := if append_next then line.dropLast else line
      let lines1 := if append then append_back lines line1 else emplace_back lines line1
      loadedFrom append_next lines1 rest

/-- The function `loaded(name, error)`: the error and the vector returned. The file
is embedded by the lines that `std::getline` reads from it one after the other,
`none` standing for a file that cannot be opened. -/
def loaded (file : Option (List Str)) : Error × List Str :=
  match file with
  | none => (Error.NOT_EXISTING, [])
  | some physical => (Error.NONE, loadedFrom false [] physical)

/-- The function `compose(output, path, value, comment, description)`: the vector
`output` after the call. The sizes are computed in `int` in the source; they are
integers without bound here, which is the same for strings of less than `2^31`
characters. -/
def compose (output : List Str) (path value comment description : Str) : List Str :=
  let psize : Int := path.length + 3
  let vsize : Int := value.length
  let csize : Int := if comment = [] then 0 else comment.length + 3
  let output1 :=
    if description ≠ [] then append_back (emplace_back output ['#', ' ']) description
    else output
  let output2 := append_back (emplace_back output1 path) [' ', '=', ' ']
  if psize + vsize + csize ≤ 80 then
    let output3 := append_back output2 value
    if csize > 0 then append_back (append_back output3 [' ', '#', ' ']) comment
    else output3
  else if psize + vsize ≤ 80 then
    append_back (emplace_back (append_back output2 value) [TAB, '#', ' ']) comment
  else
    let output3 :=
      append_back (emplace_back (append_back output2 [' ', BACKSLASH]) [TAB]) value
    if csize = 0 then output3
    else
      let output4 :=
        if 7 + vsize + csize ≤ 80 then append_back output3 [' ', '#', ' ']
        else emplace_back output3 [TAB, '#', ' ']
      append_back output4 comment

end Io

/-! ## Batch configuration (`entity.cpp`) -/

namespace Node

variable {P : Type}

/-- The `for` loop of `Entity::configure(const std::vector<std::string> &cfg, int &nb)`
over the lines left, with the local list `token` and the counter `nb`: the error
returned, the entity and `nb` after the call. When the loop ends the local
variable `error` is `NONE`. After `token.pop_front()` the source reads
`token.front()`, which is undefined in C++ for an empty list; an empty list is
taken not to start with `=`. -/
def configureLoop (V : Virtuals P) : List Str → Node P → List Str → Int →
    Error × Node P × Int
  | [], e, _, nb => (Error.NONE, e, nb)
  | line :: rest, e, token, nb =>
    let parsed := Io.parse line token 3 3
    if parsed.1 ≠ Error.NONE then (parsed.1, e, nb + 1)
    else if parsed.2 = [] then configureLoop V rest e parsed.2 (nb + 1)
    else
      let r := configurePath V e (parsed.2.head?.getD []) (parsed.2.getLast?.getD [])
      if r.1 ≠ Error.NONE then (r.1, r.2, nb + 1)
      else if parsed.2.tail.head? ≠ some ['='] then (Error.INVALID_VALUE, r.2, nb + 1)
      else configureLoop V rest r.2 [] (nb + 1)

/-- The method `Entity::configure(const std::vector<std::string> &cfg, int &nb)`. -/
def configureBatch (V : Virtuals P) (e : Node P) (cfg : List Str) (nb : Int) :
    Error × Node P × Int :=
  configureLoop V cfg e [] nb

end Node

/-! ## Rendering of traits (`traits.hpp`) -/

namespace Trait

/-- The function `toString(Trait t)`. -/
def toString (t : Trait) : Str :=
  if t &&& UNDEFINED = UNDEFINED then "UNDEFINED".toList
  else
    let s := if t &&& ENTITY = ENTITY then "ENTITY".toList else "PARAMETER".toList
    let s1 := if t &&& LOCKED = LOCKED then s ++ "|LOCKED".toList else s
    let s2 := if t &&& SETTABLE = SETTABLE then s1 ++ "|SETTABLE".toList else s1
    if t &&& CONFIGURABLE = CONFIGURABLE then s2 ++ "|CONFIGURABLE".toList else s2

end Trait

/-! ## Dumps of an entity (`entity.cpp`) -/

namespace Entity

/-- The constant `MODE_SNAPSHOT`. -/
def MODE_SNAPSHOT : Nat := 0

/-- The constant `MODE_CONFIGURED`. -/
def MODE_CONFIGURED : Nat := 1

/-- The constant `MODE_CONFIGURABLES`. -/
def MODE_CONFIGURABLES : Nat := 2

/-- The constant `MODE_SETTERS`. -/
def MODE_SETTERS : Nat := 3

/-- The constant `MODE_GETTERS`. -/
def MODE_GETTERS : Nat := 4

/-- The constant `MODE_STRUCTURE`. -/
def MODE_STRUCTURE : Nat := 5

/-- The local variable `mask` of `Entity::dump(base, record, mode, comps)` after
the first `switch`. -/
def dumpMask (mode : Nat) : Trait :=
  if mode = MODE_CONFIGURED ∨ mode = MODE_CONFIGURABLES then
    Trait.UNDEFINED ||| Trait.ENTITY ||| Trait.CONFIGURABLE
  else if mode = MODE_SETTERS then Trait.UNDEFINED ||| Trait.ENTITY ||| Trait.SETTABLE
  else Trait.UNDEFINED ||| Trait.ENTITY

/-- The local variable `match` of `Entity::dump(base, record, mode, comps)` after
the first `switch`. -/
def dumpMatch (mode : Nat) : Trait :=
  if mode = MODE_CONFIGURED ∨ mode = MODE_CONFIGURABLES then Trait.NONE ||| Trait.CONFIGURABLE
  else if mode = MODE_SETTERS then Trait.NONE ||| Trait.SETTABLE
  else if mode = MODE_STRUCTURE then Trait.NONE ||| Trait.ENTITY
  else Trait.NONE

end Entity

namespace Node

variable {P : Type}

/-- The method `Component::value()` on an object: the virtual call goes to the
`Parameter` or to the `Entity`. -/
def value (V : Virtuals P) : Node P → Str
  | Parameter b p => Component.value V b p
  | Entity b _ _ _ kind => Component.value Entity.virtuals b kind

/-- The method `Component::values()` on an object. -/
def values (V : Virtuals P) : Node P → Str
  | Parameter b p => Component.values V b p
  | Entity b _ _ _ kind => Component.values Entity.virtuals b kind

/-- The second `switch` of `Entity::dump(base, record, mode, comps)`: the call of
`compose` for the component `comp` at `path`. -/
def dumpCompose (V : Virtuals P) (mode : Nat) (comp : Node P) (path : Str)
    (record : List Str) : List Str :=
  if mode = Entity.MODE_CONFIGURED ∨ mode = Entity.MODE_SNAPSHOT then
    Io.compose record path (comp.value V) [] []
  else if mode = Entity.MODE_CONFIGURABLES ∨ mode = Entity.MODE_SETTERS ∨
      mode = Entity.MODE_GETTERS ∨ mode = Entity.MODE_STRUCTURE then
    Io.compose record path comp.base._type (comp.values V) comp.base._description
  else record

/-- The vector that `components()` returns: the components in the order of
`_map`, which is the order of their names. An entry of `_map` is a reference to
a component of `_components`; here it holds the position of that component. -/
def mapOrder {α : Type} (m : List (Str × Nat)) (items : List α) : List α :=
  m.filterMap (fun kv => items[kv.2]?)

mutual
/-- The method `Entity::dump(base, record, mode)`: the vector `record` after the
call. It is a method of `Entity`, so the equation for an object that is no
`Entity` is never used. The loop of `dump(base, record, mode, comps)` runs over
`_components` or over `components()`; its bodies are computed for `_components`
by `dumpBodies` and run in the order that the mode selects. -/
def dump (V : Virtuals P) (mode : Nat) : Node P → Str → List Str → List Str
  | Parameter _ _, _, record => record
  | Entity _ _ comps m _, base, record =>
    if comps.isEmpty then record
    else
      let root := if base.length > 0 then base ++ ['.'] else base
      let bodies := dumpBodies V mode comps root
      if mode = Entity.MODE_CONFIGURED ∨ mode = Entity.MODE_CONFIGURABLES then
        bodies.foldl (fun r body => body r) record
      else (mapOrder m bodies).foldl (fun r body => body r) record
/-- The body of the loop of `Entity::dump(base, record, mode, comps)` for each
component of the list, as the change it makes to `record`, with the local
variable `root`. -/
def dumpBodies (V : Virtuals P) (mode : Nat) : List (Node P) → Str →
    List (List Str → List Str)
  | [], _ => []
  | comp :: rest, root =>
    (fun record =>
      let record1 :=
        if comp.base._traits &&& Entity.dumpMask mode = Entity.dumpMatch mode then
          dumpCompose V mode comp (root ++ comp.name) record
        else record
      if comp.entity then dump V mode comp (root ++ comp.name) record1 else record1)
    :: dumpBodies V mode rest root
end

/-- The body of the loop of `Entity::dump(base, record, mode, comps)` for the
component `comp`. -/
def dumpBody (V : Virtuals P) (mode : Nat) (root : Str) (comp : Node P)
    (record : List Str) : List Str :=
  let record1 :=
    if comp.base._traits &&& Entity.dumpMask mode = Entity.dumpMatch mode then
      dumpCompose V mode comp (root ++ comp.name) record
    else record
  if comp.entity then dump V mode comp (root ++ comp.name) record1 else record1

/-- The method `Entity::configured()`. -/
def configured (V : Virtuals P) (e : Node P) : List Str := dump V Entity.MODE_CONFIGURED e [] []

/-- The method `Entity::snapshot()`. -/
def snapshot (V : Virtuals P) (e : Node P) : List Str := dump V Entity.MODE_SNAPSHOT e [] []

/-- The method `Entity::configurables()`. -/
def configurables (V : Virtuals P) (e : Node P) : List Str :=
  dump V Entity.MODE_CONFIGURABLES e [] []

/-- The method `Entity::setters()`. -/
def setters (V : Virtuals P) (e : Node P) : List Str := dump V Entity.MODE_SETTERS e [] []

/-- The method `Entity::getters()`. -/
def getters (V : Virtuals P) (e : Node P) : List Str := dump V Entity.MODE_GETTERS e [] []

mutual
/-- The entries of `configured()` in the words of the specification, as pairs of a
dotted path and a value text, for one component below the path prefix `pre`: a
component that is no entity gives one entry when it is characterised and carries
the Configurable bit; an entity gives no entry of its own and the entries of its
components, with its name and a dot added to the prefix. -/
def configuredEntries (V : Virtuals P) : Node P → Str → List (Str × Str)
  | Parameter b p, pre =>
    if b._traits.testBit 31 = false ∧ b._traits.testBit 0 = true then
      [(pre ++ b._name, V.value_to_string p)]
    else []
  | Entity b _ comps _ _, pre => configuredEntriesOf V comps (pre ++ b._name ++ ['.'])
/-- The entries of the components of a list in the words of the specification,
in the order of the list, which is the order of exposure. -/
def configuredEntriesOf (V : Virtuals P) : List (Node P) → Str → List (Str × Str)
  | [], _ => []
  | comp :: rest, pre => configuredEntries V comp pre ++ configuredEntriesOf V rest pre
end

/-- A name that a path can hold and that the tokenizer reads as part of one
token: each character is read as a plain character by the tokenizer and is neither
a dot nor a line feed, and the name is not `*`. -/
def addressableName (name : Str) : Bool :=
  name.all (fun c => Io.plain c && decide (c ≠ '.') && decide (c ≠ NEWLINE)) &&
    decide (name ≠ ['*'])

mutual
/-- Each component below the object has an addressable name and is unlocked. -/
def addressable : Node P → Bool
  | Parameter _ _ => true
  | Entity _ _ comps _ _ => addressableList comps
/-- Each object of the list has an addressable name, is unlocked, and so is each
component below it. -/
def addressableList : List (Node P) → Bool
  | [] => true
  | n :: rest =>
    addressableName n.name && n.base.unlocked && addressable n && addressableList rest
end

end Node

/-! ## The configuration entity (`configuration.hpp`, `configuration.cpp`) -/

namespace Parameter

/-- The loop of `Parameter<T, C, S, t>::values_to_string()` over `value_set`, with
the local variable `first`. -/
def valuesLoop {t : Type} (T : TranslatorPolicy t) (separator : Char) : Bool → List t → Str
  | _, [] => []
  | first, value :: rest =>
    (if ¬ first then [separator, ' '] else []) ++ T.to_str value
      ++ valuesLoop T separator false rest

/-- The method `Parameter<T, C, S, t>::values_to_string()`, for the text that
`signature()` of the translator returns and the kind and the set that `validity`
of the checker returns. -/
def values_to_string {t : Type} (T : TranslatorPolicy t) (signature : Str)
    (validity : Checker.Kind × List t) : Str :=
  if validity.1 = Checker.Kind.NONE then signature
  else
    let separator : Char := if validity.1 = Checker.Kind.RANGE then ';' else ','
    let opening : Str :=
      if validity.1 = Checker.Kind.RANGE then "in [".toList
      else (if validity.1 = Checker.Kind.BLACK_LIST then "not ".toList else [])
        ++ "in \x7b ".toList
    let closing : Str := if validity.1 = Checker.Kind.RANGE then [']'] else [' ', Char.ofNat 125]
    signature ++ [' '] ++ opening ++ valuesLoop T separator true validity.2 ++ closing

end Parameter

namespace Configuration

/-- The derived part of the parameters of `Configuration`: the data members of the
checker and of the storage of `PARAMETER(Direct, WhiteListed, Immediate, std::string)`,
of `PARAMETER(Direct, Saturating, Immediate, int32_t)` and of
`PARAMETER(Direct, WhiteListed, Immediate, int32_t)`. The translators hold the
format of construction. -/
inductive Param where
  | text (checker : Checker.WhiteListed Str) (storage : Storage.Immediate Str)
  | saturated (checker : Checker.Bounded Int) (storage : Storage.Immediate Int)
  | listed (checker : Checker.WhiteListed Int) (storage : Storage.Immediate Int)

/-- The translator `Direct<int32_t>` as constructed. -/
def int32 : TranslatorPolicy Int :=
  Translator.DirectInteger IntType.int32_t Translator.DirectInt.new

/-- The text that `Direct<int32_t>::signature()` returns in the decimal format. -/
def int32Signature : Str := "dec. int32".toList

/-- The virtual methods of the three kinds of parameters of `Configuration`. -/
def virtuals : Virtuals Param where
  value_to_string := fun p =>
    match p with
    | Param.text _ s =>
      Parameter.value_to_string Translator.DirectStr (Storage.ImmediateStorage Str) s
    | Param.saturated _ s => Parameter.value_to_string int32 (Storage.ImmediateStorage Int) s
    | Param.listed _ s => Parameter.value_to_string int32 (Storage.ImmediateStorage Int) s
  values_to_string := fun p =>
    match p with
    | Param.text w _ =>
      Parameter.values_to_string Translator.DirectStr "string".toList w.validity
    | Param.saturated b _ => Parameter.values_to_string int32 int32Signature b.validity
    | Param.listed w _ => Parameter.values_to_string int32 int32Signature w.validity
  string_to_value := fun p val =>
    match p with
    | Param.text w s =>
      let r := Parameter.string_to_value Translator.DirectStr ⟨w.check⟩
        (Storage.ImmediateStorage Str) s val
      (r.1, Param.text w r.2)
    | Param.saturated b s =>
      let r := Parameter.string_to_value int32 ⟨Checker.Saturating.check b⟩
        (Storage.ImmediateStorage Int) s val
      (r.1, Param.saturated b r.2)
    | Param.listed w s =>
      let r := Parameter.string_to_value int32 ⟨w.check⟩ (Storage.ImmediateStorage Int) s val
      (r.1, Param.listed w r.2)

/-- The member `protocol` when it is exposed, at address 2. -/
def protocol : Node Param :=
  Node.Parameter
    ((((Parameter.newComponent 2 "string".toList).denominate "protocol".toList).describe
      "The protocol to access the configuration files".toList).characterise Trait.CONFIGURABLE)
    (Param.text
      ((Checker.WhiteListed.mk []).allowSet
        (StdSet.ofList ["file".toList, "ftp".toList, "ftps".toList, "http".toList,
          "https".toList, "scp".toList, "sftp".toList, "tftp".toList]))
      ⟨"file".toList⟩)

/-- The member `server` when it is exposed, at address 3. -/
def server : Node Param :=
  Node.Parameter
    ((((Parameter.newComponent 3 "string".toList).denominate "server".toList).describe
      "The server URL to access the configuration files".toList).characterise
      Trait.CONFIGURABLE)
    (Param.text (Checker.WhiteListed.mk []) ⟨[]⟩)

/-- The member `path` when it is exposed, at address 4. -/
def path : Node Param :=
  Node.Parameter
    ((((Parameter.newComponent 4 "string".toList).denominate "path".toList).describe
      "The full path on the server to access the master configuration file".toList).characterise
      Trait.CONFIGURABLE)
    (Param.text (Checker.WhiteListed.mk []) ⟨".config".toList⟩)

/-- The member `folder` when it is exposed, at address 5. -/
def folder : Node Param :=
  Node.Parameter
    ((((Parameter.newComponent 5 "string".toList).denominate "folder".toList).describe
      ("The folder where to store the local copies of all configuration files. ".toList
        ++ "No copy happens when the local folder is the same as the input ".toList
        ++ "fully qualified path".toList)).characterise Trait.CONFIGURABLE)
    (Param.text (Checker.WhiteListed.mk []) ⟨".".toList⟩)

/-- The member `timeout` when it is exposed, at address 6: the range is set by
`timeout.range(-1, 600)`. -/
def timeout : Node Param :=
  Node.Parameter
    ((((Parameter.newComponent 6 "int32".toList).denominate "timeout".toList).describe
      ("The server access connection timeout in seconds ".toList
        ++ "(-1 for infinite timeout)".toList)).characterise Trait.CONFIGURABLE)
    (Param.saturated
      ((Checker.Bounded.new IntType.int32_t.min
        IntType.int32_t.max).range (-1) 600).2
      ⟨60⟩)

/-- The member `port` when it is exposed, at address 7. -/
def port : Node Param :=
  Node.Parameter
    ((((Parameter.newComponent 7 "int32".toList).denominate "port".toList).describe
      ("The server access port number ".toList
        ++ "(-1 for using the default protocol port number)".toList)).characterise
      Trait.CONFIGURABLE)
    (Param.listed
      ((Checker.WhiteListed.mk []).allowSet
        (StdSet.ofList [-1, 20, 21, 22, 23, 69, 80, 443, 981, 989, 990, 8008, 8080]))
      ⟨-1⟩)

/-- The constructor `Configuration::Configuration()` for the object at address 1:
the entity after the six calls of `expose`. -/
def new : Node Param :=
  Node.exposeAll (Node.newEntity 1 "Configuration".toList)
    [protocol, server, path, folder, timeout, port]

end Configuration
/-! ## Concrete objects -/

namespace Component

/-- A Configurable-only string parameter, unlocked. -/
def exampleConfigurable : Component :=
  (Parameter.newComponent 1 "string".toList).characterise Trait.CONFIGURABLE

/-- A Settable string parameter, unlocked. -/
def exampleSettable : Component :=
  (Parameter.newComponent 1 "string".toList).characterise Trait.SETTABLE

/-- A string parameter that was never characterised. -/
def exampleUndefined : Component := Parameter.newComponent 1 "string".toList

end Component

namespace Node

/-- A string parameter named `name` at `addr` that holds `value`, characterised
with `traits`. -/
def exampleParameter (addr : Nat) (name : Str) (traits : Trait) (value : Str) :
    Node (Storage.Immediate Str) :=
  Parameter (((Parameter.newComponent addr "string".toList).denominate name).characterise
    traits) ⟨value⟩

/-- An entity named `name` at `addr` that exposes the given components. -/
def exampleEntity (addr : Nat) (name : Str) (comps : List (Node (Storage.Immediate Str))) :
    Node (Storage.Immediate Str) :=
  exposeAll ((newEntity addr "Stage".toList).withBase
    ((Customisation.Entity.newComponent addr).denominate name)) comps

/-- The sentinel `Component::INVALID` after `Component::INVALID.denominate("x")`. -/
def exampleSentinel : Node (Storage.Immediate Str) :=
  Parameter (Component.INVALID.denominate "x".toList) ⟨[]⟩

/-- A freshly constructed entity at address 1. -/
def exampleFresh : Node (Storage.Immediate Str) := newEntity 1 "Stage".toList

/-- The entity `b { c, d }`: `c` and `d` are string parameters. -/
def exampleB : Node (Storage.Immediate Str) :=
  exampleEntity 3 "b".toList
    [exampleParameter 4 "c".toList Trait.CONFIGURABLE "one".toList,
     exampleParameter 5 "d".toList Trait.SETTABLE "two".toList]

/-- The entity `a { b { c, d }, p }`. -/
def exampleA : Node (Storage.Immediate Str) :=
  exampleEntity 2 "a".toList
    [exampleB, exampleParameter 6 "p".toList Trait.CONFIGURABLE "three".toList]

/-- The tree `top { a { b { c, d }, p }, q }`: `a` and `b` are entities, `c`, `d`,
`p` and `q` are string parameters. -/
def exampleTree : Node (Storage.Immediate Str) :=
  exampleEntity 1 "top".toList
    [exampleA, exampleParameter 7 "q".toList Trait.SETTABLE "four".toList]

/-- Hooks whose `setup()` fails with `UNKNOWN` on the entity named `bad` and
succeeds on every other entity. -/
def exampleHooks : Hooks (Storage.Immediate Str) where
  setup := fun n => if n.name = "bad".toList then Error.UNKNOWN else Error.NONE

/-- The entity `good { c }` at address 2. -/
def exampleGood : Node (Storage.Immediate Str) :=
  exampleEntity 2 "good".toList [exampleParameter 4 "c".toList Trait.CONFIGURABLE []]

/-- The entity `bad { d }` at address 3. -/
def exampleBad : Node (Storage.Immediate Str) :=
  exampleEntity 3 "bad".toList [exampleParameter 5 "d".toList Trait.CONFIGURABLE []]

/-- The parameter `q` at address 7. -/
def exampleQ : Node (Storage.Immediate Str) :=
  exampleParameter 7 "q".toList Trait.SETTABLE []

end Node


namespace Io

/-- The line `set x "hello, world" # note`. -/
def exampleLine : Str :=
  "set x ".toList ++ [DQUOTE] ++ "hello, world".toList ++ [DQUOTE] ++ " # note".toList

/-- The rest of `exampleLine` after its second token. -/
def exampleRest : Str :=
  [DQUOTE] ++ "hello, world".toList ++ [DQUOTE] ++ " # note".toList

end Io

/-! ## Concrete objects for the dumps -/

namespace Node

/-- The entity `top { zeta, alpha, beta }`, exposed in this order: `zeta` and
`beta` are Settable parameters, `alpha` is a Configurable parameter. -/
def exampleOrder : Node (Storage.Immediate Str) :=
  exampleEntity 1 "top".toList
    [exampleParameter 2 "zeta".toList Trait.SETTABLE "last".toList,
     exampleParameter 3 "alpha".toList Trait.CONFIGURABLE "first".toList,
     exampleParameter 4 "beta".toList Trait.SETTABLE "second".toList]

end Node

namespace Node

/-- An entity named `*` at address 2, with no component. -/
def exampleStar : Node (Storage.Immediate Str) := exampleEntity 2 "*".toList []

/-- A Configurable string parameter named `a.b` at address 3. -/
def exampleDotted : Node (Storage.Immediate Str) :=
  exampleParameter 3 "a.b".toList Trait.CONFIGURABLE "one".toList

/-- A Configurable string parameter named `ab` at address 4. -/
def examplePlain : Node (Storage.Immediate Str) :=
  exampleParameter 4 "ab".toList Trait.CONFIGURABLE "two".toList

end Node

namespace Node

/-- The entity `top { long }`, where the Configurable string parameter `long`
holds eighty times the letter `x`. -/
def exampleLong : Node (Storage.Immediate Str) :=
  exampleEntity 1 "top".toList
    [exampleParameter 2 "long".toList Trait.CONFIGURABLE (List.replicate 80 'x')]

end Node
end Customisation

/-! # Theorems -/

namespace Customisation

/-! ## Lemmas on the tokenizer -/

namespace Io

theorem rstrip_concat (t : Str) (c : Char) (h : blank c = false) :
    rstrip (t ++ [c]) = t ++ [c] := by
  unfold rstrip
  rw [List.rdropWhile_concat_neg]
  simp [h]

theorem scan_quoted_plain (tokens : List Str) (min max : Int) (t rest : Str) (c : Char)
    (h1 : c ≠ DQUOTE) (h2 : c ≠ BACKSLASH) :
    scan tokens min max { token := t, token_started := true, inside_quotes := true }
      (c :: rest)
    = scan tokens min max
        { token := t ++ [c], token_started := true, inside_quotes := true } rest := by
  simp [scan, h1, h2]

theorem scan_quoted_escaped (tokens : List Str) (min max : Int) (t rest : Str) (c : Char) :
    scan tokens min max { token := t, token_started := true, inside_quotes := true }
      (BACKSLASH :: c :: rest)
    = scan tokens min max
        { token := t ++ [c], token_started := true, inside_quotes := true } rest := by
  have h : BACKSLASH ≠ DQUOTE := by decide
  simp [scan, h]

theorem scan_quoted_close (tokens : List Str) (min max : Int) (t rest : Str) :
    scan tokens min max { token := t, token_started := true, inside_quotes := true }
      (DQUOTE :: rest)
    = scan tokens min max { token := t ++ [DQUOTE], token_started := true } rest := by
  have h : DQUOTE ≠ BACKSLASH := by decide
  simp [scan, h]

/-- Inside double quotes the tokenizer copies an escaped text up to the closing
quote, dropping each escaping backslash. -/
theorem scan_escape (tokens : List Str) (min max : Int) (v t : Str) :
    scan tokens min max
      { token := t, token_started := true, inside_quotes := true }
      (Translator.DirectString.escape v ++ [DQUOTE])
    = finish tokens min { token := t ++ v ++ [DQUOTE], token_started := true } := by
  induction v generalizing t with
  | nil =>
    rw [Translator.DirectString.escape, List.nil_append, scan_quoted_close]
    simp [scan]
  | cons c cs ih =>
    by_cases hc : c = DQUOTE ∨ c = BACKSLASH
    · rw [Translator.DirectString.escape, if_pos hc, List.cons_append, List.cons_append,
        scan_quoted_escaped, ih]
      simp
    · rw [Translator.DirectString.escape, if_neg hc, List.cons_append]
      push_neg at hc
      rw [scan_quoted_plain _ _ _ _ _ _ hc.1 hc.2, ih]
      simp

/-- The re-entry of the source at the index of a separator that closes a started
token, `parse(line, tokens, min-1, max-1, i, end)` after
`tokens.emplace_back(token)`, is what `scan` computes there. -/
theorem scan_separator_started (tokens : List Str) (min max : Int) (s : Scan) (c : Char)
    (rest : Str) (hb : s.had_backslash = false) (hq : s.inside_quotes = false)
    (hs : s.inside_squotes = false) (hc : separator c = true)
    (ht : s.token_started = true) :
    scan tokens min max s (c :: rest)
    = parseFrom (tokens ++ [s.token]) (min - 1) (max - 1) (c :: rest) := by
  have e1 : min - 1 - 1 = min - 2 := by ring
  have e2 : max - 1 - 1 = max - 2 := by ring
  simp [scan, parseFrom, hb, hq, hs, hc, ht, e1, e2]

/-- The tokens of the text that `to_str` of the Direct string translator makes:
one token, the text between its quotes with the escapes undone. -/
theorem parseAll_to_str (v : Str) :
    parseAll (Translator.DirectString.to_str v) []
    = (Error.NONE, [[DQUOTE] ++ v ++ [DQUOTE]]) := by
  have hd : blank DQUOTE = false := by decide
  have h1 : DQUOTE ≠ BACKSLASH := by decide
  have h2 : DQUOTE ≠ SQUOTE := by decide
  have h3 : separator DQUOTE = false := by decide
  have h4 : DQUOTE ≠ '#' := by decide
  have step : scan [] (-1) (-1) {} (DQUOTE :: (Translator.DirectString.escape v ++ [DQUOTE]))
      = scan [] (-1) (-1) { token := [DQUOTE], token_started := true, inside_quotes := true }
          (Translator.DirectString.escape v ++ [DQUOTE]) := by
    simp [scan, hd, h1, h2, h3, h4]
  have hr : rstrip (DQUOTE :: (v ++ [DQUOTE])) = DQUOTE :: (v ++ [DQUOTE]) :=
    rstrip_concat ([DQUOTE] ++ v) DQUOTE hd
  simp only [parseAll, parseMax, parse, parseFrom, Translator.DirectString.to_str]
  rw [if_neg (by decide), List.append_assoc, List.singleton_append, step, scan_escape]
  simp [finish, hr]

end Io

theorem DirectString_from_str_quoted (v : Str) (error : Error) :
    Translator.DirectString.from_str ([DQUOTE] ++ v ++ [DQUOTE]) error = (v, error) := by
  have hq : DQUOTE ≠ SQUOTE := by decide
  have hl : (DQUOTE :: (v ++ [DQUOTE])).getLast? = some DQUOTE := by
    have := List.getLast?_concat (DQUOTE :: v) (a := DQUOTE)
    simpa using this
  simp [Translator.DirectString.from_str, Translator.substr, Translator.size_t_sub, hq, hl]

/-- C1. Round trip of the Direct string translator through the tokenizer: for
every string `v`, `string_to_value` of a `Parameter<Direct, None, Immediate,
std::string>` applied to `to_str(v)` returns `Error::NONE` and stores exactly `v`,
whatever value was stored before. -/
theorem direct_string_round_trip (v : Str) (self : Storage.Immediate Str) :
    Parameter.string_to_value Translator.DirectStr (Checker.NoneChecker Str)
      (Storage.ImmediateStorage Str) self (Translator.DirectStr.to_str v)
    = (Error.NONE, { _current_value := v }) := by
  have hp := Io.parseAll_to_str v
  have hf := DirectString_from_str_quoted v Error.NONE
  simp only [Parameter.string_to_value, Translator.DirectStr, hp, hf,
    Checker.NoneChecker, Checker.None.check, Storage.ImmediateStorage,
    Storage.Immediate.store_value]
  simp

end Customisation

namespace Customisation
namespace Trait

theorem UNDEFINED_eq : UNDEFINED = 2 ^ 31 := by decide
theorem ENTITY_eq : ENTITY = 2 ^ 30 := by decide
theorem LOCKED_eq : LOCKED = 2 ^ 28 := by decide
theorem CONFIGURABLE_eq : CONFIGURABLE = 2 ^ 0 := by decide
theorem SETTABLE_eq : SETTABLE = 2 ^ 0 ||| 2 ^ 1 := by decide
theorem ones_eq : (0xFFFFFFFF : Nat) = 2 ^ 32 - 1 := by decide

/-- The bits of a complement. -/
theorem testBit_not (t : Trait) (i : Nat) :
    (Trait.not t).testBit i = Bool.xor (t.testBit i) (decide (i < 32)) := by
  unfold Trait.not
  rw [ones_eq, Nat.testBit_xor, Nat.testBit_two_pow_sub_one]

theorem and_UNDEFINED_eq_NONE (t : Trait) :
    t &&& UNDEFINED = NONE ↔ t.testBit 31 = false := by
  rw [UNDEFINED_eq, Nat.and_two_pow, NONE]
  cases t.testBit 31 <;> simp

theorem and_UNDEFINED_eq_UNDEFINED (t : Trait) :
    t &&& UNDEFINED = UNDEFINED ↔ t.testBit 31 = true := by
  rw [UNDEFINED_eq, Nat.and_two_pow]
  cases t.testBit 31 <;> simp

theorem and_LOCKED_eq_LOCKED (t : Trait) :
    t &&& LOCKED = LOCKED ↔ t.testBit 28 = true := by
  rw [LOCKED_eq, Nat.and_two_pow]
  cases t.testBit 28 <;> simp

theorem and_LOCKED_eq_NONE (t : Trait) :
    t &&& LOCKED = NONE ↔ t.testBit 28 = false := by
  rw [LOCKED_eq, Nat.and_two_pow, NONE]
  cases t.testBit 28 <;> simp

theorem set_gate (t : Trait) :
    t &&& (UNDEFINED ||| SETTABLE) = SETTABLE ↔
      t.testBit 31 = false ∧ t.testBit 0 = true ∧ t.testBit 1 = true := by
  rw [UNDEFINED_eq, SETTABLE_eq]
  constructor
  · intro h
    refine ⟨?_, ?_, ?_⟩
    · have hb := congrArg (fun x => Nat.testBit x 31) h
      simp only [Nat.testBit_and, Nat.testBit_or, Nat.testBit_two_pow] at hb
      generalize Nat.testBit t 31 = b at hb ⊢
      revert hb
      cases b <;> decide
    · have hb := congrArg (fun x => Nat.testBit x 0) h
      simp only [Nat.testBit_and, Nat.testBit_or, Nat.testBit_two_pow] at hb
      generalize Nat.testBit t 0 = b at hb ⊢
      revert hb
      cases b <;> decide
    · have hb := congrArg (fun x => Nat.testBit x 1) h
      simp only [Nat.testBit_and, Nat.testBit_or, Nat.testBit_two_pow] at hb
      generalize Nat.testBit t 1 = b at hb ⊢
      revert hb
      cases b <;> decide
  · rintro ⟨h31, h0, h1⟩
    apply Nat.eq_of_testBit_eq
    intro i
    simp only [Nat.testBit_and, Nat.testBit_or, Nat.testBit_two_pow]
    by_cases e31 : 31 = i
    · subst e31; simp [h31]
    by_cases e0 : 0 = i
    · subst e0; simp [h0]
    by_cases e1 : 1 = i
    · subst e1; simp [h1]
    simp [e31, e0, e1]

theorem configure_gate (t : Trait) :
    t &&& (UNDEFINED ||| CONFIGURABLE ||| LOCKED) = CONFIGURABLE ↔
      t.testBit 31 = false ∧ t.testBit 0 = true ∧ t.testBit 28 = false := by
  rw [UNDEFINED_eq, CONFIGURABLE_eq, LOCKED_eq]
  constructor
  · intro h
    refine ⟨?_, ?_, ?_⟩
    · have hb := congrArg (fun x => Nat.testBit x 31) h
      simp only [Nat.testBit_and, Nat.testBit_or, Nat.testBit_two_pow] at hb
      generalize Nat.testBit t 31 = b at hb ⊢
      revert hb
      cases b <;> decide
    · have hb := congrArg (fun x => Nat.testBit x 0) h
      simp only [Nat.testBit_and, Nat.testBit_or, Nat.testBit_two_pow] at hb
      generalize Nat.testBit t 0 = b at hb ⊢
      revert hb
      cases b <;> decide
    · have hb := congrArg (fun x => Nat.testBit x 28) h
      simp only [Nat.testBit_and, Nat.testBit_or, Nat.testBit_two_pow] at hb
      generalize Nat.testBit t 28 = b at hb ⊢
      revert hb
      cases b <;> decide
  · rintro ⟨h31, h0, h28⟩
    apply Nat.eq_of_testBit_eq
    intro i
    simp only [Nat.testBit_and, Nat.testBit_or, Nat.testBit_two_pow]
    by_cases e31 : 31 = i
    · subst e31; simp [h31]
    by_cases e0 : 0 = i
    · subst e0; simp [h0]
    by_cases e28 : 28 = i
    · subst e28; simp [h28]
    simp [e31, e0, e28]

theorem and_SETTABLE_eq_SETTABLE (t : Trait) :
    t &&& SETTABLE = SETTABLE ↔ t.testBit 0 = true ∧ t.testBit 1 = true := by
  rw [SETTABLE_eq]
  constructor
  · intro h
    refine ⟨?_, ?_⟩
    · have hb := congrArg (fun x => Nat.testBit x 0) h
      simp only [Nat.testBit_and, Nat.testBit_or, Nat.testBit_two_pow] at hb
      generalize Nat.testBit t 0 = b at hb ⊢
      revert hb
      cases b <;> decide
    · have hb := congrArg (fun x => Nat.testBit x 1) h
      simp only [Nat.testBit_and, Nat.testBit_or, Nat.testBit_two_pow] at hb
      generalize Nat.testBit t 1 = b at hb ⊢
      revert hb
      cases b <;> decide
  · rintro ⟨h0, h1⟩
    apply Nat.eq_of_testBit_eq
    intro i
    simp only [Nat.testBit_and, Nat.testBit_or, Nat.testBit_two_pow]
    by_cases e0 : 0 = i
    · subst e0; simp [h0]
    by_cases e1 : 1 = i
    · subst e1; simp [h1]
    simp [e0, e1]

theorem and_SETTABLE_eq_CONFIGURABLE (t : Trait) :
    t &&& SETTABLE = CONFIGURABLE ↔ t.testBit 0 = true ∧ t.testBit 1 = false := by
  rw [SETTABLE_eq, CONFIGURABLE_eq]
  constructor
  · intro h
    refine ⟨?_, ?_⟩
    · have hb := congrArg (fun x => Nat.testBit x 0) h
      simp only [Nat.testBit_and, Nat.testBit_or, Nat.testBit_two_pow] at hb
      generalize Nat.testBit t 0 = b at hb ⊢
      revert hb
      cases b <;> decide
    · have hb := congrArg (fun x => Nat.testBit x 1) h
      simp only [Nat.testBit_and, Nat.testBit_or, Nat.testBit_two_pow] at hb
      generalize Nat.testBit t 1 = b at hb ⊢
      revert hb
      cases b <;> decide
  · rintro ⟨h0, h1⟩
    apply Nat.eq_of_testBit_eq
    intro i
    simp only [Nat.testBit_and, Nat.testBit_or, Nat.testBit_two_pow]
    by_cases e0 : 0 = i
    · subst e0; simp [h0]
    by_cases e1 : 1 = i
    · subst e1; simp [h1]
    simp [e0, e1]

theorem and_ENTITY_eq_NONE (t : Trait) :
    t &&& ENTITY = NONE ↔ t.testBit 30 = false := by
  rw [ENTITY_eq, Nat.and_two_pow, NONE]
  cases t.testBit 30 <;> simp

theorem and_SETTABLE_eq_NONE (t : Trait) :
    t &&& SETTABLE = NONE ↔ t.testBit 0 = false ∧ t.testBit 1 = false := by
  rw [SETTABLE_eq, NONE]
  constructor
  · intro h
    refine ⟨?_, ?_⟩
    · have hb := congrArg (fun x => Nat.testBit x 0) h
      simp only [Nat.testBit_and, Nat.testBit_or, Nat.testBit_two_pow] at hb
      generalize Nat.testBit t 0 = b at hb ⊢
      revert hb
      cases b <;> decide
    · have hb := congrArg (fun x => Nat.testBit x 1) h
      simp only [Nat.testBit_and, Nat.testBit_or, Nat.testBit_two_pow] at hb
      generalize Nat.testBit t 1 = b at hb ⊢
      revert hb
      cases b <;> decide
  · rintro ⟨h0, h1⟩
    apply Nat.eq_of_testBit_eq
    intro i
    simp only [Nat.testBit_and, Nat.testBit_or, Nat.testBit_two_pow]
    by_cases e0 : 0 = i
    · subst e0; simp [h0]
    by_cases e1 : 1 = i
    · subst e1; simp [h1]
    simp [e0, e1]

end Trait

namespace Component

/-- The bits of the traits after `characterise`. -/
theorem characterise_testBit (c : Component) (traits : Trait) (i : Nat) :
    (c.characterise traits)._traits.testBit i
    = ((c._traits.testBit i &&
          Bool.xor (c._mask.testBit i || decide (31 = i)) (decide (i < 32)))
        || (traits.testBit i && c._mask.testBit i)) := by
  simp only [characterise, Nat.testBit_or, Nat.testBit_and, Trait.testBit_not,
    Trait.UNDEFINED_eq, Nat.testBit_two_pow]

/-- The bits of the traits after `lock`. -/
theorem lock_testBit (c : Component) (i : Nat) :
    c.lock._traits.testBit i = (c._traits.testBit i || decide (28 = i)) := by
  simp only [lock, Nat.testBit_or, Trait.LOCKED_eq, Nat.testBit_two_pow]

/-- The bits of the traits after `unlock`. -/
theorem unlock_testBit (c : Component) (i : Nat) :
    c.unlock._traits.testBit i
    = (c._traits.testBit i && Bool.xor (decide (28 = i)) (decide (i < 32))) := by
  simp only [unlock, Nat.testBit_and, Trait.testBit_not, Trait.LOCKED_eq,
    Nat.testBit_two_pow]

/-- The bits of the mask that the constructor stores. -/
theorem new_mask_testBit (addr : Nat) (type : Str) (base mask : Trait) (i : Nat) :
    (new addr type base mask)._mask.testBit i
    = (mask.testBit i && Bool.xor (decide (31 = i)) (decide (i < 32))) := by
  simp only [new, Nat.testBit_and, Trait.testBit_not, Trait.UNDEFINED_eq,
    Nat.testBit_two_pow]

theorem applyOp_mask (c : Component) (op : TraitOp) : (applyOp c op)._mask = c._mask := by
  cases op <;> rfl

theorem applyOps_mask (c : Component) (ops : List TraitOp) :
    (applyOps c ops)._mask = c._mask := by
  induction ops generalizing c with
  | nil => rfl
  | cons op ops ih =>
    show (applyOps (applyOp c op) ops)._mask = c._mask
    rw [ih, applyOp_mask]

/-- A bit below 32 that the mask excludes, other than Undefined and Locked, keeps
its value through every call that writes the traits. -/
theorem applyOp_testBit_of_mask (c : Component) (op : TraitOp) (i : Nat)
    (hm : c._mask.testBit i = false) (h31 : i ≠ 31) (h28 : i ≠ 28) (h32 : i < 32) :
    (applyOp c op)._traits.testBit i = c._traits.testBit i := by
  have e31 : ¬ 31 = i := fun h => h31 h.symm
  have e28 : ¬ 28 = i := fun h => h28 h.symm
  cases op with
  | characterise traits =>
    simp [applyOp, characterise_testBit, hm, e31, h32]
  | lock => simp [applyOp, lock_testBit, e28]
  | unlock => simp [applyOp, unlock_testBit, e28, h32]

theorem applyOps_testBit_of_mask (c : Component) (ops : List TraitOp) (i : Nat)
    (hm : c._mask.testBit i = false) (h31 : i ≠ 31) (h28 : i ≠ 28) (h32 : i < 32) :
    (applyOps c ops)._traits.testBit i = c._traits.testBit i := by
  induction ops generalizing c with
  | nil => rfl
  | cons op ops ih =>
    show (applyOps (applyOp c op) ops)._traits.testBit i = c._traits.testBit i
    rw [ih (applyOp c op) (by rw [applyOp_mask]; exact hm),
      applyOp_testBit_of_mask c op i hm h31 h28 h32]

end Component
end Customisation

namespace Customisation
namespace Component

variable {σ : Type}

/-- C2. Capability gate for `configure()` and `set()`. On a characterised
component that is Configurable but not Settable, `configure(text)` is
`string_to_value(text)` while the component is unlocked; once it is Locked
`configure(text)` returns `INVALID_REQUEST` and leaves the value as it was.
`set(text)` returns `INVALID_REQUEST` and leaves the value as it was on every
component whose traits do not contain the full Settable bit pattern, and on
every component that still carries the Undefined flag. -/
theorem capability_gate (V : Virtuals σ) (c : Component) (s : σ) (text : Str) :
    (c._traits &&& Trait.UNDEFINED = Trait.NONE →
      c._traits &&& Trait.SETTABLE = Trait.CONFIGURABLE →
        (c.unlocked = true → configure V c s text = V.string_to_value s text) ∧
        (c.locked = true → configure V c s text = (Error.INVALID_REQUEST, s))) ∧
    (c._traits &&& Trait.SETTABLE ≠ Trait.SETTABLE →
      set V c s text = (Error.INVALID_REQUEST, s)) ∧
    (c._traits &&& Trait.UNDEFINED = Trait.UNDEFINED →
      set V c s text = (Error.INVALID_REQUEST, s)) := by
  refine ⟨?_, ?_, ?_⟩
  · intro hu hc
    rw [Trait.and_UNDEFINED_eq_NONE] at hu
    rw [Trait.and_SETTABLE_eq_CONFIGURABLE] at hc
    constructor
    · intro hl
      simp only [unlocked, decide_eq_true_eq, Trait.and_LOCKED_eq_NONE] at hl
      rw [configure, if_pos ((Trait.configure_gate _).2 ⟨hu, hc.1, hl⟩)]
    · intro hl
      simp only [locked, decide_eq_true_eq, Trait.and_LOCKED_eq_LOCKED] at hl
      rw [configure, if_neg]
      intro h
      have := ((Trait.configure_gate _).1 h).2.2
      rw [hl] at this
      exact Bool.noConfusion this
  · intro hs
    rw [set, if_neg]
    intro h
    exact hs ((Trait.and_SETTABLE_eq_SETTABLE _).2 ((Trait.set_gate _).1 h).2)
  · intro hu
    rw [Trait.and_UNDEFINED_eq_UNDEFINED] at hu
    rw [set, if_neg]
    intro h
    have := ((Trait.set_gate _).1 h).1
    rw [hu] at this
    exact Bool.noConfusion this

/-- Witness of C2: the gate on a Configurable-only string parameter, unlocked and
locked, and on a parameter that was never characterised. -/
theorem capability_gate_witness :
    configure Parameter.directString exampleConfigurable ⟨"old".toList⟩ "new".toList
      = (Error.NONE, ⟨"new".toList⟩) ∧
    configure Parameter.directString exampleConfigurable.lock ⟨"old".toList⟩ "new".toList
      = (Error.INVALID_REQUEST, ⟨"old".toList⟩) ∧
    set Parameter.directString exampleConfigurable ⟨"old".toList⟩ "new".toList
      = (Error.INVALID_REQUEST, ⟨"old".toList⟩) ∧
    set Parameter.directString exampleUndefined ⟨"old".toList⟩ "new".toList
      = (Error.INVALID_REQUEST, ⟨"old".toList⟩) := by
  refine ⟨?_, ?_, ?_, ?_⟩
  · rw [((capability_gate Parameter.directString exampleConfigurable ⟨"old".toList⟩
      "new".toList).1 (by decide) (by decide)).1 (by decide)]
    decide
  · exact ((capability_gate Parameter.directString exampleConfigurable.lock
      ⟨"old".toList⟩ "new".toList).1 (by decide) (by decide)).2 (by decide)
  · exact (capability_gate Parameter.directString exampleConfigurable ⟨"old".toList⟩
      "new".toList).2.1 (by decide)
  · exact (capability_gate Parameter.directString exampleUndefined ⟨"old".toList⟩
      "new".toList).2.2 (by decide)

/-- The Locked bit plays no part in the test of `set()`. -/
theorem set_gate_lock (t : Trait) :
    (t ||| Trait.LOCKED) &&& (Trait.UNDEFINED ||| Trait.SETTABLE) = Trait.SETTABLE ↔
      t &&& (Trait.UNDEFINED ||| Trait.SETTABLE) = Trait.SETTABLE := by
  rw [Trait.set_gate, Trait.set_gate]
  simp only [Nat.testBit_or, Trait.LOCKED_eq, Nat.testBit_two_pow]
  simp

theorem set_gate_unlock (t : Trait) :
    (t &&& Trait.not Trait.LOCKED) &&& (Trait.UNDEFINED ||| Trait.SETTABLE)
      = Trait.SETTABLE ↔
      t &&& (Trait.UNDEFINED ||| Trait.SETTABLE) = Trait.SETTABLE := by
  rw [Trait.set_gate, Trait.set_gate]
  simp only [Nat.testBit_and, Trait.testBit_not, Trait.LOCKED_eq, Nat.testBit_two_pow]
  simp

/-- C3, counterexample. A Settable string parameter that is Locked and holds
`old`: `set` of the text `new` returns `NONE` and the stored value becomes
`new`. -/
theorem set_on_locked_settable_succeeds :
    exampleSettable.lock.locked = true ∧
    set Parameter.directString exampleSettable.lock ⟨"old".toList⟩ "new".toList
      = (Error.NONE, ⟨"new".toList⟩) := by
  decide

/-- C3, amended. `set(text)` does not look at the Locked flag: on every
component it does the same whether the component is locked, unlocked or left as
it is; it is `string_to_value(text)` when the component is characterised and
carries the full Settable bit pattern, and otherwise returns `INVALID_REQUEST` and
leaves the value as it was. -/
theorem set_ignores_lock (V : Virtuals σ) (c : Component) (s : σ) (text : Str) :
    set V c.lock s text = set V c s text ∧
    set V c.unlock s text = set V c s text ∧
    set V c s text =
      (if c._traits &&& Trait.UNDEFINED = Trait.NONE ∧
          c._traits &&& Trait.SETTABLE = Trait.SETTABLE
       then V.string_to_value s text else (Error.INVALID_REQUEST, s)) := by
  refine ⟨?_, ?_, ?_⟩
  · simp only [set, lock, set_gate_lock]
  · simp only [set, unlock, set_gate_unlock]
  · simp only [set, Trait.set_gate, Trait.and_UNDEFINED_eq_NONE,
      Trait.and_SETTABLE_eq_SETTABLE]

/-- C4. `get()` is never blocked by Locked: on every component whose Undefined
flag is clear, locked or not, `get(into)` returns `NONE` and the buffer becomes
its previous content followed by `value_to_string()`; and `get` returns an error
only when the Undefined flag is set. -/
theorem get_never_blocked_by_lock (V : Virtuals σ) (c : Component) (s : σ) (into : Str) :
    (c._traits &&& Trait.UNDEFINED = Trait.NONE →
      get V c s into = (Error.NONE, into ++ V.value_to_string s) ∧
      get V c.lock s into = (Error.NONE, into ++ V.value_to_string s) ∧
      get V c.unlock s into = (Error.NONE, into ++ V.value_to_string s)) ∧
    ((get V c s into).1 ≠ Error.NONE → c._traits &&& Trait.UNDEFINED = Trait.UNDEFINED) := by
  constructor
  · intro hu
    have hu1 := (Trait.and_UNDEFINED_eq_NONE _).1 hu
    have hl : c.lock._traits &&& Trait.UNDEFINED = Trait.NONE := by
      rw [Trait.and_UNDEFINED_eq_NONE, lock_testBit, hu1]; decide
    have hul : c.unlock._traits &&& Trait.UNDEFINED = Trait.NONE := by
      rw [Trait.and_UNDEFINED_eq_NONE, unlock_testBit, hu1]; decide
    simp only [get, hu, hl, hul, if_true, and_self]
  · intro h
    by_cases hu : c._traits &&& Trait.UNDEFINED = Trait.NONE
    · simp [get, hu] at h
    · rw [Trait.and_UNDEFINED_eq_NONE] at hu
      rw [Trait.and_UNDEFINED_eq_UNDEFINED]
      simpa using hu

/-- Witness of C4: a locked Configurable string parameter that holds `abc`. -/
theorem get_never_blocked_by_lock_witness :
    get Parameter.directString exampleConfigurable.lock ⟨"abc".toList⟩ "x = ".toList
      = (Error.NONE, "x = \"abc\"".toList) ∧
    exampleUndefined._traits &&& Trait.UNDEFINED = Trait.UNDEFINED := by
  constructor
  · rw [((get_never_blocked_by_lock Parameter.directString exampleConfigurable
      ⟨"abc".toList⟩ "x = ".toList).1 (by decide)).2.1]
    decide
  · exact (get_never_blocked_by_lock Parameter.directString exampleUndefined
      ⟨"abc".toList⟩ "x = ".toList).2 (by decide)

/-- C5, counterexample. `get()` on a parameter that was never characterised
returns `INVALID_REQUEST`, which is not the error `UNDEFINED`. -/
theorem get_on_undefined_is_not_error_undefined :
    exampleUndefined._traits &&& Trait.UNDEFINED = Trait.UNDEFINED ∧
    (get Parameter.directString exampleUndefined ⟨"abc".toList⟩ "x = ".toList).1
      = Error.INVALID_REQUEST ∧
    (get Parameter.directString exampleUndefined ⟨"abc".toList⟩ "x = ".toList).1
      ≠ Error.UNDEFINED := by
  decide

/-- C5, amended. `get()` on a component whose Undefined flag is still set fails
with `INVALID_REQUEST` and leaves the output buffer as it was. -/
theorem get_on_undefined (V : Virtuals σ) (c : Component) (s : σ) (into : Str)
    (hu : c._traits &&& Trait.UNDEFINED = Trait.UNDEFINED) :
    get V c s into = (Error.INVALID_REQUEST, into) := by
  rw [get, if_neg]
  rw [hu]
  decide

/-- Witness of C5 amended: a string parameter that was never characterised. -/
theorem get_on_undefined_witness :
    get Parameter.directString exampleUndefined ⟨"abc".toList⟩ "x = ".toList
      = (Error.INVALID_REQUEST, "x = ".toList) :=
  get_on_undefined Parameter.directString exampleUndefined ⟨"abc".toList⟩ "x = ".toList
    (by decide)

end Component
end Customisation

namespace Customisation
namespace Component

/-- C6. For a component built by the constructor with any base and mask and then
taken through any calls of `characterise`, `lock` and `unlock`, with `m` its mask:
after `characterise(flags)` each of the 32 bits of the traits is clear if it is
the Undefined bit, the bit of `flags` if `m` has it, and the previous bit
otherwise; so the Undefined bit is clear for every `flags`, the bits of `flags`
outside `m` are dropped, and the bits outside `m` keep their value. A Parameter
never carries the IsEntity bit and an Entity never carries a Configurable or
Settable bit, whatever the calls. -/
theorem characterise_applies_mask (addr : Nat) (type : Str) (base mask : Trait)
    (ops : List TraitOp) (flags : Trait) :
    (∀ i, i < 32 →
      ((applyOps (new addr type base mask) ops).characterise flags)._traits.testBit i
      = if i = 31 then false
        else if (applyOps (new addr type base mask) ops)._mask.testBit i
          then flags.testBit i
          else (applyOps (new addr type base mask) ops)._traits.testBit i) ∧
    ((applyOps (new addr type base mask) ops).characterise flags)._traits
        &&& Trait.UNDEFINED = Trait.NONE ∧
    (applyOps (Parameter.newComponent addr type) ops)._traits &&& Trait.ENTITY
        = Trait.NONE ∧
    (applyOps (Entity.newComponent addr) ops)._traits &&& Trait.SETTABLE = Trait.NONE := by
  have hmask : ∀ i, (applyOps (new addr type base mask) ops)._mask.testBit i
      = (mask.testBit i && Bool.xor (decide (31 = i)) (decide (i < 32))) := by
    intro i
    rw [applyOps_mask, new_mask_testBit]
  refine ⟨?_, ?_, ?_, ?_⟩
  · intro i hi
    rw [characterise_testBit, hmask]
    by_cases e : i = 31
    · subst e
      simp
    · have e2 : ¬ 31 = i := fun h => e h.symm
      simp only [e, e2, hi, if_false, decide_False, decide_True, Bool.or_false,
        Bool.false_xor, Bool.and_true, Bool.xor_true]
      cases mask.testBit i <;> simp
  · rw [Trait.and_UNDEFINED_eq_NONE, characterise_testBit, hmask]
    simp
  · rw [Trait.and_ENTITY_eq_NONE]
    rw [applyOps_testBit_of_mask _ ops 30 _ (by decide) (by decide) (by decide)]
    · simp only [Parameter.newComponent, new]
      decide
    · simp only [Parameter.newComponent, new]
      decide
  · rw [Trait.and_SETTABLE_eq_NONE]
    rw [applyOps_testBit_of_mask _ ops 0 _ (by decide) (by decide) (by decide),
      applyOps_testBit_of_mask _ ops 1 _ (by decide) (by decide) (by decide)]
    · simp only [Entity.newComponent, characterise, new]
      decide
    · simp only [Entity.newComponent, characterise, new]
      decide
    · simp only [Entity.newComponent, characterise, new]
      decide

/-- Witness of C6: a string parameter characterised with Settable, IsEntity and
Undefined together keeps only the Settable bits. -/
theorem characterise_applies_mask_witness :
    (((applyOps (new 1 "string".toList Trait.NONE (Trait.not Trait.ENTITY)) []).characterise
        (Trait.SETTABLE ||| Trait.ENTITY ||| Trait.UNDEFINED))._traits.testBit 30
      = if 30 = 31 then false
        else if (applyOps (new 1 "string".toList Trait.NONE (Trait.not Trait.ENTITY))
            [])._mask.testBit 30
          then (Trait.SETTABLE ||| Trait.ENTITY ||| Trait.UNDEFINED).testBit 30
          else (applyOps (new 1 "string".toList Trait.NONE (Trait.not Trait.ENTITY))
            [])._traits.testBit 30) ∧
    ((new 1 "string".toList Trait.NONE (Trait.not Trait.ENTITY)).characterise
        (Trait.SETTABLE ||| Trait.ENTITY ||| Trait.UNDEFINED))._traits = Trait.SETTABLE :=
  ⟨(characterise_applies_mask 1 "string".toList Trait.NONE (Trait.not Trait.ENTITY) []
      (Trait.SETTABLE ||| Trait.ENTITY ||| Trait.UNDEFINED)).1 30 (by decide),
   by decide⟩

end Component
end Customisation

namespace Customisation
namespace Node

variable {P : Type}

/-! ## Lemmas on the entity tree -/

theorem componentAt_eq (comps : List (Node P)) (idx k : Nat) (eof : Bool) (key : Str) :
    componentAt comps idx k eof key
    = match comps[k]? with
      | none => none
      | some compo =>
        if eof then some [idx]
        else if ¬ compo.entity then none
        else (component compo key).map (fun r => idx :: r) := by
  induction comps generalizing k with
  | nil => simp [componentAt]
  | cons n rest ih =>
    cases k with
    | zero => simp [componentAt]
    | succ k => simp [componentAt, ih]

theorem getAtList_eq (comps : List (Node P)) (i : Nat) (r : List Nat) :
    getAtList comps i r
    = match comps[i]? with
      | none => none
      | some n => getAt n r := by
  induction comps generalizing i with
  | nil => simp [getAtList]
  | cons n rest ih =>
    cases i with
    | zero => simp [getAtList]
    | succ i => simp [getAtList, ih]

theorem setAtList_getElem (comps : List (Node P)) (i : Nat) (r : List Nat) (new n : Node P)
    (h : comps[i]? = some n) :
    (setAtList comps i r new)[i]? = some (setAt n r new) := by
  induction comps generalizing i with
  | nil => simp at h
  | cons m rest ih =>
    cases i with
    | zero =>
      simp at h
      simp [setAtList, h]
    | succ i =>
      simp at h
      simp [setAtList, ih i h]

theorem wellFormedList_iff (comps : List (Node P)) :
    wellFormedList comps = true ↔ ∀ n ∈ comps, wellFormed n = true := by
  induction comps with
  | nil => simp [wellFormedList]
  | cons n rest ih => simp [wellFormedList, ih]

theorem childFrom_some (comps : List (Node P)) (start : Nat) (name : Str) (i : Nat)
    (n : Node P) (h : childFrom comps start name = some (i, n)) :
    start ≤ i ∧ comps[i - start]? = some n ∧ n.name = name := by
  induction comps generalizing start with
  | nil => simp [childFrom] at h
  | cons m rest ih =>
    rw [childFrom] at h
    by_cases hm : m.name = name
    · rw [if_pos hm] at h
      simp only [Option.some.injEq, Prod.mk.injEq] at h
      obtain ⟨rfl, rfl⟩ := h
      simp [hm]
    · rw [if_neg hm] at h
      obtain ⟨h1, h2, h3⟩ := ih (start + 1) h
      refine ⟨by omega, ?_, h3⟩
      have e : i - start = (i - (start + 1)) + 1 := by omega
      rw [e]
      simpa using h2

theorem childFrom_none (comps : List (Node P)) (start : Nat) (name : Str)
    (h : childFrom comps start name = none) : ∀ n ∈ comps, n.name ≠ name := by
  induction comps generalizing start with
  | nil => simp
  | cons m rest ih =>
    rw [childFrom] at h
    by_cases hm : m.name = name
    · rw [if_pos hm] at h
      simp at h
    · rw [if_neg hm] at h
      intro n hn
      rcases List.mem_cons.1 hn with rfl | hn
      · exact hm
      · exact ih (start + 1) h n hn

theorem child_some (e : Node P) (name : Str) (i : Nat) (n : Node P)
    (h : e.child name = some (i, n)) : e.components[i]? = some n ∧ n.name = name := by
  have := childFrom_some e.components 0 name i n h
  simpa using this.2

/-- What `agrees` says, as propositions. -/
theorem agrees_iff (e : Node P) :
    e.agrees = true ↔
      (∀ k i, (k, i) ∈ e.map → ∃ n, e.components[i]? = some n ∧ n.name = k) ∧
      (∀ i n, e.components[i]? = some n → Entity.find e.map n.name = some i) ∧
      (∀ n ∈ e.components, n.name ≠ []) ∧
      (e.map.map Prod.fst).Nodup := by
  simp only [agrees, Bool.and_eq_true, List.all_eq_true, decide_eq_true_eq]
  constructor
  · rintro ⟨⟨⟨h1, h2⟩, h3⟩, h4⟩
    refine ⟨?_, ?_, h3, h4⟩
    · intro k i hk
      have := h1 (k, i) hk
      simpa using this
    · intro i n hn
      have hi : i < e.components.length := by
        rcases Nat.lt_or_ge i e.components.length with h | h
        · exact h
        · rw [List.getElem?_eq_none h] at hn
          exact Option.noConfusion hn
      have := h2 i (List.mem_range.2 hi)
      rw [hn] at this
      simpa using this
  · rintro ⟨h1, h2, h3, h4⟩
    refine ⟨⟨⟨?_, ?_⟩, h3⟩, h4⟩
    · rintro ⟨k, i⟩ hk
      obtain ⟨n, hn, hk2⟩ := h1 k i hk
      simp [hn, hk2]
    · intro i hi
      have hi2 := List.mem_range.1 hi
      have hn : e.components[i]? = some (e.components.get ⟨i, hi2⟩) := by
        simp [List.getElem?_eq_getElem hi2]
      rw [hn]
      have := h2 i _ hn
      simp only [Option.map_some', this]

/-- Under agreement, `_map.find(key)` finds the position of the component of
that name. -/
theorem find_eq_child (e : Node P) (h : e.agrees = true) (key : Str) :
    Entity.find e.map key = (e.child key).map Prod.fst := by
  obtain ⟨h1, h2, _, _⟩ := (agrees_iff e).1 h
  cases hc : e.child key with
  | some x =>
    obtain ⟨i, n⟩ := x
    obtain ⟨hn, hk⟩ := child_some e key i n hc
    have := h2 i n hn
    rw [hk] at this
    simpa using this
  | none =>
    have hnone := childFrom_none e.components 0 key hc
    cases hf : Entity.find e.map key with
    | none => rfl
    | some i =>
      exfalso
      have hmem : (key, i) ∈ e.map := by
        obtain ⟨l1, l2, hl, _⟩ := List.lookup_eq_some_iff.1 hf
        rw [hl]
        simp
      obtain ⟨n, hn, hk⟩ := h1 key i hmem
      exact hnone n (List.getElem?_mem hn) hk

theorem firstKey_append_dot (key rest : Str) (h : '.' ∉ key) :
    firstKey (key ++ '.' :: rest) = key := by
  unfold firstKey
  induction key with
  | nil => simp
  | cons c cs ih =>
    have hc : c ≠ '.' := fun e => h (by simp [e])
    have hcs : '.' ∉ cs := fun e => h (by simp [e])
    rw [List.cons_append, List.takeWhile_cons, if_pos (by simpa using hc), ih hcs]

theorem firstKey_of_no_dot (key : Str) (h : '.' ∉ key) : firstKey key = key := by
  unfold firstKey
  induction key with
  | nil => simp
  | cons c cs ih =>
    have hc : c ≠ '.' := fun e => h (by simp [e])
    have hcs : '.' ∉ cs := fun e => h (by simp [e])
    rw [List.takeWhile_cons, if_pos (by simpa using hc), ih hcs]

theorem eof_append_dot (key rest : Str) (h : '.' ∉ key) :
    eof (key ++ '.' :: rest) = false := by
  unfold eof
  rw [firstKey_append_dot key rest h]
  simp

theorem eof_of_no_dot (key : Str) (h : '.' ∉ key) : eof key = true := by
  unfold eof
  rw [firstKey_of_no_dot key h]
  simp

theorem takeWhile_no_newline (rest : Str) (h : NEWLINE ∉ rest) :
    rest.takeWhile (fun c => c ≠ NEWLINE) = rest := by
  induction rest with
  | nil => simp
  | cons c cs ih =>
    have hc : c ≠ NEWLINE := fun e => h (by simp [e])
    have hcs : NEWLINE ∉ cs := fun e => h (by simp [e])
    rw [List.takeWhile_cons, if_pos (by simpa using hc), ih hcs]

theorem restKey_append_dot (key rest : Str) (h : '.' ∉ key) :
    restKey (key ++ '.' :: rest) = rest.takeWhile (fun c => c ≠ NEWLINE) := by
  unfold restKey
  rw [firstKey_append_dot key rest h]
  simp

theorem append_dot_ne_star (key rest : Str) : key ++ '.' :: rest ≠ ['*'] := by
  intro h
  cases key with
  | nil =>
    simp at h
  | cons c cs =>
    have := congrArg List.length h
    simp at this

/-- In a well-formed tree the test of `Component::entity()` succeeds exactly on
the `Entity` objects. -/
theorem entity_eq_isEntityObject (n : Node P) (h : n.wellFormed = true) :
    n.entity = n.isEntityObject := by
  cases n with
  | Parameter b p => simp [entity, isEntityObject]
  | Entity b en comps m kind =>
    simp only [wellFormed, Bool.and_eq_true, decide_eq_true_eq] at h
    simp [entity, isEntityObject, base, h.1.1]

theorem wellFormed_agrees (e : Node P) (h : e.wellFormed = true) : e.agrees = true := by
  cases e with
  | Parameter b p => simp [agrees, components, map]
  | Entity b en comps m kind =>
    simp only [wellFormed, Bool.and_eq_true] at h
    exact h.1.2

theorem wellFormed_child (e : Node P) (h : e.wellFormed = true) (n : Node P)
    (hn : n ∈ e.components) : n.wellFormed = true := by
  cases e with
  | Parameter b p => simp [components] at hn
  | Entity b en comps m kind =>
    simp only [wellFormed, Bool.and_eq_true] at h
    exact (wellFormedList_iff comps).1 h.2 n hn

/-- One step of the resolution of a path with a dot, in a well-formed tree:
the first key selects the component of that name, and the text after the dot, up
to the first line feed, is resolved inside it when it is an entity. -/
theorem component_step (e : Node P) (h : e.wellFormed = true) (key rest : Str)
    (hk : '.' ∉ key) :
    e.component (key ++ '.' :: rest)
    = match e.child key with
      | none => none
      | some (i, n) =>
        if n.isEntityObject then
          (n.component (rest.takeWhile (fun c => c ≠ NEWLINE))).map (fun r => i :: r)
        else none := by
  cases e with
  | Parameter b p => simp [component, child, components, childFrom]
  | Entity b en comps m kind =>
    have hfind := find_eq_child _ (wellFormed_agrees _ h) key
    simp only [map] at hfind
    rw [component, if_neg (append_dot_ne_star key rest), firstKey_append_dot key rest hk,
      eof_append_dot key rest hk, restKey_append_dot key rest hk, hfind]
    cases hc : (Entity b en comps m kind).child key with
    | none => simp
    | some x =>
      obtain ⟨i, n⟩ := x
      obtain ⟨hn, _⟩ := child_some _ key i n hc
      simp only [components] at hn
      have hwf := wellFormed_child _ h n (List.getElem?_mem hn)
      simp only [Option.map_some', componentAt_eq, hn, entity_eq_isEntityObject n hwf]
      cases n.isEntityObject <;> simp

/-- The resolution of a path without dot, other than `*`, in a well-formed
tree: the component of that name. -/
theorem component_last (e : Node P) (h : e.wellFormed = true) (key : Str)
    (hk : '.' ∉ key) (hs : key ≠ ['*']) :
    e.component key = (e.child key).map (fun x => [x.1]) := by
  cases e with
  | Parameter b p => simp [component, child, components, childFrom]
  | Entity b en comps m kind =>
    have hfind := find_eq_child _ (wellFormed_agrees _ h) key
    simp only [map] at hfind
    rw [component, if_neg hs, firstKey_of_no_dot key hk, eof_of_no_dot key hk, hfind]
    cases hc : (Entity b en comps m kind).child key with
    | none => simp
    | some x =>
      obtain ⟨i, n⟩ := x
      obtain ⟨hn, _⟩ := child_some _ key i n hc
      simp only [components] at hn
      simp [componentAt_eq, hn]

end Node
end Customisation

namespace Customisation
namespace Node

variable {P : Type}

theorem getAt_cons (e : Node P) (i : Nat) (r : List Nat) (n : Node P)
    (h : e.components[i]? = some n) : e.getAt (i :: r) = n.getAt r := by
  cases e with
  | Parameter b p => simp [components] at h
  | Entity b en comps m kind =>
    simp only [components] at h
    rw [getAt, getAtList_eq, h]

theorem getAt_nil (e : Node P) : e.getAt [] = some e := by
  cases e <;> rfl

/-- C7, amended. For every entity `E` of a well-formed tree, `component("*")` is
`E` itself; and for names `a`, `b`, `c` without dot, `b` and `c` without line
feed and `c` other than `*`, `component("a.b.c")` resolves to a reference if and
only if `a` is a child Entity of `E`, `b` a child Entity of `a` and `c` a child of
`b`, and the reference then designates that child. In every other case the
result is `none`, the INVALID sentinel. -/
theorem component_resolution (e : Node P) (he : e.isEntityObject = true)
    (hwf : e.wellFormed = true) (a b c : Str) (ha : '.' ∉ a) (hb : '.' ∉ b) (hc : '.' ∉ c)
    (hbn : NEWLINE ∉ b) (hcn : NEWLINE ∉ c) (hstar : c ≠ ['*']) :
    (e.component ['*'] = some [] ∧ e.getAt [] = some e) ∧
    ∀ ref, e.component (a ++ '.' :: (b ++ '.' :: c)) = some ref ↔
      ∃ ia na ib nb ic nc,
        e.child a = some (ia, na) ∧ na.isEntityObject = true ∧
        na.child b = some (ib, nb) ∧ nb.isEntityObject = true ∧
        nb.child c = some (ic, nc) ∧ ref = [ia, ib, ic] ∧ e.getAt ref = some nc := by
  constructor
  · cases e with
    | Parameter b p => simp [isEntityObject] at he
    | Entity b en comps m kind => exact ⟨by simp [component], rfl⟩
  · intro ref
    have hrest : NEWLINE ∉ b ++ '.' :: c := by
      intro hmem
      rcases List.mem_append.1 hmem with h | h
      · exact hbn h
      · rcases List.mem_cons.1 h with h | h
        · exact absurd h (by decide)
        · exact hcn h
    rw [component_step e hwf a _ ha, takeWhile_no_newline _ hrest]
    cases hca : e.child a with
    | none =>
      constructor
      · intro h
        simp at h
      · rintro ⟨_, _, _, _, _, _, h1, _⟩
        simp at h1
    | some xa =>
      obtain ⟨ia, na⟩ := xa
      obtain ⟨hna, _⟩ := child_some e a ia na hca
      have hwfa := wellFormed_child e hwf na (List.getElem?_mem hna)
      dsimp only
      cases hea : na.isEntityObject with
      | false =>
        constructor
        · intro h
          simp at h
        · rintro ⟨_, _, _, _, _, _, h1, h2, _⟩
          simp only [Option.some.injEq, Prod.mk.injEq] at h1
          rw [← h1.2, hea] at h2
          exact Bool.noConfusion h2
      | true =>
        rw [if_pos rfl, component_step na hwfa b _ hb, takeWhile_no_newline _ hcn]
        cases hcb : na.child b with
        | none =>
          constructor
          · intro h
            simp at h
          · rintro ⟨_, _, _, _, _, _, h1, _, h3, _⟩
            simp only [Option.some.injEq, Prod.mk.injEq] at h1
            rw [← h1.2, hcb] at h3
            exact Option.noConfusion h3
        | some xb =>
          obtain ⟨ib, nb⟩ := xb
          obtain ⟨hnb, _⟩ := child_some na b ib nb hcb
          have hwfb := wellFormed_child na hwfa nb (List.getElem?_mem hnb)
          dsimp only
          cases heb : nb.isEntityObject with
          | false =>
            constructor
            · intro h
              simp at h
            · rintro ⟨_, _, _, _, _, _, h1, _, h3, h4, _⟩
              simp only [Option.some.injEq, Prod.mk.injEq] at h1
              rw [← h1.2, hcb] at h3
              simp only [Option.some.injEq, Prod.mk.injEq] at h3
              rw [← h3.2, heb] at h4
              exact Bool.noConfusion h4
          | true =>
            rw [if_pos rfl, component_last nb hwfb c hc hstar]
            cases hcc : nb.child c with
            | none =>
              constructor
              · intro h
                simp at h
              · rintro ⟨_, _, _, _, _, _, h1, _, h3, _, h5, _⟩
                simp only [Option.some.injEq, Prod.mk.injEq] at h1
                rw [← h1.2, hcb] at h3
                simp only [Option.some.injEq, Prod.mk.injEq] at h3
                rw [← h3.2, hcc] at h5
                exact Option.noConfusion h5
            | some xc =>
              obtain ⟨ic, nc⟩ := xc
              obtain ⟨hnc, _⟩ := child_some nb c ic nc hcc
              have hget : e.getAt [ia, ib, ic] = some nc := by
                rw [getAt_cons e ia _ na hna, getAt_cons na ib _ nb hnb,
                  getAt_cons nb ic _ nc hnc, getAt_nil]
              simp only [Option.map_some', Option.some.injEq]
              constructor
              · intro h
                subst h
                exact ⟨ia, na, ib, nb, ic, nc, rfl, hea, hcb, heb, hcc, rfl, hget⟩
              · rintro ⟨ia2, na2, ib2, nb2, ic2, nc2, h1, _, h3, _, h5, h6, _⟩
                simp only [Option.some.injEq, Prod.mk.injEq] at h1
                rw [← h1.2, hcb] at h3
                simp only [Option.some.injEq, Prod.mk.injEq] at h3
                rw [← h3.2, hcc] at h5
                simp only [Option.some.injEq, Prod.mk.injEq] at h5
                rw [h6, ← h1.1, ← h3.1, ← h5.1]

/-- Witness of C7 amended: the path `a.b.c` in the tree
`top { a { b { c, d }, p }, q }`. -/
theorem component_resolution_witness :
    (exampleTree.component ['*'] = some [] ∧ exampleTree.getAt [] = some exampleTree) ∧
    (exampleTree.component ("a".toList ++ '.' :: ("b".toList ++ '.' :: "c".toList))
        = some [0, 0, 0] ↔
      ∃ ia na ib nb ic nc,
        exampleTree.child "a".toList = some (ia, na) ∧ na.isEntityObject = true ∧
        na.child "b".toList = some (ib, nb) ∧ nb.isEntityObject = true ∧
        nb.child "c".toList = some (ic, nc) ∧ [0, 0, 0] = [ia, ib, ic] ∧
        exampleTree.getAt [0, 0, 0] = some nc) :=
  have h := component_resolution exampleTree (by decide) (by decide) "a".toList "b".toList
    "c".toList (by decide) (by decide) (by decide) (by decide) (by decide) (by decide)
  ⟨h.1, h.2 [0, 0, 0]⟩

/-- C7, counterexample. In the tree `top { a { b { c, d }, p }, q }` the path
`a.b.*`, whose three names contain no dot, resolves: to the entity `b` itself,
although `b` has no child named `*`. -/
theorem component_star_resolves_to_entity :
    exampleTree.wellFormed = true ∧
    exampleTree.component "a.b.*".toList = some [0, 0] ∧
    (exampleTree.getAt [0, 0]).map name = some "b".toList ∧
    (exampleTree.getAt [0, 0]).map (fun nb => (nb.child "*".toList).isSome) = some false := by
  decide

/-- The text after the first dot is cut at a line feed: the path `a.b.c`
followed by a line feed and more text resolves like `a.b.c`. -/
theorem component_cuts_at_line_feed :
    exampleTree.component ("a.b.c".toList ++ NEWLINE :: "zz".toList) = some [0, 0, 0] := by
  decide

end Node
end Customisation

namespace Customisation
namespace Node

variable {P : Type}

mutual
/-- A reference that `component` returns designates an object of the tree. -/
theorem component_valid : ∀ (e : Node P) (path : Str) (ref : List Nat),
    e.component path = some ref → ∃ compo, e.getAt ref = some compo
  | Parameter _ _, path, ref, h => by simp [component] at h
  | Entity b en comps m kind, path, ref, h => by
    rw [component] at h
    by_cases hp : path = ['*']
    · rw [if_pos hp] at h
      simp only [Option.some.injEq] at h
      subst h
      exact ⟨_, rfl⟩
    · rw [if_neg hp] at h
      cases hf : Entity.find m (firstKey path) with
      | none => rw [hf] at h; exact Option.noConfusion h
      | some idx =>
        rw [hf] at h
        obtain ⟨r, n, hr, hn, compo, hc⟩ :=
          componentAt_valid comps idx idx (eof path) (restKey path) ref h
        refine ⟨compo, ?_⟩
        rw [hr, getAt, getAtList_eq, hn]
        exact hc
/-- The same for the part of `component` that follows the lookup. -/
theorem componentAt_valid : ∀ (comps : List (Node P)) (idx k : Nat) (eof : Bool)
    (key : Str) (ref : List Nat), componentAt comps idx k eof key = some ref →
    ∃ r n, ref = idx :: r ∧ comps[k]? = some n ∧ ∃ compo, n.getAt r = some compo
  | [], _, _, _, _, _, h => by simp [componentAt] at h
  | n :: rest, idx, 0, eof, key, ref, h => by
    rw [componentAt] at h
    by_cases he : eof = true
    · rw [if_pos he] at h
      simp only [Option.some.injEq] at h
      exact ⟨[], n, h.symm, by simp, n, getAt_nil n⟩
    · rw [if_neg he] at h
      by_cases hn : ¬ n.entity = true
      · rw [if_pos hn] at h
        exact Option.noConfusion h
      · rw [if_neg hn] at h
        cases hc : n.component key with
        | none => rw [hc] at h; exact Option.noConfusion h
        | some r =>
          rw [hc] at h
          simp only [Option.map_some', Option.some.injEq] at h
          obtain ⟨compo, hcompo⟩ := component_valid n key r hc
          exact ⟨r, n, h.symm, by simp, compo, hcompo⟩
  | n :: rest, idx, k + 1, eof, key, ref, h => by
    rw [componentAt] at h
    obtain ⟨r, n2, hr, hn, hc⟩ := componentAt_valid rest idx k eof key ref h
    exact ⟨r, n2, hr, by simpa using hn, hc⟩
end

mutual
/-- Reading back a replaced object. -/
theorem getAt_setAt : ∀ (e : Node P) (ref : List Nat) (new compo : Node P),
    e.getAt ref = some compo → (e.setAt ref new).getAt ref = some new
  | e, [], new, _, _ => by
    cases e <;> simp [setAt, getAt_nil]
  | Parameter _ _, _ :: _, _, _, h => by simp [getAt] at h
  | Entity b en comps m kind, i :: r, new, compo, h => by
    rw [getAt] at h
    rw [setAt, getAt]
    exact getAtList_setAtList comps i r new compo h
/-- The same below a position of a list. -/
theorem getAtList_setAtList : ∀ (comps : List (Node P)) (i : Nat) (r : List Nat)
    (new compo : Node P), getAtList comps i r = some compo →
    getAtList (setAtList comps i r new) i r = some new
  | [], _, _, _, _, h => by simp [getAtList] at h
  | n :: rest, 0, r, new, compo, h => by
    rw [getAtList] at h
    rw [setAtList, getAtList]
    exact getAt_setAt n r new compo h
  | n :: rest, i + 1, r, new, compo, h => by
    rw [getAtList] at h
    rw [setAtList, getAtList]
    exact getAtList_setAtList rest i r new compo h
end

/-- C8. `Entity::set(path, v)`, `Entity::configure(path, v)` and
`Entity::get(path, into)` return `NOT_EXISTING` and leave the whole tree and the
output buffer as they were whenever the path does not resolve. When the path
resolves, it designates a component of the tree, the three calls return what
`set`, `configure` and `get` return on that component, and the component is
afterwards in the state in which that call leaves it. -/
theorem path_operations_delegate (V : Virtuals P) (e : Node P) (path v into : Str) :
    (e.component path = none →
      e.setPath V path v = (Error.NOT_EXISTING, e) ∧
      e.configurePath V path v = (Error.NOT_EXISTING, e) ∧
      e.getPath V path into = (Error.NOT_EXISTING, into)) ∧
    (∀ ref, e.component path = some ref →
      ∃ compo, e.getAt ref = some compo ∧
        (e.setPath V path v).1 = (compo.set V v).1 ∧
        (e.setPath V path v).2.getAt ref = some (compo.set V v).2 ∧
        (e.configurePath V path v).1 = (compo.configure V v).1 ∧
        (e.configurePath V path v).2.getAt ref = some (compo.configure V v).2 ∧
        e.getPath V path into = compo.get V into) := by
  constructor
  · intro h
    simp [setPath, configurePath, getPath, h]
  · intro ref h
    obtain ⟨compo, hc⟩ := component_valid e path ref h
    refine ⟨compo, hc, ?_, ?_, ?_, ?_, ?_⟩
    · simp [setPath, h, hc]
    · simp only [setPath, h, hc]
      exact getAt_setAt e ref _ compo hc
    · simp [configurePath, h, hc]
    · simp only [configurePath, h, hc]
      exact getAt_setAt e ref _ compo hc
    · simp [getPath, h, hc]

/-- Witness of C8: in the tree `top { a { b { c, d }, p }, q }` the path `x.y`
does not resolve and the path `a.b.d` resolves to the Settable parameter `d`. -/
theorem path_operations_delegate_witness :
    (exampleTree.setPath Parameter.directString "x.y".toList "v".toList
        = (Error.NOT_EXISTING, exampleTree) ∧
      exampleTree.configurePath Parameter.directString "x.y".toList "v".toList
        = (Error.NOT_EXISTING, exampleTree) ∧
      exampleTree.getPath Parameter.directString "x.y".toList "into".toList
        = (Error.NOT_EXISTING, "into".toList)) ∧
    (∃ compo, exampleTree.getAt [0, 0, 1] = some compo ∧
      (exampleTree.setPath Parameter.directString "a.b.d".toList "v".toList).1
        = (compo.set Parameter.directString "v".toList).1 ∧
      (exampleTree.setPath Parameter.directString "a.b.d".toList "v".toList).2.getAt [0, 0, 1]
        = some (compo.set Parameter.directString "v".toList).2 ∧
      (exampleTree.configurePath Parameter.directString "a.b.d".toList "v".toList).1
        = (compo.configure Parameter.directString "v".toList).1 ∧
      (exampleTree.configurePath Parameter.directString "a.b.d".toList
          "v".toList).2.getAt [0, 0, 1]
        = some (compo.configure Parameter.directString "v".toList).2 ∧
      exampleTree.getPath Parameter.directString "a.b.d".toList "into".toList
        = compo.get Parameter.directString "into".toList) :=
  ⟨(path_operations_delegate Parameter.directString exampleTree "x.y".toList "v".toList
      "into".toList).1 (by decide),
   (path_operations_delegate Parameter.directString exampleTree "a.b.d".toList "v".toList
      "into".toList).2 [0, 0, 1] (by decide)⟩

end Node
end Customisation

namespace Customisation
namespace Entity

theorem find_cons (k : Str) (v : Nat) (rest : List (Str × Nat)) (key : Str) :
    find ((k, v) :: rest) key = if key = k then some v else find rest key := by
  unfold find
  rw [List.lookup_cons]
  by_cases h : key = k
  · simp [h]
  · have : (key == k) = false := by simpa using h
    simp [h, this]

/-- After `emplace` of an absent key, `find` answers the new value for that key
and what it answered before for every other key. -/
theorem find_emplace (m : List (Str × Nat)) (key : Str) (v : Nat) (h : find m key = none)
    (k : Str) :
    find (emplace m key v) k = if k = key then some v else find m k := by
  induction m with
  | nil =>
    rw [emplace, find_cons]
  | cons kv rest ih =>
    obtain ⟨k0, v0⟩ := kv
    rw [find_cons] at h
    by_cases hk : key = k0
    · rw [if_pos hk] at h
      exact Option.noConfusion h
    · rw [if_neg hk] at h
      rw [emplace]
      by_cases hlt : key < k0
      · rw [if_pos hlt, find_cons]
      · rw [if_neg hlt, if_neg (fun e => hk e.symm), find_cons, ih h, find_cons]
        by_cases h1 : k = k0
        · have h2 : ¬ k = key := fun e => hk (e ▸ h1)
          rw [if_pos h1, if_neg h2, if_pos h1]
        · rw [if_neg h1, if_neg h1]

/-- The entries after `emplace` of an absent key: the new entry and the previous
ones. -/
theorem emplace_perm (m : List (Str × Nat)) (key : Str) (v : Nat) (h : find m key = none) :
    (emplace m key v).Perm ((key, v) :: m) := by
  induction m with
  | nil => exact List.Perm.refl _
  | cons kv rest ih =>
    obtain ⟨k0, v0⟩ := kv
    rw [find_cons] at h
    by_cases hk : key = k0
    · rw [if_pos hk] at h
      exact Option.noConfusion h
    · rw [if_neg hk] at h
      rw [emplace]
      by_cases hlt : key < k0
      · rw [if_pos hlt]
      · rw [if_neg hlt, if_neg (fun e => hk e.symm)]
        exact ((ih h).cons (k0, v0)).trans (List.Perm.swap _ _ _)

theorem find_eq_none_iff (m : List (Str × Nat)) (key : Str) :
    find m key = none ↔ key ∉ m.map Prod.fst := by
  unfold find
  rw [List.lookup_eq_none_iff]
  simp only [List.mem_map, not_exists, not_and]
  constructor
  · intro h p hp e
    have := h p hp
    simp [e] at this
  · intro h p hp
    have := h p hp
    simpa using fun e => this e.symm

theorem mem_of_find (m : List (Str × Nat)) (key : Str) (i : Nat) (h : find m key = some i) :
    (key, i) ∈ m := by
  obtain ⟨l1, l2, hl, _⟩ := List.lookup_eq_some_iff.1 h
  rw [hl]
  simp

end Entity

namespace Node

variable {P : Type}

theorem name_bind (n : Node P) (owner : Nat) : (n.bind owner).name = n.name := by
  cases n <;> rfl

theorem owner_bind (n : Node P) (owner : Nat) : (n.bind owner).base._owner = some owner := by
  cases n <;> rfl

/-- The guard of `expose` on the name, in terms of the child list. -/
theorem find_none_iff_child_none (e : Node P) (h : e.agrees = true) (key : Str) :
    Entity.find e.map key = none ↔ e.child key = none := by
  rw [find_eq_child e h key]
  cases e.child key <;> simp

/-- An accepted `expose` keeps the agreement of the child list and the map. -/
theorem agrees_expose (b : Component) (en : Bool) (comps : List (Node P))
    (m : List (Str × Nat)) (kind : Str) (comp : Node P)
    (h : (Entity b en comps m kind).agrees = true) (hname : comp.name ≠ [])
    (hfind : Entity.find m comp.name = none) :
    (Entity b en (comps ++ [comp.bind b.addr]) (Entity.emplace m comp.name comps.length)
      kind).agrees = true := by
  obtain ⟨h1, h2, h3, h4⟩ := (agrees_iff _).1 h
  simp only [components, map] at h1 h2 h3 h4
  rw [agrees_iff]
  simp only [components, map]
  have hperm := Entity.emplace_perm m comp.name comps.length hfind
  refine ⟨?_, ?_, ?_, ?_⟩
  · intro k i hk
    rcases List.mem_cons.1 (hperm.mem_iff.1 hk) with hnew | hold
    · simp only [Prod.mk.injEq] at hnew
      obtain ⟨rfl, rfl⟩ := hnew
      exact ⟨comp.bind b.addr, by simp, name_bind comp b.addr⟩
    · obtain ⟨n, hn, hk2⟩ := h1 k i hold
      have hi : i < comps.length := by
        rcases Nat.lt_or_ge i comps.length with hlt | hge
        · exact hlt
        · rw [List.getElem?_eq_none hge] at hn
          exact Option.noConfusion hn
      exact ⟨n, by rw [List.getElem?_append_left hi]; exact hn, hk2⟩
  · intro i n hn
    rw [Entity.find_emplace m comp.name comps.length hfind]
    rcases Nat.lt_or_ge i comps.length with hlt | hge
    · rw [List.getElem?_append_left hlt] at hn
      have hf := h2 i n hn
      have hne : ¬ n.name = comp.name := by
        intro e
        rw [e, hfind] at hf
        exact Option.noConfusion hf
      rw [if_neg hne, hf]
    · rw [List.getElem?_append_right hge] at hn
      have hi : i - comps.length = 0 := by
        rcases Nat.eq_zero_or_pos (i - comps.length) with h0 | hpos
        · exact h0
        · rw [List.getElem?_eq_none (by simp only [List.length_singleton]; omega)] at hn
          exact Option.noConfusion hn
      rw [hi] at hn
      simp only [List.getElem?_cons_zero, Option.some.injEq] at hn
      have hi2 : i = comps.length := by omega
      rw [← hn, name_bind, if_pos rfl, hi2]
  · intro n hn
    rcases List.mem_append.1 hn with hold | hnew
    · exact h3 n hold
    · simp only [List.mem_singleton] at hnew
      rw [hnew, name_bind]
      exact hname
  · have hkeys := hperm.map Prod.fst
    rw [hkeys.nodup_iff]
    simp only [List.map_cons, List.nodup_cons]
    exact ⟨(Entity.find_eq_none_iff m comp.name).1 hfind, h4⟩

/-- Under agreement no two components of an entity have the same name. -/
theorem names_nodup (e : Node P) (h : e.agrees = true) :
    (e.components.map name).Nodup := by
  obtain ⟨_, h2, _, _⟩ := (agrees_iff e).1 h
  rw [List.nodup_iff_getElem?_ne_getElem?]
  intro i j hij hj heq
  rw [List.length_map] at hj
  have hi : i < e.components.length := by omega
  rw [List.getElem?_map, List.getElem?_map, List.getElem?_eq_getElem hi,
    List.getElem?_eq_getElem hj] at heq
  simp only [Option.map_some', Option.some.injEq] at heq
  have f1 := h2 i _ (List.getElem?_eq_getElem hi)
  have f2 := h2 j _ (List.getElem?_eq_getElem hj)
  rw [heq, f2] at f1
  simp only [Option.some.injEq] at f1
  omega

/-- Under agreement the keys of the map are the names of the components. -/
theorem keys_perm_names (e : Node P) (h : e.agrees = true) :
    (e.map.map Prod.fst).Perm (e.components.map name) := by
  obtain ⟨h1, h2, _, h4⟩ := (agrees_iff e).1 h
  rw [List.perm_ext_iff_of_nodup h4 (names_nodup e h)]
  intro k
  simp only [List.mem_map]
  constructor
  · rintro ⟨⟨k2, i⟩, hmem, rfl⟩
    obtain ⟨n, hn, hk⟩ := h1 k2 i hmem
    exact ⟨n, List.getElem?_mem hn, hk⟩
  · rintro ⟨n, hmem, rfl⟩
    obtain ⟨i, hi⟩ := List.mem_iff_getElem?.1 hmem
    exact ⟨(n.name, i), Entity.mem_of_find _ _ _ (h2 i n hi), rfl⟩

theorem expose_isEntityObject (e comp : Node P) :
    (e.expose comp).entity.isEntityObject = e.isEntityObject := by
  cases e with
  | Parameter b p => rfl
  | Entity b en comps m kind =>
    rw [expose]
    split <;> rfl

theorem expose_agrees (e comp : Node P) (h : e.agrees = true) :
    (e.expose comp).entity.agrees = true := by
  cases e with
  | Parameter b p => exact h
  | Entity b en comps m kind =>
    rw [expose]
    split
    · rename_i hg
      exact agrees_expose b en comps m kind comp h hg.2.1 hg.2.2.1
    · exact h

theorem expose_extends (e comp : Node P) :
    e.components <+: (e.expose comp).entity.components := by
  cases e with
  | Parameter b p => exact List.prefix_refl _
  | Entity b en comps m kind =>
    rw [expose]
    split
    · exact List.prefix_append _ _
    · exact List.prefix_refl _

theorem exposeAll_agrees (e : Node P) (cs : List (Node P)) (h : e.agrees = true) :
    (e.exposeAll cs).agrees = true := by
  induction cs generalizing e with
  | nil => exact h
  | cons c cs ih => exact ih _ (expose_agrees e c h)

theorem exposeAll_extends (e : Node P) (cs : List (Node P)) :
    e.components <+: (e.exposeAll cs).components := by
  induction cs generalizing e with
  | nil => exact List.prefix_refl _
  | cons c cs ih => exact (expose_extends e c).trans (ih _)

/-- C9, amended. On an entity whose child list and name map agree, as they do
on a freshly constructed entity, `expose(c)` returns the INVALID sentinel and changes neither the entity nor `c`
when `c` is the INVALID sentinel itself, when `c` has an empty name, when a child
with the same name already exists, or when `c` already has an owner. Otherwise
it appends `c` at the end of the child list, adds `c` under its name in the map,
and sets the owner of `c` to the entity, changing nothing else of `c`. After any
sequence of `expose` calls the child list and the map still agree: the names in
the child list are pairwise distinct, non-empty and exactly the keys of the map;
and the components exposed before are still there, at the same positions and
with the same owner. -/
theorem expose_keeps_agreement (e : Node P) (he : e.isEntityObject = true)
    (hag : e.agrees = true) :
    (∀ comp : Node P,
      (comp.base.addr = Component.INVALID_ADDR ∨ comp.name = [] ∨
          e.child comp.name ≠ none ∨ comp.base._owner ≠ none) →
        (e.expose comp).result = none ∧ (e.expose comp).entity = e ∧
        (e.expose comp).comp = comp) ∧
    (∀ comp : Node P,
      comp.base.addr ≠ Component.INVALID_ADDR → comp.name ≠ [] →
        e.child comp.name = none → comp.base._owner = none →
        (e.expose comp).result = some e.components.length ∧
        (e.expose comp).entity.components = e.components ++ [comp.bind e.base.addr] ∧
        Entity.find (e.expose comp).entity.map comp.name = some e.components.length ∧
        (e.expose comp).entity.base = e.base ∧
        (e.expose comp).comp = comp.bind e.base.addr ∧
        (comp.bind e.base.addr).base = { comp.base with _owner := some e.base.addr }) ∧
    (∀ cs : List (Node P),
      (e.exposeAll cs).agrees = true ∧
      ((e.exposeAll cs).components.map name).Nodup ∧
      [] ∉ (e.exposeAll cs).components.map name ∧
      ((e.exposeAll cs).map.map Prod.fst).Perm ((e.exposeAll cs).components.map name) ∧
      e.components <+: (e.exposeAll cs).components) ∧
    (∀ (addr : Nat) (kind : Str),
      (newEntity addr kind : Node P).isEntityObject = true ∧
      (newEntity addr kind : Node P).agrees = true) := by
  refine ⟨?_, ?_, ?_, fun _ _ => ⟨rfl, rfl⟩⟩
  · intro comp hrej
    have hchild := find_none_iff_child_none e hag comp.name
    cases e with
    | Parameter b p => simp [isEntityObject] at he
    | Entity b en comps m kind =>
      simp only [map] at hchild
      rw [expose, if_neg]
      · exact ⟨rfl, rfl, rfl⟩
      · rintro ⟨g1, g2, g3, g4⟩
        rcases hrej with r | r | r | r
        · exact g1 r
        · exact g2 r
        · exact r (hchild.1 g3)
        · exact r g4
  · intro comp g1 g2 g3 g4
    have hchild := find_none_iff_child_none e hag comp.name
    cases e with
    | Parameter b p => simp [isEntityObject] at he
    | Entity b en comps m kind =>
      simp only [map] at hchild
      have hfind := hchild.2 g3
      rw [expose, if_pos ⟨g1, g2, hfind, g4⟩]
      refine ⟨by rfl, by rfl, ?_, by rfl, by rfl, ?_⟩
      · simp only [map]
        rw [Entity.find_emplace m comp.name comps.length hfind, if_pos rfl]
        rfl
      · cases comp <;> rfl
  · intro cs
    have h := exposeAll_agrees e cs hag
    obtain ⟨_, _, h3, _⟩ := (agrees_iff _).1 h
    refine ⟨h, names_nodup _ h, ?_, keys_perm_names _ h, exposeAll_extends e cs⟩
    intro hmem
    obtain ⟨n, hn, hname⟩ := List.mem_map.1 hmem
    exact h3 n hn hname

/-- Witness of C9 amended: on a freshly constructed entity, an anonymous
parameter is rejected, the parameter `c` is accepted, and after exposing `c`,
`d` and `c` again the names of the children are pairwise distinct. -/
theorem expose_keeps_agreement_witness :
    (exampleFresh.expose (exampleParameter 4 [] Trait.CONFIGURABLE [])).result = none ∧
    (exampleFresh.expose (exampleParameter 4 "c".toList Trait.CONFIGURABLE [])).result
      = some exampleFresh.components.length ∧
    ((exampleFresh.exposeAll
        [exampleParameter 4 "c".toList Trait.CONFIGURABLE [],
         exampleParameter 5 "d".toList Trait.SETTABLE [],
         exampleParameter 4 "c".toList Trait.CONFIGURABLE []]).components.map name).Nodup :=
  ⟨((expose_keeps_agreement exampleFresh (by decide) (by decide)).1
      (exampleParameter 4 [] Trait.CONFIGURABLE []) (Or.inr (Or.inl (by decide)))).1,
   ((expose_keeps_agreement exampleFresh (by decide) (by decide)).2.1
      (exampleParameter 4 "c".toList Trait.CONFIGURABLE [])
      (by decide) (by decide) rfl (by decide)).1,
   ((expose_keeps_agreement exampleFresh (by decide) (by decide)).2.2.1
      [exampleParameter 4 "c".toList Trait.CONFIGURABLE [],
       exampleParameter 5 "d".toList Trait.SETTABLE [],
       exampleParameter 4 "c".toList Trait.CONFIGURABLE []]).2.1⟩

/-- C9, counterexample. The sentinel `Component::INVALID`, once it was given the
name `x`, has a non-empty name that no child of a fresh entity carries, and no
owner; yet `expose` rejects it: the result is the INVALID sentinel and the child
list stays empty. -/
theorem expose_rejects_named_sentinel :
    exampleSentinel.name ≠ [] ∧
    (exampleFresh.child exampleSentinel.name).isNone = true ∧
    exampleSentinel.base._owner = none ∧
    (exampleFresh.expose exampleSentinel).result = none ∧
    (exampleFresh.expose exampleSentinel).entity.components.length = 0 := by
  decide

end Node
end Customisation

namespace Customisation
namespace Node

variable {P : Type}

theorem initialiseEach_cons (H : Hooks P) (entry : Node P) (rest : List (Node P)) :
    initialiseEach H (entry :: rest)
    = if (initialiseEntry H entry).1 ≠ Error.NONE then
        ((initialiseEntry H entry).1, (initialiseEntry H entry).2.1 :: rest,
          (initialiseEntry H entry).2.2)
      else
        ((initialiseEach H rest).1,
          (initialiseEntry H entry).2.1 :: (initialiseEach H rest).2.1,
          (initialiseEntry H entry).2.2 ++ (initialiseEach H rest).2.2) := by
  rw [initialiseEach, initialiseEntry]
  by_cases h : entry.entity = true ∧ entry.enabled = true
  · simp only [h, and_self, if_true]
  · simp only [h, if_false, ne_eq, not_true_eq_false, List.nil_append]

/-- The first loop when no entry fails. -/
theorem initialiseEach_success (H : Hooks P) (comps : List (Node P))
    (h : ∀ n ∈ comps, (initialiseEntry H n).1 = Error.NONE) :
    initialiseEach H comps
    = (Error.NONE, comps.map (fun n => (initialiseEntry H n).2.1),
        (comps.map (fun n => (initialiseEntry H n).2.2)).flatten) := by
  induction comps with
  | nil => rfl
  | cons entry rest ih =>
    have h1 := h entry (List.mem_cons_self _ _)
    have h2 := ih (fun n hn => h n (List.mem_cons_of_mem _ hn))
    rw [initialiseEach_cons, if_neg (by simp [h1]), h2]
    simp

/-- The first loop when an entry fails: the entries before it are done, the
entries after it are left alone. -/
theorem initialiseEach_error (H : Hooks P) (pre : List (Node P)) (entry : Node P)
    (post : List (Node P)) (h : ∀ n ∈ pre, (initialiseEntry H n).1 = Error.NONE)
    (he : (initialiseEntry H entry).1 ≠ Error.NONE) :
    initialiseEach H (pre ++ entry :: post)
    = ((initialiseEntry H entry).1,
        pre.map (fun n => (initialiseEntry H n).2.1) ++ (initialiseEntry H entry).2.1 :: post,
        (pre.map (fun n => (initialiseEntry H n).2.2)).flatten
          ++ (initialiseEntry H entry).2.2) := by
  induction pre with
  | nil =>
    rw [List.nil_append, initialiseEach_cons, if_pos he]
    simp
  | cons first rest ih =>
    have h1 := h first (List.mem_cons_self _ _)
    have h2 := ih (fun n hn => h n (List.mem_cons_of_mem _ hn))
    rw [List.cons_append, initialiseEach_cons, if_neg (by simp [h1]), h2]
    simp

theorem lock_locked (c : Component) : c.lock.locked = true := by
  simp only [Component.locked, decide_eq_true_eq, Trait.and_LOCKED_eq_LOCKED,
    Component.lock_testBit]
  simp

theorem base_lock (n : Node P) : n.lock.base = n.base.lock := by
  cases n <;> rfl

/-- C10. `initialise()` goes through the components in the order of exposure and
initialises each enabled child Entity. If one of them returns an error,
`initialise()` returns that error at once: the components after it are left as
they were, the entity and its components are not locked by this call (each is
as its own `initialise()` left it, or untouched, and the `Component` part of the
entity is the one before the call), `setup()` is not run, and the events are
those of the children initialised so far. Otherwise every component is locked,
then the entity itself, then `setup()` runs on the locked entity and its result
is returned: after the call the Locked bit of the entity and of each of its
components is set, and `setup()` has seen them so; the events of each child, its
own `setup()` included, come before the `lock` events of the entity. -/
theorem initialise_order (H : Hooks P) (b : Component) (en : Bool) (comps : List (Node P))
    (m : List (Str × Nat)) (kind : Str) :
    (∀ pre entry post, comps = pre ++ entry :: post →
      (∀ n ∈ pre, (initialiseEntry H n).1 = Error.NONE) →
      (initialiseEntry H entry).1 ≠ Error.NONE →
      (Entity b en comps m kind).initialise H
      = ((initialiseEntry H entry).1,
          Entity b en
            (pre.map (fun n => (initialiseEntry H n).2.1)
              ++ (initialiseEntry H entry).2.1 :: post) m kind,
          (pre.map (fun n => (initialiseEntry H n).2.2)).flatten
            ++ (initialiseEntry H entry).2.2)) ∧
    ((∀ n ∈ comps, (initialiseEntry H n).1 = Error.NONE) →
      (Entity b en comps m kind).initialise H
      = (H.setup (Entity b.lock en
            ((comps.map (fun n => (initialiseEntry H n).2.1)).map lock) m kind),
          Entity b.lock en ((comps.map (fun n => (initialiseEntry H n).2.1)).map lock) m kind,
          (comps.map (fun n => (initialiseEntry H n).2.2)).flatten
            ++ lockEvents b.addr (comps.map (fun n => (initialiseEntry H n).2.1))
            ++ [Event.lock b.addr b.addr, Event.setup b.addr])) ∧
    ((∀ n ∈ comps, (initialiseEntry H n).1 = Error.NONE) →
      ((Entity b en comps m kind).initialise H).2.1.base.locked = true ∧
      (∀ n ∈ ((Entity b en comps m kind).initialise H).2.1.components,
        n.base.locked = true) ∧
      ((Entity b en comps m kind).initialise H).2.1.components.length = comps.length ∧
      ((Entity b en comps m kind).initialise H).1
        = H.setup ((Entity b en comps m kind).initialise H).2.1) ∧
    (∀ pre entry post, comps = pre ++ entry :: post →
      (∀ n ∈ pre, (initialiseEntry H n).1 = Error.NONE) →
      (initialiseEntry H entry).1 ≠ Error.NONE →
      ((Entity b en comps m kind).initialise H).2.1.base = b ∧
      ((Entity b en comps m kind).initialise H).2.1.components.drop (pre.length + 1) = post ∧
      (∀ n ∈ pre, ¬ (n.entity = true ∧ n.enabled = true) →
        n ∈ ((Entity b en comps m kind).initialise H).2.1.components)) := by
  have herror : ∀ pre entry post, comps = pre ++ entry :: post →
      (∀ n ∈ pre, (initialiseEntry H n).1 = Error.NONE) →
      (initialiseEntry H entry).1 ≠ Error.NONE →
      (Entity b en comps m kind).initialise H
      = ((initialiseEntry H entry).1,
          Entity b en
            (pre.map (fun n => (initialiseEntry H n).2.1)
              ++ (initialiseEntry H entry).2.1 :: post) m kind,
          (pre.map (fun n => (initialiseEntry H n).2.2)).flatten
            ++ (initialiseEntry H entry).2.2) := by
    intro pre entry post hc hpre hentry
    rw [initialise, hc, initialiseEach_error H pre entry post hpre hentry]
    simp only [if_pos hentry]
  have hsuccess : (∀ n ∈ comps, (initialiseEntry H n).1 = Error.NONE) →
      (Entity b en comps m kind).initialise H
      = (H.setup (Entity b.lock en
            ((comps.map (fun n => (initialiseEntry H n).2.1)).map lock) m kind),
          Entity b.lock en ((comps.map (fun n => (initialiseEntry H n).2.1)).map lock) m kind,
          (comps.map (fun n => (initialiseEntry H n).2.2)).flatten
            ++ lockEvents b.addr (comps.map (fun n => (initialiseEntry H n).2.1))
            ++ [Event.lock b.addr b.addr, Event.setup b.addr]) := by
    intro hall
    rw [initialise, initialiseEach_success H comps hall]
    simp
  refine ⟨herror, hsuccess, ?_, ?_⟩
  · intro hall
    rw [hsuccess hall]
    refine ⟨lock_locked b, ?_, by simp [components], rfl⟩
    intro n hn
    simp only [components, List.mem_map] at hn
    obtain ⟨k, _, hk⟩ := hn
    rw [← hk, base_lock]
    exact lock_locked _
  · intro pre entry post hc hpre hentry
    rw [herror pre entry post hc hpre hentry]
    refine ⟨rfl, ?_, ?_⟩
    · simp only [components]
      have hlen : pre.length + 1
          = (pre.map (fun n => (initialiseEntry H n).2.1) ++ [(initialiseEntry H entry).2.1]).length := by
        simp
      have happ : pre.map (fun n => (initialiseEntry H n).2.1)
            ++ (initialiseEntry H entry).2.1 :: post
          = (pre.map (fun n => (initialiseEntry H n).2.1) ++ [(initialiseEntry H entry).2.1])
            ++ post := by simp
      rw [happ, hlen, List.drop_left]
    · intro n hn hne
      have hsame : (initialiseEntry H n).2.1 = n := by
        rw [initialiseEntry, if_neg hne]
      simp only [components, List.mem_append, List.mem_map]
      exact Or.inl ⟨n, hn, hsame⟩

/-- Witness of C10: an entity at address 1 that exposes `good`, `bad` and `q`
stops at `bad`, whose `setup()` fails, and neither it nor `q` is locked; one that
exposes `good` and `q` locks both and itself and runs its own `setup()` last. -/
theorem initialise_order_witness :
    ((Entity (Entity.newComponent 1) true [exampleGood, exampleBad, exampleQ] []
        "Top".toList).initialise exampleHooks).1 = Error.UNKNOWN ∧
    ((Entity (Entity.newComponent 1) true [exampleGood, exampleBad, exampleQ] []
        "Top".toList).initialise exampleHooks).2.2
      = [Event.lock 2 4, Event.lock 2 2, Event.setup 2,
         Event.lock 3 5, Event.lock 3 3, Event.setup 3] ∧
    ((Entity (Entity.newComponent 1) true [exampleGood, exampleQ] []
        "Top".toList).initialise exampleHooks).1 = Error.NONE ∧
    ((Entity (Entity.newComponent 1) true [exampleGood, exampleQ] []
        "Top".toList).initialise exampleHooks).2.2
      = [Event.lock 2 4, Event.lock 2 2, Event.setup 2,
         Event.lock 1 2, Event.lock 1 7, Event.lock 1 1, Event.setup 1] ∧
    (((Entity (Entity.newComponent 1) true [exampleGood, exampleQ] []
        "Top".toList).initialise exampleHooks).2.1.base.locked = true ∧
      ∀ n ∈ ((Entity (Entity.newComponent 1) true [exampleGood, exampleQ] []
        "Top".toList).initialise exampleHooks).2.1.components, n.base.locked = true) ∧
    ((Entity (Entity.newComponent 1) true [exampleGood, exampleBad, exampleQ] []
        "Top".toList).initialise exampleHooks).2.1.base.locked = false ∧
    (((Entity (Entity.newComponent 1) true [exampleGood, exampleBad, exampleQ] []
        "Top".toList).initialise exampleHooks).2.1.components.map
          (fun n => n.base.locked)) = [true, true, false] := by
  have herr := (initialise_order exampleHooks (Entity.newComponent 1) true
    [exampleGood, exampleBad, exampleQ] [] "Top".toList).1 [exampleGood] exampleBad [exampleQ]
    rfl (by intro n hn; rw [List.mem_singleton.1 hn]; decide) (by decide)
  have hall : ∀ n ∈ [exampleGood, exampleQ], (initialiseEntry exampleHooks n).1 = Error.NONE := by
    intro n hn
    rcases List.mem_cons.1 hn with h | h
    · rw [h]; decide
    · rw [List.mem_singleton.1 h]; decide
  have hok := (initialise_order exampleHooks (Entity.newComponent 1) true
    [exampleGood, exampleQ] [] "Top".toList).2.1 hall
  have hlocked := (initialise_order exampleHooks (Entity.newComponent 1) true
    [exampleGood, exampleQ] [] "Top".toList).2.2.1 hall
  refine ⟨?_, ?_, ?_, ?_, ⟨hlocked.1, hlocked.2.1⟩, ?_, ?_⟩
  · rw [herr]; decide
  · rw [herr]; decide
  · rw [hok]; decide
  · rw [hok]; decide
  · rw [herr]; decide
  · rw [herr]; decide

end Node
end Customisation

namespace Customisation
namespace Node

variable {P : Type}

theorem wellFormed_bind (n : Node P) (owner : Nat) (h : n.wellFormed = true) :
    (n.bind owner).wellFormed = true := by
  cases n with
  | Parameter b p => exact h
  | Entity b en comps m kind => exact h

theorem wellFormedList_append (l1 l2 : List (Node P)) :
    wellFormedList (l1 ++ l2) = (wellFormedList l1 && wellFormedList l2) := by
  induction l1 with
  | nil => simp [wellFormedList]
  | cons n rest ih => simp [wellFormedList, ih, Bool.and_assoc]

/-- A freshly constructed entity is well formed. -/
theorem wellFormed_newEntity (addr : Nat) (kind : Str) :
    (newEntity addr kind : Node P).wellFormed = true := by
  rw [newEntity, wellFormed]
  simp only [Bool.and_eq_true, decide_eq_true_eq, wellFormedList, and_true]
  refine ⟨?_, rfl⟩
  simp only [Entity.newComponent, Component.characterise, Component.new]
  decide

/-- The method `expose` keeps a tree well formed when the component exposed is
well formed. -/
theorem wellFormed_expose (e comp : Node P) (he : e.wellFormed = true)
    (hc : comp.wellFormed = true) : (e.expose comp).entity.wellFormed = true := by
  have hag := expose_agrees e comp (wellFormed_agrees e he)
  cases e with
  | Parameter b p => exact he
  | Entity b en comps m kind =>
    rw [expose] at hag ⊢
    split
    · rename_i hg
      rw [if_pos hg] at hag
      simp only [wellFormed, Bool.and_eq_true, decide_eq_true_eq] at he ⊢
      refine ⟨⟨he.1.1, hag⟩, ?_⟩
      rw [wellFormedList_append, he.2]
      simp [wellFormedList, wellFormed_bind comp b.addr hc]
    · exact he

end Node
end Customisation

/-! ## Lifecycle: `finalise`, `enable`, `disable` -/

namespace Customisation
namespace Node

variable {P : Type}

theorem withBase_base (n : Node P) (b : Component) : (n.withBase b).base = b := by
  cases n <;> rfl

theorem withBase_self (n : Node P) : n.withBase n.base = n := by
  cases n <;> rfl

/-- The node passed to `finaliseAs` next to the `Component` part stands for the
object with that part. -/
theorem finaliseAs_eq (b : Component) (n : Node P) :
    finaliseAs b n = finalise (n.withBase b) := by
  cases n with
  | Parameter c p => simp [finalise, withBase, base, finaliseAs]
  | Entity c en comps m kind => simp [finalise, withBase, base, finaliseAs]

theorem finaliseEach_cons (entry : Node P) (rest : List (Node P)) :
    finaliseEach (entry :: rest)
    = ((finaliseEntry entry.unlock).1 :: (finaliseEach rest).1,
        (finaliseEach rest).2 ++ (finaliseEntry entry.unlock).2) := by
  rw [finaliseEach, finaliseEntry, finaliseAs_eq]
  have hu : entry.withBase entry.unlock.base = entry.unlock := by
    cases entry <;> rfl
  rw [hu]
  by_cases h : entry.unlock.entity = true ∧ entry.unlock.enabled = true
  · simp only [h, and_self, if_true]
  · simp only [h, if_false, List.append_nil]

/-- The two loops of `finalise` on a whole list. -/
theorem finaliseEach_eq (comps : List (Node P)) :
    finaliseEach comps
    = (comps.map (fun n => (finaliseEntry n.unlock).1),
        (comps.reverse.map (fun n => (finaliseEntry n.unlock).2)).flatten) := by
  induction comps with
  | nil => rfl
  | cons entry rest ih =>
    rw [finaliseEach_cons, ih]
    simp

end Node
end Customisation

namespace Customisation

theorem Component.unlock_unlocked (c : Component) : c.unlock.unlocked = true := by
  simp only [Component.unlocked, decide_eq_true_eq, Trait.and_LOCKED_eq_NONE,
    Component.unlock_testBit]
  simp

namespace Node

variable {P : Type}

theorem entity_unlock (n : Node P) : n.unlock.entity = n.entity := by
  have h : ∀ t : Trait, (t &&& Trait.not Trait.LOCKED) &&& (Trait.UNDEFINED ||| Trait.ENTITY)
      = t &&& (Trait.UNDEFINED ||| Trait.ENTITY) := by
    intro t
    apply Nat.eq_of_testBit_eq
    intro i
    simp only [Nat.testBit_and, Nat.testBit_or, Trait.testBit_not, Trait.LOCKED_eq,
      Trait.UNDEFINED_eq, Trait.ENTITY_eq, Nat.testBit_two_pow]
    by_cases e31 : 31 = i
    · subst e31; simp
    by_cases e30 : 30 = i
    · subst e30; simp
    simp [e31, e30]
  cases n with
  | Parameter b p => simp [entity, unlock, withBase, base, isEntityObject]
  | Entity b en comps m kind =>
    simp only [entity, unlock, withBase, base, isEntityObject, Component.unlock, h]

theorem enabled_unlock (n : Node P) : n.unlock.enabled = n.enabled := by
  cases n <;> rfl

theorem components_unlock (n : Node P) : n.unlock.components = n.components := by
  cases n <;> rfl

theorem components_lock (n : Node P) : n.lock.components = n.components := by
  cases n <;> rfl

mutual
/-- After `finalise` of an entity whose entities are all enabled, no object of
the tree is locked. -/
theorem finaliseAs_every_unlocked : ∀ (n : Node P) (b : Component),
    n.isEntityObject = true → n.wellFormed = true → n.allEnabled = true →
    every Component.unlocked (finaliseAs b n).1 = true
  | Parameter _ _, _, he, _, _ => by simp [isEntityObject] at he
  | Entity c en comps m kind, b, _, hwf, hen => by
    simp only [wellFormed, Bool.and_eq_true] at hwf
    simp only [allEnabled] at hen
    rw [finaliseAs]
    simp only [every, Bool.and_eq_true]
    exact ⟨Component.unlock_unlocked b, finaliseEach_every_unlocked comps hwf.2 hen⟩
/-- The same for the components of an entity. -/
theorem finaliseEach_every_unlocked : ∀ (comps : List (Node P)),
    wellFormedList comps = true → allEnabledList comps = true →
    everyList Component.unlocked (finaliseEach comps).1 = true
  | [], _, _ => rfl
  | entry :: rest, hwf, hen => by
    simp only [wellFormedList, Bool.and_eq_true] at hwf
    simp only [allEnabledList, Bool.and_eq_true, Bool.or_eq_true, Bool.not_eq_true'] at hen
    have hrest := finaliseEach_every_unlocked rest hwf.2 hen.2
    have hent : entry.entity = entry.isEntityObject := entity_eq_isEntityObject entry hwf.1
    rw [finaliseEach]
    by_cases hc : entry.unlock.entity = true ∧ entry.unlock.enabled = true
    · rw [if_pos hc]
      rw [entity_unlock, hent] at hc
      simp only [everyList, Bool.and_eq_true]
      exact ⟨finaliseAs_every_unlocked entry _ hc.1 hwf.1 hen.1.2, hrest⟩
    · rw [if_neg hc]
      simp only [everyList, Bool.and_eq_true]
      refine ⟨?_, hrest⟩
      cases entry with
      | Parameter b p => exact Component.unlock_unlocked b
      | Entity b en comps m kind =>
        exfalso
        apply hc
        rw [entity_unlock, hent, enabled_unlock]
        rcases hen.1.1 with h | h
        · simp [isEntityObject] at h
        · exact ⟨rfl, h⟩
end

/-- The result of `finalise` on an entity. -/
theorem finalise_order_eq (b : Component) (en : Bool) (comps : List (Node P))
    (m : List (Str × Nat)) (kind : Str) :
    (Entity b en comps m kind).finalise
    = (Entity b.unlock en (comps.map (fun n => (finaliseEntry n.unlock).1)) m kind,
        unlockEvents b.addr comps
          ++ [Event.unlock b.addr b.addr, Event.terminate b.addr]
          ++ (comps.reverse.map (fun n => (finaliseEntry n.unlock).2)).flatten) := by
  rw [finalise, finaliseAs, finaliseEach_eq]
  rfl

/-- C11. `finalise()` unlocks every direct child and the entity itself, then
runs `terminate()`, then finalises the enabled child Entities from the last
exposed to the first exposed, the reverse of the order in which `initialise()`
goes through them (see `initialise_order`): the events are the `unlock` events of
the components in the order of exposure, the `unlock` of the entity, its
`terminate`, and then the events of the children, last child first. After
`finalise()` on a well-formed tree whose entities are all enabled, no object of
the tree is Locked. -/
theorem finalise_order :
    (∀ (b : Component) (en : Bool) (comps : List (Node P)) (m : List (Str × Nat))
        (kind : Str),
      (Entity b en comps m kind).finalise
      = (Entity b.unlock en (comps.map (fun n => (finaliseEntry n.unlock).1)) m kind,
          unlockEvents b.addr comps
            ++ [Event.unlock b.addr b.addr, Event.terminate b.addr]
            ++ (comps.reverse.map (fun n => (finaliseEntry n.unlock).2)).flatten)) ∧
    (∀ n : Node P, n.isEntityObject = true → n.wellFormed = true → n.allEnabled = true →
      every Component.unlocked n.finalise.1 = true) := by
  constructor
  · intro b en comps m kind
    exact finalise_order_eq b en comps m kind
  · intro n he hwf hen
    exact finaliseAs_every_unlocked n n.base he hwf hen

/-- Witness of C11: the tree `top { a { b { c, d }, p }, q }`, locked by
`initialise()`, is unlocked throughout by `finalise()`; the events of `finalise()`
on the initialised tree end with those of `b`, the innermost entity. -/
theorem finalise_order_witness :
    every Component.unlocked (exampleTree.initialise exampleHooks).2.1 = false ∧
    every Component.unlocked (exampleTree.initialise exampleHooks).2.1.finalise.1 = true ∧
    (exampleTree.initialise exampleHooks).2.1.finalise.2
      = [Event.unlock 1 2, Event.unlock 1 7, Event.unlock 1 1, Event.terminate 1,
         Event.unlock 2 3, Event.unlock 2 6, Event.unlock 2 2, Event.terminate 2,
         Event.unlock 3 4, Event.unlock 3 5, Event.unlock 3 3, Event.terminate 3] :=
  ⟨by decide,
   finalise_order.2 (exampleTree.initialise exampleHooks).2.1 (by decide) (by decide)
     (by decide),
   by decide⟩

end Node
end Customisation

namespace Customisation
namespace Node

variable {P : Type}

theorem initialiseEach_length (H : Hooks P) (l : List (Node P)) :
    (initialiseEach H l).2.1.length = l.length := by
  induction l with
  | nil => rfl
  | cons entry rest ih =>
    rw [initialiseEach_cons]
    split <;> simp [ih]

theorem initialiseEach_append (H : Hooks P) (l1 l2 : List (Node P)) :
    initialiseEach H (l1 ++ l2)
    = if (initialiseEach H l1).1 ≠ Error.NONE then
        ((initialiseEach H l1).1, (initialiseEach H l1).2.1 ++ l2, (initialiseEach H l1).2.2)
      else
        ((initialiseEach H l2).1, (initialiseEach H l1).2.1 ++ (initialiseEach H l2).2.1,
          (initialiseEach H l1).2.2 ++ (initialiseEach H l2).2.2) := by
  induction l1 with
  | nil =>
    have h : (initialiseEach H ([] : List (Node P))).1 = Error.NONE := rfl
    rw [List.nil_append, if_neg (by simp [h])]
    rfl
  | cons entry rest ih =>
    rw [List.cons_append, initialiseEach_cons, initialiseEach_cons]
    by_cases h1 : (initialiseEntry H entry).1 ≠ Error.NONE
    · simp only [if_pos h1, List.cons_append]
    · rw [if_neg h1, if_neg h1, ih]
      by_cases h2 : (initialiseEach H rest).1 ≠ Error.NONE
      · simp only [if_pos h2, List.cons_append]
      · simp only [if_neg h2, List.cons_append, List.append_assoc]

theorem components_Entity (b : Component) (en : Bool) (comps : List (Node P))
    (m : List (Str × Nat)) (kind : Str) : (Entity b en comps m kind).components = comps :=
  rfl

/-- The first loop of `initialise` passes over a disabled entry. -/
theorem initialiseEach_disabled (H : Hooks P) (child : Node P) (post : List (Node P))
    (hd : child.enabled = false) :
    initialiseEach H (child :: post)
    = ((initialiseEach H post).1, child :: (initialiseEach H post).2.1,
        (initialiseEach H post).2.2) := by
  have h : initialiseEntry H child = (Error.NONE, child, []) := by
    simp [initialiseEntry, hd]
  rw [initialiseEach_cons, h]
  simp

theorem finaliseEntry_disabled (child : Node P) (hd : child.enabled = false) :
    finaliseEntry child.unlock = (child.unlock, []) := by
  simp [finaliseEntry, enabled_unlock, hd]

/-- C12. A disabled child Entity is skipped by the lifecycle recursion. The loop
of `initialise()` and the loop of `finalise()` do nothing with it and leave no
event for it; they return the error and the events that they return when the
child is not in the list, so neither its `initialise()` or `finalise()` nor its
hooks run. After `initialise()` and after `finalise()` of the parent the
components exposed inside the disabled child are exactly as they were, their
Locked flags included. `enable` and `disable` change the enabled flag and
nothing else: not the `Component` part, not the components, not the map. -/
theorem disabled_child_skipped (H : Hooks P) (b : Component) (en : Bool)
    (pre : List (Node P)) (child : Node P) (post : List (Node P)) (m : List (Str × Nat))
    (kind : Str) (hd : child.enabled = false) :
    (initialiseEntry H child = (Error.NONE, child, []) ∧
      finaliseEntry child.unlock = (child.unlock, [])) ∧
    ((initialiseEach H (pre ++ child :: post)).1 = (initialiseEach H (pre ++ post)).1 ∧
      (initialiseEach H (pre ++ child :: post)).2.2 = (initialiseEach H (pre ++ post)).2.2 ∧
      (finaliseEach (pre ++ child :: post)).2 = (finaliseEach (pre ++ post)).2) ∧
    ((((Entity b en (pre ++ child :: post) m kind).initialise H).2.1.components[pre.length]?).map
        components = some child.components ∧
      (((Entity b en (pre ++ child :: post) m kind).finalise).1.components[pre.length]?).map
        components = some child.components) ∧
    (∀ (n : Node P) (yes : Bool),
      (n.enable yes).base = n.base ∧ (n.enable yes).components = n.components ∧
      (n.enable yes).map = n.map ∧ (n.disable yes).base = n.base ∧
      (n.disable yes).components = n.components ∧ (n.disable yes).map = n.map ∧
      (n.isEntityObject = true →
        (n.enable yes).enabled = yes ∧ (n.disable yes).enabled = !yes)) := by
  have hlen := initialiseEach_length H pre
  have hdis := initialiseEach_disabled H child post hd
  have hfin := finaliseEntry_disabled child hd
  refine ⟨⟨by simp [initialiseEntry, hd], hfin⟩, ⟨?_, ?_, ?_⟩, ⟨?_, ?_⟩, ?_⟩
  · rw [initialiseEach_append, initialiseEach_append H pre post, hdis]
    split <;> rfl
  · rw [initialiseEach_append, initialiseEach_append H pre post, hdis]
    split <;> rfl
  · rw [finaliseEach_eq, finaliseEach_eq]
    simp [hfin]
  · rw [initialise, initialiseEach_append, hdis]
    by_cases h1 : (initialiseEach H pre).1 ≠ Error.NONE
    · simp only [if_pos h1, components_Entity]
      rw [List.getElem?_append_right (by omega)]
      simp [hlen]
    · simp only [if_neg h1]
      by_cases h2 : (initialiseEach H post).1 ≠ Error.NONE
      · simp only [if_pos h2, components_Entity]
        rw [List.getElem?_append_right (by omega)]
        simp [hlen]
      · simp only [if_neg h2, components_Entity]
        rw [List.map_append, List.getElem?_append_right (by simp [hlen])]
        simp [hlen, components_lock]
  · rw [(finalise_order_eq b en (pre ++ child :: post) m kind)]
    simp only [components_Entity]
    rw [List.map_append, List.getElem?_append_right (by simp)]
    simp [hfin, components_unlock]
  · intro n yes
    cases n with
    | Parameter c p => simp [enable, disable, base, components, map, isEntityObject]
    | Entity c e comps mm k => simp [enable, disable, base, components, map, enabled]

/-- Witness of C12: between `good` and `q`, the entity `bad`, whose `setup()`
fails, is disabled: the loop of `initialise()` meets no error, and what `bad`
exposes is as it was after `initialise()` of the parent. -/
theorem disabled_child_skipped_witness :
    (initialiseEach exampleHooks
        ([exampleGood] ++ exampleBad.enable false :: [exampleQ])).1 = Error.NONE ∧
    (((Entity (Entity.newComponent 1) true
          ([exampleGood] ++ exampleBad.enable false :: [exampleQ]) []
          "Top".toList).initialise exampleHooks).2.1.components[[exampleGood].length]?).map
        components = some (exampleBad.enable false).components :=
  have h := disabled_child_skipped exampleHooks (Entity.newComponent 1) true [exampleGood]
    (exampleBad.enable false) [exampleQ] [] "Top".toList (by decide)
  ⟨h.2.1.1.trans (by decide), h.2.2.1.1⟩

end Node
end Customisation

/-! ## Floating-point comparisons -/

namespace Customisation
namespace FloatingPoint

theorem not_lt_self (a : FloatingPoint) : ¬ a < a := by
  show ¬ lt a a = true
  cases a <;> simp [lt]

theorem not_lt_of_le (a b : FloatingPoint) (h : a ≤ b) : ¬ b < a := by
  have h1 : le a b = true := h
  show ¬ lt b a = true
  cases a <;> cases b <;> simp [lt, le] at h1 ⊢
  exact h1

theorem not_lt_nan (a : FloatingPoint) : ¬ a < nan ∧ ¬ nan < a ∧ ¬ a ≤ nan ∧ ¬ nan ≤ a := by
  refine ⟨?_, ?_, ?_, ?_⟩
  · show ¬ lt a nan = true
    cases a <;> simp [lt]
  · show ¬ lt nan a = true
    simp [lt]
  · show ¬ le a nan = true
    cases a <;> simp [le]
  · show ¬ le nan a = true
    simp [le]

theorem le_of_not_lt (a b : FloatingPoint) (ha : a ≠ nan) (hb : b ≠ nan) (h : ¬ a < b) :
    b ≤ a := by
  have h1 : ¬ lt a b = true := h
  show le b a = true
  cases a <;> cases b <;> simp [lt, le] at h1 ha hb ⊢
  exact h1

theorem le_self (a : FloatingPoint) (ha : a ≠ nan) : a ≤ a := by
  show le a a = true
  cases a <;> simp [le] at ha ⊢

theorem ne_nan_of_le (a b : FloatingPoint) (h : a ≤ b) : a ≠ nan ∧ b ≠ nan := by
  have h1 : le a b = true := h
  cases a <;> cases b <;> simp [le] at h1 ⊢

end FloatingPoint
end Customisation

namespace Customisation
namespace FloatingPoint

theorem double_lowest_le_zero : double_lowest ≤ finite 0 := by
  show le double_lowest (finite 0) = true
  simp only [double_lowest, le, decide_eq_true_eq, Rat.ofInt_eq_cast]
  norm_num

theorem zero_le_double_max : finite 0 ≤ double_max := by
  show le (finite 0) double_max = true
  simp only [double_max, le, decide_eq_true_eq, Rat.ofInt_eq_cast]
  norm_num

end FloatingPoint
end Customisation

/-! ## Checkers -/

namespace Customisation
namespace Checker

variable {α : Type} [LinearOrder α]

/-- C17, counterexample. A `Bounded<double>` checker on which `range()` was never
called holds the bounds `lowest()` and `max()`, and flags the two infinities,
which are values of the type. -/
theorem bounded_never_ranged_flags_infinity :
    (Bounded.new FloatingPoint.double_lowest FloatingPoint.double_max).check
        FloatingPoint.pinf Error.NONE
      = (FloatingPoint.pinf, Error.INVALID_VALUE) ∧
    (Bounded.new FloatingPoint.double_lowest FloatingPoint.double_max).check
        FloatingPoint.ninf Error.NONE
      = (FloatingPoint.ninf, Error.INVALID_VALUE) := by
  decide

/-- C17, amended. For every type `T`, `Bounded.check(x)` returns `x` unchanged; it
flags `INVALID_VALUE` if and only if `x < min` or `x > max`, and leaves the error
as it was otherwise. The range is closed: the bounds themselves are accepted
whenever `min <= max`, for a type whose comparisons form a linear order (the
integer types) and for the floating-point types. A `Bounded` checker on which
`range()` was never called accepts every value between
`numeric_limits<T>::lowest()` and `numeric_limits<T>::max()`, which are all the
values of an integer type; for `double` it accepts not-a-number and the finite
values, and flags the two infinities. -/
theorem bounded_check {γ : Type} [LT γ] [DecidableRel (fun a b : γ => a < b)]
    (g : Bounded γ) (z : γ) (b : Bounded α) (x : α) (f : Bounded FloatingPoint) (e : Error) :
    (g.check z e).1 = z ∧
    ((g.check z Error.NONE).2 = Error.INVALID_VALUE ↔ (z < g._min ∨ z > g._max)) ∧
    (¬ (z < g._min ∨ z > g._max) → (g.check z e).2 = e) ∧
    (b._min ≤ b._max → (b.check b._min e).2 = e ∧ (b.check b._max e).2 = e) ∧
    (f._min ≤ f._max → (f.check f._min e).2 = e ∧ (f.check f._max e).2 = e) ∧
    (∀ lowest max : α, lowest ≤ x → x ≤ max → (Bounded.new lowest max).check x e = (x, e)) ∧
    (∀ (T : IntType) (v : Int), T.holds v → (Bounded.new T.min T.max).check v e = (v, e)) ∧
    ((Bounded.new FloatingPoint.double_lowest FloatingPoint.double_max).check
        FloatingPoint.nan e = (FloatingPoint.nan, e) ∧
      (Bounded.new FloatingPoint.double_lowest FloatingPoint.double_max).check
        FloatingPoint.pinf e = (FloatingPoint.pinf, Error.INVALID_VALUE) ∧
      (Bounded.new FloatingPoint.double_lowest FloatingPoint.double_max).check
        FloatingPoint.ninf e = (FloatingPoint.ninf, Error.INVALID_VALUE) ∧
      ∀ v : Rat, FloatingPoint.double_lowest ≤ FloatingPoint.finite v →
        FloatingPoint.finite v ≤ FloatingPoint.double_max →
        (Bounded.new FloatingPoint.double_lowest FloatingPoint.double_max).check
          (FloatingPoint.finite v) e = (FloatingPoint.finite v, e)) := by
  refine ⟨?_, ?_, ?_, ?_, ?_, ?_, ?_, ?_, ?_, ?_, ?_⟩
  · unfold Bounded.check
    split <;> rfl
  · unfold Bounded.check
    by_cases h : z < g._min ∨ z > g._max
    · simp [h]
    · simp [h]
  · intro h
    simp [Bounded.check, h]
  · intro h
    constructor
    · have : ¬ (b._min < b._min ∨ b._min > b._max) := by
        rintro (h1 | h1)
        · exact lt_irrefl _ h1
        · exact absurd h (not_le.2 h1)
      simp only [Bounded.check, this, if_false]
    · have : ¬ (b._max < b._min ∨ b._max > b._max) := by
        rintro (h1 | h1)
        · exact absurd h (not_le.2 h1)
        · exact lt_irrefl _ h1
      simp only [Bounded.check, this, if_false]
  · intro h
    constructor
    · have : ¬ (f._min < f._min ∨ f._min > f._max) := by
        rintro (h1 | h1)
        · exact FloatingPoint.not_lt_self _ h1
        · exact FloatingPoint.not_lt_of_le _ _ h h1
      simp only [Bounded.check, this, if_false]
    · have : ¬ (f._max < f._min ∨ f._max > f._max) := by
        rintro (h1 | h1)
        · exact FloatingPoint.not_lt_of_le _ _ h h1
        · exact FloatingPoint.not_lt_self _ h1
      simp only [Bounded.check, this, if_false]
  · intro lowest max h1 h2
    have : ¬ (x < lowest ∨ x > max) := by
      rintro (h3 | h3)
      · exact absurd h1 (not_le.2 h3)
      · exact absurd h2 (not_le.2 h3)
    simp only [Bounded.check, Bounded.new, this, if_false]
  · intro T v hv
    have : ¬ (v < T.min ∨ v > T.max) := by
      rintro (h3 | h3)
      · exact absurd hv.1 (not_le.2 h3)
      · exact absurd hv.2 (not_le.2 h3)
    simp only [Bounded.check, Bounded.new, this, if_false]
  · have : ¬ (FloatingPoint.nan < FloatingPoint.double_lowest ∨
        FloatingPoint.nan > FloatingPoint.double_max) := by
      rintro (h3 | h3)
      · exact (FloatingPoint.not_lt_nan _).2.1 h3
      · exact (FloatingPoint.not_lt_nan _).1 h3
    simp only [Bounded.check, Bounded.new, this, if_false]
  · have : FloatingPoint.pinf < FloatingPoint.double_lowest ∨
        FloatingPoint.pinf > FloatingPoint.double_max := Or.inr (by decide)
    simp only [Bounded.check, Bounded.new, this, if_true]
  · have : FloatingPoint.ninf < FloatingPoint.double_lowest ∨
        FloatingPoint.ninf > FloatingPoint.double_max := Or.inl (by decide)
    simp only [Bounded.check, Bounded.new, this, if_true]
  · intro v h1 h2
    have : ¬ (FloatingPoint.finite v < FloatingPoint.double_lowest ∨
        FloatingPoint.finite v > FloatingPoint.double_max) := by
      rintro (h3 | h3)
      · exact FloatingPoint.not_lt_of_le _ _ h1 h3
      · exact FloatingPoint.not_lt_of_le _ _ h2 h3
    simp only [Bounded.check, Bounded.new, this, if_false]

/-- Witness of C17: the bounds `[-1, 600]` and the default bounds of `int8_t`. -/
theorem bounded_check_witness :
    ((Bounded.new (-128 : Int) 127).range (-1) 600).2.check 600 Error.NONE
      = (600, Error.NONE) ∧
    (Bounded.new (-128 : Int) 127).check (-128) Error.NONE = (-128, Error.NONE) ∧
    (Bounded.new FloatingPoint.double_lowest FloatingPoint.double_max).check
        (FloatingPoint.finite 0) Error.NONE = (FloatingPoint.finite 0, Error.NONE) :=
  ⟨Prod.ext
      (bounded_check ((Bounded.new (-128 : Int) 127).range (-1) 600).2 600
        (Bounded.new (0 : Int) 0) 0 (Bounded.new FloatingPoint.nan FloatingPoint.nan)
        Error.NONE).1
      ((bounded_check ((Bounded.new (-128 : Int) 127).range (-1) 600).2 600
        (Bounded.new (0 : Int) 0) 0 (Bounded.new FloatingPoint.nan FloatingPoint.nan)
        Error.NONE).2.2.1 (by decide)),
   (bounded_check (Bounded.new (0 : Int) 0) 0 (Bounded.new (-128 : Int) 127) (-128)
      (Bounded.new FloatingPoint.nan FloatingPoint.nan) Error.NONE).2.2.2.2.2.1 (-128) 127
      (by decide) (by decide),
   (bounded_check (Bounded.new (0 : Int) 0) 0 (Bounded.new (0 : Int) 0) 0
      (Bounded.new FloatingPoint.nan FloatingPoint.nan) Error.NONE).2.2.2.2.2.2.2.2.2.2 0
      FloatingPoint.double_lowest_le_zero FloatingPoint.zero_le_double_max⟩

theorem Bounded.range_lt (b : Bounded α) (lo hi : α) (h : b._min < b._max) :
    (b.range lo hi).2._min < (b.range lo hi).2._max := by
  unfold Bounded.range
  by_cases hc : lo ≥ hi
  · simpa [hc] using h
  · simpa [hc] using not_le.1 hc

theorem Bounded.ranges_lt (b : Bounded α) (calls : List (α × α)) (h : b._min < b._max) :
    (b.ranges calls)._min < (b.ranges calls)._max := by
  induction calls generalizing b with
  | nil => exact h
  | cons call rest ih => exact ih _ (Bounded.range_lt b call.1 call.2 h)

/-- C18, counterexample. On `double`, `check` of a freshly constructed
`Saturating` checker returns not-a-number for not-a-number, which is not between
`min()` and `max()`; and `range(NaN, 1.0)` is accepted, after which `min() < max()`
does not hold. -/
theorem saturating_keeps_not_a_number :
    Saturating.check (Bounded.new FloatingPoint.double_lowest FloatingPoint.double_max)
        FloatingPoint.nan Error.NONE = (FloatingPoint.nan, Error.NONE) ∧
    ¬ ((Bounded.new FloatingPoint.double_lowest FloatingPoint.double_max).min
        ≤ FloatingPoint.nan) ∧
    ¬ (FloatingPoint.nan
        ≤ (Bounded.new FloatingPoint.double_lowest FloatingPoint.double_max).max) ∧
    ((Bounded.new FloatingPoint.double_lowest FloatingPoint.double_max).range
        FloatingPoint.nan (FloatingPoint.finite 1)).1 = Error.NONE ∧
    ((Bounded.new FloatingPoint.double_lowest FloatingPoint.double_max).range
        FloatingPoint.nan (FloatingPoint.finite 1)).2.min = FloatingPoint.nan ∧
    ¬ (((Bounded.new FloatingPoint.double_lowest FloatingPoint.double_max).range
          FloatingPoint.nan (FloatingPoint.finite 1)).2.min
        < ((Bounded.new FloatingPoint.double_lowest FloatingPoint.double_max).range
          FloatingPoint.nan (FloatingPoint.finite 1)).2.max) := by
  decide

/-- C18, amended. For a type whose comparisons form a linear order, as those of
the integer types: for a `Saturating` checker in any state reached from
construction by `range(min, max)` calls, where `range` rejects `min >= max` with
`INVALID_RANGE` and then leaves the bounds as they were, `min() < max()` holds;
`check(x)` leaves the error as it was and returns a value between `min()` and
`max()`: `x` itself when `x` is within the bounds, `min()` when `x` is below and
`max()` when `x` is above. For every type `check(x)` leaves the error as it was.
For the floating-point types, `check` returns not-a-number for not-a-number,
`range` accepts not-a-number as a bound, and `check(x)` returns a value between
`min()` and `max()` when `x` is a number and `min() <= max()`. -/
theorem saturating_check (lowest max : α) (hlim : lowest < max) (calls : List (α × α))
    (x : α) (e : Error) {γ : Type} [LT γ] [DecidableRel (fun a b : γ => a < b)]
    (g : Bounded γ) (z : γ) (f : Bounded FloatingPoint) (y : FloatingPoint) :
    (∀ (b : Bounded α) (lo hi : α), lo ≥ hi → b.range lo hi = (Error.INVALID_RANGE, b)) ∧
    ((Bounded.new lowest max).ranges calls).min < ((Bounded.new lowest max).ranges calls).max ∧
    (Saturating.check ((Bounded.new lowest max).ranges calls) x e).2 = e ∧
    ((Bounded.new lowest max).ranges calls).min
      ≤ (Saturating.check ((Bounded.new lowest max).ranges calls) x e).1 ∧
    (Saturating.check ((Bounded.new lowest max).ranges calls) x e).1
      ≤ ((Bounded.new lowest max).ranges calls).max ∧
    (((Bounded.new lowest max).ranges calls).min ≤ x →
      x ≤ ((Bounded.new lowest max).ranges calls).max →
      (Saturating.check ((Bounded.new lowest max).ranges calls) x e).1 = x) ∧
    (x < ((Bounded.new lowest max).ranges calls).min →
      (Saturating.check ((Bounded.new lowest max).ranges calls) x e).1
        = ((Bounded.new lowest max).ranges calls).min) ∧
    (x > ((Bounded.new lowest max).ranges calls).max →
      (Saturating.check ((Bounded.new lowest max).ranges calls) x e).1
        = ((Bounded.new lowest max).ranges calls).max) ∧
    (Saturating.check g z e).2 = e ∧
    Saturating.check f FloatingPoint.nan e = (FloatingPoint.nan, e) ∧
    (f.range FloatingPoint.nan y).1 = Error.NONE ∧
    (f.range y FloatingPoint.nan).1 = Error.NONE ∧
    (f.min ≤ f.max → y ≠ FloatingPoint.nan →
      f.min ≤ (Saturating.check f y e).1 ∧ (Saturating.check f y e).1 ≤ f.max) := by
  have hlt := Bounded.ranges_lt (Bounded.new lowest max) calls hlim
  generalize (Bounded.new lowest max).ranges calls = b at hlt ⊢
  simp only [Bounded.min, Bounded.max]
  refine ⟨?_, hlt, ?_, ?_, ?_, ?_, ?_, ?_, ?_, ?_, ?_, ?_, ?_⟩
  · intro b2 lo hi h
    simp [Bounded.range, h]
  · unfold Saturating.check
    split
    · rfl
    · split <;> rfl
  · unfold Saturating.check
    by_cases h1 : x < b._min
    · simp [h1]
    · by_cases h2 : x > b._max
      · simp [h1, h2, le_of_lt hlt]
      · simp [h1, h2, not_lt.1 h1]
  · unfold Saturating.check
    by_cases h1 : x < b._min
    · simp [h1, le_of_lt hlt]
    · by_cases h2 : x > b._max
      · simp [h1, h2]
      · simp [h1, h2, not_lt.1 h2]
  · intro h1 h2
    simp [Saturating.check, not_lt.2 h1, not_lt.2 h2]
  · intro h1
    simp [Saturating.check, h1]
  · intro h2
    have h1 : ¬ x < b._min := not_lt.2 (le_of_lt (lt_trans hlt h2))
    simp [Saturating.check, h1, h2]
  · unfold Saturating.check
    split
    · rfl
    · split <;> rfl
  · have h1 : ¬ FloatingPoint.nan < f._min := (FloatingPoint.not_lt_nan _).2.1
    have h2 : ¬ FloatingPoint.nan > f._max := (FloatingPoint.not_lt_nan _).1
    simp only [Saturating.check, h1, h2, if_false]
  · have h1 : ¬ FloatingPoint.nan ≥ y := (FloatingPoint.not_lt_nan _).2.2.1
    simp only [Bounded.range, h1, if_false]
  · have h1 : ¬ y ≥ FloatingPoint.nan := (FloatingPoint.not_lt_nan _).2.2.2
    simp only [Bounded.range, h1, if_false]
  · intro hb hy
    obtain ⟨hmin, hmax⟩ := FloatingPoint.ne_nan_of_le _ _ hb
    unfold Saturating.check
    by_cases h1 : y < f._min
    · simp only [h1, if_true]
      exact ⟨FloatingPoint.le_self _ hmin, hb⟩
    · by_cases h2 : y > f._max
      · simp only [h1, h2, if_false, if_true]
        exact ⟨hb, FloatingPoint.le_self _ hmax⟩
      · simp only [h1, h2, if_false]
        exact ⟨FloatingPoint.le_of_not_lt _ _ hy hmin h1,
          FloatingPoint.le_of_not_lt _ _ hmax hy h2⟩

/-- Witness of C18: an `int` checker ranged to `[0, 100]`, after a rejected call
`range(5, 1)`, clamps 250 to 100; a `double` checker ranged to `[0, 100]` clamps
250 to 100. -/
theorem saturating_check_witness :
    (Saturating.check ((Bounded.new (-2147483648 : Int) 2147483647).ranges
        [(0, 100), (5, 1)]) 250 Error.NONE)
      = (100, Error.NONE) ∧
    (Saturating.check
        ((Bounded.new FloatingPoint.double_lowest FloatingPoint.double_max).range
          (FloatingPoint.finite 0) (FloatingPoint.finite 100)).2
        (FloatingPoint.finite 250) Error.NONE).1
      ≤ FloatingPoint.finite 100 :=
  ⟨Prod.ext
    (((saturating_check (-2147483648 : Int) 2147483647 (by decide) [(0, 100), (5, 1)] 250
      Error.NONE (Bounded.new (0 : Int) 0) 0
      (Bounded.new FloatingPoint.nan FloatingPoint.nan) FloatingPoint.nan).2.2.2.2.2.2.2.1
        (by decide)).trans (by decide))
    (saturating_check (-2147483648 : Int) 2147483647 (by decide) [(0, 100), (5, 1)] 250
      Error.NONE (Bounded.new (0 : Int) 0) 0
      (Bounded.new FloatingPoint.nan FloatingPoint.nan) FloatingPoint.nan).2.2.1,
   ((saturating_check (-2147483648 : Int) 2147483647 (by decide) [] 0 Error.NONE
      (Bounded.new (0 : Int) 0) 0
      ((Bounded.new FloatingPoint.double_lowest FloatingPoint.double_max).range
        (FloatingPoint.finite 0) (FloatingPoint.finite 100)).2
      (FloatingPoint.finite 250)).2.2.2.2.2.2.2.2.2.2.2.2 (by decide) (by decide)).2⟩

end Checker
end Customisation

namespace Customisation
namespace Checker

/-- C19. On a scalar, `WhiteListed.check(x)` returns `x` unchanged; it flags
`INVALID_VALUE` if and only if the allow-set is not empty and `x` is not one of
its members, and leaves the error as it was otherwise; `validity()` reports kind
`WHITE_LIST` with the allow-set when it is not empty; with an empty allow-set
`check` and `validity()` give what those of the `None` checker give. -/
theorem whitelisted_check {α : Type} [LT α] [DecidableRel (fun a b : α => a < b)]
    [DecidableEq α] (w : WhiteListed α) (x : α) (e : Error) :
    (w.check x e).1 = x ∧
    ((w.check x Error.NONE).2 = Error.INVALID_VALUE ↔ (w._allowed ≠ [] ∧ x ∉ w._allowed)) ∧
    (¬ (w._allowed ≠ [] ∧ x ∉ w._allowed) → (w.check x e).2 = e) ∧
    (w._allowed ≠ [] → w.validity = (Kind.WHITE_LIST, w._allowed)) ∧
    (WhiteListed.mk ([] : List α)).check x e = None.check x e ∧
    (WhiteListed.mk ([] : List α)).allowAll.check x e = None.check x e ∧
    (WhiteListed.mk ([] : List α)).validity = None.validity ∧
    w.allowAll.validity = None.validity := by
  refine ⟨?_, ?_, ?_, ?_, ?_, ?_, ?_, ?_⟩
  · unfold WhiteListed.check
    split <;> rfl
  · unfold WhiteListed.check StdSet.find
    by_cases h : w._allowed ≠ [] ∧ x ∉ w._allowed
    · simp [h]
    · have h2 : ¬ (w._allowed ≠ [] ∧ decide (x ∈ w._allowed) = false) := by simpa using h
      simp only [h2, if_false, h, iff_false]
      decide
  · intro h
    have h2 : ¬ (w._allowed ≠ [] ∧ decide (x ∈ w._allowed) = false) := by simpa using h
    simp only [WhiteListed.check, StdSet.find, h2, if_false]
  · intro h
    simp only [WhiteListed.validity, h, if_true, ne_eq, not_false_eq_true]
  · simp [WhiteListed.check, None.check]
  · simp [WhiteListed.check, WhiteListed.allowAll, None.check]
  · simp [WhiteListed.validity, None.validity]
  · simp [WhiteListed.validity, WhiteListed.allowAll, None.validity]

/-- Witness of C19: the allow-set `{-1, 20, 21, 22}` accepts 21 and flags 23. -/
theorem whitelisted_check_witness :
    (WhiteListed.mk ([-1, 20, 21, 22] : List Int)).check 21 Error.NONE = (21, Error.NONE) ∧
    ((WhiteListed.mk ([-1, 20, 21, 22] : List Int)).check 23 Error.NONE).2
      = Error.INVALID_VALUE ∧
    (WhiteListed.mk ([-1, 20, 21, 22] : List Int)).validity
      = (Kind.WHITE_LIST, [-1, 20, 21, 22]) :=
  ⟨Prod.ext (whitelisted_check (WhiteListed.mk ([-1, 20, 21, 22] : List Int)) 21 Error.NONE).1
      ((whitelisted_check (WhiteListed.mk ([-1, 20, 21, 22] : List Int)) 21
        Error.NONE).2.2.1 (by decide)),
   (whitelisted_check (WhiteListed.mk ([-1, 20, 21, 22] : List Int)) 23 Error.NONE).2.1.2
      (by decide),
   (whitelisted_check (WhiteListed.mk ([-1, 20, 21, 22] : List Int)) 21 Error.NONE).2.2.2.1
      (by decide)⟩

/-- C20. The container `check` of `WhiteListed` has no test for an empty
allow-set: with an empty allow-set, the vector `{1, 2}` comes back empty with
`INVALID_VALUE` flagged, and the set `{1, 2}` comes back empty with the error
left as it was, when the `None` checker returns both unchanged. -/
theorem whitelisted_container_empty_allow_set :
    WhiteListed.checkContainer false (WhiteListed.mk ([] : List Int)) [1, 2] Error.NONE
      = ([], Error.INVALID_VALUE) ∧
    WhiteListed.checkContainer true (WhiteListed.mk ([] : List Int)) [1, 2] Error.NONE
      = ([], Error.NONE) ∧
    None.check ([1, 2] : List Int) Error.NONE = ([1, 2], Error.NONE) ∧
    (WhiteListed.mk ([] : List Int)).check 1 Error.NONE = (1, Error.NONE) := by
  decide

end Checker

namespace Translator

/-- C16. The bare token `abca` is not returned verbatim by the string translator:
`from_str` strips its first and last character and returns `bc` with no error
flagged, and the bare token `a` is returned as the empty string. -/
theorem direct_string_bare_token_stripped :
    DirectString.from_str "abca".toList Error.NONE = ("bc".toList, Error.NONE) ∧
    DirectString.from_str "a".toList Error.NONE = ([], Error.NONE) ∧
    DirectString.from_str "abc".toList Error.NONE = ("abc".toList, Error.NONE) := by
  decide

end Translator
end Customisation

/-! ## The Mapped translator -/

namespace Customisation
namespace StdMap

variable {κ β : Type} [DecidableEq κ]

end StdMap

namespace Translator
namespace Mapped

variable {β : Type}

end Mapped
end Translator
end Customisation

namespace Customisation
namespace Translator
namespace Mapped

end Mapped
end Translator
end Customisation

/-! ## The integer translator -/

namespace Customisation
namespace Translator
namespace DirectInt

/-- C14. The value -1 of `int32_t` does not come back in hexadecimal: `to_str`
gives `0XFFFFFFFF`, which `from_str` reads as 4294967295, out of the range of the
type, so that it returns 2147483647 and flags `INVALID_VALUE`; the same happens in
octal and for `int8_t`, while the decimal format returns -1 with no error, as the
hexadecimal format does for 84. -/
theorem hexadecimal_negative_not_read_back :
    IntType.int32_t.holds (-1) ∧
    to_str IntType.int32_t (use NumberFormat.HEXADECIMAL) (-1) = "0XFFFFFFFF".toList ∧
    from_str IntType.int32_t (use NumberFormat.HEXADECIMAL)
        (to_str IntType.int32_t (use NumberFormat.HEXADECIMAL) (-1)) Error.NONE
      = (2147483647, Error.INVALID_VALUE) ∧
    from_str IntType.int32_t (use NumberFormat.OCTAL)
        (to_str IntType.int32_t (use NumberFormat.OCTAL) (-1)) Error.NONE
      = (2147483647, Error.INVALID_VALUE) ∧
    from_str IntType.int8_t (use NumberFormat.HEXADECIMAL)
        (to_str IntType.int8_t (use NumberFormat.HEXADECIMAL) (-1)) Error.NONE
      = (127, Error.INVALID_VALUE) ∧
    from_str IntType.int32_t (use NumberFormat.DECIMAL)
        (to_str IntType.int32_t (use NumberFormat.DECIMAL) (-1)) Error.NONE
      = (-1, Error.NONE) ∧
    from_str IntType.int32_t (use NumberFormat.HEXADECIMAL)
        (to_str IntType.int32_t (use NumberFormat.HEXADECIMAL) 84) Error.NONE
      = (84, Error.NONE) := by
  decide

end DirectInt
end Translator
end Customisation

/-! ## Decimal integers: what is written is read back -/

namespace Customisation
namespace Stream

theorem digitValue_digitChar : ∀ d, d < 10 → digitValue 10 (digitChar d) = some d := by
  decide

theorem digitChar_plain : ∀ d, d < 10 → Io.plain (digitChar d) = true := by
  decide

theorem digitChar_not_space : ∀ d, d < 10 →
    Translator.isspace (digitChar d) = false ∧ digitChar d ≠ '-' ∧ digitChar d ≠ '+' := by
  decide

theorem digitChar_ne_zero : ∀ d, d < 10 → 0 < d → digitChar d ≠ '0' := by
  decide

theorem digitsAux_chars (fuel n : Nat) (acc : Str) (P : Char → Prop)
    (hd : ∀ d, d < 10 → P (digitChar d)) (hacc : ∀ c ∈ acc, P c) :
    ∀ c ∈ digitsAux 10 fuel n acc, P c := by
  induction fuel generalizing n acc with
  | zero => exact hacc
  | succ fuel ih =>
    unfold digitsAux
    split
    · rename_i h
      intro c hc
      rcases List.mem_cons.1 hc with h1 | h1
      · rw [h1]; exact hd n h
      · exact hacc c h1
    · apply ih
      intro c hc
      rcases List.mem_cons.1 hc with h1 | h1
      · rw [h1]; exact hd _ (Nat.mod_lt _ (by decide))
      · exact hacc c h1

theorem digitsAux_head (fuel n : Nat) (acc : Str) (hn : 0 < n) (hf : n < fuel) :
    ∃ d r, 0 < d ∧ d < 10 ∧ digitsAux 10 fuel n acc = digitChar d :: r := by
  induction fuel generalizing n acc with
  | zero => omega
  | succ fuel ih =>
    unfold digitsAux
    split
    · rename_i h
      exact ⟨n, acc, hn, h, rfl⟩
    · rename_i h
      exact ih (n / 10) _ (Nat.div_pos (by omega) (by decide)) (by omega)

theorem accumulate_digitsAux (fuel n : Nat) (acc : Str) (hf : n < fuel) :
    ∃ k, 0 < k ∧ ∀ count,
      accumulate 10 (digitsAux 10 fuel n acc) 0 count = accumulate 10 acc n (count + k) := by
  induction fuel generalizing n acc with
  | zero => omega
  | succ fuel ih =>
    unfold digitsAux
    split
    · rename_i h
      refine ⟨1, by decide, fun count => ?_⟩
      simp only [accumulate, digitValue_digitChar n h, Nat.zero_mul, Nat.zero_add]
    · rename_i h
      obtain ⟨k, hk, hk2⟩ := ih (n / 10) (digitChar (n % 10) :: acc) (by omega)
      refine ⟨k + 1, by omega, fun count => ?_⟩
      rw [hk2 count]
      simp only [accumulate, digitValue_digitChar (n % 10) (Nat.mod_lt _ (by decide))]
      have : n / 10 * 10 + n % 10 = n := by omega
      rw [this, Nat.add_assoc]

theorem accumulate_digits (n : Nat) :
    ∃ k, 0 < k ∧ accumulate 10 (digits 10 n) 0 0 = (n, k, []) := by
  obtain ⟨k, hk, hk2⟩ := accumulate_digitsAux (n + 1) n [] (by omega)
  refine ⟨k, hk, ?_⟩
  rw [digits, hk2 0]
  simp [accumulate]

theorem digits_head (n : Nat) (hn : 0 < n) :
    ∃ d r, 0 < d ∧ d < 10 ∧ digits 10 n = digitChar d :: r :=
  digitsAux_head (n + 1) n [] hn (by omega)

theorem digits_plain (n : Nat) : ∀ c ∈ digits 10 n, Io.plain c = true :=
  digitsAux_chars (n + 1) n [] (fun c => Io.plain c = true) digitChar_plain
    (fun c hc => by simp at hc)

theorem digits_ne_nil (n : Nat) : digits 10 n ≠ [] := by
  unfold digits digitsAux
  split
  · simp
  · rename_i h
    obtain ⟨d, r, _, _, h2⟩ := digitsAux_head n (n / 10) [digitChar (n % 10)]
      (Nat.div_pos (by omega) (by decide)) (by omega)
    rw [h2]
    simp

/-- Reading the decimal digits of a positive number. -/
theorem num_get_digits (n : Nat) (hn : 0 < n) (hmax : n ≤ 2 ^ 63 - 1) :
    num_get true 64 10 (digits 10 n) = { value := n, failbit := false, eofbit := true } := by
  obtain ⟨d, r, hd0, hd, hh⟩ := digits_head n hn
  obtain ⟨k, hk, hacc⟩ := accumulate_digits n
  have hsp := digitChar_not_space d hd
  have hz := digitChar_ne_zero d hd hd0
  have hlead : leading 10 (digits 10 n) = (false, digits 10 n) := by
    rw [hh]
    simp only [leading, hz, if_false]
  unfold num_get
  have hneg : (digits 10 n).head? ≠ some '-' := by
    rw [hh]; simpa using hsp.2.1
  have hpos : (digits 10 n).head? ≠ some '+' := by
    rw [hh]; simpa using hsp.2.2
  simp only [hneg, hpos, decide_False, Bool.false_eq_true, or_self, if_false, hlead, hacc]
  have hk0 : ¬ k = 0 := by omega
  have hle : n ≤ 9223372036854775807 := by omega
  simp [hk0, hle]

end Stream
end Customisation

namespace Customisation
namespace Stream

/-- Reading a minus sign and the decimal digits of a positive number. -/
theorem num_get_minus_digits (n : Nat) (hn : 0 < n) (hmax : n ≤ 2 ^ 63) :
    num_get true 64 10 ('-' :: digits 10 n)
      = { value := -(n : Int), failbit := false, eofbit := true } := by
  obtain ⟨d, r, hd0, hd, hh⟩ := digits_head n hn
  obtain ⟨k, hk, hacc⟩ := accumulate_digits n
  have hz := digitChar_ne_zero d hd hd0
  have hlead : leading 10 (digits 10 n) = (false, digits 10 n) := by
    rw [hh]
    simp only [leading, hz, if_false]
  unfold num_get
  simp only [List.head?_cons, decide_True, true_or, if_true, List.tail_cons, hlead, hacc]
  have hk0 : ¬ k = 0 := by omega
  have hle : n ≤ 9223372036854775808 := by omega
  simp [hk0, hle]

/-- What `insert` writes in decimal is read back by `num_get` for `long`. -/
theorem num_get_insert (width : Nat) (v : Int) (hmin : -(2 ^ 63) ≤ v) (hmax : v ≤ 2 ^ 63 - 1) :
    num_get true 64 10 (insert 10 width v)
      = { value := v, failbit := false, eofbit := true } := by
  unfold insert
  simp only [if_true]
  by_cases hneg : v < 0
  · simp only [hneg, if_true]
    rw [num_get_minus_digits v.natAbs (by omega) (by omega)]
    congr 1
    omega
  · simp only [hneg, if_false]
    by_cases h0 : v = 0
    · subst h0
      decide
    · rw [num_get_digits v.toNat (by omega) (by omega)]
      congr 1
      omega

/-- What `insert` writes in decimal is a word for the tokenizer. -/
theorem insert_word (width : Nat) (v : Int) : Io.word (insert 10 width v) := by
  unfold insert
  simp only [if_true]
  split
  · refine ⟨by simp, fun c hc => ?_⟩
    rcases List.mem_cons.1 hc with h | h
    · rw [h]; decide
    · exact digits_plain _ c h
  · exact ⟨digits_ne_nil _, digits_plain _⟩

/-- What `insert` writes in decimal does not start with white space. -/
theorem insert_dropWhile (width : Nat) (v : Int) :
    (insert 10 width v).dropWhile Translator.isspace = insert 10 width v := by
  unfold insert
  simp only [if_true]
  split
  · rfl
  · by_cases h0 : v.toNat = 0
    · rw [h0]
      decide
    · obtain ⟨d, r, _, hd, hh⟩ := digits_head v.toNat (by omega)
      rw [hh]
      simp [List.dropWhile, (digitChar_not_space d hd).1]

end Stream
end Customisation

namespace Customisation
namespace Translator
namespace DirectInt

/-- The decimal text of a value of `int32_t` is read back as the value, with the
error left as it was. -/
theorem int32_decimal_round_trip (v : Int) (hv : IntType.int32_t.holds v) (e : Error) :
    from_str IntType.int32_t new (to_str IntType.int32_t new v) e = (v, e) := by
  have hmin : -(2 ^ 31) ≤ v := hv.1
  have hmax : v ≤ 2 ^ 31 - 1 := hv.2
  have hget := Stream.num_get_insert 32 v (by omega) (by omega)
  have hdrop := Stream.insert_dropWhile 32 v
  have hne : Stream.insert 10 32 v ≠ [] := (Stream.insert_word 32 v).1
  have h1 : ¬ v < IntType.int32_t.min := not_lt.2 hv.1
  have h2 : ¬ v > IntType.int32_t.max := not_lt.2 hv.2
  have hbits : ¬ IntType.int32_t.bits = 8 := by decide
  have hs : IntType.int32_t.signed = true ∧ IntType.int32_t.bits < 64 := by decide
  have hfl : integral_flags new = 10 := rfl
  have hb : IntType.int32_t.bits = 32 := rfl
  simp only [from_str, to_str, hbits, if_false, hfl, Stream.extract, hs, and_self, if_true]
  simp only [hb, hdrop, hne, if_false, hget, h1, h2, not_true_eq_false, and_self]

end DirectInt
end Translator
end Customisation

/-! ## The tokenizer on the text of a container -/

namespace Customisation
namespace Io

theorem scan_plain_step (tokens : List Str) (min max : Int) (tok : Str) (st : Bool)
    (c : Char) (rest : Str) (hc : plain c = true) :
    scan tokens min max { token := tok, token_started := st } (c :: rest)
      = scan tokens min max { token := tok ++ [c], token_started := true } rest := by
  simp only [plain, Bool.and_eq_true, Bool.not_eq_true', decide_eq_false_iff_not] at hc
  obtain ⟨⟨⟨⟨⟨h1, h2⟩, h3⟩, h4⟩, h5⟩, h6⟩ := hc
  rw [scan]
  simp [h1, h2, h3, h4, h5, h6]

theorem scan_word_started (tokens : List Str) (min max : Int) (w : Str)
    (hw : ∀ c ∈ w, plain c = true) (tok : Str) (rest : Str) :
    scan tokens min max { token := tok, token_started := true } (w ++ rest)
      = scan tokens min max { token := tok ++ w, token_started := true } rest := by
  induction w generalizing tok with
  | nil => simp
  | cons c w ih =>
    rw [List.cons_append, scan_plain_step tokens min max tok true c (w ++ rest)
      (hw c (by simp)), ih (fun x hx => hw x (by simp [hx]))]
    simp

theorem scan_word_idle (tokens : List Str) (min max : Int) (w : Str) (hw : word w)
    (rest : Str) :
    scan tokens min max {} (w ++ rest)
      = scan tokens min max { token := w, token_started := true } rest := by
  obtain ⟨hne, hp⟩ := hw
  cases w with
  | nil => exact absurd rfl hne
  | cons c w =>
    rw [List.cons_append, scan_plain_step tokens min max [] false c (w ++ rest)
      (hp c (by simp)), scan_word_started tokens min max w (fun x hx => hp x (by simp [hx]))]
    simp

theorem scan_blank_started (tokens : List Str) (min max : Int) (tok : Str) (rest : Str)
    (hmax : max ≤ 0) :
    scan tokens min max { token := tok, token_started := true } (' ' :: rest)
      = scan (tokens ++ [tok]) (min - 1) (max - 1) {} rest := by
  have h1 : ¬ max - 1 = 1 := by omega
  rw [scan]
  simp [separator, blank, h1]

theorem scan_blank_idle (tokens : List Str) (min max : Int) (rest : Str) :
    scan tokens min max {} (' ' :: rest) = scan tokens min max {} rest := by
  rw [scan]
  simp [separator, blank]

theorem scan_separator_started_far (tokens : List Str) (min max : Int) (tok : Str)
    (c : Char) (rest : Str) (hc : separator c = true) (hmax : max ≤ 0) :
    scan tokens min max { token := tok, token_started := true } (c :: rest)
      = scan (tokens ++ [tok] ++ [[c]]) (min - 2) (max - 2) {} rest := by
  have h1 : ¬ max - 1 = 1 := by omega
  have h2 : ¬ max - 2 = 1 := by omega
  rw [scan]
  simp [hc, h1, h2]

theorem scan_separator_idle (tokens : List Str) (min max : Int) (c : Char) (rest : Str)
    (hc : separator c = true) (hmax : max ≤ 0) :
    scan tokens min max {} (c :: rest) = scan (tokens ++ [[c]]) (min - 1) (max - 1) {} rest := by
  have h1 : ¬ max - 1 = 1 := by omega
  rw [scan]
  simp [hc, h1]

theorem scan_end_idle (tokens : List Str) (min max : Int) (hmin : min ≤ 1) :
    scan tokens min max {} [] = (Error.NONE, tokens) := by
  have h1 : ¬ min > 1 := by omega
  rw [scan]
  simp [finish, h1]

end Io
end Customisation

namespace Customisation
namespace Translator

theorem vector_scan_loop {t : Type} (T : TranslatorPolicy t) (c : List t)
    (hw : ∀ v ∈ c, Io.word (T.to_str v)) (tokens : List Str) (min max : Int) (tok : Str)
    (hmin : min ≤ 1) (hmax : max ≤ 0) :
    Io.scan tokens min max { token := tok, token_started := true }
        (DirectVector.to_str_loop T false c ++ [')'])
      = (Error.NONE, tokens ++ (tok :: c.map T.to_str) ++ [[')']]) := by
  induction c generalizing tokens min max tok with
  | nil =>
    simp only [DirectVector.to_str_loop, List.nil_append, List.map_nil]
    rw [Io.scan_separator_started_far tokens min max tok ')' [] (by decide) hmax,
      Io.scan_end_idle _ _ _ (by omega)]
  | cons v rest ih =>
    simp only [DirectVector.to_str_loop, Bool.false_eq_true, not_false_eq_true, if_true,
      List.append_assoc, List.singleton_append, List.cons_append, List.nil_append, List.map_cons]
    rw [Io.scan_blank_started tokens min max tok _ hmax,
      Io.scan_word_idle _ _ _ (T.to_str v) (hw v (by simp)),
      ih (fun x hx => hw x (by simp [hx])) _ _ _ _ (by omega) (by omega)]
    simp

/-- The tokens of the text of a vector. -/
theorem vector_parse_to_str {t : Type} (T : TranslatorPolicy t) (c : List t)
    (hw : ∀ v ∈ c, Io.word (T.to_str v)) :
    Io.parseAll (DirectVector.to_str T c) []
      = (Error.NONE, [['(']] ++ c.map T.to_str ++ [[')']]) := by
  have hm : ¬ ((-1 : Int) = 1) := by decide
  simp only [Io.parseAll, Io.parseMax, Io.parse, Io.parseFrom, hm, if_false,
    DirectVector.to_str, List.append_assoc, List.singleton_append, List.cons_append]
  rw [Io.scan_separator_idle [] (-1) (-1) '(' _ (by decide) (by decide)]
  cases c with
  | nil =>
    simp only [DirectVector.to_str_loop, List.nil_append, List.map_nil]
    rw [Io.scan_separator_idle _ _ _ ')' [] (by decide) (by decide),
      Io.scan_end_idle _ _ _ (by decide)]
    simp
  | cons v rest =>
    simp only [DirectVector.to_str_loop, not_true_eq_false, if_false, List.nil_append,
      List.append_assoc, List.map_cons]
    rw [Io.scan_word_idle _ _ _ (T.to_str v) (hw v (by simp)),
      vector_scan_loop T rest (fun x hx => hw x (by simp [hx])) _ _ _ _ (by decide)
        (by decide)]
    simp

theorem set_scan_loop {t : Type} (T : TranslatorPolicy t) (c : List t)
    (hw : ∀ v ∈ c, Io.word (T.to_str v)) (tokens : List Str) (min max : Int) (tok : Str)
    (hmin : min ≤ 1) (hmax : max ≤ 0) :
    Io.scan tokens min max { token := tok, token_started := true }
        (DirectSet.to_str_loop T false c ++ [' ', '}'])
      = (Error.NONE, tokens ++ (tok :: c.map T.to_str).intersperse [','] ++ [['}']]) := by
  induction c generalizing tokens min max tok with
  | nil =>
    simp only [DirectSet.to_str_loop, List.nil_append, List.map_nil]
    rw [Io.scan_blank_started tokens min max tok _ hmax,
      Io.scan_plain_step _ _ _ [] false '}' [] (by decide), Io.scan]
    have h1 : ¬ min - 1 > 1 := by omega
    have hr : Io.rstrip ['}'] = ['}'] := by decide
    simp [Io.finish, h1, hr]
  | cons v rest ih =>
    simp only [DirectSet.to_str_loop, Bool.false_eq_true, not_false_eq_true, if_true,
      List.append_assoc, List.cons_append, List.nil_append, List.map_cons]
    rw [Io.scan_separator_started_far tokens min max tok ',' _ (by decide) hmax,
      Io.scan_blank_idle,
      Io.scan_word_idle _ _ _ (T.to_str v) (hw v (by simp)),
      ih (fun x hx => hw x (by simp [hx])) _ _ _ _ (by omega) (by omega)]
    simp

/-- The tokens of the text of a set. -/
theorem set_parse_to_str {t : Type} (T : TranslatorPolicy t) (c : List t)
    (hw : ∀ v ∈ c, Io.word (T.to_str v)) :
    Io.parseAll (DirectSet.to_str T c) []
      = (Error.NONE, [['{']] ++ (c.map T.to_str).intersperse [','] ++ [['}']]) := by
  have hm : ¬ ((-1 : Int) = 1) := by decide
  simp only [Io.parseAll, Io.parseMax, Io.parse, Io.parseFrom, hm, if_false,
    DirectSet.to_str, List.append_assoc, List.cons_append, List.nil_append]
  rw [Io.scan_plain_step [] (-1) (-1) [] false '{' _ (by decide),
    Io.scan_blank_started _ _ _ _ _ (by decide)]
  cases c with
  | nil =>
    simp only [DirectSet.to_str_loop, List.nil_append, List.map_nil]
    rw [Io.scan_blank_idle, Io.scan_plain_step _ _ _ [] false '}' [] (by decide), Io.scan]
    have hr : Io.rstrip ['}'] = ['}'] := by decide
    simp [Io.finish, hr]
  | cons v rest =>
    simp only [DirectSet.to_str_loop, not_true_eq_false, if_false, List.nil_append,
      List.append_assoc, List.map_cons]
    rw [Io.scan_word_idle _ _ _ (T.to_str v) (hw v (by simp)),
      set_scan_loop T rest (fun x hx => hw x (by simp [hx])) _ _ _ _ (by decide)
        (by decide)]
    simp

end Translator
end Customisation

/-! ## Containers: what is written is read back -/

namespace Customisation

theorem StdSet.emplace_last (s : List Int) (x : Int) (h : ∀ y ∈ s, y < x) :
    StdSet.emplace s x = s ++ [x] := by
  induction s with
  | nil => rfl
  | cons y rest ih =>
    have hy : y < x := h y (by simp)
    have h1 : ¬ x < y := by omega
    have h2 : ¬ y = x := by omega
    simp only [StdSet.emplace, h1, h2, if_false, List.cons_append]
    rw [ih (fun z hz => h z (by simp [hz]))]

namespace Translator

theorem vector_from_str_loop_to_str {t : Type} (T : TranslatorPolicy t) (c : List t)
    (hT : ∀ v ∈ c, T.from_str (T.to_str v) Error.NONE = (v, Error.NONE)) (acc : List t) :
    DirectVector.from_str_loop T (c.map T.to_str) acc Error.NONE = (acc ++ c, Error.NONE) := by
  induction c generalizing acc with
  | nil => simp [DirectVector.from_str_loop]
  | cons v rest ih =>
    simp only [List.map_cons, DirectVector.from_str_loop, hT v (by simp), ne_eq,
      not_true_eq_false, if_false]
    rw [ih (fun x hx => hT x (by simp [hx]))]
    simp

theorem vector_from_str_tokens_to_str {t : Type} (T : TranslatorPolicy t) (c : List t)
    (hT : ∀ v ∈ c, T.from_str (T.to_str v) Error.NONE = (v, Error.NONE)) :
    DirectVector.from_str_tokens T ([['(']] ++ c.map T.to_str ++ [[')']]) Error.NONE
      = (c, Error.NONE) := by
  have h1 : ([['(']] ++ c.map T.to_str ++ [[')']]).head? = some ['('] := by simp
  have h2 : ([['(']] ++ c.map T.to_str ++ [[')']]).getLast? = some [')'] :=
    List.getLast?_concat _
  have h3 : ([['(']] ++ c.map T.to_str ++ [[')']]).tail.dropLast = c.map T.to_str := by
    simp [List.dropLast_concat]
  unfold DirectVector.from_str_tokens
  rw [h1, h2, h3, vector_from_str_loop_to_str T c hT]
  simp

theorem set_from_str_loop_to_str (T : TranslatorPolicy Int) (c : List Int)
    (hT : ∀ v ∈ c, T.from_str (T.to_str v) Error.NONE = (v, Error.NONE))
    (hc : c.Pairwise (fun a b => a < b)) (acc : List Int) (hacc : ∀ a ∈ acc, ∀ v ∈ c, a < v) :
    DirectSet.from_str_loop T ((c.map T.to_str).intersperse [',']) acc Error.NONE
      = (acc ++ c, Error.NONE) := by
  induction c generalizing acc with
  | nil => simp [DirectSet.from_str_loop]
  | cons v rest ih =>
    have hv : StdSet.emplace acc v = acc ++ [v] :=
      StdSet.emplace_last acc v (fun a ha => hacc a ha v (by simp))
    cases rest with
    | nil =>
      simp only [List.map_cons, List.map_nil, List.intersperse_single, DirectSet.from_str_loop,
        hT v (by simp), hv]
    | cons w rest2 =>
      simp only [List.map_cons, List.intersperse_cons₂, DirectSet.from_str_loop,
        hT v (by simp), hv, ne_eq, not_true_eq_false, if_false]
      have h := ih (fun x hx => hT x (by simp [hx])) (List.Pairwise.of_cons hc) (acc ++ [v])
        (by
          intro a ha x hx
          rcases List.mem_append.1 ha with h1 | h1
          · exact hacc a h1 x (by simp [hx])
          · simp only [List.mem_singleton] at h1
            rw [h1]
            exact List.rel_of_pairwise_cons hc hx)
      simp only [List.map_cons] at h
      rw [h]
      simp

theorem set_from_str_tokens_to_str (T : TranslatorPolicy Int) (c : List Int)
    (hT : ∀ v ∈ c, T.from_str (T.to_str v) Error.NONE = (v, Error.NONE))
    (hc : c.Pairwise (fun a b => a < b)) :
    DirectSet.from_str_tokens T ([['{']] ++ (c.map T.to_str).intersperse [','] ++ [['}']])
        Error.NONE
      = (c, Error.NONE) := by
  have h1 : ([['{']] ++ (c.map T.to_str).intersperse [','] ++ [['}']]).head? = some ['{'] := by
    simp
  have h2 : ([['{']] ++ (c.map T.to_str).intersperse [','] ++ [['}']]).getLast?
      = some ['}'] := List.getLast?_concat _
  have h3 : ([['{']] ++ (c.map T.to_str).intersperse [','] ++ [['}']]).tail.dropLast
      = (c.map T.to_str).intersperse [','] := by
    simp [List.dropLast_concat]
  unfold DirectSet.from_str_tokens
  rw [h1, h2, h3, set_from_str_loop_to_str T c hT hc [] (by simp)]
  simp

end Translator
end Customisation

namespace Customisation

theorem Parameter.string_to_value_of_tokens {σ t : Type} (T : TranslatorPolicy t)
    (C : CheckerPolicy t) (S : StoragePolicy σ t) (self : σ) (val : Str)
    (first second : Str) (others : List Str) (value : t)
    (hp : Io.parseAll val [] = (Error.NONE, first :: second :: others))
    (hf : T.from_str_tokens (first :: second :: others) Error.NONE = (value, Error.NONE))
    (hc : C.check value Error.NONE = (value, Error.NONE)) :
    Parameter.string_to_value T C S self val = S.store_value self value := by
  unfold Parameter.string_to_value
  simp only [hp, hf, hc, ne_eq, not_true_eq_false, if_false]

namespace Translator

/-- C13. For `PARAMETER(Direct, None, Immediate, std::vector<int32_t>)` and
`PARAMETER(Direct, None, Immediate, std::set<int32_t>)` in the decimal format: for
every vector `c` of values of `int32_t`, the empty one included,
`string_to_value(to_str(c))` returns `Error::NONE` and stores `c`; the same holds
for every set `c` of values of `int32_t`, a set being a list in strictly
increasing order. -/
theorem direct_container_round_trip (c : List Int)
    (self : Storage.Immediate (List Int)) (hv : ∀ v ∈ c, IntType.int32_t.holds v) :
    Parameter.string_to_value vectorOfInt32 (Checker.NoneChecker (List Int))
        (Storage.ImmediateStorage (List Int)) self (vectorOfInt32.to_str c)
      = (Error.NONE, { _current_value := c }) ∧
    (c.Pairwise (fun a b => a < b) →
      Parameter.string_to_value setOfInt32 (Checker.NoneChecker (List Int))
          (Storage.ImmediateStorage (List Int)) self (setOfInt32.to_str c)
        = (Error.NONE, { _current_value := c })) := by
  have hw : ∀ v ∈ c, Io.word ((DirectInteger IntType.int32_t DirectInt.new).to_str v) :=
    fun v _ => Stream.insert_word 32 v
  have hT : ∀ v ∈ c, (DirectInteger IntType.int32_t DirectInt.new).from_str
      ((DirectInteger IntType.int32_t DirectInt.new).to_str v) Error.NONE = (v, Error.NONE) :=
    fun v h => DirectInt.int32_decimal_round_trip v (hv v h) Error.NONE
  constructor
  · have hp := vector_parse_to_str (DirectInteger IntType.int32_t DirectInt.new) c hw
    have hf := vector_from_str_tokens_to_str
      (DirectInteger IntType.int32_t DirectInt.new) c hT
    cases hm : c.map (DirectInteger IntType.int32_t DirectInt.new).to_str with
    | nil =>
      rw [hm] at hp hf
      exact Parameter.string_to_value_of_tokens _ _ _ self _ _ _ _ c hp hf rfl
    | cons x rest =>
      rw [hm] at hp hf
      exact Parameter.string_to_value_of_tokens _ _ _ self _ _ _ _ c hp hf rfl
  · intro hc
    have hp := set_parse_to_str (DirectInteger IntType.int32_t DirectInt.new) c hw
    have hf := set_from_str_tokens_to_str
      (DirectInteger IntType.int32_t DirectInt.new) c hT hc
    cases hm : (c.map (DirectInteger IntType.int32_t DirectInt.new).to_str).intersperse [','] with
    | nil =>
      rw [hm] at hp hf
      exact Parameter.string_to_value_of_tokens _ _ _ self _ _ _ _ c hp hf rfl
    | cons x rest =>
      rw [hm] at hp hf
      exact Parameter.string_to_value_of_tokens _ _ _ self _ _ _ _ c hp hf rfl

/-- Witness of C13: the vector and the set `{1, 2, 3}` of `tst/translator.cpp`,
written as `(1 2 3)` and as `{ 1, 2, 3 }`. -/
theorem direct_container_round_trip_witness :
    vectorOfInt32.to_str [1, 2, 3] = "(1 2 3)".toList ∧
    setOfInt32.to_str [1, 2, 3] = "{ 1, 2, 3 }".toList ∧
    Parameter.string_to_value vectorOfInt32 (Checker.NoneChecker (List Int))
        (Storage.ImmediateStorage (List Int)) { _current_value := [] } "(1 2 3)".toList
      = (Error.NONE, { _current_value := [1, 2, 3] }) ∧
    Parameter.string_to_value setOfInt32 (Checker.NoneChecker (List Int))
        (Storage.ImmediateStorage (List Int)) { _current_value := [] } "{ 1, 2, 3 }".toList
      = (Error.NONE, { _current_value := [1, 2, 3] }) :=
  ⟨by decide, by decide,
   (direct_container_round_trip [1, 2, 3] { _current_value := [] } (by decide)).1,
   (direct_container_round_trip [1, 2, 3] { _current_value := [] } (by decide)).2 (by decide)⟩

end Translator
end Customisation

/-! ## Storage policies -/

namespace Customisation
namespace Storage

theorem Deferred.calls_next {t : Type} (self : Deferred t) (cs : List (Deferred.Call t)) :
    (self.calls cs)._next_value = (Deferred.lastStored cs).getD self._next_value := by
  induction cs generalizing self with
  | nil => rfl
  | cons c rest ih =>
    cases c with
    | store val =>
      have h := ih (self.store_value val).2
      simp only [Deferred.calls, List.foldl_cons, Deferred.call] at h ⊢
      rw [h]
      simp only [Deferred.lastStored, Deferred.store_value]
      cases Deferred.lastStored rest <;> rfl
    | update =>
      have h := ih self.update
      simp only [Deferred.calls, List.foldl_cons, Deferred.call] at h ⊢
      rw [h]
      rfl

theorem Deferred.calls_stores {t : Type} (self : Deferred t) (vs : List t) :
    (self.calls (vs.map Deferred.Call.store))._current_value = self._current_value := by
  induction vs generalizing self with
  | nil => rfl
  | cons v rest ih =>
    have h := ih (self.store_value v).2
    simp only [Deferred.calls, List.map_cons, List.foldl_cons, Deferred.call] at h ⊢
    rw [h]
    rfl

/-- C23. For a `Deferred` storage constructed with `v0` and then subjected to any
sequence `cs` of `store_value` and `update` calls: `store_value(v)` returns
`Error::NONE` and leaves what `retrieve_value()` returns, and so does any sequence
of `store_value` calls; after `update()`, `retrieve_value()` returns the value of
the last `store_value` call, or `v0` when there was none; a second `update()`
changes nothing. -/
theorem deferred_storage {t : Type} (v0 : t) (cs : List (Deferred.Call t)) (v : t)
    (vs : List t) :
    (((Deferred.new v0).calls cs).store_value v).1 = Error.NONE ∧
    (((Deferred.new v0).calls cs).store_value v).2.retrieve_value
      = ((Deferred.new v0).calls cs).retrieve_value ∧
    (((Deferred.new v0).calls cs).calls (vs.map Deferred.Call.store)).retrieve_value
      = ((Deferred.new v0).calls cs).retrieve_value ∧
    ((Deferred.new v0).calls cs).update.retrieve_value = (Deferred.lastStored cs).getD v0 ∧
    (((Deferred.new v0).calls cs).store_value v).2.update.retrieve_value = v ∧
    ((Deferred.new v0).calls (vs.map Deferred.Call.store)).retrieve_value = v0 ∧
    ((Deferred.new v0).calls cs).update.update = ((Deferred.new v0).calls cs).update := by
  refine ⟨rfl, rfl, ?_, ?_, rfl, ?_, rfl⟩
  · exact Deferred.calls_stores _ vs
  · exact Deferred.calls_next (Deferred.new v0) cs
  · exact Deferred.calls_stores (Deferred.new v0) vs

/-- C24. For a `Callable` storage, `store_value(v)` makes `v` the value that
`retrieve_value()` returns and keeps the callback; its result is the error that
the registered callback returns for `v`, and `Error::NONE` when no callback is
registered. -/
theorem callable_storage {t : Type} (self : Callable t) (v : t) (f : t → Error)
    (cb : Option (t → Error)) :
    ((self.trigger (some f)).store_value v).1 = f v ∧
    ((self.trigger none).store_value v).1 = Error.NONE ∧
    ((Callable.new v).store_value v).1 = Error.NONE ∧
    ((self.trigger cb).store_value v).2.retrieve_value = v ∧
    ((self.trigger cb).store_value v).2._on_update = cb ∧
    (self.store_value v).1
      = (match self._on_update with
         | some on_update => on_update v
         | none => Error.NONE) := by
  refine ⟨rfl, rfl, rfl, ?_, ?_, ?_⟩
  · cases cb <;> rfl
  · cases cb <;> rfl
  · cases self with
    | mk cur cb2 => cases cb2 <;> rfl

end Storage

namespace Parameter

theorem string_to_value_ReadOnly {t : Type} (T : TranslatorPolicy t) (C : CheckerPolicy t)
    (self : Storage.ReadOnly t) (text : Str) :
    (string_to_value T C (Storage.ReadOnlyStorage t) self text).1 ≠ Error.NONE ∧
    (string_to_value T C (Storage.ReadOnlyStorage t) self text).2 = self := by
  unfold string_to_value
  simp only []
  split
  · rename_i h
    exact ⟨h, rfl⟩
  · split
    · rename_i h
      exact ⟨h, rfl⟩
    · split
      · rename_i h
        exact ⟨h, rfl⟩
      · exact ⟨by simp [Storage.ReadOnlyStorage, Storage.ReadOnly.store_value], rfl⟩

/-- C25. For a parameter with `ReadOnly` storage, whatever its translator, its
checker and its traits: for every text, `set(text)` and `configure(text)` return
an error other than `Error::NONE` and leave the stored value, `operator=` leaves
the stored value, and after `update(v)` `retrieve_value()` returns `v`. -/
theorem read_only_storage {t : Type} (T : TranslatorPolicy t) (C : CheckerPolicy t)
    (values_to_string : Storage.ReadOnly t → Str) (c : Component)
    (self : Storage.ReadOnly t) (text : Str) (v : t) :
    (Component.set (virtuals T C (Storage.ReadOnlyStorage t) values_to_string) c self text).1
      ≠ Error.NONE ∧
    (Component.set (virtuals T C (Storage.ReadOnlyStorage t) values_to_string) c self text).2
      = self ∧
    (Component.configure (virtuals T C (Storage.ReadOnlyStorage t) values_to_string) c self
      text).1 ≠ Error.NONE ∧
    (Component.configure (virtuals T C (Storage.ReadOnlyStorage t) values_to_string) c self
      text).2 = self ∧
    assign C (Storage.ReadOnlyStorage t) self v = self ∧
    (self.update v).retrieve_value = v := by
  have h := string_to_value_ReadOnly T C self text
  refine ⟨?_, ?_, ?_, ?_, ?_, rfl⟩
  · unfold Component.set
    split
    · exact h.1
    · simp
  · unfold Component.set
    split
    · exact h.2
    · rfl
  · unfold Component.configure
    split
    · exact h.1
    · simp
  · unfold Component.configure
    split
    · exact h.2
    · rfl
  · unfold assign
    simp only []
    split <;> rfl

end Parameter
end Customisation

/-! ## Checkers on containers -/

namespace Customisation
namespace Checker

theorem whitelisted_checkContainer_eq {α : Type} [LT α] [DecidableRel (fun a b : α => a < b)]
    [DecidableEq α] (associative : Bool) (w : WhiteListed α) (c : List α) (e : Error) :
    WhiteListed.checkContainer associative w c e
      = (c.filter (fun x => decide (x ∈ w._allowed)),
         if associative = false ∧ ∃ x ∈ c, x ∉ w._allowed then Error.INVALID_VALUE else e) := by
  induction c generalizing e with
  | nil => simp [WhiteListed.checkContainer]
  | cons x rest ih =>
    unfold WhiteListed.checkContainer
    by_cases hx : x ∈ w._allowed
    · simp only [StdSet.find, hx, decide_True, Bool.true_eq_false, if_false, ih,
        List.filter_cons_of_pos, List.mem_cons, exists_eq_or_imp, not_true_eq_false, false_or]
    · simp only [StdSet.find, hx, decide_False, if_true, ih, Bool.false_eq_true,
        not_false_eq_true, List.filter_cons_of_neg, List.mem_cons, exists_eq_or_imp, true_or,
        and_true]
      cases associative <;> simp

theorem blacklisted_checkContainer_eq {α : Type} [LT α] [DecidableRel (fun a b : α => a < b)]
    [DecidableEq α] (associative : Bool) (b : BlackListed α) (c : List α) (e : Error) :
    BlackListed.checkContainer associative b c e
      = (c.filter (fun x => decide (x ∉ b._forbidden)),
         if associative = false ∧ ∃ x ∈ c, x ∈ b._forbidden then Error.INVALID_VALUE else e) := by
  induction c generalizing e with
  | nil => simp [BlackListed.checkContainer]
  | cons x rest ih =>
    unfold BlackListed.checkContainer
    by_cases hx : x ∈ b._forbidden
    · simp only [StdSet.find, hx, decide_True, if_true, ih, not_true_eq_false, decide_False,
        Bool.false_eq_true, not_false_eq_true, List.filter_cons_of_neg, List.mem_cons,
        exists_eq_or_imp, true_or, and_true]
      cases associative <;> simp
    · simp only [StdSet.find, hx, decide_False, Bool.false_eq_true, if_false, ih,
        not_false_eq_true, decide_True, List.filter_cons_of_pos, List.mem_cons,
        exists_eq_or_imp, false_or]

theorem bounded_checkContainer_eq {β : Type} [LinearOrder β] (associative : Bool)
    (b : Bounded β) (c : List β) (e : Error) :
    Bounded.checkContainer associative b c e
      = (c.filter (fun x => decide (b._min ≤ x ∧ x ≤ b._max)),
         if associative = false ∧ ∃ x ∈ c, (x < b._min ∨ x > b._max) then Error.INVALID_VALUE
         else e) := by
  induction c generalizing e with
  | nil => simp [Bounded.checkContainer]
  | cons x rest ih =>
    unfold Bounded.checkContainer
    by_cases hx : x < b._min ∨ x > b._max
    · have hx2 : ¬ (b._min ≤ x ∧ x ≤ b._max) := by
        rintro ⟨h1, h2⟩
        rcases hx with h | h
        · exact absurd h1 (not_le.2 h)
        · exact absurd h2 (not_le.2 h)
      simp only [hx, if_true, ih, hx2, decide_False, Bool.false_eq_true, not_false_eq_true,
        List.filter_cons_of_neg, List.mem_cons, exists_eq_or_imp, true_or, and_true]
      cases associative <;> simp
    · have hx2 : b._min ≤ x ∧ x ≤ b._max := by
        constructor
        · exact not_lt.1 (fun h => hx (Or.inl h))
        · exact not_lt.1 (fun h => hx (Or.inr h))
      simp only [hx, if_false, ih, hx2, and_self, decide_True, List.filter_cons_of_pos,
        List.mem_cons, exists_eq_or_imp, false_or]

end Checker
end Customisation

namespace Customisation
namespace Checker

/-- C21. For the container `check` of `WhiteListed` (whatever the allow-set),
`BlackListed` and `Bounded`: the container returned holds the valid elements of
the argument, in their order, and no other; on a vector (`associative` false)
`INVALID_VALUE` is flagged if and only if an element of the argument is invalid,
and the error is left as it was otherwise; on a set or a map (`associative` true)
the error is always left as it was. -/
theorem container_check_asymmetry {α : Type} [LT α] [DecidableRel (fun a b : α => a < b)]
    [DecidableEq α] {β : Type} [LinearOrder β] (w : WhiteListed α) (bl : BlackListed α)
    (bd : Bounded β) (associative : Bool) (c : List α) (d : List β) (e : Error) :
    ((WhiteListed.checkContainer associative w c e).1
        = c.filter (fun x => decide (x ∈ w._allowed)) ∧
      ((WhiteListed.checkContainer false w c Error.NONE).2 = Error.INVALID_VALUE
        ↔ ∃ x ∈ c, x ∉ w._allowed) ∧
      ((∀ x ∈ c, x ∈ w._allowed) → (WhiteListed.checkContainer false w c e).2 = e) ∧
      (WhiteListed.checkContainer true w c e).2 = e) ∧
    ((BlackListed.checkContainer associative bl c e).1
        = c.filter (fun x => decide (x ∉ bl._forbidden)) ∧
      ((BlackListed.checkContainer false bl c Error.NONE).2 = Error.INVALID_VALUE
        ↔ ∃ x ∈ c, x ∈ bl._forbidden) ∧
      ((∀ x ∈ c, x ∉ bl._forbidden) → (BlackListed.checkContainer false bl c e).2 = e) ∧
      (BlackListed.checkContainer true bl c e).2 = e) ∧
    ((Bounded.checkContainer associative bd d e).1
        = d.filter (fun x => decide (bd._min ≤ x ∧ x ≤ bd._max)) ∧
      ((Bounded.checkContainer false bd d Error.NONE).2 = Error.INVALID_VALUE
        ↔ ∃ x ∈ d, (x < bd._min ∨ x > bd._max)) ∧
      ((∀ x ∈ d, bd._min ≤ x ∧ x ≤ bd._max) → (Bounded.checkContainer false bd d e).2 = e) ∧
      (Bounded.checkContainer true bd d e).2 = e) := by
  simp only [whitelisted_checkContainer_eq, blacklisted_checkContainer_eq,
    bounded_checkContainer_eq]
  refine ⟨⟨trivial, ?_, ?_, ?_⟩, ⟨trivial, ?_, ?_, ?_⟩, ⟨trivial, ?_, ?_, ?_⟩⟩
  · by_cases h : ∃ x ∈ c, x ∉ w._allowed <;> simp [h]
  · intro h
    have h2 : ¬ ∃ x ∈ c, x ∉ w._allowed := by
      rintro ⟨x, hx, hn⟩
      exact hn (h x hx)
    simp [h2]
  · simp
  · by_cases h : ∃ x ∈ c, x ∈ bl._forbidden <;> simp [h]
  · intro h
    have h2 : ¬ ∃ x ∈ c, x ∈ bl._forbidden := by
      rintro ⟨x, hx, hn⟩
      exact h x hx hn
    simp [h2]
  · simp
  · by_cases h : ∃ x ∈ d, (x < bd._min ∨ x > bd._max) <;> simp [h]
  · intro h
    have h2 : ¬ ∃ x ∈ d, (x < bd._min ∨ x > bd._max) := by
      rintro ⟨x, hx, hn⟩
      rcases hn with h3 | h3
      · exact absurd (h x hx).1 (not_le.2 h3)
      · exact absurd (h x hx).2 (not_le.2 h3)
    simp [h2]
  · simp

/-- Witness of C21: the input and the lists of `tst/checker.cpp`, as a vector. -/
theorem container_check_asymmetry_witness :
    WhiteListed.checkContainer false (WhiteListed.mk ([-10, -6, -2, 2, 6, 10] : List Int))
        [-10, -8, -6, -4, -2, 0, 2, 4, 6, 8, 10] Error.NONE
      = ([-10, -6, -2, 2, 6, 10], Error.INVALID_VALUE) ∧
    (BlackListed.checkContainer false (BlackListed.mk ([-10, -6, -2, 2, 6, 10] : List Int))
        [-8, -4, 0] Error.NONE).2 = Error.NONE ∧
    (Bounded.checkContainer false ((Bounded.new (-128 : Int) 127).range (-5) 5).2
        [-4, -2, 0, 2, 4] Error.NONE).2 = Error.NONE :=
  ⟨Prod.ext
      ((container_check_asymmetry (WhiteListed.mk ([-10, -6, -2, 2, 6, 10] : List Int))
        (BlackListed.mk ([] : List Int)) (Bounded.new (0 : Int) 0) false
        [-10, -8, -6, -4, -2, 0, 2, 4, 6, 8, 10] [] Error.NONE).1.1.trans (by decide))
      ((container_check_asymmetry (WhiteListed.mk ([-10, -6, -2, 2, 6, 10] : List Int))
        (BlackListed.mk ([] : List Int)) (Bounded.new (0 : Int) 0) false
        [-10, -8, -6, -4, -2, 0, 2, 4, 6, 8, 10] [] Error.NONE).1.2.1.2 (by decide)),
   (container_check_asymmetry (WhiteListed.mk ([] : List Int))
      (BlackListed.mk ([-10, -6, -2, 2, 6, 10] : List Int)) (Bounded.new (0 : Int) 0) false
      [-8, -4, 0] [] Error.NONE).2.1.2.2.1 (by decide),
   (container_check_asymmetry (WhiteListed.mk ([] : List Int)) (BlackListed.mk ([] : List Int))
      ((Bounded.new (-128 : Int) 127).range (-5) 5).2 false [] [-4, -2, 0, 2, 4]
      Error.NONE).2.2.2.2.1 (by decide)⟩

end Checker
end Customisation

/-! ## The tokenizer with a maximum and with a minimum -/

namespace Customisation
namespace Io

theorem scan_blank_started_max (tokens : List Str) (min max : Int) (tok : Str) (rest : Str) :
    scan tokens min max { token := tok, token_started := true } (' ' :: rest)
      = if max - 1 = 1 then collapse (tokens ++ [tok]) rest
        else scan (tokens ++ [tok]) (min - 1) (max - 1) {} rest := by
  rw [scan]
  simp [separator, blank]

/-- C26, counterexample. With `max = 3` the line `set x "hello, world" # note`
gives the third token `"hello, world" # note`, with its quotes and the comment,
and not `hello, world`. -/
theorem parse_max_keeps_comment :
    parseMax exampleLine [] 3 = (Error.NONE, ["set".toList, "x".toList, exampleRest]) ∧
    parseMax exampleLine [] 3
      ≠ (Error.NONE, ["set".toList, "x".toList, "hello, world".toList]) := by
  decide

/-- C26, amended. A line made of two bare words and a rest, with one blank
after each word, tokenized with `max = 3` and no minimum, gives `Error::NONE`, the
two words and, as the third token, the rest of the line as it is written, without
the blanks at its two ends (and no third token when nothing remains); with no
maximum the line `set x "hello, world" # note` gives `set`, `x` and
`"hello, world"`, the quotes staying in the token. -/
theorem parse_max_three (w1 w2 rest : Str) (h1 : word w1) (h2 : word w2) :
    parseMax (w1 ++ ' ' :: (w2 ++ ' ' :: rest)) [] 3
      = (Error.NONE,
          [w1, w2] ++ (if rstrip (lstrip rest) ≠ [] then [rstrip (lstrip rest)] else [])) ∧
    parseAll exampleLine []
      = (Error.NONE, ["set".toList, "x".toList,
          [DQUOTE] ++ "hello, world".toList ++ [DQUOTE]]) := by
  refine ⟨?_, by decide⟩
  have hm : ¬ ((3 : Int) = 1) := by decide
  simp only [parseMax, parse, parseFrom, hm, if_false]
  rw [scan_word_idle [] (-1) 3 w1 h1, scan_blank_started_max]
  have h31 : ¬ ((3 : Int) - 1 = 1) := by decide
  simp only [h31, if_false]
  rw [scan_word_idle _ _ _ w2 h2, scan_blank_started_max]
  have h21 : (3 : Int) - 1 - 1 = 1 := by decide
  simp only [h21, if_true, collapse]
  split <;> simp

/-- Witness of C26: the line `set x "hello, world" # note`. -/
theorem parse_max_three_witness :
    parseMax exampleLine [] 3 = (Error.NONE, ["set".toList, "x".toList, exampleRest]) :=
  (parse_max_three "set".toList "x".toList exampleRest
    ⟨by decide, by decide⟩ ⟨by decide, by decide⟩).1.trans (by decide)

/-- C27. With `min = 3` the line `a`, which has one token, is accepted: `parse`
returns `Error::NONE` and the token `a`; so it is with `min = 2`, also for the
line `a` followed by a blank, while the line `a b` is refused with
`INVALID_VALUE` for `min = 3`; and a line made of one backslash gives
`Error::NONE` and no token. -/
theorem parse_min_single_token :
    parse "a".toList [] 3 3 = (Error.NONE, ["a".toList]) ∧
    parse "a".toList [] 2 (-1) = (Error.NONE, ["a".toList]) ∧
    parse "a ".toList [] 2 (-1) = (Error.NONE, ["a".toList]) ∧
    parse "a b".toList [] 3 3 = (Error.INVALID_VALUE, ["a".toList]) ∧
    parse "a b".toList [] 3 (-1) = (Error.INVALID_VALUE, ["a".toList]) ∧
    parse [BACKSLASH] [] 3 3 = (Error.NONE, []) := by
  decide

end Io
end Customisation

/-! ## Composition of a configuration line -/

namespace Customisation
namespace Io

theorem append_back_concat (output : List Str) (last s : Str) :
    append_back (output ++ [last]) s = output ++ [last ++ s] := by
  simp [append_back, List.getLast?_concat, List.dropLast_concat]

theorem append_back_two (output : List Str) (a last s : Str) :
    append_back (output ++ [a, last]) s = output ++ [a, last ++ s] := by
  have h : output ++ [a, last] = (output ++ [a]) ++ [last] := by simp
  rw [h, append_back_concat]
  simp

theorem append_back_three (output : List Str) (a b last s : Str) :
    append_back (output ++ [a, b, last]) s = output ++ [a, b, last ++ s] := by
  have h : output ++ [a, b, last] = (output ++ [a, b]) ++ [last] := by simp
  rw [h, append_back_concat]
  simp

/-- C28, counterexample. With an empty comment and a value of 74 characters,
where `7 + V + C` is 81, `compose` appends the path line and the value line and no
comment line. -/
theorem compose_without_comment :
    (7 : Int) + (List.replicate 74 'v').length + 0 > 80 ∧
    compose [] "abcd".toList (List.replicate 74 'v') [] []
      = ["abcd = ".toList ++ [' ', BACKSLASH], TAB :: List.replicate 74 'v'] := by
  decide

/-- C28, amended. The call `compose(output, path, value, comment, description)`
only appends to `output`, and with `P = len(path) + 3`, `V = len(value)` and
`C = 0` for an empty comment, `len(comment) + 3` otherwise, it appends: the line
`# description` when the description is not empty; then, if `P + V + C <= 80`, the
line `path = value`, followed on the same line by ` # comment` when the comment is
not empty; else, if `P + V <= 80`, the line `path = value` and a line made of a tab
and `# comment`; else the line of the path, ` = `, a blank and a backslash, and a
line made of a tab and the value, and nothing more when the comment is empty,
otherwise the comment after the value as ` # comment` when `7 + V + C <= 80` and
on a further line made of a tab and `# comment` when not. For the path `a.b`, the
value `1`, no comment and no description the only line appended is `a.b = 1`. -/
theorem compose_lines (output : List Str) (path value comment description : Str) :
    compose output path value comment description
      = output ++ (if description ≠ [] then [['#', ' '] ++ description] else []) ++
        (if (path.length : Int) + 3 + value.length
              + (if comment = [] then 0 else (comment.length : Int) + 3) ≤ 80 then
          [path ++ [' ', '=', ' '] ++ value
            ++ (if comment ≠ [] then [' ', '#', ' '] ++ comment else [])]
        else if (path.length : Int) + 3 + value.length ≤ 80 then
          [path ++ [' ', '=', ' '] ++ value, [TAB, '#', ' '] ++ comment]
        else if comment = [] then
          [path ++ [' ', '=', ' '] ++ [' ', BACKSLASH], [TAB] ++ value]
        else if (7 : Int) + value.length + ((comment.length : Int) + 3) ≤ 80 then
          [path ++ [' ', '=', ' '] ++ [' ', BACKSLASH],
           [TAB] ++ value ++ [' ', '#', ' '] ++ comment]
        else
          [path ++ [' ', '=', ' '] ++ [' ', BACKSLASH], [TAB] ++ value,
           [TAB, '#', ' '] ++ comment]) ∧
    compose [] "a.b".toList "1".toList [] [] = ["a.b = 1".toList] := by
  refine ⟨?_, by decide⟩
  have hout : (if description ≠ [] then
        append_back (emplace_back output ['#', ' ']) description else output)
      = output ++ (if description ≠ [] then [['#', ' '] ++ description] else []) := by
    by_cases hd : description = []
    · simp [hd]
    · simp only [ne_eq, hd, not_false_eq_true, if_true, emplace_back, append_back_concat]
  unfold compose
  simp only [hout]
  generalize output ++ (if description ≠ [] then [['#', ' '] ++ description] else []) = out
  simp only [emplace_back, append_back_concat]
  by_cases hc : comment = []
  · subst hc
    simp only [if_true, List.length_nil, Nat.cast_zero, add_zero, gt_iff_lt, lt_self_iff_false,
      if_false, ne_eq, not_true_eq_false, List.append_nil]
    split
    · simp
    · rename_i h1
      have h2 : ¬ ((path.length : Int) + 3 + value.length ≤ 80) := by omega
      simp [h2, List.append_assoc]
  · simp only [hc, if_false, ne_eq, not_false_eq_true, if_true]
    have hpos : (comment.length : Int) + 3 > 0 := by omega
    have hne : ¬ ((comment.length : Int) + 3 = 0) := by omega
    simp only [hpos, if_true, hne, if_false]
    split
    · simp [List.append_assoc]
    · split
      · simp [List.append_assoc]
      · split
        · simp [List.append_assoc, append_back_two]
        · simp [List.append_assoc, append_back_three]

end Io
end Customisation

/-! ## Logical lines of a file -/

namespace Customisation
namespace Io

theorem append_back_nil (s : Str) : append_back [] s = [] := rfl

theorem append_back_append (lines : List Str) (last s : Str) (more : List Str) :
    append_back (more ++ (lines ++ [last])) s = more ++ append_back (lines ++ [last]) s := by
  rw [← List.append_assoc, append_back_concat, append_back_concat, List.append_assoc]

theorem loadedFrom_append_lines (physical : List Str) :
    ∀ (more lines : List Str),
      (loadedFrom false (more ++ lines) physical = more ++ loadedFrom false lines physical) ∧
      (∀ last, loadedFrom true (more ++ (lines ++ [last])) physical
        = more ++ loadedFrom true (lines ++ [last]) physical) := by
  induction physical with
  | nil =>
    intro more lines
    exact ⟨rfl, fun _ => rfl⟩
  | cons line rest ih =>
    intro more lines
    by_cases hl : line = []
    · subst hl
      refine ⟨?_, fun last => ?_⟩
      · simp only [loadedFrom, if_true]
        exact (ih more lines).1
      · simp only [loadedFrom, if_true]
        exact (ih more (lines ++ [last])).1
    · refine ⟨?_, fun last => ?_⟩
      · simp only [loadedFrom, hl, if_false, emplace_back, Bool.false_eq_true]
        by_cases hb : line.getLast? = some BACKSLASH
        · simp only [ne_eq, hl, not_false_eq_true, hb, and_self, decide_True, if_true]
          rw [List.append_assoc]
          exact (ih more lines).2 line.dropLast
        · simp only [ne_eq, hl, not_false_eq_true, hb, and_false, decide_False,
            Bool.false_eq_true, if_false]
          rw [List.append_assoc]
          exact (ih more (lines ++ [line])).1
      · simp only [loadedFrom, hl, if_false, if_true, append_back_append, append_back_concat]
        by_cases hb : line.getLast? = some BACKSLASH
        · simp only [ne_eq, hl, not_false_eq_true, hb, and_self, decide_True, if_true]
          exact (ih more lines).2 (last ++ line.dropLast)
        · simp only [ne_eq, hl, not_false_eq_true, hb, and_false, decide_False,
            Bool.false_eq_true, if_false]
          exact (ih more (lines ++ [last ++ line])).1

theorem loadedFrom_false_eq (lines physical : List Str) :
    loadedFrom false lines physical = lines ++ loadedFrom false [] physical := by
  have h := (loadedFrom_append_lines physical lines []).1
  simpa using h

theorem loadedFrom_split_empty (pre post : List Str) (append : Bool) (lines : List Str) :
    loadedFrom append lines (pre ++ [] :: post)
      = loadedFrom append lines pre ++ loadedFrom false [] post := by
  induction pre generalizing append lines with
  | nil =>
    simp only [List.nil_append, loadedFrom, if_true]
    exact loadedFrom_false_eq lines post
  | cons line rest ih =>
    simp only [List.cons_append, loadedFrom]
    split
    · exact ih _ _
    · exact ih _ _

theorem loadedFrom_split_closed (pre post : List Str) (line : Str) (hl : line ≠ [])
    (hb : line.getLast? ≠ some BACKSLASH) (append : Bool) (lines : List Str) :
    loadedFrom append lines (pre ++ line :: post)
      = loadedFrom append lines (pre ++ [line]) ++ loadedFrom false [] post := by
  induction pre generalizing append lines with
  | nil =>
    simp only [List.nil_append, loadedFrom, hl, if_false, ne_eq, not_false_eq_true, hb,
      and_false, decide_False, Bool.false_eq_true]
    exact loadedFrom_false_eq _ post
  | cons first rest ih =>
    simp only [List.cons_append, loadedFrom]
    split
    · exact ih _ _
    · exact ih _ _

end Io
end Customisation

namespace Customisation
namespace Io

theorem append_back_twice (lines : List Str) (a b : Str) :
    append_back (append_back lines a) b = append_back lines (a ++ b) := by
  rcases List.eq_nil_or_concat lines with h | ⟨ls, last, h⟩
  · subst h
    rfl
  · subst h
    simp [append_back_concat]

theorem loadedFrom_join (pre post : List Str) (l m : Str) (hm : m ≠ []) (append : Bool)
    (lines : List Str) :
    loadedFrom append lines (pre ++ (l ++ [BACKSLASH]) :: m :: post)
      = loadedFrom append lines (pre ++ (l ++ m) :: post) := by
  induction pre generalizing append lines with
  | nil =>
    have h1 : l ++ [BACKSLASH] ≠ [] := by simp
    have h2 : l ++ m ≠ [] := by simp [hm]
    have h3 : (l ++ [BACKSLASH]).getLast? = some BACKSLASH := List.getLast?_concat _
    have h4 : (l ++ m).getLast? = m.getLast? := by
      rcases List.eq_nil_or_concat m with h | ⟨ms, last, h⟩
      · exact absurd h hm
      · subst h
        simp only [List.concat_eq_append]
        rw [← List.append_assoc, List.getLast?_concat, List.getLast?_concat]
    have h5 : (l ++ m).dropLast = l ++ m.dropLast := by
      rcases List.eq_nil_or_concat m with h | ⟨ms, last, h⟩
      · exact absurd h hm
      · subst h
        simp only [List.concat_eq_append]
        rw [← List.append_assoc, List.dropLast_concat, List.dropLast_concat]
    simp only [List.nil_append, loadedFrom, h1, h2, hm, if_false, ne_eq, not_false_eq_true, h3,
      and_self, decide_True, if_true, List.dropLast_concat, h4, true_and, h5, emplace_back]
    cases append
    · simp only [Bool.false_eq_true, if_false, append_back_concat]
      split <;> rfl
    · simp only [if_true, append_back_twice]
      split <;> rfl
  | cons first rest ih =>
    simp only [List.cons_append, loadedFrom]
    split
    · exact ih _ _
    · exact ih _ _

/-- C29. The logical lines that `loaded` returns for a file that opens, as a
function of its physical lines: there is none for no line; an empty physical line
gives no logical line and separates what comes before it from what comes after
it, a pending join included; a line that is not empty and does not end with a
backslash ends its logical line, and the next line starts a new one; a line that
ends with a backslash loses it and is followed, in the same logical line, by the
next physical line when that one is not empty. A file that does not open gives
`NOT_EXISTING`. -/
theorem loaded_logical_lines (pre post : List Str) (l m : Str) :
    loaded none = (Error.NOT_EXISTING, []) ∧
    (loaded (some pre)).1 = Error.NONE ∧
    loaded (some []) = (Error.NONE, []) ∧
    (loaded (some (pre ++ [] :: post))).2 = (loaded (some pre)).2 ++ (loaded (some post)).2 ∧
    (l ≠ [] → l.getLast? ≠ some BACKSLASH →
      (loaded (some (pre ++ l :: post))).2
        = (loaded (some (pre ++ [l]))).2 ++ (loaded (some post)).2 ∧
      (loaded (some [l])).2 = [l]) ∧
    (m ≠ [] →
      (loaded (some (pre ++ (l ++ [BACKSLASH]) :: m :: post))).2
        = (loaded (some (pre ++ (l ++ m) :: post))).2) ∧
    (loaded (some [l ++ [BACKSLASH]])).2 = [l] ∧
    (loaded (some ((l ++ [BACKSLASH]) :: [] :: post))).2 = l :: (loaded (some post)).2 := by
  have hsingle : loadedFrom false [] [l ++ [BACKSLASH]] = [l] := by
    have h1 : l ++ [BACKSLASH] ≠ [] := by simp
    have h3 : (l ++ [BACKSLASH]).getLast? = some BACKSLASH := List.getLast?_concat _
    simp [loadedFrom, h1, h3, emplace_back]
  refine ⟨rfl, rfl, rfl, ?_, ?_, ?_, hsingle, ?_⟩
  · exact loadedFrom_split_empty pre post false []
  · intro hl hb
    refine ⟨loadedFrom_split_closed pre post l hl hb false [], ?_⟩
    simp [loaded, loadedFrom, hl, hb, emplace_back]
  · intro hm
    exact loadedFrom_join pre post l m hm false []
  · have h := loadedFrom_split_empty [l ++ [BACKSLASH]] post false []
    simp only [loaded]
    rw [List.singleton_append] at h
    rw [h, hsingle]
    rfl

/-- Witness of C29: a file of eight physical lines, two of them empty. -/
theorem loaded_logical_lines_witness :
    (loaded (some ["a".toList, [], "b".toList ++ [BACKSLASH], "c".toList,
        "d".toList ++ [BACKSLASH], [], "e".toList])).2
      = ["a".toList, "bc".toList, "d".toList, "e".toList] ∧
    (loaded (some ["b".toList ++ [BACKSLASH], "c".toList, "d".toList])).2
      = (loaded (some ["bc".toList, "d".toList])).2 ∧
    (loaded (some ["a".toList, "b".toList])).2
      = (loaded (some ["a".toList])).2 ++ (loaded (some ["b".toList])).2 :=
  ⟨by decide,
   (loaded_logical_lines [] ["d".toList] "b".toList "c".toList).2.2.2.2.2.1 (by decide),
   ((loaded_logical_lines [] ["b".toList] "a".toList []).2.2.2.2.1 (by decide)
    (by decide)).1⟩

end Io
end Customisation

/-! ## Batch configuration -/

namespace Customisation
namespace Node

variable {P : Type}

theorem configureLoop_cons (V : Virtuals P) (line : Str) (rest : List Str) (e : Node P)
    (nb : Int) :
    configureLoop V (line :: rest) e [] nb
      = if (configureLoop V [line] e [] nb).1 = Error.NONE then
          configureLoop V rest (configureLoop V [line] e [] nb).2.1 []
            (configureLoop V [line] e [] nb).2.2
        else configureLoop V [line] e [] nb := by
  simp only [configureLoop]
  by_cases h1 : (Io.parse line [] 3 3).1 = Error.NONE
  · simp only [h1, ne_eq, not_true_eq_false, if_false]
    by_cases h2 : (Io.parse line [] 3 3).2 = []
    · simp only [h2, if_true]
    · simp only [h2, if_false]
      by_cases h3 : (configurePath V e ((Io.parse line [] 3 3).2.head?.getD [])
          ((Io.parse line [] 3 3).2.getLast?.getD [])).1 = Error.NONE
      · simp only [h3, not_true_eq_false, if_false]
        by_cases h4 : (Io.parse line [] 3 3).2.tail.head? = some ['=']
        · simp only [h4, not_true_eq_false, if_false, if_true]
        · simp only [h4, not_false_eq_true, if_true]
          rw [if_neg (by decide)]
      · simp only [h3, not_false_eq_true, if_true, if_false]
  · simp only [h1, ne_eq, not_false_eq_true, if_true, if_false]

theorem configureLoop_append (V : Virtuals P) (pre post : List Str) (e : Node P) (nb : Int) :
    configureLoop V (pre ++ post) e [] nb
      = if (configureLoop V pre e [] nb).1 = Error.NONE then
          configureLoop V post (configureLoop V pre e [] nb).2.1 []
            (configureLoop V pre e [] nb).2.2
        else configureLoop V pre e [] nb := by
  induction pre generalizing e nb with
  | nil => simp [configureLoop]
  | cons line rest ih =>
    rw [List.cons_append, configureLoop_cons V line (rest ++ post),
      configureLoop_cons V line rest]
    by_cases h : (configureLoop V [line] e [] nb).1 = Error.NONE
    · simp only [h, if_true]
      exact ih _ _
    · simp only [h, if_false]

theorem configureLoop_single_nb (V : Virtuals P) (line : Str) (e : Node P) (nb : Int) :
    (configureLoop V [line] e [] nb).2.2 = nb + 1 := by
  simp only [configureLoop]
  split
  · rfl
  · split
    · rfl
    · split
      · rfl
      · split <;> rfl

theorem configureLoop_nb (V : Virtuals P) (cfg : List Str) (e : Node P) (nb : Int)
    (h : (configureLoop V cfg e [] nb).1 = Error.NONE) :
    (configureLoop V cfg e [] nb).2.2 = nb + cfg.length := by
  induction cfg generalizing e nb with
  | nil => simp [configureLoop]
  | cons line rest ih =>
    rw [configureLoop_cons] at h ⊢
    by_cases h1 : (configureLoop V [line] e [] nb).1 = Error.NONE
    · simp only [h1, if_true] at h ⊢
      rw [ih _ _ h, configureLoop_single_nb]
      simp only [List.length_cons, Nat.cast_add, Nat.cast_one]
      omega
    · simp only [h1, if_false] at h

theorem configureLoop_first_error (V : Virtuals P) (cfg : List Str) (e : Node P) (nb : Int)
    (h : (configureLoop V cfg e [] nb).1 ≠ Error.NONE) :
    ∃ pre line post,
      cfg = pre ++ line :: post ∧
      (configureLoop V pre e [] nb).1 = Error.NONE ∧
      (configureLoop V [line] (configureLoop V pre e [] nb).2.1 [] (nb + pre.length)).1
        ≠ Error.NONE ∧
      configureLoop V cfg e [] nb
        = configureLoop V [line] (configureLoop V pre e [] nb).2.1 [] (nb + pre.length) ∧
      (configureLoop V cfg e [] nb).2.2 = nb + pre.length + 1 := by
  induction cfg generalizing e nb with
  | nil => exact absurd rfl h
  | cons line rest ih =>
    by_cases h1 : (configureLoop V [line] e [] nb).1 = Error.NONE
    · have hc := configureLoop_cons V line rest e nb
      simp only [h1, if_true] at hc
      rw [hc] at h
      obtain ⟨pre, l, post, h2, h3, h4, h5, h6⟩ := ih _ _ h
      have hpre : configureLoop V (line :: pre) e [] nb
          = configureLoop V pre (configureLoop V [line] e [] nb).2.1 []
              (configureLoop V [line] e [] nb).2.2 := by
        rw [configureLoop_cons]
        simp only [h1, if_true]
      have hnb : (configureLoop V [line] e [] nb).2.2 + (pre.length : Int)
          = nb + ((line :: pre).length : Int) := by
        rw [configureLoop_single_nb]
        simp only [List.length_cons, Nat.cast_add, Nat.cast_one]
        omega
      refine ⟨line :: pre, l, post, by rw [h2]; rfl, ?_, ?_, ?_, ?_⟩
      · rw [hpre]; exact h3
      · rw [hpre, ← hnb]; exact h4
      · rw [hc, hpre, ← hnb]; exact h5
      · rw [hc, h6, ← hnb]
    · have hz : nb + ((([] : List Str).length : Nat) : Int) = nb := by simp
      refine ⟨[], line, rest, rfl, rfl, ?_, ?_, ?_⟩
      · rw [hz]
        exact h1
      · rw [hz, configureLoop_cons]
        simp only [h1, if_false]
        rfl
      · rw [hz, configureLoop_cons]
        simp only [h1, if_false]
        exact configureLoop_single_nb V line e nb

end Node
end Customisation

namespace Customisation
namespace Node

/-- C30, counterexample. The line `q : on` tokenizes and is configured, and yet
the batch stops on it with `INVALID_VALUE`: `nb` is 1, `q` holds `on`, and the
second line is not applied. -/
theorem configure_batch_stops_after_applying :
    Io.parse "q : on".toList [] 3 3
      = (Error.NONE, ["q".toList, ":".toList, "on".toList]) ∧
    (configurePath Parameter.directString exampleTree "q".toList "on".toList).1
      = Error.NONE ∧
    (configureBatch Parameter.directString exampleTree
      ["q : on".toList, "q = off".toList] 0).1 = Error.INVALID_VALUE ∧
    (configureBatch Parameter.directString exampleTree
      ["q : on".toList, "q = off".toList] 0).2.2 = 1 ∧
    getPath Parameter.directString
        (configureBatch Parameter.directString exampleTree
          ["q : on".toList, "q = off".toList] 0).2.1 "q".toList []
      = (Error.NONE, [DQUOTE] ++ "on".toList ++ [DQUOTE]) := by
  decide

/-- C30, amended. The batch `configure(cfg, nb)` reads the lines in order and
adds one to `nb` for each line read. A line that does not tokenize with three
tokens at least and at most stops the batch with the error of `parse`; a line
with no token is skipped; for another line `configure(first token, last token)`
is called, its error stops the batch, and after a success the batch stops with
`INVALID_VALUE` when the second token is not `=`, the line being applied already.
When the batch returns `Error::NONE`, `nb` has grown by the number of lines; when
it returns an error, the lines before the first line that fails were processed
with no error, the result is the result of that line on the entity they leave,
`nb` has grown by the index of that line counted from one, and the lines after it
play no part. -/
theorem configure_batch {P : Type} (V : Virtuals P) (e : Node P) (cfg : List Str) (nb : Int)
    (line : Str) :
    configureBatch V e [] nb = (Error.NONE, e, nb) ∧
    configureBatch V e [line] nb
      = (if (Io.parse line [] 3 3).1 ≠ Error.NONE then ((Io.parse line [] 3 3).1, e, nb + 1)
         else if (Io.parse line [] 3 3).2 = [] then (Error.NONE, e, nb + 1)
         else if (configurePath V e ((Io.parse line [] 3 3).2.head?.getD [])
              ((Io.parse line [] 3 3).2.getLast?.getD [])).1 ≠ Error.NONE then
           ((configurePath V e ((Io.parse line [] 3 3).2.head?.getD [])
              ((Io.parse line [] 3 3).2.getLast?.getD [])).1,
            (configurePath V e ((Io.parse line [] 3 3).2.head?.getD [])
              ((Io.parse line [] 3 3).2.getLast?.getD [])).2, nb + 1)
         else if (Io.parse line [] 3 3).2.tail.head? ≠ some ['='] then
           (Error.INVALID_VALUE,
            (configurePath V e ((Io.parse line [] 3 3).2.head?.getD [])
              ((Io.parse line [] 3 3).2.getLast?.getD [])).2, nb + 1)
         else
           (Error.NONE,
            (configurePath V e ((Io.parse line [] 3 3).2.head?.getD [])
              ((Io.parse line [] 3 3).2.getLast?.getD [])).2, nb + 1)) ∧
    ((configureBatch V e cfg nb).1 = Error.NONE →
      (configureBatch V e cfg nb).2.2 = nb + cfg.length) ∧
    ((configureBatch V e cfg nb).1 ≠ Error.NONE →
      ∃ pre failing post,
        cfg = pre ++ failing :: post ∧
        (configureBatch V e pre nb).1 = Error.NONE ∧
        (configureBatch V (configureBatch V e pre nb).2.1 [failing] (nb + pre.length)).1
          ≠ Error.NONE ∧
        configureBatch V e cfg nb
          = configureBatch V (configureBatch V e pre nb).2.1 [failing] (nb + pre.length) ∧
        (configureBatch V e cfg nb).2.2 = nb + pre.length + 1) := by
  refine ⟨rfl, ?_, configureLoop_nb V cfg e nb, configureLoop_first_error V cfg e nb⟩
  simp only [configureBatch, configureLoop]

/-- Witness of C30: a batch of five lines on the tree `top`, whose fourth line
names a component that does not exist, and a batch of four lines that succeeds. -/
theorem configure_batch_witness :
    (configureBatch Parameter.directString exampleTree
      ["q = on".toList, [], "# c".toList, "zz = 1".toList, "q = off".toList] 0).1
      = Error.NOT_EXISTING ∧
    (∃ pre failing post,
      ["q = on".toList, [], "# c".toList, "zz = 1".toList, "q = off".toList]
        = pre ++ failing :: post ∧
      (configureBatch Parameter.directString exampleTree
        ["q = on".toList, [], "# c".toList, "zz = 1".toList, "q = off".toList] 0).2.2
        = 0 + pre.length + 1) ∧
    (configureBatch Parameter.directString exampleTree
      ["q = on".toList, [], "# c".toList, "a.p = up".toList] 0).2.2
      = 0 + (["q = on".toList, [], "# c".toList, "a.p = up".toList] : List Str).length :=
  ⟨by decide,
   (((configure_batch Parameter.directString exampleTree
      ["q = on".toList, [], "# c".toList, "zz = 1".toList, "q = off".toList] 0 []).2.2.2
      (by decide)).imp fun _ h => h.imp fun _ h2 => h2.imp fun _ h3 => ⟨h3.1, h3.2.2.2.2⟩),
   (configure_batch Parameter.directString exampleTree
      ["q = on".toList, [], "# c".toList, "a.p = up".toList] 0 []).2.2.1 (by decide)⟩

end Node
end Customisation

/-! ## Saturation of containers -/

namespace Customisation
namespace Checker

variable {α : Type} [LinearOrder α]

theorem Saturating.check_snd (b : Bounded α) (x : α) (e : Error) :
    (Saturating.check b x e).2 = e := by
  unfold Saturating.check
  split
  · rfl
  · split <;> rfl

theorem Saturating.check_fst (b : Bounded α) (x : α) (e e2 : Error) :
    (Saturating.check b x e).1 = (Saturating.check b x e2).1 := by
  unfold Saturating.check
  split
  · rfl
  · split <;> rfl

theorem Saturating.check_eq_self_iff (b : Bounded α) (x : α) (e : Error) :
    (Saturating.check b x e).1 = x ↔ (b._min ≤ x ∧ x ≤ b._max) := by
  unfold Saturating.check
  by_cases h1 : x < b._min
  · simp only [h1, if_true]
    constructor
    · intro h
      exact absurd h (ne_of_gt h1)
    · intro h
      exact absurd h.1 (not_le.2 h1)
  · by_cases h2 : x > b._max
    · simp only [h1, h2, if_false, if_true]
      constructor
      · intro h
        exact absurd h (ne_of_lt h2)
      · intro h
        exact absurd h.2 (not_le.2 h2)
    · simp only [h1, h2, if_false, true_iff]
      exact ⟨not_lt.1 h1, not_lt.1 h2⟩

theorem Saturating.check_in_range (b : Bounded α) (hb : b._min ≤ b._max) (x : α) (e : Error) :
    b._min ≤ (Saturating.check b x e).1 ∧ (Saturating.check b x e).1 ≤ b._max := by
  unfold Saturating.check
  by_cases h1 : x < b._min
  · simp only [h1, if_true]
    exact ⟨le_refl _, hb⟩
  · by_cases h2 : x > b._max
    · simp only [h1, h2, if_false, if_true]
      exact ⟨hb, le_refl _⟩
    · simp only [h1, h2, if_false]
      exact ⟨not_lt.1 h1, not_lt.1 h2⟩

theorem Saturating.check_idem (b : Bounded α) (hb : b._min ≤ b._max) (x : α) (e e2 : Error) :
    (Saturating.check b (Saturating.check b x e).1 e2).1 = (Saturating.check b x e).1 :=
  (Saturating.check_eq_self_iff b _ e2).2 (Saturating.check_in_range b hb x e)

theorem Saturating.checkVector_eq (b : Bounded α) (c : List α) (e : Error) :
    Saturating.checkVector b c e = (c.map (fun x => (Saturating.check b x e).1), e) := by
  induction c generalizing e with
  | nil => rfl
  | cons v rest ih =>
    simp only [Saturating.checkVector, ih, Saturating.check_snd, List.map_cons]

theorem StdSet.mem_emplace (l : List α) (s y : α) :
    y ∈ StdSet.emplace l s ↔ y = s ∨ y ∈ l := by
  induction l with
  | nil => simp [StdSet.emplace]
  | cons y0 rest ih =>
    unfold StdSet.emplace
    split
    · simp
    · split
      · rename_i h
        simp only [List.mem_cons]
        constructor
        · intro h2; exact Or.inr h2
        · rintro (h2 | h2)
          · exact Or.inl (h2.trans h.symm)
          · exact h2
      · simp only [List.mem_cons, ih]
        constructor
        · rintro (h2 | h2 | h2)
          · exact Or.inr (Or.inl h2)
          · exact Or.inl h2
          · exact Or.inr (Or.inr h2)
        · rintro (h2 | h2 | h2)
          · exact Or.inr (Or.inl h2)
          · exact Or.inl h2
          · exact Or.inr (Or.inr h2)

theorem StdSet.pairwise_emplace (l : List α) (s : α) (hl : l.Pairwise (fun a b => a < b)) :
    (StdSet.emplace l s).Pairwise (fun a b => a < b) := by
  induction l with
  | nil => simp [StdSet.emplace]
  | cons y0 rest ih =>
    have hp := List.pairwise_cons.1 hl
    unfold StdSet.emplace
    split
    · rename_i h
      refine List.pairwise_cons.2 ⟨?_, hl⟩
      intro z hz
      rcases List.mem_cons.1 hz with h2 | h2
      · rw [h2]; exact h
      · exact lt_trans h (hp.1 z h2)
    · rename_i h
      split
      · exact hl
      · rename_i h2
        refine List.pairwise_cons.2 ⟨?_, ih hp.2⟩
        intro z hz
        rcases (StdSet.mem_emplace rest s z).1 hz with h3 | h3
        · rw [h3]
          exact lt_of_le_of_ne (not_lt.1 h) h2
        · exact hp.1 z h3

theorem StdSet.mem_erase (l : List α) (x y : α) : y ∈ StdSet.erase l x ↔ y ∈ l ∧ y ≠ x := by
  simp [StdSet.erase]

theorem StdSet.pairwise_erase (l : List α) (x : α) (hl : l.Pairwise (fun a b => a < b)) :
    (StdSet.erase l x).Pairwise (fun a b => a < b) :=
  List.Pairwise.filter _ hl

theorem Saturating.next_some (l : List α) (x x2 : α) (hl : l.Pairwise (fun a b => a < b))
    (h : Saturating.next l x = some x2) :
    x2 ∈ l ∧ x < x2 ∧ ∀ y ∈ l, x < y → x2 ≤ y := by
  induction l with
  | nil => simp [Saturating.next] at h
  | cons y0 rest ih =>
    have hp := List.pairwise_cons.1 hl
    simp only [Saturating.next, List.find?_cons] at h
    by_cases h0 : x < y0
    · simp only [h0, decide_True] at h
      have hx : y0 = x2 := Option.some.inj h
      subst hx
      refine ⟨by simp, h0, ?_⟩
      intro y hy _
      rcases List.mem_cons.1 hy with h2 | h2
      · exact le_of_eq h2.symm
      · exact le_of_lt (hp.1 y h2)
    · simp only [h0, decide_False] at h
      obtain ⟨h1, h2, h3⟩ := ih hp.2 h
      refine ⟨List.mem_cons_of_mem _ h1, h2, ?_⟩
      intro y hy hxy
      rcases List.mem_cons.1 hy with h4 | h4
      · rw [h4] at hxy
        exact absurd hxy h0
      · exact h3 y h4 hxy

theorem Saturating.next_none (l : List α) (x : α) (h : Saturating.next l x = none) :
    ∀ y ∈ l, ¬ x < y := by
  intro y hy
  have := List.find?_eq_none.1 h y hy
  simpa using this

end Checker
end Customisation

namespace Customisation
namespace Checker

variable {α : Type} [LinearOrder α]

theorem Saturating.checkSetFrom_spec (b : Bounded α) (hb : b._min ≤ b._max) (e : Error) :
    ∀ (fuel : Nat) (values : List α) (it : Option α),
      values.Pairwise (fun a b => a < b) →
      (∀ x, it = some x → x ∈ values) →
      (∀ y ∈ values, (∀ x, it = some x → y < x) → (b._min ≤ y ∧ y ≤ b._max)) →
      ((match it with
         | none => 0
         | some x => (values.toFinset.filter (fun y => x ≤ y)).card)
        + (values.toFinset.filter (fun y => ¬ (b._min ≤ y ∧ y ≤ b._max))).card < fuel) →
      ∃ result,
        Saturating.checkSetFrom b fuel values it e = some (result, e) ∧
        result.Pairwise (fun a b => a < b) ∧
        (∀ z ∈ result, b._min ≤ z ∧ z ≤ b._max) ∧
        (∀ z, z ∈ result ↔ ∃ y ∈ values, (Saturating.check b y e).1 = z) := by
  intro fuel
  induction fuel with
  | zero =>
    intro values it _ _ _ hμ
    exact absurd hμ (Nat.not_lt_zero _)
  | succ fuel ih =>
    intro values it hs hv hr hμ
    cases it with
    | none =>
      refine ⟨values, by simp [Saturating.checkSetFrom], hs, ?_, ?_⟩
      · intro z hz
        exact hr z hz (fun x h => by cases h)
      · intro z
        constructor
        · intro hz
          exact ⟨z, hz, (Saturating.check_eq_self_iff b z e).2
            (hr z hz (fun x h => by cases h))⟩
        · rintro ⟨y, hy, hyz⟩
          have h1 := (Saturating.check_eq_self_iff b y e).2 (hr y hy (fun x h => by cases h))
          rw [← hyz, h1]
          exact hy
    | some x =>
      have hx : x ∈ values := hv x rfl
      have hxU : x ∈ values.toFinset.filter (fun y => x ≤ y) :=
        Finset.mem_filter.2 ⟨List.mem_toFinset.2 hx, le_refl x⟩
      have hUpos : 0 < (values.toFinset.filter (fun y => x ≤ y)).card :=
        Finset.card_pos.2 ⟨x, hxU⟩
      simp only [] at hμ
      rw [Saturating.checkSetFrom]
      simp only [Saturating.check_snd]
      by_cases hc : (Saturating.check b x e).1 = x
      · have hin := (Saturating.check_eq_self_iff b x e).1 hc
        simp only [hc, ne_eq, not_true_eq_false, if_false]
        refine ih values (Saturating.next values x) hs ?_ ?_ ?_
        · intro x2 h2
          exact (Saturating.next_some values x x2 hs h2).1
        · intro y hy hlt
          by_cases hyx : y < x
          · exact hr y hy (fun x1 h1 => by cases h1; exact hyx)
          · rcases eq_or_lt_of_le (not_lt.1 hyx) with h1 | h1
            · rw [← h1]; exact hin
            · cases hn : Saturating.next values x with
              | none => exact absurd h1 (Saturating.next_none values x hn y hy)
              | some x2 =>
                have h2 := (Saturating.next_some values x x2 hs hn).2.2 y hy h1
                exact absurd (hlt x2 hn) (not_lt.2 h2)
        · cases hn : Saturating.next values x with
          | none =>
            simp only []
            omega
          | some x2 =>
            simp only []
            have hlt := (Saturating.next_some values x x2 hs hn).2.1
            have hsub : values.toFinset.filter (fun y => x2 ≤ y)
                ⊂ values.toFinset.filter (fun y => x ≤ y) := by
              refine Finset.ssubset_iff_subset_ne.2 ⟨?_, ?_⟩
              · intro y hy
                have h1 := Finset.mem_filter.1 hy
                exact Finset.mem_filter.2 ⟨h1.1, le_trans (le_of_lt hlt) h1.2⟩
              · intro heq
                rw [← heq] at hxU
                exact absurd (Finset.mem_filter.1 hxU).2 (not_le.2 hlt)
            have := Finset.card_lt_card hsub
            omega
      · have hout : ¬ (b._min ≤ x ∧ x ≤ b._max) :=
          fun h => hc ((Saturating.check_eq_self_iff b x e).2 h)
        have hsin := Saturating.check_in_range b hb x e
        simp only [hc, ne_eq, not_false_eq_true, if_true]
        generalize hsdef : (Saturating.check b x e).1 = s at hc hsin
        have hs2 : (StdSet.erase (StdSet.emplace values s) x).Pairwise (fun a b => a < b) :=
          StdSet.pairwise_erase _ x (StdSet.pairwise_emplace values s hs)
        have hmem : ∀ y, y ∈ StdSet.erase (StdSet.emplace values s) x
            ↔ (y = s ∨ y ∈ values) ∧ y ≠ x := by
          intro y
          rw [StdSet.mem_erase, StdSet.mem_emplace]
        have hxO : x ∈ values.toFinset.filter (fun y => ¬ (b._min ≤ y ∧ y ≤ b._max)) :=
          Finset.mem_filter.2 ⟨List.mem_toFinset.2 hx, hout⟩
        have hOsub : (StdSet.erase (StdSet.emplace values s) x).toFinset.filter
              (fun y => ¬ (b._min ≤ y ∧ y ≤ b._max))
            ⊆ (values.toFinset.filter (fun y => ¬ (b._min ≤ y ∧ y ≤ b._max))).erase x := by
          intro y hy
          have h1 := Finset.mem_filter.1 hy
          have h2 := (hmem y).1 (List.mem_toFinset.1 h1.1)
          refine Finset.mem_erase.2 ⟨h2.2, Finset.mem_filter.2 ⟨?_, h1.2⟩⟩
          rcases h2.1 with h3 | h3
          · rw [h3] at h1
            exact absurd hsin h1.2
          · exact List.mem_toFinset.2 h3
        have hOcard := Finset.card_le_card hOsub
        rw [Finset.card_erase_of_mem hxO] at hOcard
        have hOpos : 0 < (values.toFinset.filter
            (fun y => ¬ (b._min ≤ y ∧ y ≤ b._max))).card := Finset.card_pos.2 ⟨x, hxO⟩
        have himage : ∀ z, (∃ y ∈ StdSet.erase (StdSet.emplace values s) x,
              (Saturating.check b y e).1 = z)
            ↔ ∃ y ∈ values, (Saturating.check b y e).1 = z := by
          intro z
          have hss : (Saturating.check b s e).1 = s := by
            rw [← hsdef]
            exact Saturating.check_idem b hb x e e
          constructor
          · rintro ⟨y, hy, hyz⟩
            rcases ((hmem y).1 hy).1 with h3 | h3
            · refine ⟨x, hx, ?_⟩
              rw [hsdef, ← hyz, h3, hss]
            · exact ⟨y, h3, hyz⟩
          · rintro ⟨y, hy, hyz⟩
            by_cases hyx : y = x
            · refine ⟨s, (hmem s).2 ⟨Or.inl rfl, hc⟩, ?_⟩
              rw [hss, ← hyz, hyx, hsdef]
            · exact ⟨y, (hmem y).2 ⟨Or.inr hy, hyx⟩, hyz⟩
        obtain ⟨result, h1, h2, h3, h4⟩ :=
          ih (StdSet.erase (StdSet.emplace values s) x)
            (Saturating.next (StdSet.erase (StdSet.emplace values s) x) x) hs2
            (fun x2 hx2 => (Saturating.next_some _ x x2 hs2 hx2).1)
            (by
              intro y hy hlt
              have hy2 := (hmem y).1 hy
              rcases hy2.1 with h5 | h5
              · rw [h5]; exact hsin
              · by_cases hyx : y < x
                · exact hr y h5 (fun x1 h1 => by cases h1; exact hyx)
                · have hxy : x < y := lt_of_le_of_ne (not_lt.1 hyx) (Ne.symm hy2.2)
                  cases hn : Saturating.next (StdSet.erase (StdSet.emplace values s) x) x with
                  | none => exact absurd hxy (Saturating.next_none _ x hn y hy)
                  | some x2 =>
                    have h6 := (Saturating.next_some _ x x2 hs2 hn).2.2 y hy hxy
                    exact absurd (hlt x2 hn) (not_lt.2 h6))
            (by
              cases hn : Saturating.next (StdSet.erase (StdSet.emplace values s) x) x with
              | none =>
                simp only []
                omega
              | some x2 =>
                simp only []
                have hlt := (Saturating.next_some _ x x2 hs2 hn).2.1
                have hUsub : (StdSet.erase (StdSet.emplace values s) x).toFinset.filter
                      (fun y => x2 ≤ y)
                    ⊆ (insert s (values.toFinset.filter (fun y => x ≤ y))).erase x := by
                  intro y hy
                  have h5 := Finset.mem_filter.1 hy
                  have h6 := (hmem y).1 (List.mem_toFinset.1 h5.1)
                  refine Finset.mem_erase.2 ⟨h6.2, ?_⟩
                  rcases h6.1 with h7 | h7
                  · rw [h7]; exact Finset.mem_insert_self _ _
                  · exact Finset.mem_insert_of_mem (Finset.mem_filter.2
                      ⟨List.mem_toFinset.2 h7, le_trans (le_of_lt hlt) h5.2⟩)
                have hUcard := Finset.card_le_card hUsub
                rw [Finset.card_erase_of_mem (Finset.mem_insert_of_mem hxU)] at hUcard
                have hins := Finset.card_insert_le s (values.toFinset.filter (fun y => x ≤ y))
                omega)
        exact ⟨result, h1, h2, h3, fun z => (h4 z).trans (himage z)⟩

end Checker
end Customisation

namespace Customisation
namespace Checker

theorem Saturating.check_error {γ : Type} [LT γ] [DecidableRel (fun a b : γ => a < b)]
    (g : Bounded γ) (z : γ) (e : Error) : (Saturating.check g z e).2 = e := by
  unfold Saturating.check
  split
  · rfl
  · split <;> rfl

theorem Saturating.check_value {γ : Type} [LT γ] [DecidableRel (fun a b : γ => a < b)]
    (g : Bounded γ) (z : γ) (e e2 : Error) :
    (Saturating.check g z e).1 = (Saturating.check g z e2).1 := by
  unfold Saturating.check
  split
  · rfl
  · split <;> rfl

theorem Saturating.checkVector_map {γ : Type} [LT γ] [DecidableRel (fun a b : γ => a < b)]
    (g : Bounded γ) (d : List γ) (e : Error) :
    Saturating.checkVector g d e = (d.map (fun x => (Saturating.check g x e).1), e) := by
  induction d generalizing e with
  | nil => rfl
  | cons v rest ih =>
    simp only [Saturating.checkVector, ih, Saturating.check_error, List.map_cons]

theorem Saturating.check_floating_in_range (f : Bounded FloatingPoint) (y : FloatingPoint)
    (e : Error) (hb : f._min ≤ f._max) (hy : y ≠ FloatingPoint.nan) :
    f._min ≤ (Saturating.check f y e).1 ∧ (Saturating.check f y e).1 ≤ f._max := by
  obtain ⟨hmin, hmax⟩ := FloatingPoint.ne_nan_of_le _ _ hb
  unfold Saturating.check
  by_cases h1 : y < f._min
  · simp only [h1, if_true]
    exact ⟨FloatingPoint.le_self _ hmin, hb⟩
  · by_cases h2 : y > f._max
    · simp only [h1, h2, if_false, if_true]
      exact ⟨hb, FloatingPoint.le_self _ hmax⟩
    · simp only [h1, h2, if_false]
      exact ⟨FloatingPoint.le_of_not_lt _ _ hy hmin h1,
        FloatingPoint.le_of_not_lt _ _ hmax hy h2⟩

theorem Saturating.check_floating_nan (f : Bounded FloatingPoint) (e : Error) :
    Saturating.check f FloatingPoint.nan e = (FloatingPoint.nan, e) := by
  have h1 : ¬ FloatingPoint.nan < f._min := (FloatingPoint.not_lt_nan _).2.1
  have h2 : ¬ FloatingPoint.nan > f._max := (FloatingPoint.not_lt_nan _).1
  simp only [Saturating.check, h1, h2, if_false]

/-- C22, counterexample. A `Saturating` checker on `std::vector<double>` with the
range `[0, 100]` returns `0, NaN, 100` for `-5, NaN, 250`: not-a-number stays, and
it is not within the bounds. -/
theorem saturating_vector_keeps_not_a_number :
    Saturating.checkVector
        ((Bounded.new FloatingPoint.double_lowest FloatingPoint.double_max).range
          (FloatingPoint.finite 0) (FloatingPoint.finite 100)).2
        [FloatingPoint.finite (-5), FloatingPoint.nan, FloatingPoint.finite 250] Error.NONE
      = ([FloatingPoint.finite 0, FloatingPoint.nan, FloatingPoint.finite 100], Error.NONE) ∧
    ¬ (FloatingPoint.finite 0 ≤ FloatingPoint.nan) ∧
    ¬ (FloatingPoint.nan ≤ FloatingPoint.finite 100) := by
  decide

/-- C22, amended. On a vector of any element type, `check` of a `Saturating`
checker leaves the error as it was and returns the vector of the same length
whose elements are the clamps of the elements of the argument, in order. For an
element type whose comparisons form a linear order (the integer types) and bounds
with `min <= max`, each element of the result is within the bounds; and on a set
(a list in strictly increasing order), the loop of `check` ends within twice as
many turns as the set has elements, plus one, leaves the error as it was, and
returns a set whose elements are exactly the clamps of the elements of the
argument, all within the bounds. For a vector of floating-point values and
bounds with `min <= max`, each element of the result that comes from a number is
within the bounds, and not-a-number stays in the result. -/
theorem saturating_containers {α : Type} [LinearOrder α] (b : Bounded α)
    (hb : b._min ≤ b._max) (c : List α) (e : Error)
    {γ : Type} [LT γ] [DecidableRel (fun a b : γ => a < b)] (g : Bounded γ) (d : List γ)
    (f : Bounded FloatingPoint) (fs : List FloatingPoint) :
    Saturating.checkVector b c e = (c.map (fun x => (Saturating.check b x e).1), e) ∧
    (Saturating.checkVector b c e).1.length = c.length ∧
    (∀ z ∈ (Saturating.checkVector b c e).1, b._min ≤ z ∧ z ≤ b._max) ∧
    (c.Pairwise (fun x y => x < y) → ∀ fuel, 2 * c.length < fuel →
      ∃ result,
        Saturating.checkSet b fuel c e = some (result, e) ∧
        result.Pairwise (fun x y => x < y) ∧
        (∀ z ∈ result, b._min ≤ z ∧ z ≤ b._max) ∧
        (∀ z, z ∈ result ↔ ∃ x ∈ c, (Saturating.check b x e).1 = z)) ∧
    Saturating.checkVector g d e = (d.map (fun x => (Saturating.check g x e).1), e) ∧
    (Saturating.checkVector g d e).1.length = d.length ∧
    (f._min ≤ f._max → FloatingPoint.nan ∉ fs →
      ∀ z ∈ (Saturating.checkVector f fs e).1, f._min ≤ z ∧ z ≤ f._max) ∧
    (FloatingPoint.nan ∈ fs → FloatingPoint.nan ∈ (Saturating.checkVector f fs e).1) := by
  refine ⟨Saturating.checkVector_eq b c e, ?_, ?_, ?_, Saturating.checkVector_map g d e,
    ?_, ?_, ?_⟩
  · rw [Saturating.checkVector_eq]
    simp
  · rw [Saturating.checkVector_eq]
    intro z hz
    obtain ⟨x, _, hxz⟩ := List.mem_map.1 hz
    rw [← hxz]
    exact Saturating.check_in_range b hb x e
  · intro hs fuel hfuel
    unfold Saturating.checkSet
    refine Saturating.checkSetFrom_spec b hb e fuel c c.head? hs ?_ ?_ ?_
    · intro x hx
      exact List.mem_of_mem_head? hx
    · intro y hy hlt
      cases c with
      | nil => simp at hy
      | cons x rest =>
        have h1 := hlt x rfl
        rcases List.mem_cons.1 hy with h2 | h2
        · rw [h2] at h1
          exact absurd h1 (lt_irrefl x)
        · exact absurd h1 (not_lt.2 (le_of_lt ((List.pairwise_cons.1 hs).1 y h2)))
    · have h1 : (c.toFinset.filter (fun y => ¬ (b._min ≤ y ∧ y ≤ b._max))).card ≤ c.length :=
        le_trans (Finset.card_filter_le _ _) (List.toFinset_card_le c)
      cases hh : c.head? with
      | none =>
        simp only []
        omega
      | some x =>
        simp only []
        have h2 : (c.toFinset.filter (fun y => x ≤ y)).card ≤ c.length :=
          le_trans (Finset.card_filter_le _ _) (List.toFinset_card_le c)
        omega
  · rw [Saturating.checkVector_map]
    simp
  · intro hf hnan z hz
    rw [Saturating.checkVector_map] at hz
    obtain ⟨x, hx, hxz⟩ := List.mem_map.1 hz
    rw [← hxz]
    exact Saturating.check_floating_in_range f x e hf (fun h => hnan (h ▸ hx))
  · intro hnan
    rw [Saturating.checkVector_map]
    exact List.mem_map.2 ⟨FloatingPoint.nan, hnan,
      congrArg Prod.fst (Saturating.check_floating_nan f e)⟩

/-- Witness of C22: the input of `tst/checker.cpp` with the range `[-5, 5]`, as a
set and as a vector. -/
theorem saturating_containers_witness :
    Saturating.checkSet ((Bounded.new (-128 : Int) 127).range (-5) 5).2 23
        [-10, -8, -6, -4, -2, 0, 2, 4, 6, 8, 10] Error.NONE
      = some ([-5, -4, -2, 0, 2, 4, 5], Error.NONE) ∧
    (∃ result,
      Saturating.checkSet ((Bounded.new (-128 : Int) 127).range (-5) 5).2 23
          [-10, -8, -6, -4, -2, 0, 2, 4, 6, 8, 10] Error.NONE = some (result, Error.NONE) ∧
      ∀ z ∈ result, (-5 : Int) ≤ z ∧ z ≤ 5) ∧
    Saturating.checkVector ((Bounded.new (-128 : Int) 127).range (-5) 5).2
        [-10, -8, -6, -4, -2, 0, 2, 4, 6, 8, 10] Error.NONE
      = ([-5, -5, -5, -4, -2, 0, 2, 4, 5, 5, 5], Error.NONE) ∧
    (∀ z ∈ (Saturating.checkVector
        ((Bounded.new FloatingPoint.double_lowest FloatingPoint.double_max).range
          (FloatingPoint.finite 0) (FloatingPoint.finite 100)).2
        [FloatingPoint.finite (-5), FloatingPoint.finite 250] Error.NONE).1,
      FloatingPoint.finite 0 ≤ z ∧ z ≤ FloatingPoint.finite 100) :=
  ⟨by decide,
   ((saturating_containers ((Bounded.new (-128 : Int) 127).range (-5) 5).2 (by decide)
      [-10, -8, -6, -4, -2, 0, 2, 4, 6, 8, 10] Error.NONE (Bounded.new (0 : Int) 0) []
      (Bounded.new FloatingPoint.nan FloatingPoint.nan) []).2.2.2.1 (by decide) 23
      (by decide)).imp fun _ h => ⟨h.1, h.2.2.1⟩,
   (saturating_containers ((Bounded.new (-128 : Int) 127).range (-5) 5).2 (by decide)
      [-10, -8, -6, -4, -2, 0, 2, 4, 6, 8, 10] Error.NONE (Bounded.new (0 : Int) 0) []
      (Bounded.new FloatingPoint.nan FloatingPoint.nan) []).1.trans (by decide),
   (saturating_containers (Bounded.new (0 : Int) 0) (by decide) [] Error.NONE
      (Bounded.new (0 : Int) 0) []
      ((Bounded.new FloatingPoint.double_lowest FloatingPoint.double_max).range
        (FloatingPoint.finite 0) (FloatingPoint.finite 100)).2
      [FloatingPoint.finite (-5), FloatingPoint.finite 250]).2.2.2.2.2.2.1
      (by decide) (by decide)⟩

end Checker
end Customisation

/-! ## Rendering of traits -/

namespace Customisation
namespace Trait

theorem and_ENTITY_eq_ENTITY (t : Trait) :
    t &&& ENTITY = ENTITY ↔ t.testBit 30 = true := by
  rw [ENTITY_eq, Nat.and_two_pow]
  cases t.testBit 30 <;> simp

theorem and_CONFIGURABLE_eq_CONFIGURABLE (t : Trait) :
    t &&& CONFIGURABLE = CONFIGURABLE ↔ t.testBit 0 = true := by
  rw [CONFIGURABLE_eq, Nat.and_two_pow]
  cases t.testBit 0 <;> simp

theorem toString_defined (t : Trait) (h : t.testBit 31 = false) :
    toString t
      = (if t.testBit 30 then "ENTITY".toList else "PARAMETER".toList)
        ++ (if t.testBit 28 then "|LOCKED".toList else [])
        ++ (if t.testBit 0 && t.testBit 1 then "|SETTABLE".toList else [])
        ++ (if t.testBit 0 then "|CONFIGURABLE".toList else []) := by
  have hu : ¬ (t &&& UNDEFINED = UNDEFINED) := by
    rw [and_UNDEFINED_eq_UNDEFINED, h]
    decide
  unfold toString
  simp only [hu, if_false, and_ENTITY_eq_ENTITY, and_LOCKED_eq_LOCKED,
    and_SETTABLE_eq_SETTABLE, and_CONFIGURABLE_eq_CONFIGURABLE]
  cases t.testBit 30 <;> cases t.testBit 28 <;> cases t.testBit 0 <;> cases t.testBit 1 <;> rfl

/-- C36. The text `toString(t)` is `UNDEFINED` if and only if the UNDEFINED bit
(bit 31) of `t` is set; otherwise it is `ENTITY` when the ENTITY bit (bit 30) is
set and `PARAMETER` when it is not, followed in this order by `|LOCKED` when the
LOCKED bit (bit 28) is set, by `|SETTABLE` when the two bits of SETTABLE (bits 0
and 1) are set, and by `|CONFIGURABLE` when the CONFIGURABLE bit (bit 0) is set;
so `SETTABLE` is rendered with `|SETTABLE|CONFIGURABLE`. -/
theorem toString_rendering (t : Trait) :
    (toString t = "UNDEFINED".toList ↔ t.testBit 31 = true) ∧
    (t.testBit 31 = false →
      toString t
        = (if t.testBit 30 then "ENTITY".toList else "PARAMETER".toList)
          ++ (if t.testBit 28 then "|LOCKED".toList else [])
          ++ (if t.testBit 0 && t.testBit 1 then "|SETTABLE".toList else [])
          ++ (if t.testBit 0 then "|CONFIGURABLE".toList else [])) ∧
    toString SETTABLE = "PARAMETER|SETTABLE|CONFIGURABLE".toList ∧
    toString (SETTABLE ||| LOCKED) = "PARAMETER|LOCKED|SETTABLE|CONFIGURABLE".toList ∧
    toString CONFIGURABLE = "PARAMETER|CONFIGURABLE".toList ∧
    toString ENTITY = "ENTITY".toList := by
  refine ⟨?_, toString_defined t, by decide, by decide, by decide, by decide⟩
  constructor
  · intro h
    by_contra hn
    have hf : t.testBit 31 = false := by
      cases hb : t.testBit 31
      · rfl
      · exact absurd hb hn
    rw [toString_defined t hf] at h
    revert h
    cases t.testBit 30 <;> cases t.testBit 28 <;> cases t.testBit 0 <;> cases t.testBit 1 <;>
      decide
  · intro h
    unfold toString
    rw [if_pos ((and_UNDEFINED_eq_UNDEFINED t).2 h)]

/-- Witness of C36: the traits of a locked Settable parameter. -/
theorem toString_rendering_witness :
    toString (SETTABLE ||| LOCKED)
      = (if (SETTABLE ||| LOCKED).testBit 30 then "ENTITY".toList else "PARAMETER".toList)
        ++ (if (SETTABLE ||| LOCKED).testBit 28 then "|LOCKED".toList else [])
        ++ (if (SETTABLE ||| LOCKED).testBit 0 && (SETTABLE ||| LOCKED).testBit 1 then
              "|SETTABLE".toList else [])
        ++ (if (SETTABLE ||| LOCKED).testBit 0 then "|CONFIGURABLE".toList else []) :=
  (toString_rendering (SETTABLE ||| LOCKED)).2.1 (by decide)

end Trait
end Customisation

/-! ## A rejected assignment stores nothing -/

namespace Customisation
namespace Parameter

/-- C37. The method `string_to_value(text)` tokenizes, translates, checks and
stores in that order and returns the first error met: when the tokenizer flags
an error, or the translator does, or the checker does, that error is returned
and the object is left as it was (`store_value` is not applied), so that the
value retrieved afterwards is the value held before the call; when none of them
flags an error the result is the one of `store_value` on the checked value.
The assignment `operator = (value)` leaves the object as it was when the checker
flags an error, as the container checkers `WhiteListed`, `BlackListed` and
`Bounded` do on a vector with one invalid element. -/
theorem rejected_assignment_stores_nothing {σ t : Type} (T : TranslatorPolicy t)
    (C : CheckerPolicy t) (S : StoragePolicy σ t) (self : σ) (text : Str) (value : t)
    {α : Type} [LT α] [DecidableRel (fun a b : α => a < b)] [DecidableEq α]
    {β : Type} [LinearOrder β] {τ : Type} (Sa : StoragePolicy τ (List α))
    (Sb : StoragePolicy τ (List β)) (state : τ)
    (w : Checker.WhiteListed α) (bl : Checker.BlackListed α) (bd : Checker.Bounded β)
    (va : List α) (vb : List β) :
    (((Io.parseAll text []).1 ≠ Error.NONE →
        string_to_value T C S self text = ((Io.parseAll text []).1, self)) ∧
      ((Io.parseAll text []).1 = Error.NONE →
        (match (Io.parseAll text []).2 with
          | [token] => T.from_str token Error.NONE
          | _ => T.from_str_tokens (Io.parseAll text []).2 Error.NONE).2 ≠ Error.NONE →
        string_to_value T C S self text
          = ((match (Io.parseAll text []).2 with
              | [token] => T.from_str token Error.NONE
              | _ => T.from_str_tokens (Io.parseAll text []).2 Error.NONE).2, self)) ∧
      ((Io.parseAll text []).1 = Error.NONE →
        (match (Io.parseAll text []).2 with
          | [token] => T.from_str token Error.NONE
          | _ => T.from_str_tokens (Io.parseAll text []).2 Error.NONE).2 = Error.NONE →
        (C.check (match (Io.parseAll text []).2 with
          | [token] => T.from_str token Error.NONE
          | _ => T.from_str_tokens (Io.parseAll text []).2 Error.NONE).1 Error.NONE).2
            ≠ Error.NONE →
        string_to_value T C S self text
          = ((C.check (match (Io.parseAll text []).2 with
              | [token] => T.from_str token Error.NONE
              | _ => T.from_str_tokens (Io.parseAll text []).2 Error.NONE).1 Error.NONE).2,
             self)) ∧
      ((Io.parseAll text []).1 = Error.NONE →
        (match (Io.parseAll text []).2 with
          | [token] => T.from_str token Error.NONE
          | _ => T.from_str_tokens (Io.parseAll text []).2 Error.NONE).2 = Error.NONE →
        (C.check (match (Io.parseAll text []).2 with
          | [token] => T.from_str token Error.NONE
          | _ => T.from_str_tokens (Io.parseAll text []).2 Error.NONE).1 Error.NONE).2
            = Error.NONE →
        string_to_value T C S self text
          = S.store_value self (C.check (match (Io.parseAll text []).2 with
              | [token] => T.from_str token Error.NONE
              | _ => T.from_str_tokens (Io.parseAll text []).2 Error.NONE).1 Error.NONE).1)) ∧
    (((Io.parseAll text []).1 ≠ Error.NONE ∨
        (match (Io.parseAll text []).2 with
          | [token] => T.from_str token Error.NONE
          | _ => T.from_str_tokens (Io.parseAll text []).2 Error.NONE).2 ≠ Error.NONE ∨
        (C.check (match (Io.parseAll text []).2 with
          | [token] => T.from_str token Error.NONE
          | _ => T.from_str_tokens (Io.parseAll text []).2 Error.NONE).1
          (match (Io.parseAll text []).2 with
          | [token] => T.from_str token Error.NONE
          | _ => T.from_str_tokens (Io.parseAll text []).2 Error.NONE).2).2 ≠ Error.NONE) →
      (string_to_value T C S self text).1 ≠ Error.NONE ∧
      (string_to_value T C S self text).2 = self ∧
      value_to_string T S (string_to_value T C S self text).2 = value_to_string T S self) ∧
    ((C.check value Error.NONE).2 ≠ Error.NONE → assign C S self value = self) ∧
    ((∃ x ∈ va, x ∉ w._allowed) →
      assign ⟨Checker.WhiteListed.checkContainer false w⟩ Sa state va = state) ∧
    ((∃ x ∈ va, x ∈ bl._forbidden) →
      assign ⟨Checker.BlackListed.checkContainer false bl⟩ Sa state va = state) ∧
    ((∃ x ∈ vb, (x < bd._min ∨ x > bd._max)) →
      assign ⟨Checker.Bounded.checkContainer false bd⟩ Sb state vb = state) := by
  refine ⟨⟨?_, ?_, ?_, ?_⟩, ?_, ?_, ?_, ?_, ?_⟩
  · intro h
    simp only [string_to_value, if_pos h]
  · intro h1 h2
    simp only [string_to_value, h1, ne_eq, not_true_eq_false, if_false]
    rw [if_pos h2]
  · intro h1 h2 h3
    simp only [string_to_value, h1, ne_eq, not_true_eq_false, if_false]
    rw [if_neg (not_not.2 h2), h2, if_pos h3]
  · intro h1 h2 h3
    simp only [string_to_value, h1, ne_eq, not_true_eq_false, if_false]
    rw [if_neg (not_not.2 h2), h2, if_neg (not_not.2 h3)]
  · intro h
    have key : (string_to_value T C S self text).1 ≠ Error.NONE ∧
        (string_to_value T C S self text).2 = self := by
      unfold string_to_value
      by_cases h1 : (Io.parseAll text []).1 ≠ Error.NONE
      · rw [if_pos h1]
        exact ⟨h1, rfl⟩
      · rw [if_neg h1]
        simp only []
        split_ifs with h2 h3
        · exact ⟨h2, rfl⟩
        · exact ⟨h3, rfl⟩
        · rcases h with h | h | h
          · exact absurd h h1
          · exact absurd h h2
          · exact absurd h h3
    exact ⟨key.1, key.2, by rw [key.2]⟩
  · intro h
    simp only [assign, if_neg h]
  · intro h
    simp only [assign, Checker.whitelisted_checkContainer_eq]
    rw [if_neg]
    simp [h]
  · intro h
    simp only [assign, Checker.blacklisted_checkContainer_eq]
    rw [if_neg]
    simp [h]
  · intro h
    simp only [assign, Checker.bounded_checkContainer_eq]
    rw [if_neg]
    simp [h]

/-- Witness of C37: the text `3` on an `int32_t` parameter that holds 1 and allows
1 and 2, and the vector `1, 5` assigned to a vector parameter that allows 1 and 2. -/
theorem rejected_assignment_stores_nothing_witness :
    ((string_to_value (Translator.DirectInteger IntType.int32_t Translator.DirectInt.new)
        ⟨Checker.WhiteListed.check (Checker.WhiteListed.mk ([1, 2] : List Int))⟩
        (Storage.ImmediateStorage Int) ⟨1⟩ ['3']).1 ≠ Error.NONE ∧
      (string_to_value (Translator.DirectInteger IntType.int32_t Translator.DirectInt.new)
        ⟨Checker.WhiteListed.check (Checker.WhiteListed.mk ([1, 2] : List Int))⟩
        (Storage.ImmediateStorage Int) ⟨1⟩ ['3']).2 = ⟨1⟩ ∧
      value_to_string (Translator.DirectInteger IntType.int32_t Translator.DirectInt.new)
        (Storage.ImmediateStorage Int)
        (string_to_value
          (Translator.DirectInteger IntType.int32_t Translator.DirectInt.new)
          ⟨Checker.WhiteListed.check (Checker.WhiteListed.mk ([1, 2] : List Int))⟩
          (Storage.ImmediateStorage Int) ⟨1⟩ ['3']).2
        = value_to_string
            (Translator.DirectInteger IntType.int32_t Translator.DirectInt.new)
            (Storage.ImmediateStorage Int) ⟨1⟩) ∧
    assign ⟨Checker.WhiteListed.checkContainer false (Checker.WhiteListed.mk ([1, 2] : List Int))⟩
      (Storage.ImmediateStorage (List Int)) ⟨[1]⟩ [1, 5] = ⟨[1]⟩ :=
  ⟨(@rejected_assignment_stores_nothing (Storage.Immediate Int) Int
      (Translator.DirectInteger IntType.int32_t Translator.DirectInt.new)
      ⟨Checker.WhiteListed.check (Checker.WhiteListed.mk ([1, 2] : List Int))⟩
      (Storage.ImmediateStorage Int) ⟨1⟩ ['3'] 3 Int _ _ _ Int _ (Storage.Immediate (List Int))
      (Storage.ImmediateStorage (List Int)) (Storage.ImmediateStorage (List Int)) ⟨[1]⟩
      (Checker.WhiteListed.mk ([1, 2] : List Int)) (Checker.BlackListed.mk ([] : List Int))
      (Checker.Bounded.new (0 : Int) 0) [1, 5] []).2.1 (Or.inr (Or.inr (by decide))),
   (@rejected_assignment_stores_nothing (Storage.Immediate Int) Int
      (Translator.DirectInteger IntType.int32_t Translator.DirectInt.new)
      ⟨Checker.WhiteListed.check (Checker.WhiteListed.mk ([1, 2] : List Int))⟩
      (Storage.ImmediateStorage Int) ⟨1⟩ ['3'] 3 Int _ _ _ Int _ (Storage.Immediate (List Int))
      (Storage.ImmediateStorage (List Int)) (Storage.ImmediateStorage (List Int)) ⟨[1]⟩
      (Checker.WhiteListed.mk ([1, 2] : List Int)) (Checker.BlackListed.mk ([] : List Int))
      (Checker.Bounded.new (0 : Int) 0) [1, 5] []).2.2.2.1 ⟨5, by decide, by decide⟩⟩

end Parameter
end Customisation

/-! ## The separator of a batch line is checked after the assignment -/

namespace Customisation
namespace Node

variable {P : Type}

/-- C40. For a line that tokenizes to the three tokens `p`, `x` and `v` with `x`
different from `=`, where `p` resolves to a parameter that is characterised,
Configurable and unlocked and whose `string_to_value` accepts `v`, the batch
`configure(lines, nb)` returns `INVALID_VALUE` on that line, `nb` grows by one,
the lines after it are not read, and the entity that is left holds at `p` the
parameter with the value that `string_to_value` has stored: the assignment is
applied before the separator is checked. -/
theorem separator_checked_after_assignment (V : Virtuals P) (e : Node P)
    (line p x v : Str) (rest : List Str) (nb : Int) (ref : List Nat) (b : Component)
    (s s' : P)
    (hparse : Io.parse line [] 3 3 = (Error.NONE, [p, x, v]))
    (hx : x ≠ ['='])
    (href : e.component p = some ref)
    (hget : e.getAt ref = some (Parameter b s))
    (htraits : b._traits.testBit 31 = false ∧ b._traits.testBit 0 = true ∧
      b._traits.testBit 28 = false)
    (haccept : V.string_to_value s v = (Error.NONE, s')) :
    configureBatch V e (line :: rest) nb
      = (Error.INVALID_VALUE, e.setAt ref (Parameter b s'), nb + 1) ∧
    (configurePath V e p v).1 = Error.NONE ∧
    (e.setAt ref (Parameter b s')).getAt ref = some (Parameter b s') := by
  have hcfg : configurePath V e p v = (Error.NONE, e.setAt ref (Parameter b s')) := by
    simp only [configurePath, href, hget, configure, Component.configure,
      if_pos ((Trait.configure_gate b._traits).2 htraits), haccept]
  refine ⟨?_, by rw [hcfg], getAt_setAt e ref _ _ hget⟩
  have hne : ¬ (some x = some ['=']) := by
    intro h
    exact hx (Option.some.inj h)
  simp only [configureBatch, configureLoop, hparse, ne_eq, not_true_eq_false, if_false,
    List.head?_cons, Option.getD_some, List.getLast?_cons_cons, List.getLast?_singleton,
    List.tail_cons, hcfg, reduceCtorEq, hne, not_false_eq_true, if_true]

/-- Witness of C40: the line `a.p + up` on the example tree, followed by a line
that is never read. -/
theorem separator_checked_after_assignment_witness :
    (configureBatch Parameter.directString exampleTree
      ["a.p + up".toList, "q = off".toList] 0).1 = Error.INVALID_VALUE ∧
    (configureBatch Parameter.directString exampleTree
      ["a.p + up".toList, "q = off".toList] 0).2.2 = 1 ∧
    getPath Parameter.directString exampleTree "a.p".toList []
      = (Error.NONE, [DQUOTE] ++ "three".toList ++ [DQUOTE]) ∧
    getPath Parameter.directString
        (configureBatch Parameter.directString exampleTree
          ["a.p + up".toList, "q = off".toList] 0).2.1 "a.p".toList []
      = (Error.NONE, [DQUOTE] ++ "up".toList ++ [DQUOTE]) :=
  ⟨congrArg Prod.fst
      (separator_checked_after_assignment Parameter.directString exampleTree
        "a.p + up".toList "a.p".toList "+".toList "up".toList ["q = off".toList] 0 [0, 1]
        ((exampleParameter 6 "p".toList Trait.CONFIGURABLE "three".toList).bind 2).base
        ⟨"three".toList⟩ ⟨"up".toList⟩ (by decide) (by decide) (by decide) rfl
        (by decide) (by decide)).1,
   by decide, by decide, by decide⟩

end Node
end Customisation

/-! ## The tokenizer undoes the composer on one-line directives -/

namespace Customisation
namespace Io

theorem compose_one_line (out : List Str) (path value : Str)
    (h : (path.length : Int) + 3 + value.length ≤ 80) :
    compose out path value [] [] = out ++ [path ++ [' ', '=', ' '] ++ value] := by
  have h0 : (path.length : Int) + 3 + value.length + 0 ≤ 80 := by omega
  simp only [compose, ne_eq, not_true_eq_false, if_true, if_false, emplace_back,
    append_back_concat, h0, gt_iff_lt, lt_self_iff_false]

theorem lstrip_of_head (value : Str) (h : ∀ c, value.head? = some c → blank c = false) :
    lstrip value = value := by
  cases value with
  | nil => rfl
  | cons c cs =>
    have hc := h c rfl
    simp [lstrip, List.dropWhile, hc]

theorem rstrip_of_last (value : Str) (h : ∀ c, value.getLast? = some c → blank c = false) :
    rstrip value = value := by
  rcases List.eq_nil_or_concat value with hv | ⟨t, c, hv⟩
  · subst hv
    rfl
  · subst hv
    simp only [List.concat_eq_append] at h ⊢
    exact rstrip_concat t c (h c (List.getLast?_concat _))

theorem parse_directive (path value : Str) (hw : word path) (hne : value ≠ [])
    (hhead : ∀ c, value.head? = some c → blank c = false)
    (hlast : ∀ c, value.getLast? = some c → blank c = false) :
    parse (path ++ [' ', '=', ' '] ++ value) [] 3 3 = (Error.NONE, [path, ['='], value]) := by
  have h1 : path ++ [' ', '=', ' '] ++ value = path ++ (' ' :: '=' :: ' ' :: value) := by simp
  have hb : blank ' ' = true := by decide
  have hl : lstrip (' ' :: value) = value := by
    simp only [lstrip, List.dropWhile, hb]
    exact lstrip_of_head value hhead
  rw [h1, parse, parseFrom, if_neg (by decide), scan_word_idle [] 3 3 path hw,
    scan_blank_started_max, if_neg (by decide)]
  rw [scan]
  simp only [Bool.false_eq_true, if_false, false_or, separator, decide_True, Bool.or_true,
    Bool.true_or, decide_eq_true_eq, true_or, or_true, if_true]
  simp only [collapse, hl, rstrip_of_last value hlast, hne, ne_eq, not_false_eq_true, if_true]
  simp

/-- C38. For every non-empty path that holds none of the characters space, tab,
`,`, `(`, `=`, `)`, `#`, backslash, single quote and double quote, and every
non-empty value that neither starts nor ends with a space or a tab, with
`len(path) + 3 + len(value) <= 80`: `compose(out, path, value, "", "")` appends to
`out` the single line `L = path + " = " + value`, and `parse(L, tokens, 3, 3)` on
an empty token list returns `Error::NONE` with exactly the tokens `path`, `=` and
`value`, the value being taken as it is. -/
theorem parse_undoes_compose (out : List Str) (path value : Str)
    (hpath : path ≠ [])
    (hchars : ∀ c ∈ path, c ≠ ' ' ∧ c ≠ TAB ∧ c ≠ ',' ∧ c ≠ '(' ∧ c ≠ '=' ∧ c ≠ ')' ∧
      c ≠ '#' ∧ c ≠ BACKSLASH ∧ c ≠ SQUOTE ∧ c ≠ DQUOTE)
    (hvalue : value ≠ [])
    (hhead : ∀ c, value.head? = some c → c ≠ ' ' ∧ c ≠ TAB)
    (hlast : ∀ c, value.getLast? = some c → c ≠ ' ' ∧ c ≠ TAB)
    (hsize : path.length + 3 + value.length ≤ 80) :
    compose out path value [] [] = out ++ [path ++ " = ".toList ++ value] ∧
    parse (path ++ " = ".toList ++ value) [] 3 3 = (Error.NONE, [path, "=".toList, value]) := by
  have hw : word path := by
    refine ⟨hpath, fun c hc => ?_⟩
    obtain ⟨h1, h2, h3, h4, h5, h6, h7, h8, h9, h10⟩ := hchars c hc
    simp [plain, separator, blank, h1, h2, h3, h4, h5, h6, h7, h8, h9, h10]
  have hh : ∀ c, value.head? = some c → blank c = false := by
    intro c hc
    obtain ⟨h1, h2⟩ := hhead c hc
    simp [blank, h1, h2]
  have hl : ∀ c, value.getLast? = some c → blank c = false := by
    intro c hc
    obtain ⟨h1, h2⟩ := hlast c hc
    simp [blank, h1, h2]
  exact ⟨compose_one_line out path value (by omega), parse_directive path value hw hvalue hh hl⟩

/-- Witness of C38: the directive `a.b = "x = 1" # no comment`, whose value holds
blanks, a separator, quotes and a comment sign. -/
theorem parse_undoes_compose_witness :
    compose ["first".toList] "a.b".toList "\"x = 1\" # no comment".toList [] []
      = ["first".toList, "a.b = \"x = 1\" # no comment".toList] ∧
    parse "a.b = \"x = 1\" # no comment".toList [] 3 3
      = (Error.NONE, ["a.b".toList, "=".toList, "\"x = 1\" # no comment".toList]) :=
  parse_undoes_compose ["first".toList] "a.b".toList "\"x = 1\" # no comment".toList
    (by decide) (by decide) (by decide) (by decide) (by decide) (by decide)

end Io
end Customisation

/-! ## Dumps of an entity -/

namespace Customisation
namespace Io

theorem append_back_cons_concat (a : Str) (output : List Str) (last s : Str) :
    append_back (a :: (output ++ [last])) s = a :: (output ++ [last ++ s]) := by
  have h := append_back_concat (a :: output) last s
  simpa using h

theorem append_back_singleton (last s : Str) : append_back [last] s = [last ++ s] := by
  simp [append_back]

theorem append_back_pair (a last s : Str) : append_back [a, last] s = [a, last ++ s] := by
  simp [append_back]

theorem append_back_triple (a b last s : Str) :
    append_back [a, b, last] s = [a, b, last ++ s] := by
  simp [append_back]

theorem append_back_quad (a b c last s : Str) :
    append_back [a, b, c, last] s = [a, b, c, last ++ s] := by
  simp [append_back]

theorem append_back_four (output : List Str) (a b c last s : Str) :
    append_back (output ++ [a, b, c, last]) s = output ++ [a, b, c, last ++ s] := by
  have h : output ++ [a, b, c, last] = (output ++ [a, b, c]) ++ [last] := by simp
  rw [h, append_back_concat]
  simp

theorem compose_append (out : List Str) (path value comment description : Str) :
    compose out path value comment description
      = out ++ compose [] path value comment description := by
  unfold compose
  simp only [emplace_back]
  split_ifs <;>
    simp [append_back_concat, append_back_singleton, append_back_pair, append_back_triple,
      append_back_two, append_back_three, append_back_quad, append_back_four]

end Io
end Customisation

namespace Customisation
namespace Node

variable {P : Type}

theorem dumpBodies_eq (V : Virtuals P) (mode : Nat) (root : Str) :
    ∀ comps : List (Node P), dumpBodies V mode comps root = comps.map (dumpBody V mode root)
  | [] => by simp [dumpBodies]
  | comp :: rest => by
    rw [dumpBodies, dumpBodies_eq V mode root rest]
    rfl

theorem dumpCompose_append (V : Virtuals P) (mode : Nat) (comp : Node P) (path : Str)
    (record : List Str) :
    dumpCompose V mode comp path record = record ++ dumpCompose V mode comp path [] := by
  unfold dumpCompose
  split_ifs
  · exact Io.compose_append _ _ _ _ _
  · exact Io.compose_append _ _ _ _ _
  · simp

theorem foldl_bodies (L : List (List Str → List Str))
    (h : ∀ f ∈ L, ∀ r, f r = r ++ f []) (record : List Str) :
    L.foldl (fun r body => body r) record = record ++ (L.map (fun f => f [])).flatten := by
  induction L generalizing record with
  | nil => simp
  | cons f L ih =>
    rw [List.foldl_cons, ih (fun g hg => h g (List.mem_cons_of_mem _ hg)), h f (by simp)]
    simp

theorem mapOrder_subset {α : Type} (m : List (Str × Nat)) (items : List α) :
    ∀ x ∈ mapOrder m items, x ∈ items := by
  intro x hx
  simp only [mapOrder, List.mem_filterMap] at hx
  obtain ⟨kv, _, hkv⟩ := hx
  exact List.mem_iff_getElem?.2 ⟨_, hkv⟩

theorem mapOrder_map {α β : Type} (m : List (Str × Nat)) (items : List α) (f : α → β) :
    mapOrder m (items.map f) = (mapOrder m items).map f := by
  induction m with
  | nil => rfl
  | cons kv m ih =>
    simp only [mapOrder] at ih ⊢
    rw [List.filterMap_cons, List.filterMap_cons, List.getElem?_map]
    cases items[kv.2]? with
    | none => simpa using ih
    | some x => simpa using ih

mutual
theorem dump_append (V : Virtuals P) (mode : Nat) :
    ∀ (e : Node P) (base : Str) (record : List Str),
      dump V mode e base record = record ++ dump V mode e base []
  | Parameter _ _, _, record => by simp [dump]
  | Entity b en comps m kind, base, record => by
    simp only [dump]
    generalize (if base.length > 0 then base ++ ['.'] else base) = root
    have hb := dumpBodies_append V mode comps root
    by_cases hc : comps.isEmpty = true
    · simp [hc]
    · simp only [hc, Bool.false_eq_true, if_false]
      by_cases hmode : mode = Entity.MODE_CONFIGURED ∨ mode = Entity.MODE_CONFIGURABLES
      · rw [if_pos hmode, if_pos hmode, foldl_bodies _ hb record, foldl_bodies _ hb []]
        simp
      · have hm : ∀ f ∈ mapOrder m (dumpBodies V mode comps root),
            ∀ r, f r = r ++ f [] := fun f hf => hb f (mapOrder_subset _ _ f hf)
        rw [if_neg hmode, if_neg hmode, foldl_bodies _ hm record, foldl_bodies _ hm []]
        simp
theorem dumpBodies_append (V : Virtuals P) (mode : Nat) :
    ∀ (comps : List (Node P)) (root : Str),
      ∀ body ∈ dumpBodies V mode comps root, ∀ record, body record = record ++ body []
  | [], _ => by simp [dumpBodies]
  | comp :: rest, root => by
    intro body hbody record
    rw [dumpBodies, List.mem_cons] at hbody
    rcases hbody with h | h
    · subst h
      simp only []
      by_cases ht : comp.base._traits &&& Entity.dumpMask mode = Entity.dumpMatch mode
      · simp only [if_pos ht]
        by_cases he : comp.entity = true
        · simp only [if_pos he]
          rw [dump_append V mode comp _ (dumpCompose V mode comp (root ++ comp.name) record),
            dump_append V mode comp _ (dumpCompose V mode comp (root ++ comp.name) []),
            dumpCompose_append, List.append_assoc]
        · simp only [if_neg he]
          exact dumpCompose_append _ _ _ _ _
      · simp only [if_neg ht]
        by_cases he : comp.entity = true
        · simp only [if_pos he]
          exact dump_append V mode comp _ record
        · simp only [if_neg he]
          simp
    · exact dumpBodies_append V mode rest root body h record
end

theorem dumpBody_append (V : Virtuals P) (mode : Nat) (root : Str) (comp : Node P)
    (record : List Str) :
    dumpBody V mode root comp record = record ++ dumpBody V mode root comp [] := by
  have h := dumpBodies_append V mode [comp] root (dumpBody V mode root comp)
    (by rw [dumpBodies_eq]; simp) record
  exact h

/-- The dump of an entity in one of the modes that follow `_components`. -/
theorem dump_declaration_order (V : Virtuals P) (mode : Nat)
    (hmode : mode = Entity.MODE_CONFIGURED ∨ mode = Entity.MODE_CONFIGURABLES)
    (b : Component) (en : Bool) (comps : List (Node P)) (m : List (Str × Nat)) (kind : Str)
    (base : Str) :
    dump V mode (Entity b en comps m kind) base []
      = (comps.map (fun c =>
          dumpBody V mode (if base.length > 0 then base ++ ['.'] else base) c [])).flatten := by
  simp only [dump, if_pos hmode]
  generalize (if base.length > 0 then base ++ ['.'] else base) = root
  by_cases h : comps.isEmpty = true
  · rw [List.isEmpty_iff] at h
    subst h
    rfl
  · rw [if_neg h, foldl_bodies _ (dumpBodies_append V mode comps _) [], dumpBodies_eq]
    simp [Function.comp_def]

/-- The dump of an entity in one of the modes that follow `components()`. -/
theorem dump_map_order (V : Virtuals P) (mode : Nat)
    (hmode : ¬ (mode = Entity.MODE_CONFIGURED ∨ mode = Entity.MODE_CONFIGURABLES))
    (b : Component) (en : Bool) (comps : List (Node P)) (m : List (Str × Nat)) (kind : Str)
    (base : Str) :
    dump V mode (Entity b en comps m kind) base []
      = ((mapOrder m comps).map (fun c =>
          dumpBody V mode (if base.length > 0 then base ++ ['.'] else base) c [])).flatten := by
  simp only [dump, if_neg hmode]
  generalize (if base.length > 0 then base ++ ['.'] else base) = root
  by_cases h : comps.isEmpty = true
  · rw [List.isEmpty_iff] at h
    subst h
    simp [mapOrder]
  · rw [if_neg h, foldl_bodies _ (fun f hf => dumpBodies_append V mode comps _ f
      (mapOrder_subset _ _ f hf)) [], dumpBodies_eq, mapOrder_map]
    simp [Function.comp_def]

end Node
end Customisation

namespace Customisation
namespace Trait

theorem dump_gate_configurable (t : Trait) :
    t &&& (UNDEFINED ||| ENTITY ||| CONFIGURABLE) = NONE ||| CONFIGURABLE ↔
      t.testBit 31 = false ∧ t.testBit 30 = false ∧ t.testBit 0 = true := by
  have hn : NONE ||| CONFIGURABLE = 2 ^ 0 := by decide
  rw [hn, UNDEFINED_eq, ENTITY_eq, CONFIGURABLE_eq]
  constructor
  · intro h
    refine ⟨?_, ?_, ?_⟩
    · have hb := congrArg (fun x => Nat.testBit x 31) h
      simp only [Nat.testBit_and, Nat.testBit_or, Nat.testBit_two_pow] at hb
      generalize Nat.testBit t 31 = b at hb ⊢
      revert hb
      cases b <;> decide
    · have hb := congrArg (fun x => Nat.testBit x 30) h
      simp only [Nat.testBit_and, Nat.testBit_or, Nat.testBit_two_pow] at hb
      generalize Nat.testBit t 30 = b at hb ⊢
      revert hb
      cases b <;> decide
    · have hb := congrArg (fun x => Nat.testBit x 0) h
      simp only [Nat.testBit_and, Nat.testBit_or, Nat.testBit_two_pow] at hb
      generalize Nat.testBit t 0 = b at hb ⊢
      revert hb
      cases b <;> decide
  · rintro ⟨h31, h30, h0⟩
    apply Nat.eq_of_testBit_eq
    intro i
    simp only [Nat.testBit_and, Nat.testBit_or, Nat.testBit_two_pow]
    by_cases e31 : 31 = i
    · subst e31; simp [h31]
    by_cases e30 : 30 = i
    · subst e30; simp [h30]
    by_cases e0 : 0 = i
    · subst e0; simp [h0]
    simp [e31, e30, e0]

theorem dump_gate_settable (t : Trait) :
    t &&& (UNDEFINED ||| ENTITY ||| SETTABLE) = NONE ||| SETTABLE ↔
      t.testBit 31 = false ∧ t.testBit 30 = false ∧ t.testBit 0 = true ∧
        t.testBit 1 = true := by
  have hn : NONE ||| SETTABLE = 2 ^ 0 ||| 2 ^ 1 := by decide
  rw [hn, UNDEFINED_eq, ENTITY_eq, SETTABLE_eq]
  constructor
  · intro h
    refine ⟨?_, ?_, ?_, ?_⟩
    · have hb := congrArg (fun x => Nat.testBit x 31) h
      simp only [Nat.testBit_and, Nat.testBit_or, Nat.testBit_two_pow] at hb
      generalize Nat.testBit t 31 = b at hb ⊢
      revert hb
      cases b <;> decide
    · have hb := congrArg (fun x => Nat.testBit x 30) h
      simp only [Nat.testBit_and, Nat.testBit_or, Nat.testBit_two_pow] at hb
      generalize Nat.testBit t 30 = b at hb ⊢
      revert hb
      cases b <;> decide
    · have hb := congrArg (fun x => Nat.testBit x 0) h
      simp only [Nat.testBit_and, Nat.testBit_or, Nat.testBit_two_pow] at hb
      generalize Nat.testBit t 0 = b at hb ⊢
      revert hb
      cases b <;> decide
    · have hb := congrArg (fun x => Nat.testBit x 1) h
      simp only [Nat.testBit_and, Nat.testBit_or, Nat.testBit_two_pow] at hb
      generalize Nat.testBit t 1 = b at hb ⊢
      revert hb
      cases b <;> decide
  · rintro ⟨h31, h30, h0, h1⟩
    apply Nat.eq_of_testBit_eq
    intro i
    simp only [Nat.testBit_and, Nat.testBit_or, Nat.testBit_two_pow]
    by_cases e31 : 31 = i
    · subst e31; simp [h31]
    by_cases e30 : 30 = i
    · subst e30; simp [h30]
    by_cases e0 : 0 = i
    · subst e0; simp [h0]
    by_cases e1 : 1 = i
    · subst e1; simp [h1]
    simp [e31, e30, e0, e1]

theorem dump_gate_parameter (t : Trait) :
    t &&& (UNDEFINED ||| ENTITY) = NONE ↔ t.testBit 31 = false ∧ t.testBit 30 = false := by
  have hn : NONE = 0 := rfl
  rw [hn, UNDEFINED_eq, ENTITY_eq]
  constructor
  · intro h
    refine ⟨?_, ?_⟩
    · have hb := congrArg (fun x => Nat.testBit x 31) h
      simp only [Nat.testBit_and, Nat.testBit_or, Nat.testBit_two_pow] at hb
      generalize Nat.testBit t 31 = b at hb ⊢
      revert hb
      cases b <;> decide
    · have hb := congrArg (fun x => Nat.testBit x 30) h
      simp only [Nat.testBit_and, Nat.testBit_or, Nat.testBit_two_pow] at hb
      generalize Nat.testBit t 30 = b at hb ⊢
      revert hb
      cases b <;> decide
  · rintro ⟨h31, h30⟩
    apply Nat.eq_of_testBit_eq
    intro i
    simp only [Nat.testBit_and, Nat.testBit_or, Nat.testBit_two_pow]
    by_cases e31 : 31 = i
    · subst e31; simp [h31]
    by_cases e30 : 30 = i
    · subst e30; simp [h30]
    simp [e31, e30]

theorem entity_gate (t : Trait) :
    t &&& (UNDEFINED ||| ENTITY) = ENTITY ↔ t.testBit 31 = false ∧ t.testBit 30 = true := by
  rw [UNDEFINED_eq, ENTITY_eq]
  constructor
  · intro h
    refine ⟨?_, ?_⟩
    · have hb := congrArg (fun x => Nat.testBit x 31) h
      simp only [Nat.testBit_and, Nat.testBit_or, Nat.testBit_two_pow] at hb
      generalize Nat.testBit t 31 = b at hb ⊢
      revert hb
      cases b <;> decide
    · have hb := congrArg (fun x => Nat.testBit x 30) h
      simp only [Nat.testBit_and, Nat.testBit_or, Nat.testBit_two_pow] at hb
      generalize Nat.testBit t 30 = b at hb ⊢
      revert hb
      cases b <;> decide
  · rintro ⟨h31, h30⟩
    apply Nat.eq_of_testBit_eq
    intro i
    simp only [Nat.testBit_and, Nat.testBit_or, Nat.testBit_two_pow]
    by_cases e31 : 31 = i
    · subst e31; simp [h31]
    by_cases e30 : 30 = i
    · subst e30; simp [h30]
    simp [e31, e30]

end Trait
end Customisation

namespace Customisation
namespace Node

variable {P : Type}

theorem dumpMask_configured :
    Entity.dumpMask Entity.MODE_CONFIGURED
      = Trait.UNDEFINED ||| Trait.ENTITY ||| Trait.CONFIGURABLE := by decide

theorem dumpMatch_configured :
    Entity.dumpMatch Entity.MODE_CONFIGURED = Trait.NONE ||| Trait.CONFIGURABLE := by decide

/-- The entry that `configured()` writes for a component that is no entity. -/
theorem dumpBody_configured_parameter (V : Virtuals P) (root : Str) (b : Component) (p : P)
    (hwf : (Parameter b p).wellFormed = true) :
    dumpBody V Entity.MODE_CONFIGURED root (Parameter b p) []
      = if b._traits.testBit 31 = false ∧ b._traits.testBit 0 = true then
          Io.compose [] (root ++ b._name) (V.value_to_string p) [] []
        else [] := by
  simp only [wellFormed, decide_eq_true_eq] at hwf
  have h30 : b._traits.testBit 30 = false := (Trait.and_ENTITY_eq_NONE _).1 hwf
  have he : (Parameter b p).entity = false := by simp [entity, isEntityObject]
  simp only [dumpBody, he, Bool.false_eq_true, if_false, base, dumpMask_configured,
    dumpMatch_configured, Trait.dump_gate_configurable, h30, true_and, name]
  by_cases h : b._traits.testBit 31 = false ∧ b._traits.testBit 0 = true
  · rw [if_pos h, if_pos h]
    have hd : b._traits &&& Trait.UNDEFINED = Trait.NONE :=
      (Trait.and_UNDEFINED_eq_NONE _).2 h.1
    simp [dumpCompose, Entity.MODE_CONFIGURED, value, Component.value, hd]
  · rw [if_neg h, if_neg h]

/-- An entity writes no entry of its own in `configured()` and hands its path to
the dump of its components. -/
theorem dumpBody_configured_entity (V : Virtuals P) (root : Str) (b : Component) (en : Bool)
    (comps : List (Node P)) (m : List (Str × Nat)) (kind : Str)
    (hwf : (Entity b en comps m kind).wellFormed = true) (hname : b._name ≠ []) :
    dumpBody V Entity.MODE_CONFIGURED root (Entity b en comps m kind) []
      = (comps.map (fun c =>
          dumpBody V Entity.MODE_CONFIGURED (root ++ b._name ++ ['.']) c [])).flatten := by
  have he : (Entity b en comps m kind).entity = true := by
    rw [entity_eq_isEntityObject _ hwf]
    rfl
  simp only [wellFormed, Bool.and_eq_true, decide_eq_true_eq] at hwf
  have hbits := (Trait.entity_gate _).1 hwf.1.1
  have hgate : ¬ (b._traits &&& Entity.dumpMask Entity.MODE_CONFIGURED
      = Entity.dumpMatch Entity.MODE_CONFIGURED) := by
    rw [dumpMask_configured, dumpMatch_configured, Trait.dump_gate_configurable]
    intro h
    rw [hbits.2] at h
    exact Bool.noConfusion h.2.1
  have hlen : (root ++ b._name).length > 0 := by
    cases hb : b._name with
    | nil => exact absurd hb hname
    | cons c cs => simp
  have hL : dumpBody V Entity.MODE_CONFIGURED root (Entity b en comps m kind) []
      = dump V Entity.MODE_CONFIGURED (Entity b en comps m kind) (root ++ b._name) [] := by
    simp only [dumpBody, he, if_true, base, hgate, if_false, name]
  rw [hL, dump_declaration_order V _ (Or.inl rfl), if_pos hlen]

mutual
theorem configured_entries (V : Virtuals P) :
    ∀ (comp : Node P) (pre : Str), comp.wellFormed = true → comp.name ≠ [] →
      dumpBody V Entity.MODE_CONFIGURED pre comp []
        = ((configuredEntries V comp pre).map
            (fun entry => Io.compose [] entry.1 entry.2 [] [])).flatten
  | Parameter b p, pre, hwf, _ => by
    rw [dumpBody_configured_parameter V pre b p hwf, configuredEntries]
    split_ifs <;> simp
  | Entity b en comps m kind, pre, hwf, hname => by
    rw [dumpBody_configured_entity V pre b en comps m kind hwf hname, configuredEntries]
    have hag := (agrees_iff _).1 (wellFormed_agrees _ hwf)
    simp only [wellFormed, Bool.and_eq_true] at hwf
    exact configured_entriesOf V comps (pre ++ b._name ++ ['.']) hwf.2 hag.2.2.1
theorem configured_entriesOf (V : Virtuals P) :
    ∀ (comps : List (Node P)) (pre : Str), wellFormedList comps = true →
      (∀ n ∈ comps, n.name ≠ []) →
      (comps.map (fun c => dumpBody V Entity.MODE_CONFIGURED pre c [])).flatten
        = ((configuredEntriesOf V comps pre).map
            (fun entry => Io.compose [] entry.1 entry.2 [] [])).flatten
  | [], _, _, _ => by simp [configuredEntriesOf]
  | comp :: rest, pre, hwf, hnames => by
    simp only [wellFormedList, Bool.and_eq_true] at hwf
    rw [List.map_cons, List.flatten_cons, configuredEntriesOf, List.map_append,
      List.flatten_append, configured_entries V comp pre hwf.1 (hnames comp (by simp)),
      configured_entriesOf V rest pre hwf.2 (fun n hn => hnames n (by simp [hn]))]
end

end Node
end Customisation

/-! ## The order of the dumps -/

namespace Customisation
namespace Node

variable {P : Type}

theorem bind_name (n : Node P) (owner : Nat) : (n.bind owner).name = n.name := by
  cases n <;> rfl

/-- Two components exposed one after the other into a freshly constructed
entity: `_components` holds them in the order of exposure, `_map` in the order
of their names. -/
theorem exposeAll_two (addr : Nat) (kind : Str) (c1 c2 : Node P)
    (h1 : c1.base.addr ≠ Component.INVALID_ADDR ∧ c1.name ≠ [] ∧ c1.base._owner = none)
    (h2 : c2.base.addr ≠ Component.INVALID_ADDR ∧ c2.name ≠ [] ∧ c2.base._owner = none)
    (hne : c1.name ≠ c2.name) :
    exposeAll (newEntity addr kind) [c1, c2]
      = Entity (Customisation.Entity.newComponent addr) true [c1.bind addr, c2.bind addr]
          (if c2.name < c1.name then [(c2.name, 1), (c1.name, 0)]
           else [(c1.name, 0), (c2.name, 1)]) kind := by
  have ha : (Customisation.Entity.newComponent addr).addr = addr := rfl
  have hf1 : Customisation.Entity.find [] c1.name = none := rfl
  have hf2 : Customisation.Entity.find [(c1.name, 0)] c2.name = none := by
    rw [Entity.find_cons, if_neg (fun h => hne h.symm)]
    rfl
  have hg1 : c1.base.addr ≠ Component.INVALID_ADDR ∧ c1.name ≠ [] ∧
      Customisation.Entity.find [] c1.name = none ∧ c1.base._owner = none :=
    ⟨h1.1, h1.2.1, hf1, h1.2.2⟩
  have hg2 : c2.base.addr ≠ Component.INVALID_ADDR ∧ c2.name ≠ [] ∧
      Customisation.Entity.find [(c1.name, 0)] c2.name = none ∧ c2.base._owner = none :=
    ⟨h2.1, h2.2.1, hf2, h2.2.2⟩
  simp only [exposeAll, List.foldl_cons, List.foldl_nil, newEntity, expose, if_pos hg1,
    Customisation.Entity.emplace, List.length_nil, List.nil_append, if_pos hg2, ha,
    List.length_singleton, List.singleton_append]
  by_cases hlt : c2.name < c1.name
  · simp only [if_pos hlt]
  · simp only [if_neg hlt, if_neg hne]

theorem mapOrder_two_swapped {α : Type} (k1 k2 : Str) (a b : α) :
    mapOrder [(k2, 1), (k1, 0)] [a, b] = [b, a] := rfl

theorem mapOrder_two_kept {α : Type} (k1 k2 : Str) (a b : α) :
    mapOrder [(k1, 0), (k2, 1)] [a, b] = [a, b] := rfl

/-- The dump of two components exposed into a freshly constructed entity, in a
mode that follows `components()`: the component whose name is the smaller one
comes first. -/
theorem dump_two_map_order (V : Virtuals P) (mode : Nat)
    (hmode : ¬ (mode = Entity.MODE_CONFIGURED ∨ mode = Entity.MODE_CONFIGURABLES))
    (addr : Nat) (kind : Str) (c1 c2 : Node P)
    (h1 : c1.base.addr ≠ Component.INVALID_ADDR ∧ c1.name ≠ [] ∧ c1.base._owner = none)
    (h2 : c2.base.addr ≠ Component.INVALID_ADDR ∧ c2.name ≠ [] ∧ c2.base._owner = none)
    (hne : c1.name ≠ c2.name) :
    dump V mode (exposeAll (newEntity addr kind) [c1, c2]) [] []
      = if c2.name < c1.name then
          dumpBody V mode [] (c2.bind addr) [] ++ dumpBody V mode [] (c1.bind addr) []
        else dumpBody V mode [] (c1.bind addr) [] ++ dumpBody V mode [] (c2.bind addr) [] := by
  rw [exposeAll_two addr kind c1 c2 h1 h2 hne, dump_map_order V mode hmode]
  have hroot : (if ([] : Str).length > 0 then ([] : Str) ++ ['.'] else []) = [] := rfl
  rw [hroot]
  by_cases hlt : c2.name < c1.name
  · simp only [if_pos hlt, mapOrder_two_swapped]
    simp
  · simp only [if_neg hlt, mapOrder_two_kept]
    simp

/-- The dump of two components exposed into a freshly constructed entity, in a
mode that follows `_components`: the component exposed first comes first. -/
theorem dump_two_declaration_order (V : Virtuals P) (mode : Nat)
    (hmode : mode = Entity.MODE_CONFIGURED ∨ mode = Entity.MODE_CONFIGURABLES)
    (addr : Nat) (kind : Str) (c1 c2 : Node P)
    (h1 : c1.base.addr ≠ Component.INVALID_ADDR ∧ c1.name ≠ [] ∧ c1.base._owner = none)
    (h2 : c2.base.addr ≠ Component.INVALID_ADDR ∧ c2.name ≠ [] ∧ c2.base._owner = none)
    (hne : c1.name ≠ c2.name) :
    dump V mode (exposeAll (newEntity addr kind) [c1, c2]) [] []
      = dumpBody V mode [] (c1.bind addr) [] ++ dumpBody V mode [] (c2.bind addr) [] := by
  rw [exposeAll_two addr kind c1 c2 h1 h2 hne, dump_declaration_order V mode hmode]
  have hroot : (if ([] : Str).length > 0 then ([] : Str) ++ ['.'] else []) = [] := rfl
  rw [hroot]
  simp

/-- The entry that a dump writes for a component that is no entity, in the mode
`mode` whose test of the traits is `gate`. -/
theorem dumpBody_parameter (V : Virtuals P) (mode : Nat) (root : Str) (b : Component) (p : P) :
    dumpBody V mode root (Parameter b p) []
      = if b._traits &&& Entity.dumpMask mode = Entity.dumpMatch mode then
          dumpCompose V mode (Parameter b p) (root ++ b._name) []
        else [] := by
  have he : (Parameter b p).entity = false := by simp [entity, isEntityObject]
  simp only [dumpBody, he, Bool.false_eq_true, if_false, base, name]

end Node
end Customisation

namespace Customisation
namespace Node

variable {P : Type}

/-- C34, counterexample. In the entity `top { zeta, alpha, beta }` the parameter
`zeta` is exposed first, and `snapshot()` writes its entry last: the entries
follow the names. -/
theorem snapshot_follows_names :
    exampleOrder.components.map name = ["zeta".toList, "alpha".toList, "beta".toList] ∧
    snapshot Parameter.directString exampleOrder
      = ["alpha = \"first\"".toList, "beta = \"second\"".toList, "zeta = \"last\"".toList] := by
  decide

/-- C34, amended. The method `snapshot()` writes its entries in the order of
`_map`, the `std::map` of the names, and not in the order of exposure: the
result is the sequence of the entries of the components taken in the order of
`_map`; for two components exposed one after the other into a freshly
constructed entity, the entries of the second one come first exactly when its
name is smaller than the name of the first one; and a component that is no
entity has one entry `path = value` when it is characterised, and none when it
is not. -/
theorem snapshot_order (V : Virtuals P) (b : Component) (en : Bool) (comps : List (Node P))
    (m : List (Str × Nat)) (kind : Str) (addr : Nat) (c1 c2 : Node P)
    (root : Str) (bp : Component) (p : P)
    (h1 : c1.base.addr ≠ Component.INVALID_ADDR ∧ c1.name ≠ [] ∧ c1.base._owner = none)
    (h2 : c2.base.addr ≠ Component.INVALID_ADDR ∧ c2.name ≠ [] ∧ c2.base._owner = none)
    (hne : c1.name ≠ c2.name) (hwf : (Parameter bp p).wellFormed = true) :
    snapshot V (Entity b en comps m kind)
      = ((mapOrder m comps).map
          (fun c => dumpBody V Entity.MODE_SNAPSHOT [] c [])).flatten ∧
    snapshot V (exposeAll (newEntity addr kind) [c1, c2])
      = (if c2.name < c1.name then
          dumpBody V Entity.MODE_SNAPSHOT [] (c2.bind addr) []
            ++ dumpBody V Entity.MODE_SNAPSHOT [] (c1.bind addr) []
        else dumpBody V Entity.MODE_SNAPSHOT [] (c1.bind addr) []
            ++ dumpBody V Entity.MODE_SNAPSHOT [] (c2.bind addr) []) ∧
    dumpBody V Entity.MODE_SNAPSHOT root (Parameter bp p) []
      = (if bp._traits.testBit 31 = false then
          Io.compose [] (root ++ bp._name) (V.value_to_string p) [] []
        else []) := by
  have hmode : ¬ (Entity.MODE_SNAPSHOT = Entity.MODE_CONFIGURED ∨
      Entity.MODE_SNAPSHOT = Entity.MODE_CONFIGURABLES) := by decide
  refine ⟨?_, ?_, ?_⟩
  · rw [snapshot, dump_map_order V _ hmode]
    rfl
  · exact dump_two_map_order V _ hmode addr kind c1 c2 h1 h2 hne
  · simp only [wellFormed, decide_eq_true_eq] at hwf
    have h30 : bp._traits.testBit 30 = false := (Trait.and_ENTITY_eq_NONE _).1 hwf
    have hmask : Entity.dumpMask Entity.MODE_SNAPSHOT = Trait.UNDEFINED ||| Trait.ENTITY := by
      decide
    have hmatch : Entity.dumpMatch Entity.MODE_SNAPSHOT = Trait.NONE := by decide
    rw [dumpBody_parameter, hmask, hmatch]
    simp only [Trait.dump_gate_parameter]
    by_cases h : bp._traits.testBit 31 = false
    · rw [if_pos ⟨h, h30⟩, if_pos h]
      have hd : bp._traits &&& Trait.UNDEFINED = Trait.NONE :=
        (Trait.and_UNDEFINED_eq_NONE _).2 h
      simp [dumpCompose, Entity.MODE_SNAPSHOT, value, Component.value, hd]
    · rw [if_neg (fun hh => h hh.1), if_neg h]

/-- Witness of C34: `zeta` is exposed before `alpha`, and the snapshot starts with
`alpha`. -/
theorem snapshot_order_witness :
    snapshot Parameter.directString
        (exposeAll (newEntity 1 "Stage".toList)
          [exampleParameter 2 "zeta".toList Trait.SETTABLE "last".toList,
           exampleParameter 3 "alpha".toList Trait.CONFIGURABLE "first".toList])
      = ["alpha = \"first\"".toList, "zeta = \"last\"".toList] :=
  ((snapshot_order Parameter.directString (Customisation.Entity.newComponent 1) true [] []
      "Stage".toList 1
      (exampleParameter 2 "zeta".toList Trait.SETTABLE "last".toList)
      (exampleParameter 3 "alpha".toList Trait.CONFIGURABLE "first".toList) []
      (Parameter.newComponent 2 "string".toList) ⟨[]⟩
      (by decide) (by decide) (by decide) (by decide)).2.1).trans (by decide)

/-- C35, counterexample. In the entity `top { zeta, alpha, beta }`, exposed in
this order, `configurables()` lists `zeta` first and `alpha` after it: the
entries follow the order of exposure and not the names. -/
theorem configurables_follow_exposure :
    exampleOrder.components.map name = ["zeta".toList, "alpha".toList, "beta".toList] ∧
    configurables Parameter.directString exampleOrder
      = ["zeta = string # string".toList, "alpha = string # string".toList,
         "beta = string # string".toList] ∧
    setters Parameter.directString exampleOrder
      = ["beta = string # string".toList, "zeta = string # string".toList] := by
  decide

/-- C35, amended. The methods `configurables()` and `setters()` write one entry
for a component that is no entity exactly when it is characterised and carries
the Configurable bit, respectively the two bits of Settable, and an entity has no
entry of its own. The entries of `configurables()` stand in the order of
exposure (the order of `_components`), whatever the names; the entries of
`setters()` stand in the order of `_map`, the order of the names: for two
components exposed one after the other into a freshly constructed entity,
`configurables()` lists the first one first, and `setters()` lists the second
one first exactly when its name is smaller than the name of the first one. -/
theorem configurables_and_setters (V : Virtuals P) (b : Component) (en : Bool)
    (comps : List (Node P)) (m : List (Str × Nat)) (kind : Str) (addr : Nat)
    (c1 c2 : Node P) (root : Str) (bp : Component) (p : P)
    (h1 : c1.base.addr ≠ Component.INVALID_ADDR ∧ c1.name ≠ [] ∧ c1.base._owner = none)
    (h2 : c2.base.addr ≠ Component.INVALID_ADDR ∧ c2.name ≠ [] ∧ c2.base._owner = none)
    (hne : c1.name ≠ c2.name) (hwf : (Parameter bp p).wellFormed = true)
    (hwe : (Entity b en comps m kind).wellFormed = true) :
    (dumpBody V Entity.MODE_CONFIGURABLES root (Parameter bp p) []
        = (if bp._traits.testBit 31 = false ∧ bp._traits.testBit 0 = true then
            Io.compose [] (root ++ bp._name) bp._type (V.values_to_string p) bp._description
          else []) ∧
      dumpBody V Entity.MODE_SETTERS root (Parameter bp p) []
        = (if bp._traits.testBit 31 = false ∧ bp._traits.testBit 0 = true ∧
              bp._traits.testBit 1 = true then
            Io.compose [] (root ++ bp._name) bp._type (V.values_to_string p) bp._description
          else [])) ∧
    (dumpBody V Entity.MODE_CONFIGURABLES root (Entity b en comps m kind) []
        = dump V Entity.MODE_CONFIGURABLES (Entity b en comps m kind) (root ++ b._name) [] ∧
      dumpBody V Entity.MODE_SETTERS root (Entity b en comps m kind) []
        = dump V Entity.MODE_SETTERS (Entity b en comps m kind) (root ++ b._name) []) ∧
    (configurables V (Entity b en comps m kind)
        = (comps.map (fun c => dumpBody V Entity.MODE_CONFIGURABLES [] c [])).flatten ∧
      setters V (Entity b en comps m kind)
        = ((mapOrder m comps).map (fun c => dumpBody V Entity.MODE_SETTERS [] c [])).flatten) ∧
    (configurables V (exposeAll (newEntity addr kind) [c1, c2])
        = dumpBody V Entity.MODE_CONFIGURABLES [] (c1.bind addr) []
            ++ dumpBody V Entity.MODE_CONFIGURABLES [] (c2.bind addr) [] ∧
      setters V (exposeAll (newEntity addr kind) [c1, c2])
        = (if c2.name < c1.name then
            dumpBody V Entity.MODE_SETTERS [] (c2.bind addr) []
              ++ dumpBody V Entity.MODE_SETTERS [] (c1.bind addr) []
          else dumpBody V Entity.MODE_SETTERS [] (c1.bind addr) []
              ++ dumpBody V Entity.MODE_SETTERS [] (c2.bind addr) [])) := by
  have hset : ¬ (Entity.MODE_SETTERS = Entity.MODE_CONFIGURED ∨
      Entity.MODE_SETTERS = Entity.MODE_CONFIGURABLES) := by decide
  have hcfg : Entity.MODE_CONFIGURABLES = Entity.MODE_CONFIGURED ∨
      Entity.MODE_CONFIGURABLES = Entity.MODE_CONFIGURABLES := Or.inr rfl
  have hmaskc : Entity.dumpMask Entity.MODE_CONFIGURABLES
      = Trait.UNDEFINED ||| Trait.ENTITY ||| Trait.CONFIGURABLE := by decide
  have hmatchc : Entity.dumpMatch Entity.MODE_CONFIGURABLES
      = Trait.NONE ||| Trait.CONFIGURABLE := by decide
  have hmasks : Entity.dumpMask Entity.MODE_SETTERS
      = Trait.UNDEFINED ||| Trait.ENTITY ||| Trait.SETTABLE := by decide
  have hmatchs : Entity.dumpMatch Entity.MODE_SETTERS = Trait.NONE ||| Trait.SETTABLE := by
    decide
  refine ⟨⟨?_, ?_⟩, ⟨?_, ?_⟩, ⟨?_, ?_⟩, ⟨?_, ?_⟩⟩
  · simp only [wellFormed, decide_eq_true_eq] at hwf
    have h30 : bp._traits.testBit 30 = false := (Trait.and_ENTITY_eq_NONE _).1 hwf
    rw [dumpBody_parameter, hmaskc, hmatchc]
    simp only [Trait.dump_gate_configurable]
    by_cases h : bp._traits.testBit 31 = false ∧ bp._traits.testBit 0 = true
    · rw [if_pos ⟨h.1, h30, h.2⟩, if_pos h]
      have hd : bp._traits &&& Trait.UNDEFINED = Trait.NONE :=
        (Trait.and_UNDEFINED_eq_NONE _).2 h.1
      simp [dumpCompose, Entity.MODE_CONFIGURABLES, Entity.MODE_CONFIGURED,
        Entity.MODE_SNAPSHOT, values, Component.values, hd, base]
    · rw [if_neg (fun hh => h ⟨hh.1, hh.2.2⟩), if_neg h]
  · simp only [wellFormed, decide_eq_true_eq] at hwf
    have h30 : bp._traits.testBit 30 = false := (Trait.and_ENTITY_eq_NONE _).1 hwf
    rw [dumpBody_parameter, hmasks, hmatchs]
    simp only [Trait.dump_gate_settable]
    by_cases h : bp._traits.testBit 31 = false ∧ bp._traits.testBit 0 = true ∧
        bp._traits.testBit 1 = true
    · rw [if_pos ⟨h.1, h30, h.2⟩, if_pos h]
      have hd : bp._traits &&& Trait.UNDEFINED = Trait.NONE :=
        (Trait.and_UNDEFINED_eq_NONE _).2 h.1
      simp [dumpCompose, Entity.MODE_CONFIGURABLES, Entity.MODE_CONFIGURED,
        Entity.MODE_SNAPSHOT, Entity.MODE_SETTERS, values, Component.values, hd, base]
    · rw [if_neg (fun hh => h ⟨hh.1, hh.2.2⟩), if_neg h]
  · have he : (Entity b en comps m kind).entity = true := by
      rw [entity_eq_isEntityObject _ hwe]
      rfl
    simp only [wellFormed, Bool.and_eq_true, decide_eq_true_eq] at hwe
    have hbits := (Trait.entity_gate _).1 hwe.1.1
    have hgate : ¬ (b._traits &&& Entity.dumpMask Entity.MODE_CONFIGURABLES
        = Entity.dumpMatch Entity.MODE_CONFIGURABLES) := by
      rw [hmaskc, hmatchc, Trait.dump_gate_configurable]
      intro h
      rw [hbits.2] at h
      exact Bool.noConfusion h.2.1
    simp only [dumpBody, he, if_true, base, hgate, if_false, name]
  · have he : (Entity b en comps m kind).entity = true := by
      rw [entity_eq_isEntityObject _ hwe]
      rfl
    simp only [wellFormed, Bool.and_eq_true, decide_eq_true_eq] at hwe
    have hbits := (Trait.entity_gate _).1 hwe.1.1
    have hgate : ¬ (b._traits &&& Entity.dumpMask Entity.MODE_SETTERS
        = Entity.dumpMatch Entity.MODE_SETTERS) := by
      rw [hmasks, hmatchs, Trait.dump_gate_settable]
      intro h
      rw [hbits.2] at h
      exact Bool.noConfusion h.2.1
    simp only [dumpBody, he, if_true, base, hgate, if_false, name]
  · rw [configurables, dump_declaration_order V _ hcfg]
    rfl
  · rw [setters, dump_map_order V _ hset]
    rfl
  · exact dump_two_declaration_order V _ hcfg addr kind c1 c2 h1 h2 hne
  · exact dump_two_map_order V _ hset addr kind c1 c2 h1 h2 hne

/-- Witness of C35: `zeta` is exposed before `beta`, both Settable;
`configurables()` lists `zeta` first and `setters()` lists `beta` first. -/
theorem configurables_and_setters_witness :
    configurables Parameter.directString
        (exposeAll (newEntity 1 "Stage".toList)
          [exampleParameter 2 "zeta".toList Trait.SETTABLE "last".toList,
           exampleParameter 4 "beta".toList Trait.SETTABLE "second".toList])
      = ["zeta = string # string".toList, "beta = string # string".toList] ∧
    setters Parameter.directString
        (exposeAll (newEntity 1 "Stage".toList)
          [exampleParameter 2 "zeta".toList Trait.SETTABLE "last".toList,
           exampleParameter 4 "beta".toList Trait.SETTABLE "second".toList])
      = ["beta = string # string".toList, "zeta = string # string".toList] :=
  ⟨((configurables_and_setters Parameter.directString
        (Customisation.Entity.newComponent 1) true [] [] "Stage".toList 1
        (exampleParameter 2 "zeta".toList Trait.SETTABLE "last".toList)
        (exampleParameter 4 "beta".toList Trait.SETTABLE "second".toList) []
        (Parameter.newComponent 2 "string".toList) ⟨[]⟩
        (by decide) (by decide) (by decide) (by decide) (by decide)).2.2.2.1).trans
      (by decide),
   ((configurables_and_setters Parameter.directString
        (Customisation.Entity.newComponent 1) true [] [] "Stage".toList 1
        (exampleParameter 2 "zeta".toList Trait.SETTABLE "last".toList)
        (exampleParameter 4 "beta".toList Trait.SETTABLE "second".toList) []
        (Parameter.newComponent 2 "string".toList) ⟨[]⟩
        (by decide) (by decide) (by decide) (by decide) (by decide)).2.2.2.2).trans
      (by decide)⟩

end Node
end Customisation

/-! ## Reaching an exposed component by its name -/

namespace Customisation
namespace Node

variable {P : Type}

theorem firstKey_no_dot (path : Str) : '.' ∉ firstKey path := by
  intro h
  have := List.mem_takeWhile_imp h
  simp at this

theorem firstKey_of_eof (path : Str) (h : eof path = true) : firstKey path = path := by
  unfold eof at h
  have hp : firstKey path <+: path := List.takeWhile_prefix _
  exact hp.eq_of_length (by simpa using h)

/-- What `Entity::component(path)` went through when it returns a component. -/
theorem component_ref (b : Component) (en : Bool) (comps : List (Node P))
    (m : List (Str × Nat)) (kind : Str) (path : Str) (ref : List Nat)
    (h : component (Entity b en comps m kind) path = some ref) :
    (path = ['*'] ∧ ref = []) ∨
    (path ≠ ['*'] ∧ ∃ idx compo, Entity.find m (firstKey path) = some idx ∧
      comps[idx]? = some compo ∧
      ((eof path = true ∧ ref = [idx]) ∨
       (eof path = false ∧ compo.entity = true ∧
         ∃ r, component compo (restKey path) = some r ∧ ref = idx :: r))) := by
  rw [component] at h
  by_cases hp : path = ['*']
  · rw [if_pos hp] at h
    exact Or.inl ⟨hp, (Option.some.inj h).symm⟩
  · rw [if_neg hp] at h
    refine Or.inr ⟨hp, ?_⟩
    cases hf : Entity.find m (firstKey path) with
    | none => rw [hf] at h; exact Option.noConfusion h
    | some idx =>
      rw [hf] at h
      simp only [] at h
      rw [componentAt_eq] at h
      cases hc : comps[idx]? with
      | none => rw [hc] at h; exact Option.noConfusion h
      | some compo =>
        rw [hc] at h
        simp only [] at h
        refine ⟨idx, compo, rfl, hc, ?_⟩
        by_cases he : eof path = true
        · rw [if_pos he] at h
          exact Or.inl ⟨he, (Option.some.inj h).symm⟩
        · rw [if_neg he] at h
          by_cases hn : ¬ compo.entity = true
          · rw [if_pos hn] at h
            exact Option.noConfusion h
          · rw [if_neg hn] at h
            cases hr : component compo (restKey path) with
            | none => rw [hr] at h; exact Option.noConfusion h
            | some r =>
              rw [hr] at h
              refine Or.inr ⟨by simpa using he, not_not.1 hn, r, rfl, ?_⟩
              exact (Option.some.inj h).symm

theorem setAtList_getElem_ne (comps : List (Node P)) (idx i : Nat) (r : List Nat)
    (new : Node P) (h : idx ≠ i) : (setAtList comps idx r new)[i]? = comps[i]? := by
  induction comps generalizing idx i with
  | nil => simp [setAtList]
  | cons n rest ih =>
    cases idx with
    | zero =>
      cases i with
      | zero => exact absurd rfl h
      | succ i => simp [setAtList]
    | succ idx =>
      cases i with
      | zero => simp [setAtList]
      | succ i =>
        simp only [setAtList, List.getElem?_cons_succ]
        exact ih idx i (fun e => h (by rw [e]))

/-- Replacing an object whose reference does not start with `i` leaves the
component at position `i` as it was. -/
theorem getAt_setAt_other (b : Component) (en : Bool) (comps : List (Node P))
    (m : List (Str × Nat)) (kind : Str) (idx i : Nat) (r : List Nat) (new : Node P)
    (h : idx ≠ i) :
    (setAt (Entity b en comps m kind) (idx :: r) new).getAt [i]
      = (Entity b en comps m kind).getAt [i] := by
  rw [setAt, getAt, getAt, getAtList_eq, getAtList_eq, setAtList_getElem_ne comps idx i r new h]

theorem entity_set_self (V : Virtuals P) (b : Component) (en : Bool) (comps : List (Node P))
    (m : List (Str × Nat)) (kind : Str) (val : Str) :
    ((Entity b en comps m kind).set V val).2 = Entity b en comps m kind ∧
    ((Entity b en comps m kind).configure V val).2 = Entity b en comps m kind := by
  constructor
  · simp only [set, Component.set, Entity.virtuals]
    split_ifs <;> rfl
  · simp only [configure, Component.configure, Entity.virtuals]
    split_ifs <;> rfl

/-- When no path resolves to a reference that starts with `i`, `set` and
`configure` leave the component at position `i` as it was. -/
theorem path_operations_keep (V : Virtuals P) (b : Component) (en : Bool)
    (comps : List (Node P)) (m : List (Str × Nat)) (kind : Str) (i : Nat)
    (h : ∀ path ref, component (Entity b en comps m kind) path = some ref →
      ref.head? ≠ some i) (path val : Str) :
    (setPath V (Entity b en comps m kind) path val).2.getAt [i]
      = (Entity b en comps m kind).getAt [i] ∧
    (configurePath V (Entity b en comps m kind) path val).2.getAt [i]
      = (Entity b en comps m kind).getAt [i] := by
  cases hc : component (Entity b en comps m kind) path with
  | none => simp [setPath, configurePath, hc]
  | some ref =>
    have hh := h path ref hc
    cases ref with
    | nil =>
      have hs := entity_set_self V b en comps m kind val
      simp only [setPath, configurePath, hc, getAt_nil, setAt, hs.1, hs.2, and_self]
    | cons idx r =>
      have hne : idx ≠ i := by
        intro e
        exact hh (by simp [e])
      cases hg : (Entity b en comps m kind).getAt (idx :: r) with
      | none => simp [setPath, configurePath, hc, hg]
      | some compo =>
        simp only [setPath, configurePath, hc, hg]
        exact ⟨getAt_setAt_other b en comps m kind idx i r _ hne,
          getAt_setAt_other b en comps m kind idx i r _ hne⟩

/-- The entity after an accepted `expose`. -/
theorem expose_accepted (e comp : Node P) (i : Nat) (h : (e.expose comp).result = some i) :
    ∃ b en comps m kind, e = Entity b en comps m kind ∧ i = comps.length ∧
      comp.name ≠ [] ∧ Entity.find m comp.name = none ∧
      (e.expose comp).entity
        = Entity b en (comps ++ [comp.bind b.addr]) (Entity.emplace m comp.name comps.length)
            kind ∧
      (e.expose comp).comp = comp.bind b.addr := by
  cases e with
  | Parameter b p => simp [expose] at h
  | Entity b en comps m kind =>
    rw [expose] at h ⊢
    by_cases hg : comp.base.addr ≠ Component.INVALID_ADDR ∧ comp.name ≠ [] ∧
        Customisation.Entity.find m comp.name = none ∧ comp.base._owner = none
    · rw [if_pos hg] at h ⊢
      exact ⟨b, en, comps, m, kind, rfl, (Option.some.inj h).symm, hg.2.1, hg.2.2.1, rfl, rfl⟩
    · rw [if_neg hg] at h
      exact Option.noConfusion h

theorem bind_entity (n : Node P) (owner : Nat) : (n.bind owner).entity = n.entity := by
  cases n <;> rfl

end Node
end Customisation

namespace Customisation
namespace Node

variable {P : Type}

/-- After an accepted `expose`, only the name of the new component is mapped to
its position. -/
theorem find_emplace_new (b : Component) (en : Bool) (comps : List (Node P))
    (m : List (Str × Nat)) (kind : Str) (hag : (Entity b en comps m kind).agrees = true)
    (key : Str) (hfind : Entity.find m key = none) (k : Str)
    (h : Entity.find (Entity.emplace m key comps.length) k = some comps.length) : k = key := by
  rw [Entity.find_emplace m key comps.length hfind k] at h
  by_cases hk : k = key
  · exact hk
  · rw [if_neg hk] at h
    obtain ⟨h1, _, _, _⟩ := (agrees_iff _).1 hag
    obtain ⟨n, hn, _⟩ := h1 k comps.length (Entity.mem_of_find m k comps.length h)
    simp [components] at hn

theorem getElem?_exposed (comps : List (Node P)) (c : Node P) :
    (comps ++ [c])[comps.length]? = some c := by
  simp

/-- C39, counterexample. A child entity named `*` is accepted by `expose` and is
resolved by the path `*.*`: `component`, `has` and `get` reach it. -/
theorem star_entity_reached :
    (exampleFresh.expose exampleStar).result = some 0 ∧
    (exampleFresh.expose exampleStar).entity.component "*.*".toList = some [0] ∧
    ((exampleFresh.expose exampleStar).entity.getAt [0]).map name = some "*".toList ∧
    ((exampleFresh.expose exampleStar).entity.getAt [0]).map (fun n => n.base.addr) = some 2 ∧
    (exampleFresh.expose exampleStar).entity.has "*.*".toList = true ∧
    getPath Parameter.directString (exampleFresh.expose exampleStar).entity "*.*".toList []
      = (Error.NONE, "Stage".toList) := by
  decide

/-- C39, amended. After an accepted `expose(c)` into an entity `E` whose child
list and name map agree, the reference returned designates `c`, and
`E.component(c.name())` returns `c` if and only if the name is not `*` and holds
no dot. The test of `expose` does not look at the characters of the name: a
component named `*` or with a dot in its name is accepted as any other. When
the name of `c` holds a dot, or when `c` is named `*` and is no entity, no path
resolves to `c` or to a component below it, so that `component` and `has` never
find it and `set` and `configure` on any path leave it as it was. When `c` is
named `*` and is an entity, the path `*.*` resolves to it. -/
theorem exposed_component_addressable (V : Virtuals P) (e comp : Node P) (i : Nat)
    (hag : e.agrees = true) (hexp : (e.expose comp).result = some i) :
    (e.expose comp).entity.getAt [i] = some (e.expose comp).comp ∧
    ((e.expose comp).entity.component comp.name = some [i] ↔
      comp.name ≠ ['*'] ∧ '.' ∉ comp.name) ∧
    (∀ c : Node P, c.base.addr ≠ Component.INVALID_ADDR → c.name ≠ [] →
      Entity.find e.map c.name = none → c.base._owner = none →
      (e.expose c).result = some e.components.length) ∧
    (('.' ∈ comp.name ∨ (comp.name = ['*'] ∧ comp.entity = false)) →
      (∀ path ref, (e.expose comp).entity.component path = some ref → ref.head? ≠ some i) ∧
      (∀ path, (e.expose comp).entity.component path ≠ some [i]) ∧
      (∀ path val,
        (setPath V (e.expose comp).entity path val).2.getAt [i]
          = (e.expose comp).entity.getAt [i] ∧
        (configurePath V (e.expose comp).entity path val).2.getAt [i]
          = (e.expose comp).entity.getAt [i])) ∧
    (comp.name = ['*'] → comp.entity = true →
      (e.expose comp).entity.component ['*', '.', '*'] = some [i] ∧
      (e.expose comp).entity.has ['*', '.', '*'] = true) := by
  obtain ⟨b, en, comps, m, kind, rfl, rfl, hname, hfind, hE, hC⟩ := expose_accepted e comp i hexp
  rw [hE, hC]
  have hag' := agrees_expose b en comps m kind comp hag hname hfind
  have hnew := find_emplace_new b en comps m kind hag comp.name hfind
  have hself : Entity.find (Entity.emplace m comp.name comps.length) comp.name
      = some comps.length := by
    rw [Entity.find_emplace m comp.name comps.length hfind, if_pos rfl]
  have hhead : ('.' ∈ comp.name ∨ (comp.name = ['*'] ∧ comp.entity = false)) →
      ∀ path ref,
        component (Entity b en (comps ++ [comp.bind b.addr])
          (Entity.emplace m comp.name comps.length) kind) path = some ref →
        ref.head? ≠ some comps.length := by
    intro hcase path ref hc hh
    rcases component_ref _ _ _ _ _ path ref hc with ⟨_, hr⟩ | ⟨hp, idx, compo, hf, hget, hrest⟩
    · rw [hr] at hh
      exact Option.noConfusion hh
    · have hidx : idx = comps.length := by
        rcases hrest with ⟨_, hr⟩ | ⟨_, _, r, _, hr⟩
        · rw [hr] at hh
          simpa using hh
        · rw [hr] at hh
          simpa using hh
      subst hidx
      have hkey := hnew (firstKey path) hf
      rcases hcase with hdot | ⟨hstar, hent⟩
      · exact firstKey_no_dot path (hkey ▸ hdot)
      · rcases hrest with ⟨heof, _⟩ | ⟨_, hce, _⟩
        · have := firstKey_of_eof path heof
          rw [hkey, hstar] at this
          exact hp this.symm
        · rw [getElem?_exposed] at hget
          have hcb := Option.some.inj hget
          rw [← hcb, bind_entity, hent] at hce
          exact Bool.noConfusion hce
  refine ⟨?_, ?_, ?_, ?_, ?_⟩
  · rw [getAt, getAtList_eq, getElem?_exposed]
    exact getAt_nil _
  · constructor
    · intro hc
      rcases component_ref _ _ _ _ _ comp.name [comps.length] hc with
        ⟨_, hr⟩ | ⟨hp, idx, compo, hf, _, hrest⟩
      · exact absurd hr (by simp)
      · refine ⟨hp, ?_⟩
        have hidx : idx = comps.length := by
          rcases hrest with ⟨_, hr⟩ | ⟨_, _, r, _, hr⟩
          · simpa using hr.symm
          · have := congrArg List.head? hr
            simpa using this.symm
        subst hidx
        have hkey := hnew (firstKey comp.name) hf
        have := firstKey_no_dot comp.name
        rw [hkey] at this
        exact this
    · rintro ⟨hstar, hdot⟩
      rw [component, if_neg hstar, firstKey_of_no_dot _ hdot, eof_of_no_dot _ hdot, hself]
      simp only []
      rw [componentAt_eq, getElem?_exposed]
      simp
  · intro c hc1 hc2 hc3 hc4
    simp only [map] at hc3
    simp only [expose, components]
    rw [if_pos ⟨hc1, hc2, hc3, hc4⟩]
  · intro hcase
    refine ⟨hhead hcase, ?_, ?_⟩
    · intro path hc
      exact hhead hcase path _ hc rfl
    · intro path val
      exact path_operations_keep V _ _ _ _ _ _ (hhead hcase) path val
  · intro hstar hent
    have hcomp : component (Entity b en (comps ++ [comp.bind b.addr])
        (Entity.emplace m comp.name comps.length) kind) ['*', '.', '*']
          = some [comps.length] := by
      have hfk : firstKey ['*', '.', '*'] = ['*'] := by decide
      have heof : eof ['*', '.', '*'] = false := by decide
      have hrk : restKey ['*', '.', '*'] = ['*'] := by decide
      have hbe : (comp.bind b.addr).entity = true := by rw [bind_entity, hent]
      have hself' : Entity.find (Entity.emplace m comp.name comps.length) ['*']
          = some comps.length := by
        rw [Entity.find_emplace m comp.name comps.length hfind, if_pos hstar.symm]
      rw [component, if_neg (by decide), hfk, hself']
      simp only []
      rw [componentAt_eq, getElem?_exposed]
      simp only [heof, Bool.false_eq_true, if_false, hbe, not_true_eq_false, hrk]
      cases hcb : comp.bind b.addr with
      | Parameter bp p =>
        rw [hcb] at hbe
        simp [entity, isEntityObject] at hbe
      | Entity b2 en2 comps2 m2 kind2 =>
        simp [component]
    exact ⟨hcomp, by rw [has, hcomp]; rfl⟩

/-- Witness of C39: on a freshly constructed entity, the parameter `ab` is found
under its name, the parameter `a.b` is accepted and not found under its name,
and the entity `*` is accepted and found under `*.*`. -/
theorem exposed_component_addressable_witness :
    (exampleFresh.expose examplePlain).entity.component examplePlain.name = some [0] ∧
    (exampleFresh.expose exampleDotted).result = some 0 ∧
    (∀ path, (exampleFresh.expose exampleDotted).entity.component path ≠ some [0]) ∧
    (exampleFresh.expose exampleStar).entity.component ['*', '.', '*'] = some [0] :=
  ⟨((exposed_component_addressable Parameter.directString exampleFresh examplePlain 0
        (by decide) (by decide)).2.1).2 ⟨by decide, by decide⟩,
   by decide,
   ((exposed_component_addressable Parameter.directString exampleFresh exampleDotted 0
        (by decide) (by decide)).2.2.2.1 (Or.inl (by decide))).2.1,
   ((exposed_component_addressable Parameter.directString exampleFresh exampleStar 0
        (by decide) (by decide)).2.2.2.2 (by decide) (by decide)).1⟩

end Node
end Customisation

/-! ## The configuration entity -/

namespace Customisation
namespace Io

/-- A word is read as one token. -/
theorem parseAll_word (w : Str) (hw : word w) : parseAll w [] = (Error.NONE, [w]) := by
  have hlast : ∀ c, w.getLast? = some c → blank c = false := by
    intro c hc
    have hmem : c ∈ w := List.mem_of_mem_getLast? hc
    have hp := hw.2 c hmem
    simp only [plain, Bool.and_eq_true, Bool.not_eq_true'] at hp
    exact hp.1.1.1.1.2
  have h := scan_word_idle [] (-1) (-1) w hw []
  rw [List.append_nil] at h
  rw [parseAll, parseMax, parse, parseFrom, if_neg (by decide), h, scan]
  simp [finish, rstrip_of_last w hlast, hw.1]

end Io

namespace Node

variable {P : Type}

/-- One line `path = value` of a batch whose assignment succeeds. -/
theorem configureLoop_directive (V : Virtuals P) (line p v : Str) (rest : List Str)
    (e e' : Node P) (nb : Int)
    (hparse : Io.parse line [] 3 3 = (Error.NONE, [p, ['='], v]))
    (hcfg : configurePath V e p v = (Error.NONE, e')) :
    configureLoop V (line :: rest) e [] nb = configureLoop V rest e' [] (nb + 1) := by
  rw [configureLoop]
  simp only [hparse, ne_eq, not_true_eq_false, if_false, List.head?_cons, Option.getD_some,
    List.getLast?_cons_cons, List.getLast?_singleton, hcfg, reduceCtorEq, List.tail_cons]

theorem setAtList_nil_ref (comps : List (Node P)) (i : Nat) (new : Node P) :
    setAtList comps i [] new = comps.set i new := by
  induction comps generalizing i with
  | nil => simp [setAtList]
  | cons n rest ih =>
    cases i with
    | zero => simp [setAtList, setAt]
    | succ i => simp [setAtList, ih]

/-- The method `configure(path, val)` on a path that names a component of the
entity itself, which is no entity, is characterised, Configurable and unlocked. -/
theorem configurePath_child (V : Virtuals P) (b : Component) (en : Bool)
    (comps : List (Node P)) (m : List (Str × Nat)) (kind : Str) (key val : Str) (i : Nat)
    (bp : Component) (s : P) (hdot : '.' ∉ key) (hstar : key ≠ ['*'])
    (hfind : Entity.find m key = some i) (hget : comps[i]? = some (Parameter bp s))
    (hgate : bp._traits &&& (Trait.UNDEFINED ||| Trait.CONFIGURABLE ||| Trait.LOCKED)
      = Trait.CONFIGURABLE) :
    configurePath V (Entity b en comps m kind) key val
      = ((V.string_to_value s val).1,
         Entity b en (comps.set i (Parameter bp (V.string_to_value s val).2)) m kind) := by
  have hc : component (Entity b en comps m kind) key = some [i] := by
    rw [component, if_neg hstar, firstKey_of_no_dot key hdot, eof_of_no_dot key hdot, hfind]
    simp only []
    rw [componentAt_eq, hget]
    simp
  have hg : (Entity b en comps m kind).getAt [i] = some (Parameter bp s) := by
    rw [getAt, getAtList_eq, hget]
    rfl
  simp only [configurePath, hc, hg, configure, Component.configure, if_pos hgate, setAt,
    setAtList_nil_ref]

/-- The method `get(path, into)` on a path that names a component of the entity
itself, which is no entity and is characterised. -/
theorem getPath_child (V : Virtuals P) (b : Component) (en : Bool)
    (comps : List (Node P)) (m : List (Str × Nat)) (kind : Str) (key into : Str) (i : Nat)
    (bp : Component) (s : P) (hdot : '.' ∉ key) (hstar : key ≠ ['*'])
    (hfind : Entity.find m key = some i) (hget : comps[i]? = some (Parameter bp s))
    (hdef : bp._traits &&& Trait.UNDEFINED = Trait.NONE) :
    getPath V (Entity b en comps m kind) key into = (Error.NONE, into ++ V.value_to_string s) := by
  have hc : component (Entity b en comps m kind) key = some [i] := by
    rw [component, if_neg hstar, firstKey_of_no_dot key hdot, eof_of_no_dot key hdot, hfind]
    simp only []
    rw [componentAt_eq, hget]
    simp
  have hg : (Entity b en comps m kind).getAt [i] = some (Parameter bp s) := by
    rw [getAt, getAtList_eq, hget]
    rfl
  simp only [getPath, hc, hg, get, Component.get, if_pos hdef]

end Node

namespace Configuration

/-- The text of a value of `int32_t` is stored back as the value that the checker
returns for it, when the checker flags no error. -/
theorem int32_string_to_value (C : CheckerPolicy Int) (self : Storage.Immediate Int)
    (v v' : Int) (hv : IntType.int32_t.holds v) (hc : C.check v Error.NONE = (v', Error.NONE)) :
    Parameter.string_to_value int32 C (Storage.ImmediateStorage Int) self (int32.to_str v)
      = (Error.NONE, ⟨v'⟩) := by
  have hw : Io.word (int32.to_str v) := Stream.insert_word 32 v
  have hf : int32.from_str (int32.to_str v) Error.NONE = (v, Error.NONE) :=
    Translator.DirectInt.int32_decimal_round_trip v hv Error.NONE
  simp only [Parameter.string_to_value, Io.parseAll_word _ hw, ne_eq, not_true_eq_false,
    if_false, hf, hc, Storage.ImmediateStorage, Storage.Immediate.store_value]

theorem new_eq :
    new = Node.Entity (Customisation.Entity.newComponent 1) true
      [protocol.bind 1, server.bind 1, path.bind 1, folder.bind 1, timeout.bind 1, port.bind 1]
      [("folder".toList, 3), ("path".toList, 2), ("port".toList, 5), ("protocol".toList, 0),
       ("server".toList, 1), ("timeout".toList, 4)] "Configuration".toList := by
  rfl

end Configuration
end Customisation

namespace Customisation
namespace Configuration

/-- C31. On the entity that `Configuration::Configuration()` builds, which is not
locked, for every `t` from -1 to 600 and every port `p` of the allow-list of
`port`, the batch `configure` of the two lines `timeout = t` and `port = p`, the
values written in decimal, returns `Error::NONE` with `nb` grown by two, and
`get("port", into)` and `get("timeout", into)` then return `Error::NONE` and
yield the decimal text of `p` and of `t`. -/
theorem configuration_batch (t p : Int) (ht : -1 ≤ t ∧ t ≤ 600)
    (hp : p ∈ ([-1, 20, 21, 22, 23, 69, 80, 443, 981, 989, 990, 8008, 8080] : List Int)) :
    (Node.configureBatch virtuals new
      ["timeout".toList ++ " = ".toList ++ int32.to_str t,
       "port".toList ++ " = ".toList ++ int32.to_str p] 0).1 = Error.NONE ∧
    (Node.configureBatch virtuals new
      ["timeout".toList ++ " = ".toList ++ int32.to_str t,
       "port".toList ++ " = ".toList ++ int32.to_str p] 0).2.2 = 2 ∧
    Node.getPath virtuals
      (Node.configureBatch virtuals new
        ["timeout".toList ++ " = ".toList ++ int32.to_str t,
         "port".toList ++ " = ".toList ++ int32.to_str p] 0).2.1 "port".toList []
      = (Error.NONE, int32.to_str p) ∧
    Node.getPath virtuals
      (Node.configureBatch virtuals new
        ["timeout".toList ++ " = ".toList ++ int32.to_str t,
         "port".toList ++ " = ".toList ++ int32.to_str p] 0).2.1 "timeout".toList []
      = (Error.NONE, int32.to_str t) := by
  -- the two values as texts
  have hwt : Io.word (int32.to_str t) := Stream.insert_word 32 t
  have hwp : Io.word (int32.to_str p) := Stream.insert_word 32 p
  have hblank : ∀ (w : Str), Io.word w →
      (∀ c, w.head? = some c → Io.blank c = false) ∧
      (∀ c, w.getLast? = some c → Io.blank c = false) := by
    intro w hw
    have hpl : ∀ c ∈ w, Io.blank c = false := by
      intro c hc
      have := hw.2 c hc
      simp only [Io.plain, Bool.and_eq_true, Bool.not_eq_true'] at this
      exact this.1.1.1.1.2
    exact ⟨fun c hc => hpl c (List.mem_of_mem_head? hc),
      fun c hc => hpl c (List.mem_of_mem_getLast? hc)⟩
  have hparse1 : Io.parse ("timeout".toList ++ " = ".toList ++ int32.to_str t) [] 3 3
      = (Error.NONE, ["timeout".toList, ['='], int32.to_str t]) :=
    Io.parse_directive "timeout".toList (int32.to_str t) ⟨by decide, by decide⟩ hwt.1
      (hblank _ hwt).1 (hblank _ hwt).2
  have hparse2 : Io.parse ("port".toList ++ " = ".toList ++ int32.to_str p) [] 3 3
      = (Error.NONE, ["port".toList, ['='], int32.to_str p]) :=
    Io.parse_directive "port".toList (int32.to_str p) ⟨by decide, by decide⟩ hwp.1
      (hblank _ hwp).1 (hblank _ hwp).2
  -- the two values are values of `int32_t` that the checkers accept
  have hvt : IntType.int32_t.holds t := by
    have h1 : IntType.int32_t.min = -2147483648 := by decide
    have h2 : IntType.int32_t.max = 2147483647 := by decide
    unfold IntType.holds
    rw [h1, h2]
    omega
  have hvp : IntType.int32_t.holds p := by
    have h1 : IntType.int32_t.min = -2147483648 := by decide
    have h2 : IntType.int32_t.max = 2147483647 := by decide
    unfold IntType.holds
    rw [h1, h2]
    simp only [List.mem_cons, List.mem_singleton, List.not_mem_nil, or_false] at hp
    omega
  have hct : Checker.Saturating.check
      ((Checker.Bounded.new IntType.int32_t.min IntType.int32_t.max).range (-1) 600).2
      t Error.NONE = (t, Error.NONE) := by
    have hmin : ((Checker.Bounded.new IntType.int32_t.min IntType.int32_t.max).range
        (-1) 600).2._min = -1 := by decide
    have hmax : ((Checker.Bounded.new IntType.int32_t.min IntType.int32_t.max).range
        (-1) 600).2._max = 600 := by decide
    unfold Checker.Saturating.check
    rw [hmin, hmax, if_neg (by omega), if_neg (by omega)]
  have hcp : Checker.WhiteListed.check
      ((Checker.WhiteListed.mk []).allowSet
        (StdSet.ofList [-1, 20, 21, 22, 23, 69, 80, 443, 981, 989, 990, 8008, 8080]))
      p Error.NONE = (p, Error.NONE) := by
    have hall : ((Checker.WhiteListed.mk ([] : List Int)).allowSet
        (StdSet.ofList [-1, 20, 21, 22, 23, 69, 80, 443, 981, 989, 990, 8008, 8080]))._allowed
        = [-1, 20, 21, 22, 23, 69, 80, 443, 981, 989, 990, 8008, 8080] := by decide
    unfold Checker.WhiteListed.check
    rw [hall, if_neg]
    simp only [StdSet.find, hp, decide_True, Bool.true_eq_false, and_false, not_false_eq_true]
  -- the first line
  have hstep1 : Node.configurePath virtuals new "timeout".toList (int32.to_str t)
      = (Error.NONE,
         Node.Entity (Customisation.Entity.newComponent 1) true
          [protocol.bind 1, server.bind 1, path.bind 1, folder.bind 1,
           Node.Parameter (timeout.bind 1).base
             (Param.saturated
               ((Checker.Bounded.new IntType.int32_t.min IntType.int32_t.max).range
                 (-1) 600).2 ⟨t⟩),
           port.bind 1]
          [("folder".toList, 3), ("path".toList, 2), ("port".toList, 5),
           ("protocol".toList, 0), ("server".toList, 1), ("timeout".toList, 4)]
          "Configuration".toList) := by
    rw [new_eq, Node.configurePath_child virtuals _ _ _ _ _ "timeout".toList _ 4
      (timeout.bind 1).base
      (Param.saturated
        ((Checker.Bounded.new IntType.int32_t.min IntType.int32_t.max).range (-1) 600).2 ⟨60⟩)
      (by decide) (by decide) (by decide) rfl (by decide)]
    have hs := int32_string_to_value
      ⟨Checker.Saturating.check
        ((Checker.Bounded.new IntType.int32_t.min IntType.int32_t.max).range (-1) 600).2⟩
      ⟨60⟩ t t hvt hct
    simp only [virtuals, hs]
    rfl
  have hstep2 : Node.configurePath virtuals
      (Node.Entity (Customisation.Entity.newComponent 1) true
        [protocol.bind 1, server.bind 1, path.bind 1, folder.bind 1,
         Node.Parameter (timeout.bind 1).base
           (Param.saturated
             ((Checker.Bounded.new IntType.int32_t.min IntType.int32_t.max).range
               (-1) 600).2 ⟨t⟩),
         port.bind 1]
        [("folder".toList, 3), ("path".toList, 2), ("port".toList, 5),
         ("protocol".toList, 0), ("server".toList, 1), ("timeout".toList, 4)]
        "Configuration".toList) "port".toList (int32.to_str p)
      = (Error.NONE,
         Node.Entity (Customisation.Entity.newComponent 1) true
          [protocol.bind 1, server.bind 1, path.bind 1, folder.bind 1,
           Node.Parameter (timeout.bind 1).base
             (Param.saturated
               ((Checker.Bounded.new IntType.int32_t.min IntType.int32_t.max).range
                 (-1) 600).2 ⟨t⟩),
           Node.Parameter (port.bind 1).base
             (Param.listed
               ((Checker.WhiteListed.mk []).allowSet
                 (StdSet.ofList [-1, 20, 21, 22, 23, 69, 80, 443, 981, 989, 990, 8008, 8080]))
               ⟨p⟩)]
          [("folder".toList, 3), ("path".toList, 2), ("port".toList, 5),
           ("protocol".toList, 0), ("server".toList, 1), ("timeout".toList, 4)]
          "Configuration".toList) := by
    rw [Node.configurePath_child virtuals _ _ _ _ _ "port".toList _ 5
      (port.bind 1).base
      (Param.listed
        ((Checker.WhiteListed.mk []).allowSet
          (StdSet.ofList [-1, 20, 21, 22, 23, 69, 80, 443, 981, 989, 990, 8008, 8080])) ⟨-1⟩)
      (by decide) (by decide) (by decide) rfl (by decide)]
    have hs := int32_string_to_value
      ⟨Checker.WhiteListed.check
        ((Checker.WhiteListed.mk []).allowSet
          (StdSet.ofList [-1, 20, 21, 22, 23, 69, 80, 443, 981, 989, 990, 8008, 8080]))⟩
      ⟨-1⟩ p p hvp hcp
    simp only [virtuals, hs]
    rfl
  have hbatch : Node.configureBatch virtuals new
      ["timeout".toList ++ " = ".toList ++ int32.to_str t,
       "port".toList ++ " = ".toList ++ int32.to_str p] 0
      = (Error.NONE,
         Node.Entity (Customisation.Entity.newComponent 1) true
          [protocol.bind 1, server.bind 1, path.bind 1, folder.bind 1,
           Node.Parameter (timeout.bind 1).base
             (Param.saturated
               ((Checker.Bounded.new IntType.int32_t.min IntType.int32_t.max).range
                 (-1) 600).2 ⟨t⟩),
           Node.Parameter (port.bind 1).base
             (Param.listed
               ((Checker.WhiteListed.mk []).allowSet
                 (StdSet.ofList [-1, 20, 21, 22, 23, 69, 80, 443, 981, 989, 990, 8008, 8080]))
               ⟨p⟩)]
          [("folder".toList, 3), ("path".toList, 2), ("port".toList, 5),
           ("protocol".toList, 0), ("server".toList, 1), ("timeout".toList, 4)]
          "Configuration".toList, 2) := by
    rw [Node.configureBatch, Node.configureLoop_directive virtuals _ _ _ _ _ _ 0 hparse1 hstep1,
      Node.configureLoop_directive virtuals _ _ _ _ _ _ (0 + 1) hparse2 hstep2,
      Node.configureLoop]
    rfl
  rw [hbatch]
  refine ⟨rfl, rfl, ?_, ?_⟩
  · rw [Node.getPath_child virtuals _ _ _ _ _ "port".toList [] 5 (port.bind 1).base
      (Param.listed
        ((Checker.WhiteListed.mk []).allowSet
          (StdSet.ofList [-1, 20, 21, 22, 23, 69, 80, 443, 981, 989, 990, 8008, 8080])) ⟨p⟩)
      (by decide) (by decide) (by decide) rfl (by decide)]
    rfl
  · rw [Node.getPath_child virtuals _ _ _ _ _ "timeout".toList [] 4 (timeout.bind 1).base
      (Param.saturated
        ((Checker.Bounded.new IntType.int32_t.min IntType.int32_t.max).range (-1) 600).2 ⟨t⟩)
      (by decide) (by decide) (by decide) rfl (by decide)]
    rfl

/-- Witness of C31: the two lines `timeout = 30` and `port = 21`, and the text
that `get("port", into)` yields after them. -/
theorem configuration_batch_witness :
    (Node.configureBatch virtuals new ["timeout = 30".toList, "port = 21".toList] 0).1
      = Error.NONE ∧
    Node.getPath virtuals
      (Node.configureBatch virtuals new ["timeout = 30".toList, "port = 21".toList] 0).2.1
      "port".toList [] = (Error.NONE, "21".toList) ∧
    new.base.locked = false ∧
    (new.components.map (fun n => n.base.locked)) = [false, false, false, false, false, false] :=
  ⟨(configuration_batch 30 21 (by decide) (by decide)).1,
   (configuration_batch 30 21 (by decide) (by decide)).2.2.1,
   by decide, by decide⟩

end Configuration
end Customisation

/-! ## Replaying the dump of `configured()` -/

namespace Customisation
namespace Node

variable {P : Type}

mutual
/-- Replacing an object by itself changes nothing. -/
theorem setAt_self : ∀ (e : Node P) (ref : List Nat) (n : Node P),
    e.getAt ref = some n → e.setAt ref n = e
  | e, [], n, h => by
    rw [getAt_nil] at h
    cases e <;> simp only [setAt] <;> exact (Option.some.inj h).symm
  | Parameter _ _, _ :: _, _, h => by simp [getAt] at h
  | Entity b en comps m kind, i :: r, n, h => by
    rw [getAt] at h
    rw [setAt, setAtList_self comps i r n h]
/-- The same below a position of a list. -/
theorem setAtList_self : ∀ (comps : List (Node P)) (i : Nat) (r : List Nat) (n : Node P),
    getAtList comps i r = some n → setAtList comps i r n = comps
  | [], _, _, _, h => by simp [getAtList] at h
  | c :: rest, 0, r, n, h => by
    rw [getAtList] at h
    rw [setAtList, setAt_self c r n h]
  | c :: rest, i + 1, r, n, h => by
    rw [getAtList] at h
    rw [setAtList, setAtList_self rest i r n h]
end

theorem addressableList_iff (comps : List (Node P)) :
    addressableList comps = true ↔
      ∀ n ∈ comps, addressableName n.name = true ∧ n.base.unlocked = true ∧
        n.addressable = true := by
  induction comps with
  | nil => simp [addressableList]
  | cons n rest ih =>
    simp only [addressableList, Bool.and_eq_true, ih, List.mem_cons, forall_eq_or_imp]
    tauto

theorem addressableName_iff (name : Str) :
    addressableName name = true ↔
      (∀ c ∈ name, Io.plain c = true ∧ c ≠ '.' ∧ c ≠ NEWLINE) ∧ name ≠ ['*'] := by
  simp only [addressableName, Bool.and_eq_true, List.all_eq_true, decide_eq_true_eq]
  constructor
  · rintro ⟨h, hs⟩
    exact ⟨fun c hc => ⟨(h c hc).1.1, (h c hc).1.2, (h c hc).2⟩, hs⟩
  · rintro ⟨h, hs⟩
    exact ⟨fun c hc => ⟨⟨(h c hc).1, (h c hc).2.1⟩, (h c hc).2.2⟩, hs⟩

theorem mem_configuredEntriesOf (V : Virtuals P) (comps : List (Node P)) (pre : Str)
    (entry : Str × Str) :
    entry ∈ configuredEntriesOf V comps pre ↔
      ∃ c ∈ comps, entry ∈ configuredEntries V c pre := by
  induction comps with
  | nil => simp [configuredEntriesOf]
  | cons c rest ih =>
    rw [configuredEntriesOf, List.mem_append, ih]
    simp

/-- In an entity whose child list and name map agree, a component is the child
of its name. -/
theorem child_of_mem (e : Node P) (h : e.agrees = true) (c : Node P)
    (hc : c ∈ e.components) :
    ∃ i, e.child c.name = some (i, c) ∧ e.components[i]? = some c := by
  obtain ⟨_, h2, _, _⟩ := (agrees_iff e).1 h
  obtain ⟨i, hi⟩ := List.mem_iff_getElem?.1 hc
  have hf := h2 i c hi
  rw [find_eq_child e h c.name] at hf
  cases hch : e.child c.name with
  | none => rw [hch] at hf; exact Option.noConfusion hf
  | some x =>
    obtain ⟨j, n⟩ := x
    rw [hch] at hf
    have hj : j = i := by simpa using hf
    subst hj
    obtain ⟨hn, _⟩ := child_some e c.name j n hch
    rw [hi] at hn
    have hcn : c = n := Option.some.inj hn
    subst hcn
    exact ⟨j, rfl, hi⟩

end Node
end Customisation

namespace Customisation
namespace Node

variable {P : Type}

mutual
/-- Each entry of the components of an entity, in the words of the
specification, is written for a parameter that its path resolves to, and that is
characterised, Configurable and unlocked. -/
theorem entries_resolve (V : Virtuals P) :
    ∀ (e : Node P), e.wellFormed = true → e.addressable = true →
      ∀ (pre : Str) (entry : Str × Str), entry ∈ configuredEntriesOf V e.components pre →
        ∃ (rel : Str) (ref : List Nat) (bp : Component) (s : P),
          entry = (pre ++ rel, V.value_to_string s) ∧
          e.component rel = some ref ∧ e.getAt ref = some (Parameter bp s) ∧
          bp._traits &&& (Trait.UNDEFINED ||| Trait.CONFIGURABLE ||| Trait.LOCKED)
            = Trait.CONFIGURABLE ∧
          NEWLINE ∉ rel ∧ rel ≠ [] ∧ ∀ c ∈ rel, Io.plain c = true
  | Parameter _ _, _, _, _, _, hmem => by
    simp [components, configuredEntriesOf] at hmem
  | Entity b en comps m kind, hwf, had, pre, entry, hmem => by
    have hag := wellFormed_agrees _ hwf
    have hnames := ((agrees_iff _).1 hag).2.2.1
    simp only [components] at hmem hnames
    obtain ⟨c, hc, hce⟩ := (mem_configuredEntriesOf V comps pre entry).1 hmem
    have hcwf : c.wellFormed = true := wellFormed_child _ hwf c hc
    simp only [addressable] at had
    obtain ⟨hname, hunl, hcad⟩ := (addressableList_iff comps).1 had c hc
    obtain ⟨hchars, hstar⟩ := (addressableName_iff c.name).1 hname
    have hdot : '.' ∉ c.name := fun h => (hchars _ h).2.1 rfl
    have hnl : NEWLINE ∉ c.name := fun h => (hchars _ h).2.2 rfl
    obtain ⟨i, hchild, hi⟩ := child_of_mem (Entity b en comps m kind) hag c hc
    have hih := entries_resolve_list V comps c hc hcwf hcad
    cases c with
    | Parameter bp s =>
      rw [configuredEntries] at hce
      by_cases hbits : bp._traits.testBit 31 = false ∧ bp._traits.testBit 0 = true
      · rw [if_pos hbits, List.mem_singleton] at hce
        have h28 : bp._traits.testBit 28 = false := by
          have : bp._traits &&& Trait.LOCKED = Trait.NONE := by
            simpa [Component.unlocked, base] using hunl
          exact (Trait.and_LOCKED_eq_NONE _).1 this
        refine ⟨bp._name, [i], bp, s, hce, ?_, ?_,
          (Trait.configure_gate _).2 ⟨hbits.1, hbits.2, h28⟩, hnl, hnames _ hc,
          fun ch hch => (hchars ch hch).1⟩
        · have := component_last (Entity b en comps m kind) hwf bp._name hdot hstar
          rw [this]
          simp only [name, base] at hchild
          rw [hchild]
          rfl
        · rw [getAt_cons _ i [] _ hi]
          rfl
      · rw [if_neg hbits] at hce
        simp at hce
    | Entity b2 en2 comps2 m2 kind2 =>
      rw [configuredEntries] at hce
      obtain ⟨rel, ref, bp, s, hentry, hcomp, hget, hgate, hrnl, hrne, hrpl⟩ :=
        hih (pre ++ b2._name ++ ['.']) entry hce
      refine ⟨b2._name ++ '.' :: rel, i :: ref, bp, s, ?_, ?_, ?_, hgate, ?_, by simp, ?_⟩
      · rw [hentry]
        simp
      · have := component_step (Entity b en comps m kind) hwf b2._name rel hdot
        rw [this]
        simp only [name, base] at hchild
        rw [hchild]
        simp only [isEntityObject, if_true]
        rw [takeWhile_no_newline rel hrnl, hcomp]
        rfl
      · rw [getAt_cons _ i ref _ hi]
        exact hget
      · intro hmem2
        rcases List.mem_append.1 hmem2 with h | h
        · exact hnl h
        · rcases List.mem_cons.1 h with h | h
          · exact absurd h (by decide)
          · exact hrnl h
      · intro ch hch
        rcases List.mem_append.1 hch with h | h
        · exact (hchars ch h).1
        · rcases List.mem_cons.1 h with h | h
          · rw [h]
            decide
          · exact hrpl ch h
/-- The same for each entity of a list. -/
theorem entries_resolve_list (V : Virtuals P) :
    ∀ (comps : List (Node P)) (e : Node P), e ∈ comps → e.wellFormed = true →
      e.addressable = true →
      ∀ (pre : Str) (entry : Str × Str), entry ∈ configuredEntriesOf V e.components pre →
        ∃ (rel : Str) (ref : List Nat) (bp : Component) (s : P),
          entry = (pre ++ rel, V.value_to_string s) ∧
          e.component rel = some ref ∧ e.getAt ref = some (Parameter bp s) ∧
          bp._traits &&& (Trait.UNDEFINED ||| Trait.CONFIGURABLE ||| Trait.LOCKED)
            = Trait.CONFIGURABLE ∧
          NEWLINE ∉ rel ∧ rel ≠ [] ∧ ∀ c ∈ rel, Io.plain c = true
  | [], _, he, _, _ => by simp at he
  | n :: rest, e, he, hwf, had => by
    by_cases hn : n = e
    · subst hn
      exact entries_resolve V n hwf had
    · have hr : e ∈ rest := by
        rcases List.mem_cons.1 he with h | h
        · exact absurd h.symm hn
        · exact h
      exact entries_resolve_list V rest e hr hwf had
end

end Node
end Customisation

namespace Customisation
namespace Node

variable {P : Type}

/-- A batch of lines `path = value`, each of which tokenizes to its path, `=` and
its value and assigns to a parameter the value that it holds, leaves the entity
as it was. -/
theorem configureLoop_replay (V : Virtuals P) (e : Node P) :
    ∀ (entries : List (Str × Str)) (nb : Int),
      (∀ entry ∈ entries,
        Io.parse (entry.1 ++ [' ', '=', ' '] ++ entry.2) [] 3 3
          = (Error.NONE, [entry.1, ['='], entry.2]) ∧
        configurePath V e entry.1 entry.2 = (Error.NONE, e)) →
      configureLoop V (entries.map (fun entry => entry.1 ++ [' ', '=', ' '] ++ entry.2)) e []
        nb = (Error.NONE, e, nb + entries.length)
  | [], nb, _ => by simp [configureLoop]
  | entry :: rest, nb, h => by
    obtain ⟨hp, hc⟩ := h entry (by simp)
    rw [List.map_cons, configureLoop_directive V _ _ _ _ e e nb hp hc,
      configureLoop_replay V e rest (nb + 1) (fun x hx => h x (by simp [hx]))]
    simp only [List.length_cons, Nat.cast_add, Nat.cast_one]
    congr 2
    omega

/-- The text that the Direct string translator writes is read back as the value
it was written for. -/
theorem directString_round_trip (s : Storage.Immediate Str) :
    Parameter.directString.string_to_value s (Parameter.directString.value_to_string s)
      = (Error.NONE, s) := by
  have hp := Io.parseAll_to_str s._current_value
  have hf := DirectString_from_str_quoted s._current_value Error.NONE
  simp only [Parameter.directString, Parameter.virtuals, Parameter.string_to_value,
    Parameter.value_to_string, Translator.DirectStr, Storage.ImmediateStorage,
    Storage.Immediate.retrieve_value, hp, hf, Checker.NoneChecker, Checker.None.check,
    Storage.Immediate.store_value]
  simp

/-- The text that the Direct string translator writes starts and ends with a
double quote. -/
theorem directString_text (s : Storage.Immediate Str) :
    Parameter.directString.value_to_string s ≠ [] ∧
    (∀ c, (Parameter.directString.value_to_string s).head? = some c → Io.blank c = false) ∧
    (∀ c, (Parameter.directString.value_to_string s).getLast? = some c →
      Io.blank c = false) := by
  have h : Parameter.directString.value_to_string s
      = DQUOTE :: (Translator.DirectString.escape s._current_value ++ [DQUOTE]) := rfl
  rw [h]
  refine ⟨by simp, ?_, ?_⟩
  · intro c hc
    simp only [List.head?_cons, Option.some.injEq] at hc
    rw [← hc]
    decide
  · intro c hc
    have h2 : (DQUOTE :: (Translator.DirectString.escape s._current_value ++ [DQUOTE]))
        = (DQUOTE :: Translator.DirectString.escape s._current_value) ++ [DQUOTE] := by simp
    rw [h2, List.getLast?_concat] at hc
    rw [← Option.some.inj hc]
    decide

end Node
end Customisation

namespace Customisation
namespace Node

variable {P : Type}

/-- C32, counterexample. The entity `top { long }` is not locked, and its
parameter `long` holds eighty letters: `configured()` writes the entry on two
lines, the first of which ends with a backslash, and `configure(lines, nb)` on
these lines stops on the first one with `INVALID_VALUE`. -/
theorem configured_long_value_not_replayed :
    exampleLong.base.locked = false ∧
    exampleLong.components.map (fun n => n.base.locked) = [false] ∧
    configured Parameter.directString exampleLong
      = ["long =  \\".toList, [TAB, DQUOTE] ++ List.replicate 80 'x' ++ [DQUOTE]] ∧
    (configureBatch Parameter.directString exampleLong
      (configured Parameter.directString exampleLong) 0).1 = Error.INVALID_VALUE ∧
    (configureBatch Parameter.directString exampleLong
      (configured Parameter.directString exampleLong) 0).2.2 = 1 := by
  set_option maxRecDepth 100000 in decide

/-- C32, amended. On a well-formed tree in which each component is unlocked and
has a name made of characters that the tokenizer reads as plain ones, without dot
and line feed, and other than `*`, for parameters whose value text is not empty,
neither starts nor ends with a blank, and is read back by `string_to_value` as
the value held, and when each entry `path = value` is of 80 characters at most:
`configured()` returns one line `path = value` for each entry, and
`configure(lines, nb)` on these lines returns `Error::NONE`, leaves the tree as
it was, and adds the number of lines to `nb`; `configured()` returns the same
lines again. -/
theorem configured_replay (V : Virtuals P) (e : Node P) (nb : Int)
    (hwf : e.wellFormed = true) (he : e.isEntityObject = true)
    (haddr : e.addressable = true)
    (hround : ∀ s, V.string_to_value s (V.value_to_string s) = (Error.NONE, s))
    (htext : ∀ s, V.value_to_string s ≠ [] ∧
      (∀ c, (V.value_to_string s).head? = some c → c ≠ ' ' ∧ c ≠ TAB) ∧
      (∀ c, (V.value_to_string s).getLast? = some c → c ≠ ' ' ∧ c ≠ TAB))
    (hfit : ∀ entry ∈ configuredEntriesOf V e.components [],
      entry.1.length + 3 + entry.2.length ≤ 80) :
    configured V e
      = (configuredEntriesOf V e.components []).map
          (fun entry => entry.1 ++ " = ".toList ++ entry.2) ∧
    configureBatch V e (configured V e) nb
      = (Error.NONE, e, nb + (configured V e).length) ∧
    configured V (configureBatch V e (configured V e) nb).2.1 = configured V e := by
  have hlines : configured V e
      = (configuredEntriesOf V e.components []).map
          (fun entry => entry.1 ++ [' ', '=', ' '] ++ entry.2) := by
    cases e with
    | Parameter b p => simp [isEntityObject] at he
    | Entity b en comps m kind =>
      have hag := (agrees_iff _).1 (wellFormed_agrees _ hwf)
      have hwf2 := hwf
      simp only [wellFormed, Bool.and_eq_true] at hwf2
      rw [configured, dump_declaration_order V _ (Or.inl rfl)]
      have h := configured_entriesOf V comps [] hwf2.2 hag.2.2.1
      simp only [components] at hfit ⊢
      have hroot : (if ([] : Str).length > 0 then ([] : Str) ++ ['.'] else []) = [] := rfl
      rw [hroot, h]
      have hone : ∀ entries : List (Str × Str),
          (∀ entry ∈ entries, entry.1.length + 3 + entry.2.length ≤ 80) →
          (entries.map (fun entry => Io.compose [] entry.1 entry.2 [] [])).flatten
            = entries.map (fun entry => entry.1 ++ [' ', '=', ' '] ++ entry.2) := by
        intro entries
        induction entries with
        | nil => intro _; rfl
        | cons x xs ih =>
          intro hx
          rw [List.map_cons, List.flatten_cons, List.map_cons,
            ih (fun y hy => hx y (by simp [hy])),
            Io.compose_one_line [] x.1 x.2 (by have := hx x (by simp); omega)]
          rfl
      exact hone _ hfit
  have hentries : ∀ entry ∈ configuredEntriesOf V e.components [],
      Io.parse (entry.1 ++ [' ', '=', ' '] ++ entry.2) [] 3 3
        = (Error.NONE, [entry.1, ['='], entry.2]) ∧
      configurePath V e entry.1 entry.2 = (Error.NONE, e) := by
    intro entry hmem
    obtain ⟨rel, ref, bp, s, hentry, hcomp, hget, hgate, _, hne, hplain⟩ :=
      entries_resolve V e hwf haddr [] entry hmem
    rw [hentry]
    simp only [List.nil_append]
    obtain ⟨hv1, hv2, hv3⟩ := htext s
    refine ⟨Io.parse_directive rel (V.value_to_string s) ⟨hne, hplain⟩ hv1 ?_ ?_, ?_⟩
    · intro c hc
      obtain ⟨h1, h2⟩ := hv2 c hc
      simp [Io.blank, h1, h2]
    · intro c hc
      obtain ⟨h1, h2⟩ := hv3 c hc
      simp [Io.blank, h1, h2]
    · simp only [configurePath, hcomp, hget, configure, Component.configure, if_pos hgate,
        hround s]
      rw [setAt_self e ref _ hget]
  have hbatch : configureBatch V e (configured V e) nb
      = (Error.NONE, e, nb + (configured V e).length) := by
    rw [configureBatch, hlines, configureLoop_replay V e _ nb hentries]
    simp
  refine ⟨hlines, hbatch, ?_⟩
  rw [hbatch]

/-- Witness of C32: the tree `top { a { b { c, d }, p }, q }` with its string
parameters. -/
theorem configured_replay_witness :
    configured Parameter.directString exampleTree
      = ["a.b.c = \"one\"".toList, "a.b.d = \"two\"".toList, "a.p = \"three\"".toList,
         "q = \"four\"".toList] ∧
    (configureBatch Parameter.directString exampleTree
      (configured Parameter.directString exampleTree) 0).1 = Error.NONE ∧
    configured Parameter.directString
        (configureBatch Parameter.directString exampleTree
          (configured Parameter.directString exampleTree) 0).2.1
      = configured Parameter.directString exampleTree :=
  ⟨by decide,
   congrArg Prod.fst
    (configured_replay Parameter.directString exampleTree 0 (by decide) (by decide)
      (by decide) directString_round_trip
      (fun s => ⟨(directString_text s).1,
        fun c hc => by
          have h := (directString_text s).2.1 c hc
          simpa [Io.blank] using h,
        fun c hc => by
          have h := (directString_text s).2.2 c hc
          simpa [Io.blank] using h⟩)
      (by decide)).2.1,
   (configured_replay Parameter.directString exampleTree 0 (by decide) (by decide)
      (by decide) directString_round_trip
      (fun s => ⟨(directString_text s).1,
        fun c hc => by
          have h := (directString_text s).2.1 c hc
          simpa [Io.blank] using h,
        fun c hc => by
          have h := (directString_text s).2.2 c hc
          simpa [Io.blank] using h⟩)
      (by decide)).2.2⟩

end Node
end Customisation
